import Mathlib

/-!
# Binary greedy mesher (`src/src/mesher.h`)

A shallow embedding of `mesh` and its helpers, and a verification of what it emits.
The voxel volume is a list of bytes; `std::vector::at` is a checked read that fails
with `none`; the C scratch arrays (`axis_cols`, `col_face_masks`, `merged_forward`,
`merged_right`) are total functions from indices to values, updated with
`Function.update`; 64-bit words are natural numbers below `2 ^ 64`.

The definitions come first: the embedding of the source, then the definitions the
proofs are stated with.  The theorems follow: the word-level loops of `mesh` are
reduced to one decision per cell of a plane, the decisions to the rectangle that owns
each visible unit face, and the claims are read off from there.
-/

namespace Mesher

/-! ## Constants -/

/-- Modelled from the spec: `constants.h` is not among the sources.  The padded
edge length is `CS_P = 64` (`mesher.h`: "voxels - 64^3", "CS_P2 is 64^2"). -/
abbrev CS_P : Nat := 64

/-- Modelled from the spec: the interior edge length, `CS_P = CS + 2`. -/
abbrev CS : Nat := 62

/-- Modelled from the spec: `CS_P2 = CS_P * CS_P`. -/
abbrev CS_P2 : Nat := 4096

/-- Modelled from the spec: `CS_P3 = CS_P * CS_P * CS_P`, the volume size. -/
abbrev CS_P3 : Nat := 262144

/-! ## Machine words -/

/-- Conversion of an `int` to `uint8_t`. -/
def to_u8 (i : Int) : Nat := (i % 256).toNat

/-- Truncation to `uint32_t`. -/
def u32 (x : Nat) : Nat := x % 2 ^ 32

/-- Truncation to `uint64_t`. -/
def u64 (x : Nat) : Nat := x % 2 ^ 64

/-- Bitwise complement `~x` of a `uint64_t`. -/
def not64 (x : Nat) : Nat := (2 ^ 64 - 1) ^^^ x

/-- The function `CTZ` (`__builtin_ctzll`): index of the lowest set bit of a
non-zero 64-bit word, found by scanning upwards from bit 0. -/
def CTZ (x : Nat) : Nat := go 64 0
where
  /-- Scan from bit `i`, at most `fuel` positions. -/
  go : Nat → Nat → Nat
    | 0, i => i
    | fuel + 1, i => if x.testBit i then i else go fuel (i + 1)

/-- The successive values of `bit_pos` in the idiom
`while (w) { bit_pos = CTZ(w); w &= ~(1ULL << bit_pos); ... }`.  A 64-bit word
has at most 64 set bits, so 64 rounds exhaust it. -/
def set_bits (w : Nat) : List Nat := go 64 w
where
  /-- At most `fuel` rounds of the loop header. -/
  go : Nat → Nat → List Nat
    | 0, _ => []
    | fuel + 1, w =>
      if w = 0 then [] else
        let bit_pos := CTZ w
        bit_pos :: go fuel (w &&& not64 (1 <<< bit_pos))

/-! ## Helpers of `mesher.h` -/

/-- Checked read `voxels.at(i)`: `none` stands for `std::out_of_range`. -/
def voxels_at (voxels : List Nat) (i : Int) : Option Nat :=
  if 0 ≤ i then voxels[i.toNat]? else none

/-- The function `get_axis_i`. -/
def get_axis_i (axis a b c : Int) : Int :=
  if axis = 0 then b + (a * CS_P) + (c * CS_P2)
  else if axis = 1 then a + (c * CS_P) + (b * CS_P2)
  else c + (b * CS_P) + (a * CS_P2)

/-- The function `solid_check`. -/
def solid_check (voxel : Int) : Bool := decide (voxel > 0)

/-- The table `ao_dirs`. -/
def ao_dirs : List (Int × Int) :=
  [(0, -1), (0, 1), (-1, 0), (1, 0), (-1, -1), (-1, 1), (1, -1), (1, 1)]

/-- The function `vertexAO`. -/
def vertexAO (side1 side2 corner : Int) : Int :=
  if side1 ≠ 0 ∧ side2 ≠ 0 then 0 else 3 - (side1 + side2 + corner)

/-- The loop of `compare_ao` over the remaining directions. -/
def compare_ao_loop (voxels : List Nat) (axis forward right c forward_offset right_offset : Int) :
    List (Int × Int) → Option Bool
  | [] => some true
  | ao_dir :: rest => do
    let v1 ← voxels_at voxels (get_axis_i axis (right + ao_dir.1) (forward + ao_dir.2) c)
    let v2 ← voxels_at voxels
      (get_axis_i axis (right + right_offset + ao_dir.1) (forward + forward_offset + ao_dir.2) c)
    if solid_check v1 != solid_check v2 then pure false
    else compare_ao_loop voxels axis forward right c forward_offset right_offset rest

/-- The function `compare_ao`. -/
def compare_ao (voxels : List Nat) (axis forward right c forward_offset right_offset : Int) :
    Option Bool :=
  compare_ao_loop voxels axis forward right c forward_offset right_offset ao_dirs

/-- The function `compare_forward`. -/
def compare_forward (voxels : List Nat) (axis forward right bit_pos light_dir : Int) :
    Option Bool := do
  let v1 ← voxels_at voxels (get_axis_i axis right forward bit_pos)
  let v2 ← voxels_at voxels (get_axis_i axis right (forward + 1) bit_pos)
  if v1 = v2 then compare_ao voxels axis forward right (bit_pos + light_dir) 1 0
  else pure false

/-- The function `compare_right`. -/
def compare_right (voxels : List Nat) (axis forward right bit_pos light_dir : Int) :
    Option Bool := do
  let v1 ← voxels_at voxels (get_axis_i axis right forward bit_pos)
  let v2 ← voxels_at voxels (get_axis_i axis (right + 1) forward bit_pos)
  if v1 = v2 then compare_ao voxels axis forward right (bit_pos + light_dir) 0 1
  else pure false

/-- The function `insert_quad`. -/
def insert_quad (vertices : List Nat) (v1 v2 v3 v4 : Nat) (flipped : Bool) : List Nat :=
  if flipped then vertices ++ [v1, v2, v4, v4, v2, v3]
  else vertices ++ [v1, v2, v3, v3, v4, v1]

/-- The function `get_vertex`, in `uint32_t` arithmetic. -/
def get_vertex (x y z type light norm ao : Nat) : Nat :=
  u32 (ao <<< 30) ||| u32 (norm <<< 27) ||| u32 (light <<< 23) ||| u32 (type <<< 18) |||
    u32 (u32 (z + 2 ^ 32 - 1) <<< 12) ||| u32 (u32 (y + 2 ^ 32 - 1) <<< 6) |||
    u32 (x + 2 ^ 32 - 1)

/-! ## Step 1: binary columns -/

/-- Mutable variables of step 1: the array `axis_cols`, the iterator `p` (as an
offset from `voxels.begin()`) and the local word `zb`. -/
structure ColState where
  axis_cols : Nat → Nat
  p : Nat
  zb : Nat

/-- Body of the `z` loop of step 1.  The read `*p` is taken as a checked read: past
the end of the volume the C++ read has no defined result. -/
def cols_z (voxels : List Nat) (y x : Nat) (s : ColState) (z : Nat) : Option ColState := do
  let v ← voxels_at voxels s.p
  let s1 : ColState :=
    if solid_check v then
      let c1 := Function.update s.axis_cols (x + (z * CS_P))
        (s.axis_cols (x + (z * CS_P)) ||| (1 <<< y))
      let c2 := Function.update c1 (z + (y * CS_P) + CS_P2)
        (c1 (z + (y * CS_P) + CS_P2) ||| (1 <<< x))
      { s with axis_cols := c2, zb := s.zb ||| (1 <<< z) }
    else s
  pure { s1 with p := s1.p + 1 }

/-- Body of the `x` loop of step 1. -/
def cols_x (voxels : List Nat) (y : Nat) (s : ColState) (x : Nat) : Option ColState := do
  let s1 ← (List.range CS_P).foldlM (cols_z voxels y x) { s with zb := 0 }
  pure { s1 with axis_cols := Function.update s1.axis_cols (y + (x * CS_P) + (CS_P2 * 2)) s1.zb }

/-- Body of the `y` loop of step 1. -/
def cols_y (voxels : List Nat) (s : ColState) (y : Nat) : Option ColState :=
  (List.range CS_P).foldlM (cols_x voxels y) s

/-- Step 1 of `mesh`: the array `axis_cols`. -/
def build_axis_cols (voxels : List Nat) : Option (Nat → Nat) := do
  let s ← (List.range CS_P).foldlM (cols_y voxels) { axis_cols := fun _ => 0, p := 0, zb := 0 }
  pure s.axis_cols

/-! ## Step 2: visible face culling -/

/-- Body of the inner loop of step 2. -/
def cull_i (axis_cols : Nat → Nat) (axis : Nat) (col_face_masks : Nat → Nat) (i : Nat) :
    Nat → Nat :=
  let col := axis_cols ((CS_P2 * axis) + i)
  let m1 := Function.update col_face_masks ((CS_P2 * (axis * 2)) + i)
    (col &&& not64 ((col >>> 1) ||| (1 <<< (CS_P - 1))))
  Function.update m1 ((CS_P2 * (axis * 2 + 1)) + i) (col &&& not64 (u64 (col <<< 1) ||| 1))

/-- Step 2 of `mesh`: the array `col_face_masks`. -/
def cull_faces (axis_cols : Nat → Nat) : Nat → Nat :=
  (List.range 3).foldl
    (fun m axis => (List.range CS_P2).foldl (cull_i axis_cols axis) m) (fun _ => 0)

/-! ## Step 3: greedy meshing -/

/-- The locals of `mesh` that describe one emitted rectangle, as they stand
when `insert_quad` is called. -/
structure Quad where
  face : Nat
  mesh_left : Nat
  mesh_right : Nat
  mesh_front : Nat
  mesh_back : Nat
  mesh_up : Nat
  type : Nat
  ao_LB : Nat
  ao_LF : Nat
  ao_RB : Nat
  ao_RF : Nat
deriving DecidableEq

/-- The four packed corners `v1..v4` of a rectangle, by face. -/
def Quad.corners (q : Quad) : Nat × Nat × Nat × Nat :=
  let light := 15
  if q.face = 0 then
    (get_vertex q.mesh_left q.mesh_up q.mesh_front q.type light q.face q.ao_LF,
     get_vertex q.mesh_left q.mesh_up q.mesh_back q.type light q.face q.ao_LB,
     get_vertex q.mesh_right q.mesh_up q.mesh_back q.type light q.face q.ao_RB,
     get_vertex q.mesh_right q.mesh_up q.mesh_front q.type light q.face q.ao_RF)
  else if q.face = 1 then
    (get_vertex q.mesh_left q.mesh_up q.mesh_back q.type light q.face q.ao_LB,
     get_vertex q.mesh_left q.mesh_up q.mesh_front q.type light q.face q.ao_LF,
     get_vertex q.mesh_right q.mesh_up q.mesh_front q.type light q.face q.ao_RF,
     get_vertex q.mesh_right q.mesh_up q.mesh_back q.type light q.face q.ao_RB)
  else if q.face = 2 then
    (get_vertex q.mesh_up q.mesh_front q.mesh_left q.type light q.face q.ao_LF,
     get_vertex q.mesh_up q.mesh_back q.mesh_left q.type light q.face q.ao_LB,
     get_vertex q.mesh_up q.mesh_back q.mesh_right q.type light q.face q.ao_RB,
     get_vertex q.mesh_up q.mesh_front q.mesh_right q.type light q.face q.ao_RF)
  else if q.face = 3 then
    (get_vertex q.mesh_up q.mesh_back q.mesh_left q.type light q.face q.ao_LB,
     get_vertex q.mesh_up q.mesh_front q.mesh_left q.type light q.face q.ao_LF,
     get_vertex q.mesh_up q.mesh_front q.mesh_right q.type light q.face q.ao_RF,
     get_vertex q.mesh_up q.mesh_back q.mesh_right q.type light q.face q.ao_RB)
  else if q.face = 4 then
    (get_vertex q.mesh_front q.mesh_left q.mesh_up q.type light q.face q.ao_LF,
     get_vertex q.mesh_back q.mesh_left q.mesh_up q.type light q.face q.ao_LB,
     get_vertex q.mesh_back q.mesh_right q.mesh_up q.type light q.face q.ao_RB,
     get_vertex q.mesh_front q.mesh_right q.mesh_up q.type light q.face q.ao_RF)
  else if q.face = 5 then
    (get_vertex q.mesh_back q.mesh_left q.mesh_up q.type light q.face q.ao_LB,
     get_vertex q.mesh_front q.mesh_left q.mesh_up q.type light q.face q.ao_LF,
     get_vertex q.mesh_front q.mesh_right q.mesh_up q.type light q.face q.ao_RF,
     get_vertex q.mesh_back q.mesh_right q.mesh_up q.type light q.face q.ao_RB)
  else (0, 0, 0, 0)

/-- The tail of the run-close branch: pack the corners, choose the diagonal and
call `insert_quad`. -/
def emit_quad (vertices : List Nat) (q : Quad) : List Nat :=
  let (v1, v2, v3, v4) := q.corners
  if q.ao_LB + q.ao_RF > q.ao_RB + q.ao_LF then insert_quad vertices v1 v2 v3 v4 true
  else insert_quad vertices v1 v2 v3 v4 false

/-- Mutable variables of step 3.  The field `quads` is a log of the rectangles
handed to `insert_quad`, in emission order; the code itself keeps only
`vertices`. -/
structure MeshState where
  merged_forward : Nat → Nat
  merged_right : Nat → Nat
  bits_walking_right : Nat
  bits_merging_forward : Nat
  vertices : List Nat
  quads : List Quad

/-- Body of the `while (copy_front)` loop. -/
def front_step (voxels : List Nat) (face forward right : Nat) (s : MeshState) (bit_pos : Nat) :
    Option MeshState := do
  let axis : Int := ((face / 2 : Nat) : Int)
  let light_dir : Int := if face % 2 = 0 then 1 else -1
  if bit_pos = 0 ∨ bit_pos = CS_P - 1 then pure s
  else
    let ok ← compare_forward voxels axis forward right bit_pos light_dir
    if ok then
      pure { s with merged_forward := Function.update s.merged_forward ((right * CS_P) + bit_pos)
                      (s.merged_forward ((right * CS_P) + bit_pos) + 1) }
    else
      pure { s with bits_merging_forward := s.bits_merging_forward &&& not64 (1 <<< bit_pos) }

/-- Body of the `while (bits_stopped_forward)` loop. -/
def stop_step (voxels : List Nat) (face forward right bits_merging_right : Nat) (s : MeshState)
    (bit_pos : Nat) : Option MeshState := do
  let axis : Int := ((face / 2 : Nat) : Int)
  let light_dir : Int := if face % 2 = 0 then 1 else -1
  if bit_pos = 0 ∨ bit_pos = CS_P - 1 then pure s
  else
    let walk ←
      (if (bits_merging_right &&& (1 <<< bit_pos)) ≠ 0 ∧
          s.merged_forward ((right * CS_P) + bit_pos) =
            s.merged_forward ((right + 1) * CS_P + bit_pos) then
        compare_right voxels axis forward right bit_pos light_dir
      else pure false)
    if walk then
      pure { s with
        bits_walking_right := s.bits_walking_right ||| (1 <<< bit_pos)
        merged_right := Function.update s.merged_right bit_pos (s.merged_right bit_pos + 1)
        merged_forward := Function.update s.merged_forward ((right * CS_P) + bit_pos) 0 }
    else
      let bits_walking_right := s.bits_walking_right &&& not64 (1 <<< bit_pos)
      let mesh_left := to_u8 ((right : Int) - (s.merged_right bit_pos : Int))
      let mesh_right := to_u8 ((right : Int) + 1)
      let mesh_front :=
        to_u8 ((forward : Int) - (s.merged_forward ((right * CS_P) + bit_pos) : Int))
      let mesh_back := to_u8 ((forward : Int) + 1)
      let mesh_up := to_u8 ((bit_pos : Int) + (if face % 2 = 0 then 1 else 0))
      let type ← voxels_at voxels (get_axis_i axis right forward bit_pos)
      let c : Int := (bit_pos : Int) + light_dir
      let f ← voxels_at voxels (get_axis_i axis right ((forward : Int) - 1) c)
      let b ← voxels_at voxels (get_axis_i axis right ((forward : Int) + 1) c)
      let l ← voxels_at voxels (get_axis_i axis ((right : Int) - 1) forward c)
      let r ← voxels_at voxels (get_axis_i axis ((right : Int) + 1) forward c)
      let lfc ← voxels_at voxels (get_axis_i axis ((right : Int) - 1) ((forward : Int) - 1) c)
      let lbc ← voxels_at voxels (get_axis_i axis ((right : Int) - 1) ((forward : Int) + 1) c)
      let rfc ← voxels_at voxels (get_axis_i axis ((right : Int) + 1) ((forward : Int) - 1) c)
      let rbc ← voxels_at voxels (get_axis_i axis ((right : Int) + 1) ((forward : Int) + 1) c)
      let ao_F : Int := if solid_check f then 1 else 0
      let ao_B : Int := if solid_check b then 1 else 0
      let ao_L : Int := if solid_check l then 1 else 0
      let ao_R : Int := if solid_check r then 1 else 0
      let ao_LFC : Int := if solid_check lfc then 1 else 0
      let ao_LBC : Int := if solid_check lbc then 1 else 0
      let ao_RFC : Int := if solid_check rfc then 1 else 0
      let ao_RBC : Int := if solid_check rbc then 1 else 0
      let q : Quad :=
        { face := face
          mesh_left := mesh_left
          mesh_right := mesh_right
          mesh_front := mesh_front
          mesh_back := mesh_back
          mesh_up := mesh_up
          type := type
          ao_LB := to_u8 (vertexAO ao_L ao_B ao_LBC)
          ao_LF := to_u8 (vertexAO ao_L ao_F ao_LFC)
          ao_RB := to_u8 (vertexAO ao_R ao_B ao_RBC)
          ao_RF := to_u8 (vertexAO ao_R ao_F ao_RFC) }
      pure { s with
        bits_walking_right := bits_walking_right
        merged_forward := Function.update s.merged_forward ((right * CS_P) + bit_pos) 0
        merged_right := Function.update s.merged_right bit_pos 0
        vertices := emit_quad s.vertices q
        quads := s.quads ++ [q] }

/-- Body of the `right` loop. -/
def mesh_cell (voxels : List Nat) (col_face_masks : Nat → Nat) (face forward : Nat)
    (s : MeshState) (right : Nat) : Option MeshState := do
  let bits_here := col_face_masks (right + (forward * CS_P) + (face * CS_P2))
  let bits_forward :=
    if forward ≥ CS then 0
    else col_face_masks (right + (forward * CS_P) + (face * CS_P2) + CS_P)
  let bits_right :=
    if right ≥ CS then 0
    else col_face_masks (right + 1 + (forward * CS_P) + (face * CS_P2))
  let bits_merging_forward := bits_here &&& bits_forward &&& not64 s.bits_walking_right
  let bits_merging_right := bits_here &&& bits_right
  let s1 ← (set_bits bits_merging_forward).foldlM (front_step voxels face forward right)
    { s with bits_merging_forward := bits_merging_forward }
  let bits_stopped_forward := bits_here &&& not64 s1.bits_merging_forward
  (set_bits bits_stopped_forward).foldlM
    (stop_step voxels face forward right bits_merging_right) s1

/-- Body of the `forward` loop. -/
def mesh_row (voxels : List Nat) (col_face_masks : Nat → Nat) (face : Nat)
    (s : MeshState) (forward : Nat) : Option MeshState :=
  (List.range' 1 (CS_P - 2)).foldlM (mesh_cell voxels col_face_masks face forward)
    { s with bits_walking_right := 0, merged_right := fun _ => 0 }

/-- Body of the `face` loop. -/
def mesh_face (voxels : List Nat) (col_face_masks : Nat → Nat) (s : MeshState) (face : Nat) :
    Option MeshState :=
  (List.range' 1 (CS_P - 2)).foldlM (mesh_row voxels col_face_masks face)
    { s with merged_forward := fun _ => 0 }

/-- Steps 1 to 3 of `mesh`: the state when the `face` loop has finished. -/
def mesh_run (voxels : List Nat) : Option MeshState := do
  let axis_cols ← build_axis_cols voxels
  let col_face_masks := cull_faces axis_cols
  (List.range 6).foldlM (mesh_face voxels col_face_masks)
    { merged_forward := fun _ => 0
      merged_right := fun _ => 0
      bits_walking_right := 0
      bits_merging_forward := 0
      vertices := []
      quads := [] }

/-- The function `mesh`: `none` is an escaping `std::out_of_range`, `some none`
the `nullptr` result and `some (some vs)` the vertex vector. -/
def mesh (voxels : List Nat) : Option (Option (List Nat)) := do
  let s ← mesh_run voxels
  if s.vertices.length = 0 then pure none else pure (some s.vertices)

/-- The value of `vertexCount` that `create_chunk` (`main.cpp`) derives from the
result of `mesh`. -/
def vertexCount (result : Option (List Nat)) : Nat :=
  match result with
  | none => 0
  | some vertices => vertices.length

/-! ## Definitions the proofs are stated with -/

/-- Solidity of the voxel stored at offset `i` of the volume. -/
def solid_at (voxels : List Nat) (i : Nat) : Bool := solid_check ((voxels.getD i 0 : Nat) : Int)

/-- State of step 1 when `n` voxels have been read and the `z` loop of column
`(y, x)` has run `k` rounds. -/
structure ColInv (voxels : List Nat) (y x k : Nat) (s : ColState) : Prop where
  hp : s.p = k + x * 64 + y * 4096
  a0 : ∀ r f c, r < 64 → f < 64 →
    (s.axis_cols (r + f * 64)).testBit c =
      (decide (c < 64) && solid_at voxels (f + r * 64 + c * 4096) &&
        decide (f + r * 64 + c * 4096 < s.p))
  a1 : ∀ r f c, r < 64 → f < 64 →
    (s.axis_cols (r + f * 64 + 4096)).testBit c =
      (decide (c < 64) && solid_at voxels (r + c * 64 + f * 4096) &&
        decide (r + c * 64 + f * 4096 < s.p))
  a2 : ∀ r f c, r < 64 → f < 64 →
    (s.axis_cols (r + f * 64 + 8192)).testBit c =
      (decide (c < 64) && solid_at voxels (c + f * 64 + r * 4096) &&
        decide (f * 64 + r * 4096 < x * 64 + y * 4096))

/-- Offset `get_axis_i(axis, a, b, c)` for non-negative arguments. -/
def axis_idx (axis a b c : Nat) : Nat :=
  if axis = 0 then b + a * 64 + c * 4096
  else if axis = 1 then a + c * 64 + b * 4096
  else c + b * 64 + a * 4096

/-- Face mask of a column towards increasing bit positions (even faces). -/
def pos_mask (col : Nat) : Nat := col &&& not64 ((col >>> 1) ||| (1 <<< (CS_P - 1)))

/-- Face mask of a column towards decreasing bit positions (odd faces). -/
def neg_mask (col : Nat) : Nat := col &&& not64 (u64 (col <<< 1) ||| 1)

/-- A face of the voxel at `(right, forward, bit_pos)` of the plane grid of `face`
is visible when the voxel is solid, its neighbour on that side is empty, and the
neighbour exists within the column. -/
def visible (voxels : List Nat) (face forward right bit_pos : Nat) : Bool :=
  solid_at voxels (axis_idx (face / 2) right forward bit_pos) &&
    (if face % 2 = 0 then
      decide (bit_pos < 63) && !solid_at voxels (axis_idx (face / 2) right forward (bit_pos + 1))
    else
      decide (0 < bit_pos) && !solid_at voxels (axis_idx (face / 2) right forward (bit_pos - 1)))

/-- The voxel at plane coordinates `(a, b, c)` of `axis`, as read by
`voxels.at(get_axis_i(axis, a, b, c))` when the index is in range. -/
def vox (voxels : List Nat) (axis a b c : Int) : Nat :=
  voxels.getD (get_axis_i axis a b c).toNat 0

/-- The `light_dir` local of `mesh`. -/
def light_dir (face : Nat) : Int := if face % 2 = 0 then 1 else -1

/-- Result of `compare_ao` when every read is in range. -/
def same_ao (voxels : List Nat) (axis forward right c forward_offset right_offset : Int) : Bool :=
  ao_dirs.all (fun d =>
    solid_check (vox voxels axis (right + d.1) (forward + d.2) c) ==
      solid_check (vox voxels axis (right + right_offset + d.1) (forward + forward_offset + d.2) c))

/-- Result of `compare_forward` when every read is in range. -/
def cmp_forward (voxels : List Nat) (face forward right bit_pos : Nat) : Bool :=
  decide (vox voxels ((face / 2 : Nat) : Int) right forward bit_pos =
      vox voxels ((face / 2 : Nat) : Int) right ((forward : Int) + 1) bit_pos) &&
    same_ao voxels ((face / 2 : Nat) : Int) forward right ((bit_pos : Int) + light_dir face) 1 0

/-- Result of `compare_right` when every read is in range. -/
def cmp_right (voxels : List Nat) (face forward right bit_pos : Nat) : Bool :=
  decide (vox voxels ((face / 2 : Nat) : Int) right forward bit_pos =
      vox voxels ((face / 2 : Nat) : Int) ((right : Int) + 1) forward bit_pos) &&
    same_ao voxels ((face / 2 : Nat) : Int) forward right ((bit_pos : Int) + light_dir face) 0 1

/-- The rectangle built by the run-close branch at `(forward, right, bit_pos)` when
the run counters hold `mr` and `mfv` and every read is in range. -/
def cell_quad (voxels : List Nat) (face forward right bit_pos mr mfv : Nat) : Quad :=
  let axis : Int := ((face / 2 : Nat) : Int)
  let c : Int := (bit_pos : Int) + light_dir face
  let ao_F : Int := if solid_check (vox voxels axis right ((forward : Int) - 1) c) then 1 else 0
  let ao_B : Int := if solid_check (vox voxels axis right ((forward : Int) + 1) c) then 1 else 0
  let ao_L : Int := if solid_check (vox voxels axis ((right : Int) - 1) forward c) then 1 else 0
  let ao_R : Int := if solid_check (vox voxels axis ((right : Int) + 1) forward c) then 1 else 0
  let ao_LFC : Int :=
    if solid_check (vox voxels axis ((right : Int) - 1) ((forward : Int) - 1) c) then 1 else 0
  let ao_LBC : Int :=
    if solid_check (vox voxels axis ((right : Int) - 1) ((forward : Int) + 1) c) then 1 else 0
  let ao_RFC : Int :=
    if solid_check (vox voxels axis ((right : Int) + 1) ((forward : Int) - 1) c) then 1 else 0
  let ao_RBC : Int :=
    if solid_check (vox voxels axis ((right : Int) + 1) ((forward : Int) + 1) c) then 1 else 0
  { face := face
    mesh_left := to_u8 ((right : Int) - (mr : Int))
    mesh_right := to_u8 ((right : Int) + 1)
    mesh_front := to_u8 ((forward : Int) - (mfv : Int))
    mesh_back := to_u8 ((forward : Int) + 1)
    mesh_up := to_u8 ((bit_pos : Int) + (if face % 2 = 0 then 1 else 0))
    type := vox voxels axis right forward bit_pos
    ao_LB := to_u8 (vertexAO ao_L ao_B ao_LBC)
    ao_LF := to_u8 (vertexAO ao_L ao_F ao_LFC)
    ao_RB := to_u8 (vertexAO ao_R ao_B ao_RBC)
    ao_RF := to_u8 (vertexAO ao_R ao_F ao_RFC) }

/-- The part of the step-3 state that belongs to one bit position: the
`merged_forward` counters of its columns, its `merged_right` counter and its bit
of `bits_walking_right`. -/
structure PState where
  mf : Nat → Nat
  mr : Nat
  w : Bool

/-- Does the face at `(forward, right)` extend its run forward? -/
def p_merges (voxels : List Nat) (face p forward : Nat) (s : PState) (right : Nat) : Bool :=
  visible voxels face forward right p &&
    (decide (forward < 62) && visible voxels face (forward + 1) right p) && !s.w &&
    cmp_forward voxels face forward right p

/-- Does the face at `(forward, right)` close its run and walk right? -/
def p_walks (voxels : List Nat) (face p forward : Nat) (s : PState) (right : Nat) : Bool :=
  visible voxels face forward right p && !p_merges voxels face p forward s right &&
    (decide (right < 62) && visible voxels face forward (right + 1) p) &&
    decide (s.mf right = s.mf (right + 1)) && cmp_right voxels face forward right p

/-- Does the face at `(forward, right)` close its run and emit a rectangle? -/
def p_emits (voxels : List Nat) (face p forward : Nat) (s : PState) (right : Nat) : Bool :=
  visible voxels face forward right p && !p_merges voxels face p forward s right &&
    !p_walks voxels face p forward s right

/-- Effect of the body of the `right` loop on one bit position. -/
def pcell (voxels : List Nat) (face p forward : Nat) (s : PState) (right : Nat) : PState :=
  if p_merges voxels face p forward s right then
    { s with mf := Function.update s.mf right (s.mf right + 1) }
  else if p_walks voxels face p forward s right then
    { mf := Function.update s.mf right 0, mr := s.mr + 1, w := true }
  else if p_emits voxels face p forward s right then
    { mf := Function.update s.mf right 0, mr := 0, w := false }
  else s

/-- Rectangles emitted by the body of the `right` loop for one bit position. -/
def pcell_quads (voxels : List Nat) (face p forward : Nat) (s : PState) (right : Nat) :
    List Quad :=
  if p_emits voxels face p forward s right then
    [cell_quad voxels face forward right p s.mr (s.mf right)]
  else []

/-- The slice of the step-3 state at bit position `p`. -/
def proj (s : MeshState) (p : Nat) : PState :=
  { mf := fun c => s.merged_forward (c * 64 + p)
    mr := s.merged_right p
    w := s.bits_walking_right.testBit p }

/-- The vertices appended for one rectangle. -/
def quad_vertices (q : Quad) : List Nat := emit_quad [] q

/-- Loop invariant of `while (copy_front)` after the bit positions below `k`. -/
structure FrontInv (voxels : List Nat) (face fw r B : Nat) (S : MeshState) (k : Nat)
    (S1 : MeshState) : Prop where
  mr : S1.merged_right = S.merged_right
  bww : S1.bits_walking_right = S.bits_walking_right
  vs : S1.vertices = S.vertices
  qs : S1.quads = S.quads
  lt : S1.bits_merging_forward < 2 ^ 64
  bmf : ∀ p, S1.bits_merging_forward.testBit p =
    (B.testBit p && (decide (k ≤ p) || decide (p = 0 ∨ p = 63) || cmp_forward voxels face fw r p))
  mf : ∀ c p, p < 64 → S1.merged_forward (c * 64 + p) =
    S.merged_forward (c * 64 + p) +
      (if c = r ∧ p < k ∧ 1 ≤ p ∧ p ≤ 62 ∧ B.testBit p = true ∧
          cmp_forward voxels face fw r p = true then 1 else 0)

/-- Outcome of the walk-right test of the run-close branch at bit `p`. -/
def stop_walk (voxels : List Nat) (face fw r R : Nat) (S1 : MeshState) (p : Nat) : Bool :=
  R.testBit p && decide (S1.merged_forward (r * 64 + p) = S1.merged_forward ((r + 1) * 64 + p)) &&
    cmp_right voxels face fw r p

/-- Rectangles emitted by the run-close branch at bit `p`. -/
def stop_quads (voxels : List Nat) (face fw r R T : Nat) (S1 : MeshState) (p : Nat) : List Quad :=
  if (1 ≤ p ∧ p ≤ 62) ∧ T.testBit p = true ∧ stop_walk voxels face fw r R S1 p = false then
    [cell_quad voxels face fw r p (S1.merged_right p) (S1.merged_forward (r * 64 + p))]
  else []

/-- Loop invariant of `while (bits_stopped_forward)` after the bit positions below `k`. -/
structure StopInv (voxels : List Nat) (face fw r R T : Nat) (S1 : MeshState) (k : Nat)
    (S2 : MeshState) : Prop where
  lt : S2.bits_walking_right < 2 ^ 64
  w : ∀ p, S2.bits_walking_right.testBit p =
    if p < k ∧ (1 ≤ p ∧ p ≤ 62) ∧ T.testBit p = true then stop_walk voxels face fw r R S1 p
    else S1.bits_walking_right.testBit p
  mr : ∀ p, S2.merged_right p =
    if p < k ∧ (1 ≤ p ∧ p ≤ 62) ∧ T.testBit p = true then
      (if stop_walk voxels face fw r R S1 p = true then S1.merged_right p + 1 else 0)
    else S1.merged_right p
  mf : ∀ c p, p < 64 → S2.merged_forward (c * 64 + p) =
    if c = r ∧ p < k ∧ (1 ≤ p ∧ p ≤ 62) ∧ T.testBit p = true then 0
    else S1.merged_forward (c * 64 + p)
  qs : S2.quads = S1.quads ++ (List.range k).flatMap (stop_quads voxels face fw r R T S1)
  vs : S2.vertices = S1.vertices ++
    ((List.range k).flatMap (stop_quads voxels face fw r R T S1)).flatMap quad_vertices

/-- The face masks computed by steps 1 and 2 describe the visible faces. -/
def MasksOk (voxels : List Nat) (m : Nat → Nat) : Prop :=
  ∀ face r f p, face < 6 → r < 64 → f < 64 →
    (m (r + (f * CS_P) + (face * CS_P2))).testBit p = (decide (p < 64) && visible voxels face f r p)

/-- The resets at the start of a `forward` iteration, at one bit position. -/
def preset (s : PState) : PState := { s with w := false, mr := 0 }

/-- The slice after the first `n` iterations of the `right` loop. -/
def pcells (voxels : List Nat) (face p forward : Nat) (s : PState) (n : Nat) : PState :=
  (List.range' 1 n).foldl (pcell voxels face p forward) s

/-- The slice at the start of the `forward` iteration `k + 1`, resets applied. -/
def prows (voxels : List Nat) (face p : Nat) : Nat → PState
  | 0 => { mf := fun _ => 0, mr := 0, w := false }
  | k + 1 => preset (pcells voxels face p (k + 1) (prows voxels face p k) 62)

/-- The slice just before the body of the `right` loop runs at `(forward, right)`. -/
def pstate (voxels : List Nat) (face p forward right : Nat) : PState :=
  pcells voxels face p forward (prows voxels face p (forward - 1)) (right - 1)

/-- Rectangles emitted at `(forward, right)`, by ascending bit position. -/
def cell_quads (voxels : List Nat) (face forward right : Nat) : List Quad :=
  (List.range' 1 62).flatMap
    (fun p => pcell_quads voxels face p forward (pstate voxels face p forward right) right)

/-- Rectangles emitted in one `forward` iteration. -/
def row_quads (voxels : List Nat) (face forward : Nat) : List Quad :=
  (List.range' 1 62).flatMap (cell_quads voxels face forward)

/-- Rectangles emitted in one `face` iteration. -/
def face_quads (voxels : List Nat) (face : Nat) : List Quad :=
  (List.range' 1 62).flatMap (row_quads voxels face)

/-- All rectangles, in emission order. -/
def all_quads (voxels : List Nat) : List Quad :=
  (List.range 6).flatMap (face_quads voxels)

/-- The forward-merge decision at `(forward, right)` of the plane `(face, p)`. -/
def merges_at (voxels : List Nat) (face p forward right : Nat) : Bool :=
  p_merges voxels face p forward (pstate voxels face p forward right) right

/-- The walk-right decision at `(forward, right)` of the plane `(face, p)`. -/
def walks_at (voxels : List Nat) (face p forward right : Nat) : Bool :=
  p_walks voxels face p forward (pstate voxels face p forward right) right

/-- The emission decision at `(forward, right)` of the plane `(face, p)`. -/
def emits_at (voxels : List Nat) (face p forward right : Nat) : Bool :=
  p_emits voxels face p forward (pstate voxels face p forward right) right

/-- The value of `merged_forward[right * CS_P + p]` when `(forward, right)` is reached. -/
def run_fwd (voxels : List Nat) (face p forward right : Nat) : Nat :=
  (pstate voxels face p forward right).mf right

/-- The value of `merged_right[p]` when `(forward, right)` is reached. -/
def run_right (voxels : List Nat) (face p forward right : Nat) : Nat :=
  (pstate voxels face p forward right).mr

/-- The cell `(a, b)` reaches the emitting cell `(fw, r)` by forward merges followed
by walk-right steps. -/
def owns (voxels : List Nat) (face p : Nat) (fw r a b : Nat) : Prop :=
  emits_at voxels face p fw r = true ∧ a ≤ fw ∧ b ≤ r ∧
    (∀ a', a ≤ a' → a' < fw → merges_at voxels face p a' b = true) ∧
    (∀ b', b ≤ b' → b' < r → walks_at voxels face p fw b' = true)

/-- The cell `(a, b)` lies in the rectangle closed at `(fw, r)`. -/
def in_rect (voxels : List Nat) (face p : Nat) (fw r a b : Nat) : Prop :=
  fw - run_fwd voxels face p fw r ≤ a ∧ a ≤ fw ∧ r - run_right voxels face p fw r ≤ b ∧ b ≤ r

/-- the rectangle `q` lies on the plane `(face, p)` and covers the cell `(a, b)`. -/
def covers_face (face p a b : Nat) (q : Quad) : Bool :=
  decide (q.face = face ∧ q.mesh_up = p + (if face % 2 = 0 then 1 else 0) ∧
    q.mesh_front ≤ a ∧ a < q.mesh_back ∧ q.mesh_left ≤ b ∧ b < q.mesh_right)

/-- The rectangle closed at `(fw, r)` of the plane `(face, p)`. -/
def quad_at (voxels : List Nat) (face p fw r : Nat) : Quad :=
  cell_quad voxels face fw r p (run_right voxels face p fw r) (run_fwd voxels face p fw r)

/-- Material id of the voxel that owns the face at `(forward, right)` of the plane
`(face, p)`. -/
def cell_type (voxels : List Nat) (face p forward right : Nat) : Nat :=
  vox voxels ((face / 2 : Nat) : Int) right forward p

/-- Solidity of the 8 neighbours of `(forward, right)` one layer along the face
normal, in the order of `ao_dirs`. -/
def ao_pattern (voxels : List Nat) (face p : Nat) (forward right : Int) : List Bool :=
  ao_dirs.map (fun d => solid_check (vox voxels ((face / 2 : Nat) : Int) (right + d.1)
    (forward + d.2) ((p : Int) + light_dir face)))

/-- The four corner AO levels of the unit face at `(forward, right)` of the plane
`(face, p)`, from its own 8 neighbours: left-back, left-front, right-back,
right-front. -/
def face_ao (voxels : List Nat) (face p forward right : Nat) : Nat × Nat × Nat × Nat :=
  let axis : Int := ((face / 2 : Nat) : Int)
  let c : Int := (p : Int) + light_dir face
  let s : Int → Int → Int := fun a b => if solid_check (vox voxels axis a b c) then 1 else 0
  let ao_F := s right ((forward : Int) - 1)
  let ao_B := s right ((forward : Int) + 1)
  let ao_L := s ((right : Int) - 1) forward
  let ao_R := s ((right : Int) + 1) forward
  let ao_LFC := s ((right : Int) - 1) ((forward : Int) - 1)
  let ao_LBC := s ((right : Int) - 1) ((forward : Int) + 1)
  let ao_RFC := s ((right : Int) + 1) ((forward : Int) - 1)
  let ao_RBC := s ((right : Int) + 1) ((forward : Int) + 1)
  (to_u8 (vertexAO ao_L ao_B ao_LBC), to_u8 (vertexAO ao_L ao_F ao_LFC),
    to_u8 (vertexAO ao_R ao_B ao_RBC), to_u8 (vertexAO ao_R ao_F ao_RFC))

/-- Modelled from the spec: the consumer of the vertex stream is not among the
sources; section 6 gives its decoding, `x = (w & 0x3F) + 1`. -/
def decode_x (w : Nat) : Nat := (w &&& 0x3F) + 1

/-- Modelled from the spec: `y = ((w >> 6) & 0x3F) + 1`. -/
def decode_y (w : Nat) : Nat := ((w >>> 6) &&& 0x3F) + 1

/-- Modelled from the spec: `z = ((w >> 12) & 0x3F) + 1`. -/
def decode_z (w : Nat) : Nat := ((w >>> 12) &&& 0x3F) + 1

/-- Modelled from the spec: `type = (w >> 18) & 0x1F`. -/
def decode_type (w : Nat) : Nat := (w >>> 18) &&& 0x1F

/-- Modelled from the spec: `light = (w >> 23) & 0xF`. -/
def decode_light (w : Nat) : Nat := (w >>> 23) &&& 0xF

/-- Modelled from the spec: `face = (w >> 27) & 0x7`. -/
def decode_face (w : Nat) : Nat := (w >>> 27) &&& 0x7

/-- Modelled from the spec: `ao = (w >> 30) & 0x3`. -/
def decode_ao (w : Nat) : Nat := (w >>> 30) &&& 0x3

/-- The visible faces of the plane `(face, p)` are exactly the cells of the rectangle
`[F1, F2] x [R1, R2]`, and neighbouring cells of it compare equal. -/
structure RectPlane (voxels : List Nat) (face p F1 F2 R1 R2 : Nat) : Prop where
  hF1 : 1 ≤ F1
  hF : F1 ≤ F2
  hF2 : F2 ≤ 62
  hR1 : 1 ≤ R1
  hR : R1 ≤ R2
  hR2 : R2 ≤ 62
  vis : ∀ fw r, 1 ≤ fw → fw ≤ 62 → 1 ≤ r → r ≤ 62 →
    (visible voxels face fw r p = true ↔ F1 ≤ fw ∧ fw ≤ F2 ∧ R1 ≤ r ∧ r ≤ R2)
  cf : ∀ fw r, F1 ≤ fw → fw < F2 → R1 ≤ r → r ≤ R2 → cmp_forward voxels face fw r p = true
  cr : ∀ fw r, F1 ≤ fw → fw ≤ F2 → R1 ≤ r → r < R2 → cmp_right voxels face fw r p = true

/-- In the plane coordinates of `face`, the solid voxels are exactly the box
`[R1, R2] x [F1, F2] x [P1, P2]` (right, forward, bit position), all of material `t`. -/
structure PlaneBox (voxels : List Nat) (face t R1 R2 F1 F2 P1 P2 : Nat) : Prop where
  ht : 0 < t
  hR1 : 1 ≤ R1
  hR : R1 ≤ R2
  hR2 : R2 ≤ 62
  hF1 : 1 ≤ F1
  hF : F1 ≤ F2
  hF2 : F2 ≤ 62
  hP1 : 1 ≤ P1
  hP : P1 ≤ P2
  hP2 : P2 ≤ 62
  val : ∀ r fw p : Nat, r < 64 → fw < 64 → p < 64 →
    vox voxels ((face / 2 : Nat) : Int) r fw p =
      if R1 ≤ r ∧ r ≤ R2 ∧ F1 ≤ fw ∧ fw ≤ F2 ∧ P1 ≤ p ∧ p ≤ P2 then t else 0

/-- The rectangle a box shows on `face`. -/
def box_quad (face t R1 R2 F1 F2 P1 P2 : Nat) : Quad :=
  { face := face
    mesh_left := R1
    mesh_right := R2 + 1
    mesh_front := F1
    mesh_back := F2 + 1
    mesh_up := if face % 2 = 0 then P2 + 1 else P1
    type := t
    ao_LB := 3
    ao_LF := 3
    ao_RB := 3
    ao_RF := 3 }

/-- The bit position of the only plane of `face` that shows faces of the box. -/
def box_plane (face P1 P2 : Nat) : Nat := if face % 2 = 0 then P2 else P1

/-- The voxel at `(x, y, z)`: step 1 of `mesh` walks the volume with `y` outermost
and `z` innermost. -/
def voxel (voxels : List Nat) (x y z : Nat) : Nat :=
  voxels.getD (z + x * CS_P + y * CS_P2) 0

/-- The volume is well-formed, and its non-zero voxels are exactly those of the
interior box `[X1, X2] x [Y1, Y2] x [Z1, Z2]`, all of material `t`. -/
structure BoxVolume (voxels : List Nat) (t X1 X2 Y1 Y2 Z1 Z2 : Nat) : Prop where
  len : voxels.length = CS_P3
  ht : 0 < t
  hX1 : 1 ≤ X1
  hX : X1 ≤ X2
  hX2 : X2 ≤ CS
  hY1 : 1 ≤ Y1
  hY : Y1 ≤ Y2
  hY2 : Y2 ≤ CS
  hZ1 : 1 ≤ Z1
  hZ : Z1 ≤ Z2
  hZ2 : Z2 ≤ CS
  val : ∀ x y z, x < CS_P → y < CS_P → z < CS_P →
    voxel voxels x y z =
      if X1 ≤ x ∧ x ≤ X2 ∧ Y1 ≤ y ∧ y ≤ Y2 ∧ Z1 ≤ z ∧ z ≤ Z2 then t else 0

/-- The six rectangles of a box, by face. -/
def box_quads (t X1 X2 Y1 Y2 Z1 Z2 : Nat) : List Quad :=
  [box_quad 0 t X1 X2 Z1 Z2 Y1 Y2, box_quad 1 t X1 X2 Z1 Z2 Y1 Y2,
   box_quad 2 t Z1 Z2 Y1 Y2 X1 X2, box_quad 3 t Z1 Z2 Y1 Y2 X1 X2,
   box_quad 4 t Y1 Y2 X1 X2 Z1 Z2, box_quad 5 t Y1 Y2 X1 X2 Z1 Z2]

/-- The volume whose non-zero voxels are those of a box, all of material `t`. -/
def box_volume (t X1 X2 Y1 Y2 Z1 Z2 : Nat) : List Nat :=
  (List.range CS_P3).map (fun i =>
    if X1 ≤ i / CS_P % CS_P ∧ i / CS_P % CS_P ≤ X2 ∧ Y1 ≤ i / CS_P2 ∧ i / CS_P2 ≤ Y2 ∧
        Z1 ≤ i % CS_P ∧ i % CS_P ≤ Z2 then t else 0)

/-- The voxel at `(right, forward, bit_pos)` of the plane grid of `face` is solid and
its neighbour along the face normal is empty. -/
def unit_face (voxels : List Nat) (face forward right bit_pos : Nat) : Prop :=
  solid_check (vox voxels ((face / 2 : Nat) : Int) right forward bit_pos) = true ∧
    solid_check (vox voxels ((face / 2 : Nat) : Int) right forward
      ((bit_pos : Int) + light_dir face)) = false

/-- The fields of a rectangle fit the packed vertex format. -/
structure QuadFits (q : Quad) : Prop where
  face : q.face < 6
  left : 1 ≤ q.mesh_left ∧ q.mesh_left ≤ 64
  right : 1 ≤ q.mesh_right ∧ q.mesh_right ≤ 64
  front : 1 ≤ q.mesh_front ∧ q.mesh_front ≤ 64
  back : 1 ≤ q.mesh_back ∧ q.mesh_back ≤ 64
  up : 1 ≤ q.mesh_up ∧ q.mesh_up ≤ 64
  type : q.type < 4096
  lb : q.ao_LB < 4
  lf : q.ao_LF < 4
  rb : q.ao_RB < 4
  rf : q.ao_RF < 4

/-- The AO levels a consumer decodes from the four corner words `v1..v4`. -/
def decoded_corner_aos (q : Quad) : Nat × Nat × Nat × Nat :=
  (decode_ao q.corners.1, decode_ao q.corners.2.1, decode_ao q.corners.2.2.1,
    decode_ao q.corners.2.2.2)

/-- The positions a consumer decodes from the four corner words `v1..v4`. -/
def decoded_corner_positions (q : Quad) : List (Nat × Nat × Nat) :=
  [q.corners.1, q.corners.2.1, q.corners.2.2.1, q.corners.2.2.2].map
    (fun w => (decode_x w, decode_y w, decode_z w))

/-- The positions of the four corners `v1..v4`, as `mesh` passes them to
`get_vertex`. -/
def Quad.corner_positions (q : Quad) : List (Nat × Nat × Nat) :=
  if q.face = 0 then
    [(q.mesh_left, q.mesh_up, q.mesh_front), (q.mesh_left, q.mesh_up, q.mesh_back),
     (q.mesh_right, q.mesh_up, q.mesh_back), (q.mesh_right, q.mesh_up, q.mesh_front)]
  else if q.face = 1 then
    [(q.mesh_left, q.mesh_up, q.mesh_back), (q.mesh_left, q.mesh_up, q.mesh_front),
     (q.mesh_right, q.mesh_up, q.mesh_front), (q.mesh_right, q.mesh_up, q.mesh_back)]
  else if q.face = 2 then
    [(q.mesh_up, q.mesh_front, q.mesh_left), (q.mesh_up, q.mesh_back, q.mesh_left),
     (q.mesh_up, q.mesh_back, q.mesh_right), (q.mesh_up, q.mesh_front, q.mesh_right)]
  else if q.face = 3 then
    [(q.mesh_up, q.mesh_back, q.mesh_left), (q.mesh_up, q.mesh_front, q.mesh_left),
     (q.mesh_up, q.mesh_front, q.mesh_right), (q.mesh_up, q.mesh_back, q.mesh_right)]
  else if q.face = 4 then
    [(q.mesh_front, q.mesh_left, q.mesh_up), (q.mesh_back, q.mesh_left, q.mesh_up),
     (q.mesh_back, q.mesh_right, q.mesh_up), (q.mesh_front, q.mesh_right, q.mesh_up)]
  else
    [(q.mesh_back, q.mesh_left, q.mesh_up), (q.mesh_front, q.mesh_left, q.mesh_up),
     (q.mesh_front, q.mesh_right, q.mesh_up), (q.mesh_back, q.mesh_right, q.mesh_up)]

/-- A volume with the single solid voxel of material 7 at `x = 5, y = 6, z = 8`. -/
def sample_volume : List Nat := box_volume 7 5 5 6 6 8 8

/-- The volume of `CS_P3` empty voxels. -/
def empty_volume : List Nat := List.replicate CS_P3 0

/-- The coordinate of `(x, y, z)` along the normal of the faces `2 * axis` and
`2 * axis + 1` (`get_axis_i`: `y` for axis 0, `x` for axis 1, `z` for axis 2). -/
def axis_coord (axis x y z : Nat) : Nat :=
  if axis = 0 then y else if axis = 1 then x else z

/-- The two coordinates of a position that lie in the planes of `axis`. -/
def in_plane (axis : Nat) (v : Nat × Nat × Nat) : Nat × Nat :=
  if axis = 0 then (v.1, v.2.2) else if axis = 1 then (v.2.1, v.2.2) else (v.1, v.2.1)

/-- The lower bound of a slab of normal `axis` at layer `k`, along axis `n`. -/
def slab_lo (axis n k : Nat) : Nat := if axis = n then k else 1

/-- The upper bound of a slab of normal `axis` at layer `k`, along axis `n`. -/
def slab_hi (axis n k : Nat) : Nat := if axis = n then k else CS

/-- The coordinate along axis `n` of the neighbour, one step along `axis`, of a voxel
whose coordinate along `n` is `c`. -/
def pair_hi (axis n c : Nat) : Nat := if axis = n then c + 1 else c

/-- The volume whose padding voxels are all 9 and whose interior voxels are all 0. -/
def shell_volume : List Nat :=
  (List.range CS_P3).map (fun i =>
    if 1 ≤ i / CS_P % CS_P ∧ i / CS_P % CS_P ≤ CS ∧ 1 ≤ i / CS_P2 ∧ i / CS_P2 ≤ CS ∧
        1 ≤ i % CS_P ∧ i % CS_P ≤ CS then 0 else 9)

/-- The six words that `insert_quad` appends for a rectangle: corners `v1..v4` along
the flipped diagonal when `ao_LB + ao_RF > ao_RB + ao_LF`, along the default one
otherwise. -/
def six_words (q : Quad) : List Nat :=
  if q.ao_LB + q.ao_RF > q.ao_RB + q.ao_LF then
    [q.corners.1, q.corners.2.1, q.corners.2.2.2, q.corners.2.2.2, q.corners.2.1,
      q.corners.2.2.1]
  else
    [q.corners.1, q.corners.2.1, q.corners.2.2.1, q.corners.2.2.1, q.corners.2.2.2,
      q.corners.1]

/-- The material id of the voxel that owns a rectangle: the voxel at its final
`(forward, right)` cell and bit position. -/
def owner_type (voxels : List Nat) (q : Quad) : Nat :=
  cell_type voxels q.face (q.mesh_up - (if q.face % 2 = 0 then 1 else 0)) (q.mesh_back - 1)
    (q.mesh_right - 1)

/-- The volume with the single solid voxel of material 40 at `x = 5, y = 6, z = 8`. -/
def big_id_volume : List Nat := box_volume 40 5 5 6 6 8 8

/-- The position a consumer decodes from a packed vertex, as integers. -/
def decode_position (w : Nat) : Int × Int × Int :=
  ((decode_x w : Int), (decode_y w : Int), (decode_z w : Int))

/-- The integer cross product `(b - a) × (c - a)`. -/
def cross (a b c : Int × Int × Int) : Int × Int × Int :=
  ((b.2.1 - a.2.1) * (c.2.2 - a.2.2) - (b.2.2 - a.2.2) * (c.2.1 - a.2.1),
   (b.2.2 - a.2.2) * (c.1 - a.1) - (b.1 - a.1) * (c.2.2 - a.2.2),
   (b.1 - a.1) * (c.2.1 - a.2.1) - (b.2.1 - a.2.1) * (c.1 - a.1))

/-- The outward unit normal of a face id: `+y, -y, +x, -x, +z, -z`. -/
def face_normal (face : Nat) : Int × Int × Int :=
  if face = 0 then (0, 1, 0)
  else if face = 1 then (0, -1, 0)
  else if face = 2 then (1, 0, 0)
  else if face = 3 then (-1, 0, 0)
  else if face = 4 then (0, 0, 1)
  else (0, 0, -1)

/-- The cross product of a triangle of packed vertices, from their decoded positions. -/
def triangle_cross (a b c : Nat) : Int × Int × Int :=
  cross (decode_position a) (decode_position b) (decode_position c)

/-- The area of a rectangle, in unit faces. -/
def Quad.area (q : Quad) : Int :=
  ((q.mesh_right : Int) - q.mesh_left) * ((q.mesh_back : Int) - q.mesh_front)

/-- The voxel at position `p` of the column of `axis` keyed by `(a, b)`: axis 0 columns
are keyed by `(x, z)` and run along `y`, axis 1 columns by `(z, y)` along `x`, axis 2
columns by `(y, x)` along `z`. -/
def column_voxel (voxels : List Nat) (axis a b p : Nat) : Nat :=
  if axis = 0 then voxel voxels a p b
  else if axis = 1 then voxel voxels p b a
  else voxel voxels b a p

/-- The value `solid_check(...) ? 1 : 0` of an AO sample. -/
def ao_sample (b : Bool) : Int := if b then 1 else 0

/-- The four corner AO levels (left-back, left-front, right-back, right-front) that
`mesh` computes from the 8 samples `F, B, L, R, LF, LB, RF, RB`. -/
def corner_aos (F B L R LF LB RF RB : Bool) : Int × Int × Int × Int :=
  (vertexAO (ao_sample L) (ao_sample B) (ao_sample LB),
   vertexAO (ao_sample L) (ao_sample F) (ao_sample LF),
   vertexAO (ao_sample R) (ao_sample B) (ao_sample RB),
   vertexAO (ao_sample R) (ao_sample F) (ao_sample RF))

/-- Two volumes hold the same interior voxels, and their padding voxels are solid at
the same places. -/
structure SameUpToPaddingIds (v1 v2 : List Nat) : Prop where
  interior : ∀ x y z, (1 ≤ x ∧ x ≤ CS) → (1 ≤ y ∧ y ≤ CS) → (1 ≤ z ∧ z ≤ CS) →
    voxel v1 x y z = voxel v2 x y z
  solidity : ∀ x y z, x < CS_P → y < CS_P → z < CS_P →
    (voxel v1 x y z = 0 ↔ voxel v2 x y z = 0)

/-- The volume with the single interior solid voxel of material 7 at `x = 5, y = 6,
z = 8`, and with every padding voxel of material `pad`. -/
def padded_volume (pad : Nat) : List Nat :=
  (List.range CS_P3).map (fun i =>
    if (1 ≤ i / CS_P % CS_P ∧ i / CS_P % CS_P ≤ CS) ∧ (1 ≤ i / CS_P2 ∧ i / CS_P2 ≤ CS) ∧
        (1 ≤ i % CS_P ∧ i % CS_P ≤ CS) then
      (if i / CS_P % CS_P = 5 ∧ i / CS_P2 = 6 ∧ i % CS_P = 8 then 7 else 0)
    else pad)

/-- Checked read `arr[i]` of a C array of `size` elements: `none` when the index is
outside the array. -/
def array_get (size : Nat) (arr : Nat → Nat) (i : Nat) : Option Nat :=
  if i < size then some (arr i) else none

/-- Checked write `arr[i] = v` to a C array of `size` elements. -/
def array_set (size : Nat) (arr : Nat → Nat) (i v : Nat) : Option (Nat → Nat) :=
  if i < size then some (Function.update arr i v) else none

/-- The read `voxels.at(get_axis_i(axis, a, b, c))`, failing also when one of the
coordinates lies outside `[0, CS_P - 1]`. -/
def voxels_at_axis (voxels : List Nat) (axis a b c : Int) : Option Nat :=
  if (0 ≤ a ∧ a < CS_P) ∧ (0 ≤ b ∧ b < CS_P) ∧ (0 ≤ c ∧ c < CS_P) then
    voxels_at voxels (get_axis_i axis a b c)
  else none

/-- The loop of `compare_ao`, coordinates checked. -/
def compare_ao_loop_checked (voxels : List Nat)
    (axis forward right c forward_offset right_offset : Int) : List (Int × Int) → Option Bool
  | [] => some true
  | ao_dir :: rest => do
    let v1 ← voxels_at_axis voxels axis (right + ao_dir.1) (forward + ao_dir.2) c
    let v2 ← voxels_at_axis voxels axis (right + right_offset + ao_dir.1)
      (forward + forward_offset + ao_dir.2) c
    if solid_check v1 != solid_check v2 then pure false
    else compare_ao_loop_checked voxels axis forward right c forward_offset right_offset rest

/-- The function `compare_ao`, coordinates checked. -/
def compare_ao_checked (voxels : List Nat)
    (axis forward right c forward_offset right_offset : Int) : Option Bool :=
  compare_ao_loop_checked voxels axis forward right c forward_offset right_offset ao_dirs

/-- The function `compare_forward`, coordinates checked. -/
def compare_forward_checked (voxels : List Nat) (axis forward right bit_pos light_dir : Int) :
    Option Bool := do
  let v1 ← voxels_at_axis voxels axis right forward bit_pos
  let v2 ← voxels_at_axis voxels axis right (forward + 1) bit_pos
  if v1 = v2 then compare_ao_checked voxels axis forward right (bit_pos + light_dir) 1 0
  else pure false

/-- The function `compare_right`, coordinates checked. -/
def compare_right_checked (voxels : List Nat) (axis forward right bit_pos light_dir : Int) :
    Option Bool := do
  let v1 ← voxels_at_axis voxels axis right forward bit_pos
  let v2 ← voxels_at_axis voxels axis (right + 1) forward bit_pos
  if v1 = v2 then compare_ao_checked voxels axis forward right (bit_pos + light_dir) 0 1
  else pure false

/-- Body of the `z` loop of step 1, with `axis_cols[CS_P2 * 3]` checked. -/
def cols_z_checked (voxels : List Nat) (y x : Nat) (s : ColState) (z : Nat) :
    Option ColState := do
  let v ← voxels_at voxels s.p
  let s1 ←
    (if solid_check v then do
      let a ← array_get (CS_P2 * 3) s.axis_cols (x + (z * CS_P))
      let c1 ← array_set (CS_P2 * 3) s.axis_cols (x + (z * CS_P)) (a ||| (1 <<< y))
      let b ← array_get (CS_P2 * 3) c1 (z + (y * CS_P) + CS_P2)
      let c2 ← array_set (CS_P2 * 3) c1 (z + (y * CS_P) + CS_P2) (b ||| (1 <<< x))
      pure { s with axis_cols := c2, zb := s.zb ||| (1 <<< z) }
    else pure s)
  pure { s1 with p := s1.p + 1 }

/-- Body of the `x` loop of step 1, with `axis_cols` checked. -/
def cols_x_checked (voxels : List Nat) (y : Nat) (s : ColState) (x : Nat) :
    Option ColState := do
  let s1 ← (List.range CS_P).foldlM (cols_z_checked voxels y x) { s with zb := 0 }
  let c ← array_set (CS_P2 * 3) s1.axis_cols (y + (x * CS_P) + (CS_P2 * 2)) s1.zb
  pure { s1 with axis_cols := c }

/-- Body of the `y` loop of step 1, with `axis_cols` checked. -/
def cols_y_checked (voxels : List Nat) (s : ColState) (y : Nat) : Option ColState :=
  (List.range CS_P).foldlM (cols_x_checked voxels y) s

/-- Step 1 of `mesh`, with `axis_cols` checked. -/
def build_axis_cols_checked (voxels : List Nat) : Option (Nat → Nat) := do
  let s ← (List.range CS_P).foldlM (cols_y_checked voxels)
    { axis_cols := fun _ => 0, p := 0, zb := 0 }
  pure s.axis_cols

/-- Body of the inner loop of step 2, with `axis_cols[CS_P2 * 3]` and
`col_face_masks[CS_P2 * 6]` checked. -/
def cull_i_checked (axis_cols : Nat → Nat) (axis : Nat) (col_face_masks : Nat → Nat) (i : Nat) :
    Option (Nat → Nat) := do
  let col ← array_get (CS_P2 * 3) axis_cols ((CS_P2 * axis) + i)
  let m1 ← array_set (CS_P2 * 6) col_face_masks ((CS_P2 * (axis * 2)) + i)
    (col &&& not64 ((col >>> 1) ||| (1 <<< (CS_P - 1))))
  array_set (CS_P2 * 6) m1 ((CS_P2 * (axis * 2 + 1)) + i) (col &&& not64 (u64 (col <<< 1) ||| 1))

/-- Step 2 of `mesh`, with both arrays checked. -/
def cull_faces_checked (axis_cols : Nat → Nat) : Option (Nat → Nat) :=
  (List.range 3).foldlM
    (fun m axis => (List.range CS_P2).foldlM (cull_i_checked axis_cols axis) m) (fun _ => 0)

/-- Body of the `while (copy_front)` loop, with `merged_forward[CS_P2]` and the voxel
coordinates checked. -/
def front_step_checked (voxels : List Nat) (face forward right : Nat) (s : MeshState)
    (bit_pos : Nat) : Option MeshState := do
  let axis : Int := ((face / 2 : Nat) : Int)
  let light_dir : Int := if face % 2 = 0 then 1 else -1
  if bit_pos = 0 ∨ bit_pos = CS_P - 1 then pure s
  else
    let ok ← compare_forward_checked voxels axis forward right bit_pos light_dir
    if ok then
      let v ← array_get CS_P2 s.merged_forward ((right * CS_P) + bit_pos)
      let mf ← array_set CS_P2 s.merged_forward ((right * CS_P) + bit_pos) (v + 1)
      pure { s with merged_forward := mf }
    else
      pure { s with bits_merging_forward := s.bits_merging_forward &&& not64 (1 <<< bit_pos) }

/-- The rectangle that the run-close branch builds from the values it has read: the
two run counters, the type of the owning voxel and the 8 AO samples. -/
def close_quad (face forward right bit_pos mr mfv type f b l r lfc lbc rfc rbc : Nat) : Quad :=
  let ao_F : Int := if solid_check f then 1 else 0
  let ao_B : Int := if solid_check b then 1 else 0
  let ao_L : Int := if solid_check l then 1 else 0
  let ao_R : Int := if solid_check r then 1 else 0
  let ao_LFC : Int := if solid_check lfc then 1 else 0
  let ao_LBC : Int := if solid_check lbc then 1 else 0
  let ao_RFC : Int := if solid_check rfc then 1 else 0
  let ao_RBC : Int := if solid_check rbc then 1 else 0
  { face := face
    mesh_left := to_u8 ((right : Int) - (mr : Int))
    mesh_right := to_u8 ((right : Int) + 1)
    mesh_front := to_u8 ((forward : Int) - (mfv : Int))
    mesh_back := to_u8 ((forward : Int) + 1)
    mesh_up := to_u8 ((bit_pos : Int) + (if face % 2 = 0 then 1 else 0))
    type := type
    ao_LB := to_u8 (vertexAO ao_L ao_B ao_LBC)
    ao_LF := to_u8 (vertexAO ao_L ao_F ao_LFC)
    ao_RB := to_u8 (vertexAO ao_R ao_B ao_RBC)
    ao_RF := to_u8 (vertexAO ao_R ao_F ao_RFC) }

/-- The walk-right test of the run-close branch, with `merged_forward[CS_P2]` and the
voxel coordinates checked; `&&` evaluates its operands from left to right and stops
at the first that is false. -/
def walk_test_checked (voxels : List Nat) (face forward right bits_merging_right : Nat)
    (s : MeshState) (bit_pos : Nat) : Option Bool := do
  let axis : Int := ((face / 2 : Nat) : Int)
  let light_dir : Int := if face % 2 = 0 then 1 else -1
  if (bits_merging_right &&& (1 <<< bit_pos)) ≠ 0 then
    let a ← array_get CS_P2 s.merged_forward ((right * CS_P) + bit_pos)
    let b ← array_get CS_P2 s.merged_forward ((right + 1) * CS_P + bit_pos)
    if a = b then compare_right_checked voxels axis forward right bit_pos light_dir
    else pure false
  else pure false

/-- The reads of the run-close branch, with `merged_forward[CS_P2]`,
`merged_right[CS_P]` and the voxel coordinates checked, and the rectangle built from
them. -/
def close_quad_checked (voxels : List Nat) (face forward right : Nat) (s : MeshState)
    (bit_pos : Nat) : Option Quad := do
  let axis : Int := ((face / 2 : Nat) : Int)
  let light_dir : Int := if face % 2 = 0 then 1 else -1
  let mr ← array_get CS_P s.merged_right bit_pos
  let mfv ← array_get CS_P2 s.merged_forward ((right * CS_P) + bit_pos)
  let type ← voxels_at_axis voxels axis right forward bit_pos
  let c : Int := (bit_pos : Int) + light_dir
  let f ← voxels_at_axis voxels axis right ((forward : Int) - 1) c
  let b ← voxels_at_axis voxels axis right ((forward : Int) + 1) c
  let l ← voxels_at_axis voxels axis ((right : Int) - 1) forward c
  let r ← voxels_at_axis voxels axis ((right : Int) + 1) forward c
  let lfc ← voxels_at_axis voxels axis ((right : Int) - 1) ((forward : Int) - 1) c
  let lbc ← voxels_at_axis voxels axis ((right : Int) - 1) ((forward : Int) + 1) c
  let rfc ← voxels_at_axis voxels axis ((right : Int) + 1) ((forward : Int) - 1) c
  let rbc ← voxels_at_axis voxels axis ((right : Int) + 1) ((forward : Int) + 1) c
  pure (close_quad face forward right bit_pos mr mfv type f b l r lfc lbc rfc rbc)

/-- Body of the `while (bits_stopped_forward)` loop, with `merged_forward[CS_P2]`,
`merged_right[CS_P]` and the voxel coordinates checked. -/
def stop_step_checked (voxels : List Nat) (face forward right bits_merging_right : Nat)
    (s : MeshState) (bit_pos : Nat) : Option MeshState := do
  if bit_pos = 0 ∨ bit_pos = CS_P - 1 then pure s
  else
    let walk ← walk_test_checked voxels face forward right bits_merging_right s bit_pos
    if walk then
      let mr ← array_get CS_P s.merged_right bit_pos
      let merged_right ← array_set CS_P s.merged_right bit_pos (mr + 1)
      let merged_forward ← array_set CS_P2 s.merged_forward ((right * CS_P) + bit_pos) 0
      pure { s with
        bits_walking_right := s.bits_walking_right ||| (1 <<< bit_pos)
        merged_right := merged_right
        merged_forward := merged_forward }
    else
      let q ← close_quad_checked voxels face forward right s bit_pos
      let merged_forward ← array_set CS_P2 s.merged_forward ((right * CS_P) + bit_pos) 0
      let merged_right ← array_set CS_P s.merged_right bit_pos 0
      pure { s with
        bits_walking_right := s.bits_walking_right &&& not64 (1 <<< bit_pos)
        merged_forward := merged_forward
        merged_right := merged_right
        vertices := emit_quad s.vertices q
        quads := s.quads ++ [q] }

/-- Body of the `right` loop, with `col_face_masks[CS_P2 * 6]` checked. -/
def mesh_cell_checked (voxels : List Nat) (col_face_masks : Nat → Nat) (face forward : Nat)
    (s : MeshState) (right : Nat) : Option MeshState := do
  let bits_here ← array_get (CS_P2 * 6) col_face_masks (right + (forward * CS_P) + (face * CS_P2))
  let bits_forward ←
    (if forward ≥ CS then pure 0
    else array_get (CS_P2 * 6) col_face_masks (right + (forward * CS_P) + (face * CS_P2) + CS_P))
  let bits_right ←
    (if right ≥ CS then pure 0
    else array_get (CS_P2 * 6) col_face_masks (right + 1 + (forward * CS_P) + (face * CS_P2)))
  let bits_merging_forward := bits_here &&& bits_forward &&& not64 s.bits_walking_right
  let bits_merging_right := bits_here &&& bits_right
  let s1 ← (set_bits bits_merging_forward).foldlM (front_step_checked voxels face forward right)
    { s with bits_merging_forward := bits_merging_forward }
  let bits_stopped_forward := bits_here &&& not64 s1.bits_merging_forward
  (set_bits bits_stopped_forward).foldlM
    (stop_step_checked voxels face forward right bits_merging_right) s1

/-- Body of the `forward` loop, every access checked. -/
def mesh_row_checked (voxels : List Nat) (col_face_masks : Nat → Nat) (face : Nat)
    (s : MeshState) (forward : Nat) : Option MeshState :=
  (List.range' 1 (CS_P - 2)).foldlM (mesh_cell_checked voxels col_face_masks face forward)
    { s with bits_walking_right := 0, merged_right := fun _ => 0 }

/-- Body of the `face` loop, every access checked. -/
def mesh_face_checked (voxels : List Nat) (col_face_masks : Nat → Nat) (s : MeshState)
    (face : Nat) : Option MeshState :=
  (List.range' 1 (CS_P - 2)).foldlM (mesh_row_checked voxels col_face_masks face)
    { s with merged_forward := fun _ => 0 }

/-- Steps 1 to 3 of `mesh`, every array access and every voxel coordinate checked: the
result is `none` as soon as an index leaves its array, a coordinate of a
`voxels.at(get_axis_i(...))` read leaves `[0, CS_P - 1]`, or a read of the volume is out
of range. -/
def mesh_run_checked (voxels : List Nat) : Option MeshState := do
  let axis_cols ← build_axis_cols_checked voxels
  let col_face_masks ← cull_faces_checked axis_cols
  (List.range 6).foldlM (mesh_face_checked voxels col_face_masks)
    { merged_forward := fun _ => 0
      merged_right := fun _ => 0
      bits_walking_right := 0
      bits_merging_forward := 0
      vertices := []
      quads := [] }

/-- A list of rectangles covers every visible face of an interior voxel exactly once,
covers nothing else, and each of its rectangles covers unit faces of one material id
and one AO pattern only (one face direction and one plane by construction). -/
structure ValidCover (voxels : List Nat) (R : List Quad) : Prop where
  once : ∀ face p fw r, face < 6 → (1 ≤ p ∧ p ≤ CS) → (1 ≤ fw ∧ fw ≤ CS) → (1 ≤ r ∧ r ≤ CS) →
    unit_face voxels face fw r p → R.countP (covers_face face p fw r) = 1
  faces : ∀ q ∈ R, ∀ p fw r, covers_face q.face p fw r q = true →
    q.face < 6 ∧ (1 ≤ p ∧ p ≤ CS) ∧ (1 ≤ fw ∧ fw ≤ CS) ∧ (1 ≤ r ∧ r ≤ CS) ∧
      unit_face voxels q.face fw r p
  uniform : ∀ q ∈ R, ∀ p fw r fw' r', covers_face q.face p fw r q = true →
    covers_face q.face p fw' r' q = true →
    cell_type voxels q.face p fw r = cell_type voxels q.face p fw' r' ∧
      ao_pattern voxels q.face p fw r = ao_pattern voxels q.face p fw' r'

/-- Two rectangles lie side by side on one plane, so that their union is a rectangle:
the second continues the first to the right or forward. -/
def Quad.joins (q1 q2 : Quad) : Prop :=
  q1.face = q2.face ∧ q1.mesh_up = q2.mesh_up ∧
    ((q1.mesh_front = q2.mesh_front ∧ q1.mesh_back = q2.mesh_back ∧
        q1.mesh_right = q2.mesh_left) ∨
      (q1.mesh_left = q2.mesh_left ∧ q1.mesh_right = q2.mesh_right ∧
        q1.mesh_back = q2.mesh_front))

/-- All unit faces covered by one of two rectangles of one face direction have one
material id and one AO pattern. -/
def uniform_pair (voxels : List Nat) (q1 q2 : Quad) : Prop :=
  ∀ p fw r fw' r',
    (covers_face q1.face p fw r q1 = true ∨ covers_face q1.face p fw r q2 = true) →
    (covers_face q1.face p fw' r' q1 = true ∨ covers_face q1.face p fw' r' q2 = true) →
    cell_type voxels q1.face p fw r = cell_type voxels q1.face p fw' r' ∧
      ao_pattern voxels q1.face p fw r = ao_pattern voxels q1.face p fw' r'

/-- The cells `(forward, right)` of a step of four unit faces: `(5, 6)`, `(5, 7)`,
`(6, 5)` and `(6, 6)`. -/
def step_cell (fw r : Nat) : Prop :=
  (fw = 5 ∧ (r = 6 ∨ r = 7)) ∨ (fw = 6 ∧ (r = 5 ∨ r = 6))

instance step_cell_decidable (fw r : Nat) : Decidable (step_cell fw r) := by
  unfold step_cell
  exact inferInstance

/-- The volume with four solid voxels of material 1, in the layer `y = 5`: those at
`(x, z) = (6, 5), (7, 5), (5, 6), (6, 6)`. -/
def step_volume : List Nat :=
  (List.range CS_P3).map (fun i =>
    if i / CS_P2 = 5 ∧ step_cell (i % CS_P) (i / CS_P % CS_P) then 1 else 0)

/-- Is the rectangle on the plane of the step (face 0, `mesh_up = 6`)? -/
def on_step_plane (q : Quad) : Bool := decide (q.face = 0 ∧ q.mesh_up = 6)

/-- The rectangle over the cells `(5, 6)` and `(5, 7)` of the step. -/
def step_rect_a : Quad :=
  { face := 0, mesh_left := 6, mesh_right := 8, mesh_front := 5, mesh_back := 6, mesh_up := 6,
    type := 1, ao_LB := 3, ao_LF := 3, ao_RB := 3, ao_RF := 3 }

/-- The rectangle over the cells `(6, 5)` and `(6, 6)` of the step. -/
def step_rect_b : Quad :=
  { face := 0, mesh_left := 5, mesh_right := 7, mesh_front := 6, mesh_back := 7, mesh_up := 6,
    type := 1, ao_LB := 3, ao_LF := 3, ao_RB := 3, ao_RF := 3 }

/-- The rectangles of `mesh` outside the plane of the step, and two rectangles on it. -/
def step_cover : List Quad :=
  (all_quads step_volume).filter (fun q => !on_step_plane q) ++ [step_rect_a, step_rect_b]

/-- The plane coordinates `(forward, right)` of a position `(x, y, z)` on a face:
`get_axis_i` reads `forward = z, right = x` on axis 0, `forward = y, right = z` on
axis 1 and `forward = x, right = y` on axis 2. -/
def plane_corner (face : Nat) (pos : Nat × Nat × Nat) : Nat × Nat :=
  if face / 2 = 0 then (pos.2.2, pos.1)
  else if face / 2 = 1 then (pos.2.1, pos.2.2)
  else (pos.1, pos.2.1)

/-- The words of the first triangle of a quad that occur in its second triangle too:
the ends of the edge that the two triangles share. -/
def shared_edge (vs : List Nat) : List Nat :=
  (vs.take 3).filter (fun w => decide (w ∈ vs.drop 3))

/-- The plane coordinates `(forward, right)` of the ends of the shared edge of a
rectangle, decoded from its six words. -/
def shared_corners (q : Quad) : List (Nat × Nat) :=
  (shared_edge (quad_vertices q)).map
    (fun w => plane_corner q.face (decode_x w, decode_y w, decode_z w))

/-- The volume with two solid voxels of material 7: one at `(x, y, z) = (5, 6, 8)` and
one at `(4, 5, 7)`, which touches the left-front corner of the downward face of the
first. -/
def corner_volume : List Nat :=
  (List.range CS_P3).map (fun i =>
    if (i / CS_P % CS_P = 5 ∧ i / CS_P2 = 6 ∧ i % CS_P = 8) ∨
        (i / CS_P % CS_P = 4 ∧ i / CS_P2 = 5 ∧ i % CS_P = 7) then 7 else 0)

/-- The coordinate of a position `(x, y, z)` along the normal of a face: `get_axis_i`
reads the bit position as `y` on axis 0, as `x` on axis 1 and as `z` on axis 2. -/
def plane_height (face : Nat) (pos : Nat × Nat × Nat) : Nat :=
  if face / 2 = 0 then pos.2.1
  else if face / 2 = 1 then pos.1
  else pos.2.2

/-- What a consumer reads from a vertex word of a face: the corner `(forward, right)`
of the plane at which the vertex lies, its coordinate along the face normal, and its
AO level. -/
def decoded_corner (face w : Nat) : (Nat × Nat) × Nat × Nat :=
  (plane_corner face (decode_x w, decode_y w, decode_z w),
    plane_height face (decode_x w, decode_y w, decode_z w), decode_ao w)

/-- The four corners of a rectangle with the AO levels `(LB, LF, RB, RF)` of a unit
face: left-front, left-back, right-back and right-front, each as the plane position
`(forward, right)`, the coordinate along the normal, and the level of that corner. -/
def corner_levels (q : Quad) (ao : Nat × Nat × Nat × Nat) : List ((Nat × Nat) × Nat × Nat) :=
  [((q.mesh_front, q.mesh_left), q.mesh_up, ao.2.1),
   ((q.mesh_back, q.mesh_left), q.mesh_up, ao.1),
   ((q.mesh_back, q.mesh_right), q.mesh_up, ao.2.2.1),
   ((q.mesh_front, q.mesh_right), q.mesh_up, ao.2.2.2)]

/-- The volume with a row of four solid voxels of material 7 at `y = 5, z = 5`,
`x = 5 .. 8`, and one more voxel of material 7 at `(9, 6, 4)`, which touches only the
right-front corner of the upward face of the voxel at `x = 8`. -/
def run_volume : List Nat :=
  (List.range CS_P3).map (fun i =>
    if (i / CS_P2 = 5 ∧ i % CS_P = 5 ∧ 5 ≤ i / CS_P % CS_P ∧ i / CS_P % CS_P ≤ 8) ∨
        (i / CS_P % CS_P = 9 ∧ i / CS_P2 = 6 ∧ i % CS_P = 4) then 7 else 0)

/-! # Theorems -/

/-! ## Bit-level facts -/

theorem testBit_of_lt64 {a i : Nat} (ha : a < 2 ^ 64) (hi : 64 ≤ i) : a.testBit i = false :=
  Nat.testBit_lt_two_pow (Nat.lt_of_lt_of_le ha (Nat.pow_le_pow_right (by decide) hi))

theorem testBit_not64 (x i : Nat) (hi : i < 64) : (not64 x).testBit i = !x.testBit i := by
  show ((2 ^ 64 - 1) ^^^ x).testBit i = _
  rw [Nat.testBit_xor, Nat.testBit_two_pow_sub_one]
  simp [hi]

theorem testBit_and_not64 {a : Nat} (b i : Nat) (ha : a < 2 ^ 64) :
    (a &&& not64 b).testBit i = (a.testBit i && !b.testBit i) := by
  by_cases hi : i < 64
  · simp [testBit_not64 _ _ hi]
  · simp [testBit_of_lt64 ha (Nat.le_of_not_lt hi)]

theorem testBit_one_shiftLeft (b i : Nat) : (1 <<< b).testBit i = decide (b = i) := by
  rw [Nat.one_shiftLeft, Nat.testBit_two_pow]

theorem and_not64_lt {a : Nat} (b : Nat) (ha : a < 2 ^ 64) : a &&& not64 b < 2 ^ 64 :=
  Nat.lt_of_le_of_lt Nat.and_le_left ha

theorem CTZ_go_spec (x : Nat) : ∀ (fuel i j : Nat), i ≤ j → j < i + fuel → x.testBit j = true →
    x.testBit (CTZ.go x fuel i) = true ∧ i ≤ CTZ.go x fuel i ∧ CTZ.go x fuel i ≤ j ∧
      ∀ k, i ≤ k → k < CTZ.go x fuel i → x.testBit k = false := by
  intro fuel
  induction fuel with
  | zero => intro i j h1 h2; omega
  | succ n ih =>
    intro i j h1 h2 hj
    have e : CTZ.go x (n + 1) i = if x.testBit i then i else CTZ.go x n (i + 1) := rfl
    rw [e]
    by_cases hi : x.testBit i = true
    · rw [if_pos hi]
      exact ⟨hi, Nat.le_refl _, h1, fun k hk1 hk2 => by omega⟩
    · rw [if_neg hi]
      have hne : i ≠ j := fun h => hi (h ▸ hj)
      obtain ⟨a, b, c, d⟩ := ih (i + 1) j (by omega) (by omega) hj
      refine ⟨a, by omega, c, fun k hk1 hk2 => ?_⟩
      by_cases hk : k = i
      · subst hk; simpa using hi
      · exact d k (by omega) hk2

theorem CTZ_spec {w : Nat} (hw : w < 2 ^ 64) (h0 : w ≠ 0) :
    w.testBit (CTZ w) = true ∧ CTZ w < 64 ∧ ∀ k, k < CTZ w → w.testBit k = false := by
  obtain ⟨j, hj⟩ := Nat.ne_zero_implies_bit_true h0
  have hj64 : j < 64 := by
    by_contra h
    rw [testBit_of_lt64 hw (Nat.le_of_not_lt h)] at hj
    exact Bool.false_ne_true hj
  obtain ⟨a, _, c, d⟩ := CTZ_go_spec w 64 0 j (Nat.zero_le _) (by omega) hj
  exact ⟨a, by unfold CTZ; omega, fun k hk => d k (Nat.zero_le _) hk⟩

theorem set_bits_go_spec : ∀ (fuel k w : Nat), k ≤ 64 → 64 ≤ fuel + k → w < 2 ^ 64 →
    (∀ i, i < k → w.testBit i = false) →
    set_bits.go fuel w = (List.range' k (64 - k)).filter (fun i => w.testBit i) := by
  intro fuel
  induction fuel with
  | zero =>
    intro k w hk hf _ _
    have : k = 64 := by omega
    subst this
    simp [set_bits.go]
  | succ n ih =>
    intro k w hk hf hw hlow
    unfold set_bits.go
    by_cases h0 : w = 0
    · subst h0; simp
    · simp only [h0, if_false]
      obtain ⟨hb, hb64, hmin⟩ := CTZ_spec hw h0
      have hkb : k ≤ CTZ w := by
        by_contra h
        rw [hlow _ (Nat.lt_of_not_le h)] at hb
        exact Bool.false_ne_true hb
      have hsplit : List.range' k (64 - k) =
          List.range' k (CTZ w - k) ++ CTZ w :: List.range' (CTZ w + 1) (64 - (CTZ w + 1)) := by
        have h1 : 64 - k = ((64 - (CTZ w + 1)) + 1) + (CTZ w - k) := by omega
        have h3 : k + (CTZ w - k) = CTZ w := by omega
        rw [h1, ← List.range'_append_1 k (CTZ w - k) (64 - (CTZ w + 1) + 1), h3, List.range'_succ]
      have hw' : w &&& not64 (1 <<< CTZ w) < 2 ^ 64 := and_not64_lt _ hw
      rw [ih (CTZ w + 1) _ (by omega) (by omega) hw', hsplit, List.filter_append,
        List.filter_cons, hb]
      · have hnil : List.filter (fun i => w.testBit i) (List.range' k (CTZ w - k)) = [] := by
          rw [List.filter_eq_nil_iff]
          intro a ha
          rw [List.mem_range'_1] at ha
          simp [hmin a (by omega)]
        rw [hnil]
        simp only [List.nil_append, if_true, List.cons.injEq, true_and]
        apply List.filter_congr
        intro a ha
        rw [List.mem_range'_1] at ha
        rw [testBit_and_not64 _ _ hw, testBit_one_shiftLeft]
        have : ¬ (CTZ w = a) := by omega
        simp [this]
      · intro i hi
        rw [testBit_and_not64 _ _ hw, testBit_one_shiftLeft]
        by_cases hic : i = CTZ w
        · subst hic; simp
        · simp [hmin i (by omega)]

theorem set_bits_eq {w : Nat} (hw : w < 2 ^ 64) :
    set_bits w = (List.range 64).filter (fun i => w.testBit i) := by
  unfold set_bits
  rw [set_bits_go_spec 64 0 w (by omega) (by omega) hw (fun i hi => by omega),
    List.range_eq_range']

/-! ## Loop rules -/

theorem foldlM_range'_inv {σ : Type} (f : σ → Nat → Option σ) (P : Nat → σ → Prop) (a : Nat) :
    ∀ (n : Nat) (s0 : σ), P a s0 →
      (∀ k s, a ≤ k → k < a + n → P k s → ∃ s', f s k = some s' ∧ P (k + 1) s') →
      ∃ s', (List.range' a n).foldlM f s0 = some s' ∧ P (a + n) s' := by
  intro n
  induction n with
  | zero => intro s0 h0 _; exact ⟨s0, by simp, by simpa using h0⟩
  | succ n ih =>
    intro s0 h0 hstep
    obtain ⟨s1, h1, hP1⟩ := ih s0 h0 (fun k s hk1 hk2 hP => hstep k s hk1 (by omega) hP)
    obtain ⟨s2, h2, hP2⟩ := hstep (a + n) s1 (by omega) (by omega) hP1
    refine ⟨s2, ?_, by simpa [Nat.add_assoc] using hP2⟩
    rw [List.range'_1_concat, List.foldlM_append, h1]
    simp [h2]

theorem foldlM_range_inv {σ : Type} (f : σ → Nat → Option σ) (P : Nat → σ → Prop)
    (n : Nat) (s0 : σ) (h0 : P 0 s0)
    (hstep : ∀ k s, k < n → P k s → ∃ s', f s k = some s' ∧ P (k + 1) s') :
    ∃ s', (List.range n).foldlM f s0 = some s' ∧ P n s' := by
  rw [List.range_eq_range']
  obtain ⟨s', h, hP⟩ := foldlM_range'_inv f P 0 n s0 h0
    (fun k s _ hk hP => hstep k s (by omega) hP)
  exact ⟨s', h, by simpa using hP⟩

theorem foldl_range_inv {σ : Type} (f : σ → Nat → σ) (P : Nat → σ → Prop)
    (n : Nat) (s0 : σ) (h0 : P 0 s0)
    (hstep : ∀ k s, k < n → P k s → P (k + 1) (f s k)) :
    P n ((List.range n).foldl f s0) := by
  induction n with
  | zero => simpa using h0
  | succ n ih =>
    rw [List.range_succ, List.foldl_append]
    exact hstep n _ (by omega) (ih (fun k s hk hP => hstep k s (by omega) hP))

/-! ## Reading the volume -/

theorem voxels_at_nat {voxels : List Nat} {i : Nat} (h : i < voxels.length) :
    voxels_at voxels (i : Int) = some (voxels.getD i 0) := by
  unfold voxels_at
  simp [List.getD, List.getElem?_eq_getElem h]

theorem voxels_at_of_toNat {voxels : List Nat} {i : Int} (h0 : 0 ≤ i)
    (h : i.toNat < voxels.length) :
    voxels_at voxels i = some (voxels.getD i.toNat 0) := by
  have := voxels_at_nat h
  rwa [Int.toNat_of_nonneg h0] at this

/-! ## Step 1 -/

theorem cols_z_inv (voxels : List Nat) (hlen : voxels.length = CS_P3) (y x k : Nat)
    (hy : y < 64) (hx : x < 64) (hk : k < 64) (s : ColState)
    (h : ColInv voxels y x k s ∧
      ∀ c, s.zb.testBit c = (decide (c < k) && solid_at voxels (c + x * 64 + y * 4096))) :
    ∃ s', cols_z voxels y x s k = some s' ∧ ColInv voxels y x (k + 1) s' ∧
      ∀ c, s'.zb.testBit c = (decide (c < k + 1) && solid_at voxels (c + x * 64 + y * 4096)) := by
  obtain ⟨⟨hp, a0, a1, a2⟩, hz⟩ := h
  have hlt : s.p < voxels.length := by rw [hlen, hp]; show _ < 262144; omega
  unfold cols_z
  rw [voxels_at_nat hlt]
  simp only [Option.bind_eq_bind, Option.some_bind, Option.pure_def]
  refine ⟨_, rfl, ?_, ?_⟩
  · by_cases hs : solid_check ((voxels.getD s.p 0 : Nat) : Int) = true
    · have hsa : solid_at voxels (k + x * 64 + y * 4096) = true := by rw [← hp]; exact hs
      simp only [hs, if_true]
      constructor
      · simp [hp]; omega
      · intro r f c hr hf
        have e1 : r + f * 64 ≠ k + y * 64 + 4096 := by omega
        simp only [Function.update_noteq e1]
        by_cases e2 : r + f * 64 = x + k * 64
        · have hrx : r = x := by omega
          have hfk : f = k := by omega
          subst hrx; subst hfk
          simp only [Function.update_same, Nat.testBit_or, a0 r f c hr hf, testBit_one_shiftLeft, hp]
          by_cases hcy : y = c
          · subst hcy; simp [hsa, hy]
          · have : (f + r * 64 + c * 4096 < f + r * 64 + y * 4096 + 1) ↔
                (f + r * 64 + c * 4096 < f + r * 64 + y * 4096) := by omega
            simp [hcy, this]
        · simp only [Function.update_noteq e2, a0 r f c hr hf, hp]
          by_cases hc : c < 64
          · have : (f + r * 64 + c * 4096 < k + x * 64 + y * 4096 + 1) ↔
                (f + r * 64 + c * 4096 < k + x * 64 + y * 4096) := by omega
            simp [this]
          · simp [hc]
      · intro r f c hr hf
        by_cases e2 : r + f * 64 + 4096 = k + y * 64 + 4096
        · have hrk : r = k := by omega
          have hfy : f = y := by omega
          subst hrk; subst hfy
          have e1 : r + f * 64 + 4096 ≠ x + r * 64 := by omega
          simp only [Function.update_same, Function.update_noteq e1, Nat.testBit_or,
            a1 r f c hr hf, testBit_one_shiftLeft, hp]
          by_cases hcx : x = c
          · subst hcx; simp [hsa, hx]
          · have : (r + c * 64 + f * 4096 < r + x * 64 + f * 4096 + 1) ↔
                (r + c * 64 + f * 4096 < r + x * 64 + f * 4096) := by omega
            simp [hcx, this]
        · have e1 : r + f * 64 + 4096 ≠ x + k * 64 := by omega
          simp only [Function.update_noteq e2, Function.update_noteq e1, a1 r f c hr hf, hp]
          by_cases hc : c < 64
          · have : (r + c * 64 + f * 4096 < k + x * 64 + y * 4096 + 1) ↔
                (r + c * 64 + f * 4096 < k + x * 64 + y * 4096) := by omega
            simp [this]
          · simp [hc]
      · intro r f c hr hf
        have e1 : r + f * 64 + 8192 ≠ k + y * 64 + 4096 := by omega
        have e2 : r + f * 64 + 8192 ≠ x + k * 64 := by omega
        simp only [Function.update_noteq e1, Function.update_noteq e2, a2 r f c hr hf]
    · have hsa : solid_at voxels (k + x * 64 + y * 4096) = false := by
        rw [← hp]; simpa [solid_at] using hs
      simp only [hs, Bool.false_eq_true, if_false]
      constructor
      · simp [hp]; omega
      · intro r f c hr hf
        simp only [a0 r f c hr hf, hp]
        by_cases e : f + r * 64 + c * 4096 = k + x * 64 + y * 4096
        · rw [e, hsa]; simp
        · have : (f + r * 64 + c * 4096 < k + x * 64 + y * 4096 + 1) ↔
              (f + r * 64 + c * 4096 < k + x * 64 + y * 4096) := by omega
          simp [this]
      · intro r f c hr hf
        simp only [a1 r f c hr hf, hp]
        by_cases e : r + c * 64 + f * 4096 = k + x * 64 + y * 4096
        · rw [e, hsa]; simp
        · have : (r + c * 64 + f * 4096 < k + x * 64 + y * 4096 + 1) ↔
              (r + c * 64 + f * 4096 < k + x * 64 + y * 4096) := by omega
          simp [this]
      · intro r f c hr hf
        simp only [a2 r f c hr hf]
  · intro c
    by_cases hs : solid_check ((voxels.getD s.p 0 : Nat) : Int) = true
    · have hsa : solid_at voxels (k + x * 64 + y * 4096) = true := by rw [← hp]; exact hs
      simp only [hs, if_true, Nat.testBit_or, hz c, testBit_one_shiftLeft]
      by_cases hck : k = c
      · subst hck; simp [hsa]
      · have : (c < k + 1) ↔ (c < k) := by omega
        simp [hck, this]
    · have hsa : solid_at voxels (k + x * 64 + y * 4096) = false := by
        rw [← hp]; simpa [solid_at] using hs
      simp only [hs, Bool.false_eq_true, if_false, hz c]
      by_cases hck : c = k
      · subst hck; simp [hsa]
      · have : (c < k + 1) ↔ (c < k) := by omega
        simp [this]

theorem cols_x_inv (voxels : List Nat) (hlen : voxels.length = CS_P3) (y x : Nat)
    (hy : y < 64) (hx : x < 64) (s : ColState) (h : ColInv voxels y x 0 s) :
    ∃ s', cols_x voxels y s x = some s' ∧ ColInv voxels y (x + 1) 0 s' := by
  obtain ⟨s1, h1, hc, hz⟩ := foldlM_range_inv (cols_z voxels y x)
    (fun k s => ColInv voxels y x k s ∧
      ∀ c, s.zb.testBit c = (decide (c < k) && solid_at voxels (c + x * 64 + y * 4096)))
    64 { s with zb := 0 }
    ⟨⟨h.hp, h.a0, h.a1, h.a2⟩, fun c => by simp⟩
    (fun k s hk hP => cols_z_inv voxels hlen y x k hy hx hk s hP)
  unfold cols_x
  rw [h1]
  simp only [Option.bind_eq_bind, Option.some_bind, Option.pure_def]
  refine ⟨_, rfl, ?_⟩
  obtain ⟨hp, a0, a1, a2⟩ := hc
  constructor
  · show s1.p = _
    rw [hp]; omega
  · intro r f c hr hf
    have e : r + f * 64 ≠ y + x * 64 + 4096 * 2 := by omega
    simp only [Function.update_noteq e, a0 r f c hr hf]
  · intro r f c hr hf
    have e : r + f * 64 + 4096 ≠ y + x * 64 + 4096 * 2 := by omega
    simp only [Function.update_noteq e, a1 r f c hr hf]
  · intro r f c hr hf
    by_cases e : r + f * 64 + 8192 = y + x * 64 + 4096 * 2
    · have hry : r = y := by omega
      have hfx : f = x := by omega
      subst hry; subst hfx
      rw [show r + f * 64 + 8192 = r + f * CS_P + CS_P2 * 2 from rfl]
      simp only [Function.update_same, hz c]
      have : f * 64 + r * 4096 < (f + 1) * 64 + r * 4096 := by omega
      simp [this]
    · simp only [Function.update_noteq e, a2 r f c hr hf]
      have : (f * 64 + r * 4096 < (x + 1) * 64 + y * 4096) ↔
          (f * 64 + r * 4096 < x * 64 + y * 4096) := by omega
      simp [this]

theorem cols_y_inv (voxels : List Nat) (hlen : voxels.length = CS_P3) (y : Nat)
    (hy : y < 64) (s : ColState) (h : ColInv voxels y 0 0 s) :
    ∃ s', cols_y voxels s y = some s' ∧ ColInv voxels (y + 1) 0 0 s' := by
  obtain ⟨s1, h1, hc⟩ := foldlM_range_inv (cols_x voxels y)
    (fun k s => ColInv voxels y k 0 s) 64 s h
    (fun k s hk hP => cols_x_inv voxels hlen y k hy hk s hP)
  refine ⟨s1, h1, ?_⟩
  obtain ⟨hp, a0, a1, a2⟩ := hc
  refine ⟨by rw [hp]; omega, a0, a1, fun r f c hr hf => ?_⟩
  rw [a2 r f c hr hf]
  have : (f * 64 + r * 4096 < 64 * 64 + y * 4096) ↔
      (f * 64 + r * 4096 < 0 * 64 + (y + 1) * 4096) := by omega
  simp [this]

theorem get_axis_i_nat (axis a b c : Nat) :
    get_axis_i (axis : Int) (a : Int) (b : Int) (c : Int) = ((axis_idx axis a b c : Nat) : Int) := by
  unfold get_axis_i axis_idx
  by_cases h0 : axis = 0
  · subst h0; simp
  · by_cases h1 : axis = 1
    · subst h1; simp
    · have e0 : ¬ ((axis : Int) = 0) := by omega
      have e1 : ¬ ((axis : Int) = 1) := by omega
      simp [h0, h1, e0, e1]

theorem axis_idx_lt {axis a b c : Nat} (ha : a < 64) (hb : b < 64) (hc : c < 64) :
    axis_idx axis a b c < 262144 := by
  unfold axis_idx
  split
  · omega
  · split <;> omega

theorem build_axis_cols_spec (voxels : List Nat) (hlen : voxels.length = CS_P3) :
    ∃ ac, build_axis_cols voxels = some ac ∧
      ∀ axis r f c, axis < 3 → r < 64 → f < 64 →
        (ac (r + f * 64 + axis * 4096)).testBit c =
          (decide (c < 64) && solid_at voxels (axis_idx axis r f c)) := by
  obtain ⟨s1, h1, hc⟩ := foldlM_range_inv (cols_y voxels)
    (fun k s => ColInv voxels k 0 0 s) 64 { axis_cols := fun _ => 0, p := 0, zb := 0 }
    ⟨rfl, fun r f c _ _ => by simp, fun r f c _ _ => by simp, fun r f c _ _ => by simp⟩
    (fun k s hk hP => cols_y_inv voxels hlen k hk s hP)
  unfold build_axis_cols
  rw [h1]
  refine ⟨s1.axis_cols, rfl, ?_⟩
  obtain ⟨hp, a0, a1, a2⟩ := hc
  intro axis r f c hax hr hf
  by_cases hc64 : c < 64
  · have hax3 : axis = 0 ∨ axis = 1 ∨ axis = 2 := by omega
    rcases hax3 with h | h | h <;> subst h
    · have := a0 r f c hr hf
      simp only [Nat.zero_mul, Nat.add_zero]
      rw [this, hp]
      have : f + r * 64 + c * 4096 < 0 + 0 * 64 + 64 * 4096 := by omega
      simp [axis_idx, this, hc64]
    · have := a1 r f c hr hf
      simp only [Nat.one_mul]
      rw [this, hp]
      have : r + c * 64 + f * 4096 < 0 + 0 * 64 + 64 * 4096 := by omega
      simp [axis_idx, this, hc64]
    · have := a2 r f c hr hf
      rw [this]
      have : f * 64 + r * 4096 < 0 * 64 + 64 * 4096 := by omega
      simp [axis_idx, this, hc64]
  · have hax3 : axis = 0 ∨ axis = 1 ∨ axis = 2 := by omega
    rcases hax3 with h | h | h <;> subst h
    · have := a0 r f c hr hf
      simp only [Nat.zero_mul, Nat.add_zero]
      rw [this]; simp [hc64]
    · have := a1 r f c hr hf
      simp only [Nat.one_mul]
      rw [this]; simp [hc64]
    · have := a2 r f c hr hf
      rw [this]; simp [hc64]

/-! ## Step 2 -/

theorem cull_inner (ac : Nat → Nat) (a : Nat) (m0 : Nat → Nat) (n : Nat) (hn : n ≤ 4096) :
    (∀ i, i < n →
      (List.range n).foldl (cull_i ac a) m0 (4096 * (a * 2) + i) = pos_mask (ac (4096 * a + i)) ∧
      (List.range n).foldl (cull_i ac a) m0 (4096 * (a * 2 + 1) + i) =
        neg_mask (ac (4096 * a + i))) ∧
    (∀ j, (j < 4096 * (a * 2) ∨ 4096 * (a * 2 + 2) ≤ j) →
      (List.range n).foldl (cull_i ac a) m0 j = m0 j) := by
  induction n with
  | zero => exact ⟨fun i hi => by omega, fun j _ => by simp⟩
  | succ n ih =>
    obtain ⟨ih1, ih2⟩ := ih (by omega)
    rw [List.range_succ, List.foldl_append]
    simp only [List.foldl_cons, List.foldl_nil]
    constructor
    · intro i hi
      by_cases hin : i = n
      · subst hin
        have e : 4096 * (a * 2) + i ≠ 4096 * (a * 2 + 1) + i := by omega
        constructor
        · show Function.update (Function.update _ _ _) _ _ _ = _
          rw [Function.update_noteq e, Function.update_same]; rfl
        · show Function.update (Function.update _ _ _) _ _ _ = _
          rw [Function.update_same]; rfl
      · have e1 : 4096 * (a * 2) + i ≠ 4096 * (a * 2 + 1) + n := by omega
        have e2 : 4096 * (a * 2) + i ≠ 4096 * (a * 2) + n := by omega
        have e3 : 4096 * (a * 2 + 1) + i ≠ 4096 * (a * 2 + 1) + n := by omega
        have e4 : 4096 * (a * 2 + 1) + i ≠ 4096 * (a * 2) + n := by omega
        obtain ⟨h1, h2⟩ := ih1 i (by omega)
        constructor
        · show Function.update (Function.update _ _ _) _ _ _ = _
          rw [Function.update_noteq e1, Function.update_noteq e2, h1]
        · show Function.update (Function.update _ _ _) _ _ _ = _
          rw [Function.update_noteq e3, Function.update_noteq e4, h2]
    · intro j hj
      have e1 : j ≠ 4096 * (a * 2 + 1) + n := by omega
      have e2 : j ≠ 4096 * (a * 2) + n := by omega
      show Function.update (Function.update _ _ _) _ _ _ = _
      rw [Function.update_noteq e1, Function.update_noteq e2, ih2 j hj]

theorem cull_faces_spec (ac : Nat → Nat) (a i : Nat) (ha : a < 3) (hi : i < 4096) :
    cull_faces ac (4096 * (a * 2) + i) = pos_mask (ac (4096 * a + i)) ∧
    cull_faces ac (4096 * (a * 2 + 1) + i) = neg_mask (ac (4096 * a + i)) := by
  have key := foldl_range_inv
    (fun m axis => (List.range CS_P2).foldl (cull_i ac axis) m)
    (fun k m => ∀ b i, b < k → i < 4096 →
      m (4096 * (b * 2) + i) = pos_mask (ac (4096 * b + i)) ∧
      m (4096 * (b * 2 + 1) + i) = neg_mask (ac (4096 * b + i)))
    3 (fun _ => 0) (fun b i hb _ => by omega)
    (fun k m _ hP b i hb hi => by
      obtain ⟨h1, h2⟩ := cull_inner ac k m 4096 (Nat.le_refl _)
      by_cases hbk : b = k
      · subst hbk; exact h1 i hi
      · obtain ⟨p1, p2⟩ := hP b i (by omega) hi
        show (List.range 4096).foldl (cull_i ac k) m _ = _ ∧
          (List.range 4096).foldl (cull_i ac k) m _ = _
        rw [h2 _ (by omega), h2 _ (by omega)]
        exact ⟨p1, p2⟩)
  exact key a i ha hi

theorem testBit_pos_mask {col : Nat} (hcol : col < 2 ^ 64) (p : Nat) :
    (pos_mask col).testBit p = (col.testBit p && !col.testBit (p + 1) && decide (p ≠ 63)) := by
  unfold pos_mask
  rw [testBit_and_not64 _ _ hcol, Nat.testBit_or, Nat.testBit_shiftRight, testBit_one_shiftLeft]
  have : (1 + p) = p + 1 := by omega
  rw [this]
  by_cases h : p = 63
  · subst h; simp
  · have h' : ¬ (63 = p) := fun e => h e.symm
    simp [h, h']

theorem testBit_neg_mask {col : Nat} (hcol : col < 2 ^ 64) (p : Nat) :
    (neg_mask col).testBit p = (col.testBit p && !col.testBit (p - 1) && decide (p ≠ 0)) := by
  unfold neg_mask u64
  rw [testBit_and_not64 _ _ hcol, Nat.testBit_or, Nat.testBit_mod_two_pow, Nat.testBit_shiftLeft]
  by_cases h : p = 0
  · subst h; simp
  · by_cases h64 : p < 64
    · have h1 : p ≥ 1 := by omega
      have h2 : Nat.testBit 1 p = false := by
        rw [show (1 : Nat) = 1 <<< 0 from rfl, testBit_one_shiftLeft]
        simp; omega
      simp [h, h64, h1, h2]
    · simp [testBit_of_lt64 hcol (Nat.le_of_not_lt h64)]

theorem masks_spec (voxels : List Nat) (hlen : voxels.length = CS_P3) :
    ∃ ac, build_axis_cols voxels = some ac ∧
      ∀ face r f p, face < 6 → r < 64 → f < 64 →
        (cull_faces ac (r + (f * CS_P) + (face * CS_P2))).testBit p =
          (decide (p < 64) && visible voxels face f r p) := by
  obtain ⟨ac, hac, hbits⟩ := build_axis_cols_spec voxels hlen
  refine ⟨ac, hac, ?_⟩
  intro face r f p hface hr hf
  have hcol : ac (4096 * (face / 2) + (r + f * 64)) < 2 ^ 64 := by
    apply Nat.lt_pow_two_of_testBit
    intro i hi
    have := hbits (face / 2) r f i (by omega) hr hf
    rw [show 4096 * (face / 2) + (r + f * 64) = r + f * 64 + face / 2 * 4096 by omega, this]
    have : ¬ (i < 64) := by omega
    simp [this]
  have hb : ∀ c, (ac (4096 * (face / 2) + (r + f * 64))).testBit c =
      (decide (c < 64) && solid_at voxels (axis_idx (face / 2) r f c)) := by
    intro c
    rw [show 4096 * (face / 2) + (r + f * 64) = r + f * 64 + face / 2 * 4096 by omega]
    exact hbits (face / 2) r f c (by omega) hr hf
  obtain ⟨h1, h2⟩ := cull_faces_spec ac (face / 2) (r + f * 64) (by omega) (by omega)
  by_cases hev : face % 2 = 0
  · have e : r + (f * CS_P) + (face * CS_P2) = 4096 * (face / 2 * 2) + (r + f * 64) := by
      show r + f * 64 + face * 4096 = _
      omega
    rw [e, h1, testBit_pos_mask hcol, hb, hb]
    unfold visible
    by_cases hp : p < 63
    · have : p + 1 < 64 := by omega
      have hp' : p < 64 := by omega
      have : p ≠ 63 := by omega
      simp [*]
    · by_cases hp63 : p = 63
      · subst hp63; simp [hev]
      · have : ¬ (p < 64) := by omega
        simp [this]
  · have e : r + (f * CS_P) + (face * CS_P2) = 4096 * (face / 2 * 2 + 1) + (r + f * 64) := by
      show r + f * 64 + face * 4096 = _
      omega
    rw [e, h2, testBit_neg_mask hcol, hb, hb]
    unfold visible
    by_cases hp : p = 0
    · subst hp; simp [hev]
    · by_cases hp64 : p < 64
      · have : p - 1 < 64 := by omega
        have : 0 < p := by omega
        simp [*]
      · simp [hp64]

/-! ## Pure reads -/

theorem get_axis_i_bounds (axis a b c : Int) (ha0 : 0 ≤ a) (ha : a < 64) (hb0 : 0 ≤ b)
    (hb : b < 64) (hc0 : 0 ≤ c) (hc : c < 64) :
    0 ≤ get_axis_i axis a b c ∧ get_axis_i axis a b c < 262144 := by
  unfold get_axis_i
  simp only [CS_P, CS_P2]
  split
  · push_cast; omega
  · split <;> (push_cast; omega)

theorem voxels_at_eq (voxels : List Nat) (hlen : voxels.length = CS_P3) (axis a b c : Int)
    (ha0 : 0 ≤ a) (ha : a < 64) (hb0 : 0 ≤ b) (hb : b < 64) (hc0 : 0 ≤ c) (hc : c < 64) :
    voxels_at voxels (get_axis_i axis a b c) = some (vox voxels axis a b c) := by
  obtain ⟨h0, h1⟩ := get_axis_i_bounds axis a b c ha0 ha hb0 hb hc0 hc
  apply voxels_at_of_toNat h0
  rw [hlen]
  show _ < 262144
  omega

theorem vox_nat (voxels : List Nat) (axis a b c : Nat) :
    vox voxels (axis : Int) (a : Int) (b : Int) (c : Int) = voxels.getD (axis_idx axis a b c) 0 := by
  unfold vox
  rw [get_axis_i_nat]
  simp

theorem compare_ao_loop_eq (voxels : List Nat) (hlen : voxels.length = CS_P3)
    (axis forward right c fo ro : Int)
    (hf : 1 ≤ forward) (hf' : forward + fo ≤ 62) (hfo : 0 ≤ fo)
    (hr : 1 ≤ right) (hr' : right + ro ≤ 62) (hro : 0 ≤ ro) (hc0 : 0 ≤ c) (hc : c < 64) :
    ∀ dirs : List (Int × Int), (∀ d ∈ dirs, -1 ≤ d.1 ∧ d.1 ≤ 1 ∧ -1 ≤ d.2 ∧ d.2 ≤ 1) →
      compare_ao_loop voxels axis forward right c fo ro dirs =
        some (dirs.all (fun d =>
          solid_check (vox voxels axis (right + d.1) (forward + d.2) c) ==
            solid_check (vox voxels axis (right + ro + d.1) (forward + fo + d.2) c))) := by
  intro dirs
  induction dirs with
  | nil => intro _; rfl
  | cons d ds ih =>
    intro hd
    obtain ⟨h1, h2, h3, h4⟩ := hd d (List.mem_cons_self _ _)
    unfold compare_ao_loop
    rw [voxels_at_eq voxels hlen axis _ _ c (by omega) (by omega) (by omega) (by omega) hc0 hc,
      voxels_at_eq voxels hlen axis _ _ c (by omega) (by omega) (by omega) (by omega) hc0 hc]
    simp only [Option.bind_eq_bind, Option.some_bind, Option.pure_def]
    rw [ih (fun d' hd' => hd d' (List.mem_cons_of_mem _ hd'))]
    simp only [List.all_cons]
    cases h : (solid_check (vox voxels axis (right + d.1) (forward + d.2) c) ==
      solid_check (vox voxels axis (right + ro + d.1) (forward + fo + d.2) c))
    · have : (solid_check (vox voxels axis (right + d.1) (forward + d.2) c) !=
          solid_check (vox voxels axis (right + ro + d.1) (forward + fo + d.2) c)) = true := by
        rw [bne, h]; rfl
      simp [this]
    · have : (solid_check (vox voxels axis (right + d.1) (forward + d.2) c) !=
          solid_check (vox voxels axis (right + ro + d.1) (forward + fo + d.2) c)) = false := by
        rw [bne, h]; rfl
      simp [this]

theorem compare_ao_eq (voxels : List Nat) (hlen : voxels.length = CS_P3)
    (axis forward right c fo ro : Int)
    (hf : 1 ≤ forward) (hf' : forward + fo ≤ 62) (hfo : 0 ≤ fo)
    (hr : 1 ≤ right) (hr' : right + ro ≤ 62) (hro : 0 ≤ ro) (hc0 : 0 ≤ c) (hc : c < 64) :
    compare_ao voxels axis forward right c fo ro =
      some (same_ao voxels axis forward right c fo ro) :=
  compare_ao_loop_eq voxels hlen axis forward right c fo ro hf hf' hfo hr hr' hro hc0 hc ao_dirs
    (by decide)

theorem light_dir_cases (face : Nat) : light_dir face = 1 ∨ light_dir face = -1 := by
  unfold light_dir; split <;> simp

theorem compare_forward_eq (voxels : List Nat) (hlen : voxels.length = CS_P3)
    (face forward right bit_pos : Nat) (hf : 1 ≤ forward) (hf' : forward ≤ 61)
    (hr : 1 ≤ right) (hr' : right ≤ 62) (hp : 1 ≤ bit_pos) (hp' : bit_pos ≤ 62) :
    compare_forward voxels ((face / 2 : Nat) : Int) forward right bit_pos (light_dir face) =
      some (cmp_forward voxels face forward right bit_pos) := by
  unfold compare_forward cmp_forward
  rw [voxels_at_eq voxels hlen _ _ _ _ (by omega) (by omega) (by omega) (by omega) (by omega)
      (by omega),
    voxels_at_eq voxels hlen _ _ _ _ (by omega) (by omega) (by omega) (by omega) (by omega)
      (by omega)]
  simp only [Option.bind_eq_bind, Option.some_bind, Option.pure_def]
  have hl := light_dir_cases face
  rw [compare_ao_eq voxels hlen _ _ _ _ 1 0 (by omega) (by omega) (by omega) (by omega)
    (by omega) (by omega) (by omega) (by omega)]
  split
  · rename_i h; rw [decide_eq_true h, Bool.true_and]
  · rename_i h; rw [decide_eq_false h, Bool.false_and]

theorem compare_right_eq (voxels : List Nat) (hlen : voxels.length = CS_P3)
    (face forward right bit_pos : Nat) (hf : 1 ≤ forward) (hf' : forward ≤ 62)
    (hr : 1 ≤ right) (hr' : right ≤ 61) (hp : 1 ≤ bit_pos) (hp' : bit_pos ≤ 62) :
    compare_right voxels ((face / 2 : Nat) : Int) forward right bit_pos (light_dir face) =
      some (cmp_right voxels face forward right bit_pos) := by
  unfold compare_right cmp_right
  rw [voxels_at_eq voxels hlen _ _ _ _ (by omega) (by omega) (by omega) (by omega) (by omega)
      (by omega),
    voxels_at_eq voxels hlen _ _ _ _ (by omega) (by omega) (by omega) (by omega) (by omega)
      (by omega)]
  simp only [Option.bind_eq_bind, Option.some_bind, Option.pure_def]
  have hl := light_dir_cases face
  rw [compare_ao_eq voxels hlen _ _ _ _ 0 1 (by omega) (by omega) (by omega) (by omega)
    (by omega) (by omega) (by omega) (by omega)]
  split
  · rename_i h; rw [decide_eq_true h, Bool.true_and]
  · rename_i h; rw [decide_eq_false h, Bool.false_and]

/-! ## One bit position at a time -/

theorem emit_quad_eq (vs : List Nat) (q : Quad) : emit_quad vs q = vs ++ quad_vertices q := by
  unfold quad_vertices emit_quad insert_quad
  split
  split <;> simp

theorem foldlM_filter {α σ : Type} (q : α → Bool) (f : σ → α → Option σ) :
    ∀ (l : List α) (s : σ),
      (l.filter q).foldlM f s = l.foldlM (fun s x => if q x then f s x else pure s) s := by
  intro l
  induction l with
  | nil => intro s; rfl
  | cons a l ih =>
    intro s
    by_cases h : q a = true
    · rw [List.filter_cons_of_pos h]
      simp only [List.foldlM_cons, h, if_true]
      cases f s a with
      | none => rfl
      | some s' => simp [ih]
    · rw [List.filter_cons_of_neg h]
      simp only [List.foldlM_cons, h]
      simp [ih]

theorem and_one_shiftLeft_ne_zero (x p : Nat) : (x &&& (1 <<< p)) ≠ 0 ↔ x.testBit p = true := by
  constructor
  · intro h
    obtain ⟨i, hi⟩ := Nat.ne_zero_implies_bit_true h
    rw [Nat.testBit_and, testBit_one_shiftLeft] at hi
    simp only [Bool.and_eq_true, decide_eq_true_eq] at hi
    rw [hi.2]; exact hi.1
  · intro h h0
    have : (x &&& (1 <<< p)).testBit p = true := by
      rw [Nat.testBit_and, testBit_one_shiftLeft, h]; simp
    rw [h0] at this
    simp at this

theorem front_step_inv (voxels : List Nat) (hlen : voxels.length = CS_P3)
    (face fw r : Nat) (hf1 : 1 ≤ fw) (hr1 : 1 ≤ r) (hr : r ≤ 62)
    (B : Nat) (hB0 : 62 ≤ fw → B = 0) (S : MeshState) (k : Nat) (hk : k < 64)
    (S1 : MeshState) (h : FrontInv voxels face fw r B S k S1) :
    ∃ S2, (if B.testBit k then front_step voxels face fw r S1 k else pure S1) = some S2 ∧
      FrontInv voxels face fw r B S (k + 1) S2 := by
  obtain ⟨hmr, hbww, hvs, hqs, hlt, hbmf, hmf⟩ := h
  by_cases hb : B.testBit k = true
  · rw [if_pos hb]
    have hfw : fw ≤ 61 := by
      by_contra hc
      rw [hB0 (by omega)] at hb
      simp at hb
    unfold front_step
    by_cases hedge : k = 0 ∨ k = CS_P - 1
    · rw [if_pos hedge]
      refine ⟨S1, rfl, hmr, hbww, hvs, hqs, hlt, fun p => ?_, fun c p hp => ?_⟩
      · rw [hbmf p]
        by_cases hpk : p = k
        · subst hpk
          have : p = 0 ∨ p = 63 := hedge
          simp [this]
        · have : (k + 1 ≤ p) ↔ (k ≤ p) := by omega
          simp [this]
      · rw [hmf c p hp]
        have : (c = r ∧ p < k + 1 ∧ 1 ≤ p ∧ p ≤ 62 ∧ B.testBit p = true ∧
            cmp_forward voxels face fw r p = true) ↔ (c = r ∧ p < k ∧ 1 ≤ p ∧ p ≤ 62 ∧
            B.testBit p = true ∧ cmp_forward voxels face fw r p = true) := by
          have hk' : k = 0 ∨ k = 63 := hedge
          constructor
          · rintro ⟨a, b, c1, d, e⟩; exact ⟨a, by omega, c1, d, e⟩
          · rintro ⟨a, b, c1, d, e⟩; exact ⟨a, by omega, c1, d, e⟩
        simp only [this]
    · rw [if_neg hedge]
      have hk1 : 1 ≤ k ∧ k ≤ 62 := by
        have : ¬ (k = 0 ∨ k = 63) := hedge
        omega
      have hcmp := compare_forward_eq voxels hlen face fw r k hf1 hfw hr1 hr hk1.1 hk1.2
      have hcmp' : compare_forward voxels ((face / 2 : Nat) : Int) fw r k
          (if face % 2 = 0 then 1 else -1) = some (cmp_forward voxels face fw r k) := hcmp
      rw [hcmp']
      simp only [Option.bind_eq_bind, Option.some_bind, Option.pure_def]
      by_cases hc : cmp_forward voxels face fw r k = true
      · rw [if_pos hc]
        refine ⟨_, rfl, hmr, hbww, hvs, hqs, hlt, fun p => ?_, fun c p hp => ?_⟩
        · show S1.bits_merging_forward.testBit p = _
          rw [hbmf p]
          by_cases hpk : p = k
          · subst hpk; simp [hc]
          · have : (k + 1 ≤ p) ↔ (k ≤ p) := by omega
            simp [this]
        · show Function.update S1.merged_forward (r * CS_P + k) _ (c * 64 + p) = _
          by_cases hcp : c = r ∧ p = k
          · obtain ⟨e1, e2⟩ := hcp
            subst e1; subst e2
            rw [show c * 64 + p = c * CS_P + p from rfl, Function.update_same,
              show c * CS_P + p = c * 64 + p from rfl, hmf c p hp]
            have h1 : ¬ (c = c ∧ p < p ∧ 1 ≤ p ∧ p ≤ 62 ∧ B.testBit p = true ∧
                cmp_forward voxels face fw c p = true) := by omega
            have h2 : (c = c ∧ p < p + 1 ∧ 1 ≤ p ∧ p ≤ 62 ∧ B.testBit p = true ∧
                cmp_forward voxels face fw c p = true) := ⟨rfl, by omega, hk1.1, hk1.2, hb, hc⟩
            rw [if_neg h1, if_pos h2]
          · have e : c * 64 + p ≠ r * CS_P + k := by
              show c * 64 + p ≠ r * 64 + k
              omega
            rw [Function.update_noteq e, hmf c p hp]
            have : (c = r ∧ p < k + 1 ∧ 1 ≤ p ∧ p ≤ 62 ∧ B.testBit p = true ∧
                cmp_forward voxels face fw r p = true) ↔ (c = r ∧ p < k ∧ 1 ≤ p ∧ p ≤ 62 ∧
                B.testBit p = true ∧ cmp_forward voxels face fw r p = true) := by
              constructor
              · rintro ⟨a, b, c1, d, e⟩; exact ⟨a, by omega, c1, d, e⟩
              · rintro ⟨a, b, c1, d, e⟩; exact ⟨a, by omega, c1, d, e⟩
            simp only [this]
      · rw [if_neg hc]
        have hc' : cmp_forward voxels face fw r k = false := by simpa using hc
        refine ⟨_, rfl, hmr, hbww, hvs, hqs, and_not64_lt _ hlt, fun p => ?_, fun c p hp => ?_⟩
        · show (S1.bits_merging_forward &&& not64 (1 <<< k)).testBit p = _
          rw [testBit_and_not64 _ _ hlt, testBit_one_shiftLeft, hbmf p]
          by_cases hpk : p = k
          · subst hpk
            have : ¬ (p = 0 ∨ p = 63) := hedge
            simp [hc', this]
          · have : (k + 1 ≤ p) ↔ (k ≤ p) := by omega
            have h2 : ¬ (k = p) := fun e => hpk e.symm
            simp [this, h2]
        · show S1.merged_forward (c * 64 + p) = _
          rw [hmf c p hp]
          have : (c = r ∧ p < k + 1 ∧ 1 ≤ p ∧ p ≤ 62 ∧ B.testBit p = true ∧
              cmp_forward voxels face fw r p = true) ↔ (c = r ∧ p < k ∧ 1 ≤ p ∧ p ≤ 62 ∧
              B.testBit p = true ∧ cmp_forward voxels face fw r p = true) := by
            constructor
            · rintro ⟨a, b, c1, d, e⟩
              have : p ≠ k := by
                intro e'; subst e'; exact Bool.false_ne_true (hc' ▸ e.2)
              exact ⟨a, by omega, c1, d, e⟩
            · rintro ⟨a, b, c1, d, e⟩; exact ⟨a, by omega, c1, d, e⟩
          simp only [this]
  · rw [if_neg hb]
    have hb' : B.testBit k = false := by simpa using hb
    refine ⟨S1, rfl, hmr, hbww, hvs, hqs, hlt, fun p => ?_, fun c p hp => ?_⟩
    · rw [hbmf p]
      by_cases hpk : p = k
      · subst hpk; simp [hb']
      · have : (k + 1 ≤ p) ↔ (k ≤ p) := by omega
        simp [this]
    · rw [hmf c p hp]
      have : (c = r ∧ p < k + 1 ∧ 1 ≤ p ∧ p ≤ 62 ∧ B.testBit p = true ∧
          cmp_forward voxels face fw r p = true) ↔ (c = r ∧ p < k ∧ 1 ≤ p ∧ p ≤ 62 ∧
          B.testBit p = true ∧ cmp_forward voxels face fw r p = true) := by
        constructor
        · rintro ⟨a, b, c1, d, e⟩
          have : p ≠ k := by
            intro e'; subst e'; exact Bool.false_ne_true (hb' ▸ e.1)
          exact ⟨a, by omega, c1, d, e⟩
        · rintro ⟨a, b, c1, d, e⟩; exact ⟨a, by omega, c1, d, e⟩
      simp only [this]

theorem front_loop (voxels : List Nat) (hlen : voxels.length = CS_P3)
    (face fw r : Nat) (hf1 : 1 ≤ fw) (hr1 : 1 ≤ r) (hr : r ≤ 62)
    (B : Nat) (hB : B < 2 ^ 64) (hB0 : 62 ≤ fw → B = 0) (S : MeshState) :
    ∃ S1, (set_bits B).foldlM (front_step voxels face fw r)
        { S with bits_merging_forward := B } = some S1 ∧
      FrontInv voxels face fw r B S 64 S1 := by
  rw [set_bits_eq hB, foldlM_filter]
  apply foldlM_range_inv _ (fun k S1 => FrontInv voxels face fw r B S k S1) 64
  · refine ⟨rfl, rfl, rfl, rfl, hB, fun p => ?_, fun c p _ => ?_⟩
    · show B.testBit p = _
      by_cases hp : B.testBit p = true
      · simp [hp]
      · have : B.testBit p = false := by simpa using hp
        simp [this]
    · show S.merged_forward _ = _
      simp
  · intro k S1 hk hP
    exact front_step_inv voxels hlen face fw r hf1 hr1 hr B hB0 S k hk S1 hP

theorem stop_inv_skip (voxels : List Nat) (face fw r R T : Nat) (S1 : MeshState) (k : Nat)
    (S2 : MeshState) (h : StopInv voxels face fw r R T S1 k S2)
    (hskip : ¬ ((1 ≤ k ∧ k ≤ 62) ∧ T.testBit k = true)) :
    StopInv voxels face fw r R T S1 (k + 1) S2 := by
  obtain ⟨hlt, hw, hmr, hmf, hqs, hvs⟩ := h
  have key : ∀ p, (p < k + 1 ∧ (1 ≤ p ∧ p ≤ 62) ∧ T.testBit p = true) ↔
      (p < k ∧ (1 ≤ p ∧ p ≤ 62) ∧ T.testBit p = true) := by
    intro p
    constructor
    · rintro ⟨a, b, c⟩
      have : p ≠ k := by
        intro e; subst e; exact hskip ⟨b, c⟩
      exact ⟨by omega, b, c⟩
    · rintro ⟨a, b, c⟩; exact ⟨by omega, b, c⟩
  have hq : stop_quads voxels face fw r R T S1 k = [] := by
    unfold stop_quads
    rw [if_neg]
    rintro ⟨a, b, _⟩
    exact hskip ⟨a, b⟩
  refine ⟨hlt, fun p => ?_, fun p => ?_, fun c p hp => ?_, ?_, ?_⟩
  · rw [hw p]; simp only [key]
  · rw [hmr p]; simp only [key]
  · rw [hmf c p hp]
    have : (c = r ∧ p < k + 1 ∧ (1 ≤ p ∧ p ≤ 62) ∧ T.testBit p = true) ↔
        (c = r ∧ p < k ∧ (1 ≤ p ∧ p ≤ 62) ∧ T.testBit p = true) := by
      rw [key p]
    simp only [this]
  · rw [hqs, List.range_succ, List.flatMap_append]
    simp [hq]
  · rw [hvs, List.range_succ, List.flatMap_append]
    simp [hq]

theorem stop_step_inv (voxels : List Nat) (hlen : voxels.length = CS_P3)
    (face fw r : Nat) (hf1 : 1 ≤ fw) (hf : fw ≤ 62) (hr1 : 1 ≤ r) (hr : r ≤ 62)
    (R T : Nat) (hR0 : 62 ≤ r → R = 0) (S1 : MeshState) (k : Nat) (hk : k < 64)
    (S2 : MeshState) (h : StopInv voxels face fw r R T S1 k S2) :
    ∃ S3, (if T.testBit k then stop_step voxels face fw r R S2 k else pure S2) = some S3 ∧
      StopInv voxels face fw r R T S1 (k + 1) S3 := by
  by_cases hb : T.testBit k = true
  swap
  · rw [if_neg hb]
    exact ⟨S2, rfl, stop_inv_skip voxels face fw r R T S1 k S2 h (fun e => hb e.2)⟩
  rw [if_pos hb]
  unfold stop_step
  by_cases hedge : k = 0 ∨ k = CS_P - 1
  · rw [if_pos hedge]
    refine ⟨S2, rfl, stop_inv_skip voxels face fw r R T S1 k S2 h (fun e => ?_)⟩
    have : k = 0 ∨ k = 63 := hedge
    omega
  rw [if_neg hedge]
  have hk1 : 1 ≤ k ∧ k ≤ 62 := by
    have : ¬ (k = 0 ∨ k = 63) := hedge
    omega
  obtain ⟨hlt, hw, hmr, hmf, hqs, hvs⟩ := h
  have key : ∀ p, p ≠ k → ((p < k + 1 ∧ (1 ≤ p ∧ p ≤ 62) ∧ T.testBit p = true) ↔
      (p < k ∧ (1 ≤ p ∧ p ≤ 62) ∧ T.testBit p = true)) := by
    intro p hpk
    constructor
    · rintro ⟨a, b, c⟩; exact ⟨by omega, b, c⟩
    · rintro ⟨a, b, c⟩; exact ⟨by omega, b, c⟩
  have keyk : (k < k + 1 ∧ (1 ≤ k ∧ k ≤ 62) ∧ T.testBit k = true) := ⟨by omega, hk1, hb⟩
  have nkeyk : ¬ (k < k ∧ (1 ≤ k ∧ k ≤ 62) ∧ T.testBit k = true) := by omega
  have hmf_r : S2.merged_forward (r * CS_P + k) = S1.merged_forward (r * 64 + k) := by
    show S2.merged_forward (r * 64 + k) = _
    rw [hmf r k hk, if_neg]
    omega
  have hmf_r1 : S2.merged_forward ((r + 1) * CS_P + k) = S1.merged_forward ((r + 1) * 64 + k) := by
    show S2.merged_forward ((r + 1) * 64 + k) = _
    rw [hmf (r + 1) k hk, if_neg]
    omega
  have hmr_k : S2.merged_right k = S1.merged_right k := by
    rw [hmr k, if_neg nkeyk]
  have hwalk : (if (R &&& (1 <<< k)) ≠ 0 ∧
        S2.merged_forward (r * CS_P + k) = S2.merged_forward ((r + 1) * CS_P + k) then
        compare_right voxels ((face / 2 : Nat) : Int) fw r k
          (if face % 2 = 0 then 1 else -1)
      else pure false) = some (stop_walk voxels face fw r R S1 k) := by
    unfold stop_walk
    rw [hmf_r, hmf_r1]
    by_cases hc : (R &&& (1 <<< k)) ≠ 0 ∧
        S1.merged_forward (r * 64 + k) = S1.merged_forward ((r + 1) * 64 + k)
    · rw [if_pos hc]
      have hRk : R.testBit k = true := (and_one_shiftLeft_ne_zero R k).1 hc.1
      have hr61 : r ≤ 61 := by
        by_contra hcon
        rw [hR0 (by omega)] at hRk
        simp at hRk
      have := compare_right_eq voxels hlen face fw r k hf1 hf hr1 hr61 hk1.1 hk1.2
      rw [show (if face % 2 = 0 then (1 : Int) else -1) = light_dir face from rfl, this, hRk,
        decide_eq_true hc.2]
      simp
    · rw [if_neg hc]
      by_cases hRk : R.testBit k = true
      · have : ¬ (S1.merged_forward (r * 64 + k) = S1.merged_forward ((r + 1) * 64 + k)) :=
          fun e => hc ⟨(and_one_shiftLeft_ne_zero R k).2 hRk, e⟩
        rw [decide_eq_false this]
        simp
      · have : R.testBit k = false := by simpa using hRk
        rw [this]
        simp
  dsimp only
  rw [hwalk]
  simp only [Option.bind_eq_bind, Option.some_bind]
  by_cases hwk : stop_walk voxels face fw r R S1 k = true
  · rw [if_pos hwk]
    have hq : stop_quads voxels face fw r R T S1 k = [] := by
      unfold stop_quads
      rw [if_neg]
      rintro ⟨_, _, c⟩
      rw [hwk] at c
      exact Bool.noConfusion c
    refine ⟨_, rfl, ?_, fun p => ?_, fun p => ?_, fun c p hp => ?_, ?_, ?_⟩
    · show S2.bits_walking_right ||| (1 <<< k) < 2 ^ 64
      apply Nat.or_lt_two_pow hlt
      rw [Nat.one_shiftLeft]
      exact Nat.pow_lt_pow_right (by decide) hk
    · show (S2.bits_walking_right ||| (1 <<< k)).testBit p = _
      rw [Nat.testBit_or, testBit_one_shiftLeft, hw p]
      by_cases hpk : p = k
      · subst hpk
        rw [if_pos keyk, hwk]
        simp
      · have : ¬ (k = p) := fun e => hpk e.symm
        simp only [key p hpk, this, decide_False, Bool.or_false]
    · show Function.update S2.merged_right k _ p = _
      by_cases hpk : p = k
      · subst hpk
        rw [Function.update_same, if_pos keyk, if_pos hwk, hmr_k]
      · rw [Function.update_noteq hpk, hmr p]
        simp only [key p hpk]
    · show Function.update S2.merged_forward (r * CS_P + k) 0 (c * 64 + p) = _
      by_cases hcp : c = r ∧ p = k
      · obtain ⟨e1, e2⟩ := hcp
        subst e1; subst e2
        rw [show c * 64 + p = c * CS_P + p from rfl, Function.update_same, if_pos ⟨rfl, keyk⟩]
      · have e : c * 64 + p ≠ r * CS_P + k := by
          show c * 64 + p ≠ r * 64 + k
          omega
        rw [Function.update_noteq e, hmf c p hp]
        by_cases hpk : p = k
        · subst hpk
          have hcr : c ≠ r := fun e => hcp ⟨e, rfl⟩
          rw [if_neg (fun e => hcr e.1), if_neg (fun e => hcr e.1)]
        · simp only [key p hpk]
    · show S2.quads = _
      rw [hqs, List.range_succ, List.flatMap_append]
      simp [hq]
    · show S2.vertices = _
      rw [hvs, List.range_succ, List.flatMap_append]
      simp [hq]
  · rw [if_neg hwk]
    have hwk' : stop_walk voxels face fw r R S1 k = false := by simpa using hwk
    have hq : stop_quads voxels face fw r R T S1 k =
        [cell_quad voxels face fw r k (S1.merged_right k) (S1.merged_forward (r * 64 + k))] := by
      unfold stop_quads
      rw [if_pos ⟨hk1, hb, hwk'⟩]
    have hl := light_dir_cases face
    have hl' : (if face % 2 = 0 then (1 : Int) else -1) = light_dir face := rfl
    rw [hl']
    rw [voxels_at_eq voxels hlen _ _ _ _ (by omega) (by omega) (by omega) (by omega) (by omega)
        (by omega),
      voxels_at_eq voxels hlen _ _ _ _ (by omega) (by omega) (by omega) (by omega) (by omega)
        (by omega),
      voxels_at_eq voxels hlen _ _ _ _ (by omega) (by omega) (by omega) (by omega) (by omega)
        (by omega),
      voxels_at_eq voxels hlen _ _ _ _ (by omega) (by omega) (by omega) (by omega) (by omega)
        (by omega),
      voxels_at_eq voxels hlen _ _ _ _ (by omega) (by omega) (by omega) (by omega) (by omega)
        (by omega),
      voxels_at_eq voxels hlen _ _ _ _ (by omega) (by omega) (by omega) (by omega) (by omega)
        (by omega),
      voxels_at_eq voxels hlen _ _ _ _ (by omega) (by omega) (by omega) (by omega) (by omega)
        (by omega),
      voxels_at_eq voxels hlen _ _ _ _ (by omega) (by omega) (by omega) (by omega) (by omega)
        (by omega),
      voxels_at_eq voxels hlen _ _ _ _ (by omega) (by omega) (by omega) (by omega) (by omega)
        (by omega)]
    simp only [Option.some_bind, Option.pure_def]
    rw [hmf_r, hmr_k]
    have hqq : ({ face := face
                  mesh_left := to_u8 ((r : Int) - (S1.merged_right k : Int))
                  mesh_right := to_u8 ((r : Int) + 1)
                  mesh_front := to_u8 ((fw : Int) - (S1.merged_forward (r * 64 + k) : Int))
                  mesh_back := to_u8 ((fw : Int) + 1)
                  mesh_up := to_u8 ((k : Int) + (if face % 2 = 0 then 1 else 0))
                  type := vox voxels ((face / 2 : Nat) : Int) r fw k
                  ao_LB := to_u8 (vertexAO
                    (if solid_check (vox voxels ((face / 2 : Nat) : Int) ((r : Int) - 1) fw
                      ((k : Int) + light_dir face)) then 1 else 0)
                    (if solid_check (vox voxels ((face / 2 : Nat) : Int) r ((fw : Int) + 1)
                      ((k : Int) + light_dir face)) then 1 else 0)
                    (if solid_check (vox voxels ((face / 2 : Nat) : Int) ((r : Int) - 1)
                      ((fw : Int) + 1) ((k : Int) + light_dir face)) then 1 else 0))
                  ao_LF := to_u8 (vertexAO
                    (if solid_check (vox voxels ((face / 2 : Nat) : Int) ((r : Int) - 1) fw
                      ((k : Int) + light_dir face)) then 1 else 0)
                    (if solid_check (vox voxels ((face / 2 : Nat) : Int) r ((fw : Int) - 1)
                      ((k : Int) + light_dir face)) then 1 else 0)
                    (if solid_check (vox voxels ((face / 2 : Nat) : Int) ((r : Int) - 1)
                      ((fw : Int) - 1) ((k : Int) + light_dir face)) then 1 else 0))
                  ao_RB := to_u8 (vertexAO
                    (if solid_check (vox voxels ((face / 2 : Nat) : Int) ((r : Int) + 1) fw
                      ((k : Int) + light_dir face)) then 1 else 0)
                    (if solid_check (vox voxels ((face / 2 : Nat) : Int) r ((fw : Int) + 1)
                      ((k : Int) + light_dir face)) then 1 else 0)
                    (if solid_check (vox voxels ((face / 2 : Nat) : Int) ((r : Int) + 1)
                      ((fw : Int) + 1) ((k : Int) + light_dir face)) then 1 else 0))
                  ao_RF := to_u8 (vertexAO
                    (if solid_check (vox voxels ((face / 2 : Nat) : Int) ((r : Int) + 1) fw
                      ((k : Int) + light_dir face)) then 1 else 0)
                    (if solid_check (vox voxels ((face / 2 : Nat) : Int) r ((fw : Int) - 1)
                      ((k : Int) + light_dir face)) then 1 else 0)
                    (if solid_check (vox voxels ((face / 2 : Nat) : Int) ((r : Int) + 1)
                      ((fw : Int) - 1) ((k : Int) + light_dir face)) then 1 else 0)) } : Quad) =
        cell_quad voxels face fw r k (S1.merged_right k) (S1.merged_forward (r * 64 + k)) := rfl
    rw [hqq]
    refine ⟨_, rfl, ?_, fun p => ?_, fun p => ?_, fun c p hp => ?_, ?_, ?_⟩
    · show S2.bits_walking_right &&& not64 (1 <<< k) < 2 ^ 64
      exact and_not64_lt _ hlt
    · show (S2.bits_walking_right &&& not64 (1 <<< k)).testBit p = _
      rw [testBit_and_not64 _ _ hlt, testBit_one_shiftLeft, hw p]
      by_cases hpk : p = k
      · subst hpk
        rw [if_pos keyk, hwk']
        simp
      · have : ¬ (k = p) := fun e => hpk e.symm
        simp only [key p hpk, this, decide_False, Bool.not_false, Bool.and_true]
    · show Function.update S2.merged_right k _ p = _
      by_cases hpk : p = k
      · subst hpk
        rw [Function.update_same, if_pos keyk, if_neg hwk]
      · rw [Function.update_noteq hpk, hmr p]
        simp only [key p hpk]
    · show Function.update S2.merged_forward (r * CS_P + k) 0 (c * 64 + p) = _
      by_cases hcp : c = r ∧ p = k
      · obtain ⟨e1, e2⟩ := hcp
        subst e1; subst e2
        rw [show c * 64 + p = c * CS_P + p from rfl, Function.update_same, if_pos ⟨rfl, keyk⟩]
      · have e : c * 64 + p ≠ r * CS_P + k := by
          show c * 64 + p ≠ r * 64 + k
          omega
        rw [Function.update_noteq e, hmf c p hp]
        by_cases hpk : p = k
        · subst hpk
          have hcr : c ≠ r := fun e => hcp ⟨e, rfl⟩
          rw [if_neg (fun e => hcr e.1), if_neg (fun e => hcr e.1)]
        · simp only [key p hpk]
    · show S2.quads ++ [_] = _
      rw [hqs, List.range_succ, List.flatMap_append]
      simp [hq]
    · show emit_quad S2.vertices _ = _
      rw [emit_quad_eq, hvs, List.range_succ, List.flatMap_append]
      simp [hq]

theorem stop_loop (voxels : List Nat) (hlen : voxels.length = CS_P3)
    (face fw r : Nat) (hf1 : 1 ≤ fw) (hf : fw ≤ 62) (hr1 : 1 ≤ r) (hr : r ≤ 62)
    (R T : Nat) (hT : T < 2 ^ 64) (hR0 : 62 ≤ r → R = 0) (S1 : MeshState)
    (hS1 : S1.bits_walking_right < 2 ^ 64) :
    ∃ S2, (set_bits T).foldlM (stop_step voxels face fw r R) S1 = some S2 ∧
      StopInv voxels face fw r R T S1 64 S2 := by
  rw [set_bits_eq hT, foldlM_filter]
  apply foldlM_range_inv _ (fun k S2 => StopInv voxels face fw r R T S1 k S2) 64
  · refine ⟨hS1, fun p => ?_, fun p => ?_, fun c p _ => ?_, by simp, by simp⟩
    · rw [if_neg]; omega
    · rw [if_neg]; omega
    · rw [if_neg]; omega
  · intro k S2 hk hP
    exact stop_step_inv voxels hlen face fw r hf1 hf hr1 hr R T hR0 S1 k hk S2 hP

theorem MasksOk.lt {voxels : List Nat} {m : Nat → Nat} (hm : MasksOk voxels m)
    {face r f : Nat} (hface : face < 6) (hr : r < 64) (hf : f < 64) :
    m (r + (f * CS_P) + (face * CS_P2)) < 2 ^ 64 := by
  apply Nat.lt_pow_two_of_testBit
  intro i hi
  rw [hm face r f i hface hr hf]
  have : ¬ (i < 64) := by omega
  simp [this]

theorem flatMap_congr_range' {α : Type} (f g : Nat → List α) (a n : Nat)
    (h : ∀ p, a ≤ p → p < a + n → f p = g p) :
    (List.range' a n).flatMap f = (List.range' a n).flatMap g := by
  induction n generalizing a with
  | zero => rfl
  | succ n ih =>
    rw [List.range'_succ, List.flatMap_cons, List.flatMap_cons, h a (by omega) (by omega),
      ih (a + 1) (fun p h1 h2 => h p (by omega) (by omega))]

theorem flatMap_range_64 {α : Type} (f : Nat → List α) (h0 : f 0 = []) (h63 : f 63 = []) :
    (List.range 64).flatMap f = (List.range' 1 62).flatMap f := by
  have e : List.range 64 = 0 :: (List.range' 1 62 ++ [63]) := by decide
  rw [e, List.flatMap_cons, List.flatMap_append, h0]
  simp [h63]

theorem mesh_cell_spec (voxels : List Nat) (hlen : voxels.length = CS_P3)
    (m : Nat → Nat) (hm : MasksOk voxels m) (face : Nat) (hface : face < 6)
    (fw r : Nat) (hf1 : 1 ≤ fw) (hf : fw ≤ 62) (hr1 : 1 ≤ r) (hr : r ≤ 62)
    (S : MeshState) (hS : S.bits_walking_right < 2 ^ 64) :
    ∃ S', mesh_cell voxels m face fw S r = some S' ∧ S'.bits_walking_right < 2 ^ 64 ∧
      (∀ p, 1 ≤ p → p ≤ 62 → proj S' p = pcell voxels face p fw (proj S p) r) ∧
      S'.quads = S.quads ++
        (List.range' 1 62).flatMap (fun p => pcell_quads voxels face p fw (proj S p) r) ∧
      S'.vertices = S.vertices ++
        ((List.range' 1 62).flatMap
          (fun p => pcell_quads voxels face p fw (proj S p) r)).flatMap quad_vertices := by
  -- the three mask words
  have hhere_lt := hm.lt hface (show r < 64 by omega) (show fw < 64 by omega)
  have hhere : ∀ p, (m (r + (fw * CS_P) + (face * CS_P2))).testBit p =
      (decide (p < 64) && visible voxels face fw r p) :=
    fun p => hm face r fw p hface (by omega) (by omega)
  let bits_here := m (r + (fw * CS_P) + (face * CS_P2))
  let bits_forward := if fw ≥ CS then 0 else m (r + (fw * CS_P) + (face * CS_P2) + CS_P)
  let bits_right := if r ≥ CS then 0 else m (r + 1 + (fw * CS_P) + (face * CS_P2))
  have hfwd : ∀ p, bits_forward.testBit p =
      (decide (p < 64) && (decide (fw < 62) && visible voxels face (fw + 1) r p)) := by
    intro p
    show (if fw ≥ CS then 0 else m (r + (fw * CS_P) + (face * CS_P2) + CS_P)).testBit p = _
    by_cases h : fw ≥ CS
    · rw [if_pos h]
      have : ¬ (fw < 62) := by show ¬ (fw < 62); exact Nat.not_lt.2 h
      simp [this]
    · rw [if_neg h]
      have h' : fw < 62 := Nat.lt_of_not_le h
      rw [show r + (fw * CS_P) + (face * CS_P2) + CS_P = r + ((fw + 1) * CS_P) + (face * CS_P2) by
        show r + fw * 64 + face * 4096 + 64 = r + (fw + 1) * 64 + face * 4096
        omega, hm face r (fw + 1) p hface (by omega) (by omega)]
      simp [h']
  have hrgt : ∀ p, bits_right.testBit p =
      (decide (p < 64) && (decide (r < 62) && visible voxels face fw (r + 1) p)) := by
    intro p
    show (if r ≥ CS then 0 else m (r + 1 + (fw * CS_P) + (face * CS_P2))).testBit p = _
    by_cases h : r ≥ CS
    · rw [if_pos h]
      have : ¬ (r < 62) := by show ¬ (r < 62); exact Nat.not_lt.2 h
      simp [this]
    · rw [if_neg h]
      have h' : r < 62 := Nat.lt_of_not_le h
      rw [hm face (r + 1) fw p hface (by omega) (by omega)]
      simp [h']
  have hB_lt : bits_here &&& bits_forward &&& not64 S.bits_walking_right < 2 ^ 64 :=
    and_not64_lt _ (Nat.lt_of_le_of_lt Nat.and_le_left hhere_lt)
  have hB0 : 62 ≤ fw → bits_here &&& bits_forward &&& not64 S.bits_walking_right = 0 := by
    intro h
    have : bits_forward = 0 := by
      show (if fw ≥ CS then 0 else m (r + (fw * CS_P) + (face * CS_P2) + CS_P)) = 0
      rw [if_pos h]
    rw [this]; simp
  have hR0 : 62 ≤ r → bits_here &&& bits_right = 0 := by
    intro h
    have : bits_right = 0 := by
      show (if r ≥ CS then 0 else m (r + 1 + (fw * CS_P) + (face * CS_P2))) = 0
      rw [if_pos h]
    rw [this]; simp
  obtain ⟨S1, hS1, F⟩ := front_loop voxels hlen face fw r hf1 hr1 hr
    (bits_here &&& bits_forward &&& not64 S.bits_walking_right) hB_lt hB0 S
  have hT_lt : bits_here &&& not64 S1.bits_merging_forward < 2 ^ 64 := and_not64_lt _ hhere_lt
  obtain ⟨S2, hS2, G⟩ := stop_loop voxels hlen face fw r hf1 hf hr1 hr
    (bits_here &&& bits_right) (bits_here &&& not64 S1.bits_merging_forward) hT_lt hR0 S1
    (by rw [F.bww]; exact hS)
  have hrun : mesh_cell voxels m face fw S r = some S2 := by
    unfold mesh_cell
    show (do
      let s1 ← (set_bits (bits_here &&& bits_forward &&& not64 S.bits_walking_right)).foldlM
        (front_step voxels face fw r)
        { S with bits_merging_forward :=
            bits_here &&& bits_forward &&& not64 S.bits_walking_right }
      (set_bits (bits_here &&& not64 s1.bits_merging_forward)).foldlM
        (stop_step voxels face fw r (bits_here &&& bits_right)) s1) = some S2
    rw [hS1]
    exact hS2
  -- per-bit reading of the words
  have hBp : ∀ p, 1 ≤ p → p ≤ 62 →
      ((bits_here &&& bits_forward &&& not64 S.bits_walking_right).testBit p &&
        cmp_forward voxels face fw r p) = p_merges voxels face p fw (proj S p) r := by
    intro p hp1 hp
    have hp64 : p < 64 := by omega
    rw [testBit_and_not64 _ _ (Nat.lt_of_le_of_lt Nat.and_le_left hhere_lt), Nat.testBit_and,
      hhere p, hfwd p]
    simp [p_merges, proj, hp64]
  have hTp : ∀ p, 1 ≤ p → p ≤ 62 →
      (bits_here &&& not64 S1.bits_merging_forward).testBit p =
        (visible voxels face fw r p && !p_merges voxels face p fw (proj S p) r) := by
    intro p hp1 hp
    have hp64 : p < 64 := by omega
    have hedge : ¬ (p = 0 ∨ p = 63) := by omega
    have h64 : ¬ (64 ≤ p) := by omega
    rw [testBit_and_not64 _ _ hhere_lt, F.bmf p, hhere p]
    simp only [hedge, h64, decide_False, Bool.false_or, hBp p hp1 hp, hp64, decide_True,
      Bool.true_and]
  have hS1mf : ∀ c p, 1 ≤ p → p ≤ 62 → S1.merged_forward (c * 64 + p) =
      S.merged_forward (c * 64 + p) +
        (if c = r ∧ p_merges voxels face p fw (proj S p) r = true then 1 else 0) := by
    intro c p hp1 hp
    rw [F.mf c p (by omega)]
    congr 1
    have : (c = r ∧ p < 64 ∧ 1 ≤ p ∧ p ≤ 62 ∧
        (bits_here &&& bits_forward &&& not64 S.bits_walking_right).testBit p = true ∧
        cmp_forward voxels face fw r p = true) ↔
        (c = r ∧ p_merges voxels face p fw (proj S p) r = true) := by
      rw [← hBp p hp1 hp, Bool.and_eq_true]
      constructor
      · rintro ⟨a, _, _, _, b⟩; exact ⟨a, b⟩
      · rintro ⟨a, b⟩; exact ⟨a, by omega, hp1, hp, b⟩
    simp only [this]
  have hwalk : ∀ p, 1 ≤ p → p ≤ 62 →
      (bits_here &&& not64 S1.bits_merging_forward).testBit p = true →
      stop_walk voxels face fw r (bits_here &&& bits_right) S1 p =
        p_walks voxels face p fw (proj S p) r := by
    intro p hp1 hp hT
    have hp64 : p < 64 := by omega
    rw [hTp p hp1 hp] at hT
    simp only [Bool.and_eq_true, Bool.not_eq_true'] at hT
    obtain ⟨hv, hnm⟩ := hT
    unfold stop_walk p_walks
    rw [Nat.testBit_and, hhere p, hrgt p, hS1mf r p hp1 hp, hS1mf (r + 1) p hp1 hp, hnm, hv]
    have : ¬ (r + 1 = r) := by omega
    simp [proj, hp64, this]
  have hq : (List.range 64).flatMap (stop_quads voxels face fw r (bits_here &&& bits_right)
        (bits_here &&& not64 S1.bits_merging_forward) S1) =
      (List.range' 1 62).flatMap (fun p => pcell_quads voxels face p fw (proj S p) r) := by
    rw [flatMap_range_64]
    · apply flatMap_congr_range'
      intro p hp1 hp
      have hp' : p ≤ 62 := by omega
      unfold stop_quads pcell_quads
      by_cases hTt : (bits_here &&& not64 S1.bits_merging_forward).testBit p = true
      · have hwk := hwalk p hp1 hp' hTt
        have hT := hTp p hp1 hp'
        rw [hTt] at hT
        have hT' := hT.symm
        simp only [Bool.and_eq_true, Bool.not_eq_true'] at hT'
        rw [hwk, F.mr, hS1mf r p hp1 hp', hT'.2]
        by_cases hwalks : p_walks voxels face p fw (proj S p) r = true
        · have hem : p_emits voxels face p fw (proj S p) r = false := by
            unfold p_emits; rw [hwalks]; simp
          rw [hem, hwalks, if_neg, if_neg] <;> simp
        · have hwalks' : p_walks voxels face p fw (proj S p) r = false := by simpa using hwalks
          have hem : p_emits voxels face p fw (proj S p) r = true := by
            unfold p_emits; rw [hT'.1, hT'.2, hwalks']; rfl
          rw [hem, hwalks', if_pos ⟨⟨hp1, hp'⟩, hTt, rfl⟩, if_pos rfl]
          simp [proj]
      · have hT := hTp p hp1 hp'
        have hTf : (bits_here &&& not64 S1.bits_merging_forward).testBit p = false := by
          simpa using hTt
        rw [hTf] at hT
        have hem : p_emits voxels face p fw (proj S p) r = false := by
          unfold p_emits
          have := hT.symm
          rw [Bool.and_assoc]
          cases hv : visible voxels face fw r p
          · rfl
          · rw [hv] at this
            simp only [Bool.true_and, Bool.not_eq_false'] at this
            rw [this]; rfl
        rw [hem, if_neg (fun h => hTt h.2.1), if_neg (by simp)]
    · unfold stop_quads; rw [if_neg]; omega
    · unfold stop_quads; rw [if_neg]; omega
  refine ⟨S2, hrun, G.lt, fun p hp1 hp => ?_, ?_, ?_⟩
  · -- the state at bit `p`
    have hp64 : p < 64 := by omega
    have hT := hTp p hp1 hp
    have hcond : (p < 64 ∧ (1 ≤ p ∧ p ≤ 62) ∧
        (bits_here &&& not64 S1.bits_merging_forward).testBit p = true) ↔
        (bits_here &&& not64 S1.bits_merging_forward).testBit p = true :=
      ⟨fun h => h.2.2, fun h => ⟨hp64, ⟨hp1, hp⟩, h⟩⟩
    have hw := G.w p
    have hmr := G.mr p
    rw [F.bww] at hw
    rw [F.mr] at hmr
    simp only [hcond] at hw hmr
    have hmf : ∀ c, S2.merged_forward (c * 64 + p) =
        if c = r ∧ (bits_here &&& not64 S1.bits_merging_forward).testBit p = true then 0
        else S1.merged_forward (c * 64 + p) := by
      intro c
      rw [G.mf c p hp64]
      have : (c = r ∧ p < 64 ∧ (1 ≤ p ∧ p ≤ 62) ∧
          (bits_here &&& not64 S1.bits_merging_forward).testBit p = true) ↔
          (c = r ∧ (bits_here &&& not64 S1.bits_merging_forward).testBit p = true) := by
        rw [hcond]
      simp only [this]
    unfold pcell
    by_cases hmg : p_merges voxels face p fw (proj S p) r = true
    · rw [if_pos hmg]
      have hTf : (bits_here &&& not64 S1.bits_merging_forward).testBit p = false := by
        rw [hT, hmg]; simp
      rw [hTf] at hw hmr
      simp only [Bool.false_eq_true, if_false] at hw hmr
      unfold proj
      simp only [PState.mk.injEq]
      refine ⟨?_, hmr, hw⟩
      funext c
      rw [hmf c, hTf, hS1mf c p hp1 hp]
      by_cases hc : c = r
      · subst hc
        simp [hmg]
      · rw [Function.update_noteq hc]
        simp [hc]
    · rw [if_neg hmg]
      have hmg' : p_merges voxels face p fw (proj S p) r = false := by simpa using hmg
      by_cases hv : visible voxels face fw r p = true
      · have hTt : (bits_here &&& not64 S1.bits_merging_forward).testBit p = true := by
          rw [hT, hmg', hv]; rfl
        have hwk := hwalk p hp1 hp hTt
        rw [hTt, hwk] at hw hmr
        simp only [if_true] at hw hmr
        by_cases hwalks : p_walks voxels face p fw (proj S p) r = true
        · rw [if_pos hwalks]
          rw [hwalks] at hw
          rw [if_pos hwalks] at hmr
          unfold proj
          simp only [PState.mk.injEq]
          refine ⟨?_, hmr, hw⟩
          funext c
          rw [hmf c, hTt, hS1mf c p hp1 hp, hmg']
          by_cases hc : c = r
          · subst hc; simp
          · rw [Function.update_noteq hc]
            simp [hc]
        · rw [if_neg hwalks]
          have hwalks' : p_walks voxels face p fw (proj S p) r = false := by simpa using hwalks
          have hem : p_emits voxels face p fw (proj S p) r = true := by
            unfold p_emits; rw [hv, hmg', hwalks']; rfl
          rw [if_pos hem]
          rw [hwalks'] at hw
          rw [if_neg hwalks] at hmr
          unfold proj
          simp only [PState.mk.injEq]
          refine ⟨?_, hmr, hw⟩
          funext c
          rw [hmf c, hTt, hS1mf c p hp1 hp, hmg']
          by_cases hc : c = r
          · subst hc; simp
          · rw [Function.update_noteq hc]
            simp [hc]
      · have hv' : visible voxels face fw r p = false := by simpa using hv
        have hTf : (bits_here &&& not64 S1.bits_merging_forward).testBit p = false := by
          rw [hT, hv']; rfl
        have hwalks' : p_walks voxels face p fw (proj S p) r = false := by
          unfold p_walks; rw [hv']; rfl
        have hem : p_emits voxels face p fw (proj S p) r = false := by
          unfold p_emits; rw [hv']; rfl
        rw [hwalks', hem]
        simp only [Bool.false_eq_true, if_false]
        rw [hTf] at hw hmr
        simp only [Bool.false_eq_true, if_false] at hw hmr
        unfold proj
        simp only [PState.mk.injEq]
        refine ⟨?_, hmr, hw⟩
        funext c
        rw [hmf c, hTf, hS1mf c p hp1 hp, hmg']
        simp
  · rw [G.qs, F.qs, hq]
  · rw [G.vs, F.vs, hq]

/-! ## Rows, faces and the whole run, one bit position at a time -/

theorem pcells_succ (voxels : List Nat) (face p forward : Nat) (s : PState) (n : Nat) :
    pcells voxels face p forward s (n + 1) =
      pcell voxels face p forward (pcells voxels face p forward s n) (n + 1) := by
  unfold pcells
  rw [List.range'_1_concat, List.foldl_append]
  simp [Nat.add_comm]

theorem flatMap_range'_succ {α : Type} (f : Nat → List α) (a n : Nat) :
    (List.range' a (n + 1)).flatMap f = (List.range' a n).flatMap f ++ f (a + n) := by
  rw [List.range'_1_concat, List.flatMap_append]
  simp

theorem mesh_row_spec (voxels : List Nat) (hlen : voxels.length = CS_P3)
    (m : Nat → Nat) (hm : MasksOk voxels m) (face : Nat) (hface : face < 6)
    (fw : Nat) (hf1 : 1 ≤ fw) (hf : fw ≤ 62) (S0 : MeshState) :
    ∃ S', mesh_row voxels m face S0 fw = some S' ∧
      (∀ p, 1 ≤ p → p ≤ 62 →
        proj S' p = pcells voxels face p fw (preset (proj S0 p)) 62) ∧
      S'.quads = S0.quads ++ (List.range' 1 62).flatMap (fun r =>
        (List.range' 1 62).flatMap (fun p => pcell_quads voxels face p fw
          (pcells voxels face p fw (preset (proj S0 p)) (r - 1)) r)) ∧
      S'.vertices = S0.vertices ++ ((List.range' 1 62).flatMap (fun r =>
        (List.range' 1 62).flatMap (fun p => pcell_quads voxels face p fw
          (pcells voxels face p fw (preset (proj S0 p)) (r - 1)) r))).flatMap quad_vertices := by
  have key := foldlM_range'_inv (mesh_cell voxels m face fw)
    (fun k S' => S'.bits_walking_right < 2 ^ 64 ∧
      (∀ p, 1 ≤ p → p ≤ 62 →
        proj S' p = pcells voxels face p fw (preset (proj S0 p)) (k - 1)) ∧
      S'.quads = S0.quads ++ (List.range' 1 (k - 1)).flatMap (fun r =>
        (List.range' 1 62).flatMap (fun p => pcell_quads voxels face p fw
          (pcells voxels face p fw (preset (proj S0 p)) (r - 1)) r)) ∧
      S'.vertices = S0.vertices ++ ((List.range' 1 (k - 1)).flatMap (fun r =>
        (List.range' 1 62).flatMap (fun p => pcell_quads voxels face p fw
          (pcells voxels face p fw (preset (proj S0 p)) (r - 1)) r))).flatMap quad_vertices)
    1 62 { S0 with bits_walking_right := 0, merged_right := fun _ => 0 }
    ⟨by show 0 < 2 ^ 64; decide, fun p _ _ => by simp [proj, preset, pcells], by simp, by simp⟩
    (fun k S hk1 hk ih => by
      obtain ⟨hlt, hproj, hqs, hvs⟩ := ih
      obtain ⟨S', hrun, hlt', hproj', hqs', hvs'⟩ :=
        mesh_cell_spec voxels hlen m hm face hface fw k hf1 hf hk1 (by omega) S hlt
      have hk' : k - 1 + 1 = k := by omega
      have hcongr : (List.range' 1 62).flatMap
            (fun p => pcell_quads voxels face p fw (proj S p) k) =
          (List.range' 1 62).flatMap (fun p => pcell_quads voxels face p fw
            (pcells voxels face p fw (preset (proj S0 p)) (k - 1)) k) := by
        apply flatMap_congr_range'
        intro p hp1 hp
        show pcell_quads voxels face p fw (proj S p) k = _
        rw [hproj p hp1 (by omega)]
      refine ⟨S', hrun, hlt', fun p hp1 hp => ?_, ?_, ?_⟩
      · rw [hproj' p hp1 hp, hproj p hp1 hp, Nat.add_sub_cancel]
        have := pcells_succ voxels face p fw (preset (proj S0 p)) (k - 1)
        rw [hk'] at this
        exact this.symm
      · rw [hqs', hqs, hcongr, Nat.add_sub_cancel]
        have := flatMap_range'_succ (fun r =>
          (List.range' 1 62).flatMap (fun p => pcell_quads voxels face p fw
            (pcells voxels face p fw (preset (proj S0 p)) (r - 1)) r)) 1 (k - 1)
        rw [hk', show 1 + (k - 1) = k by omega] at this
        rw [this, List.append_assoc]
      · rw [hvs', hvs, hcongr, Nat.add_sub_cancel]
        have := flatMap_range'_succ (fun r =>
          (List.range' 1 62).flatMap (fun p => pcell_quads voxels face p fw
            (pcells voxels face p fw (preset (proj S0 p)) (r - 1)) r)) 1 (k - 1)
        rw [hk', show 1 + (k - 1) = k by omega] at this
        rw [this, List.flatMap_append, List.append_assoc])
  obtain ⟨S', hrun, _, hproj, hqs, hvs⟩ := key
  exact ⟨S', hrun, hproj, hqs, hvs⟩

theorem mesh_face_spec (voxels : List Nat) (hlen : voxels.length = CS_P3)
    (m : Nat → Nat) (hm : MasksOk voxels m) (face : Nat) (hface : face < 6) (S0 : MeshState) :
    ∃ S', mesh_face voxels m S0 face = some S' ∧
      S'.quads = S0.quads ++ face_quads voxels face ∧
      S'.vertices = S0.vertices ++ (face_quads voxels face).flatMap quad_vertices := by
  have key := foldlM_range'_inv (mesh_row voxels m face)
    (fun k S' =>
      (∀ p, 1 ≤ p → p ≤ 62 → preset (proj S' p) = prows voxels face p (k - 1)) ∧
      S'.quads = S0.quads ++ (List.range' 1 (k - 1)).flatMap (row_quads voxels face) ∧
      S'.vertices = S0.vertices ++
        ((List.range' 1 (k - 1)).flatMap (row_quads voxels face)).flatMap quad_vertices)
    1 62 { S0 with merged_forward := fun _ => 0 }
    ⟨fun p _ _ => by simp [proj, preset, prows], by simp, by simp⟩
    (fun k S hk1 hk ih => by
      obtain ⟨hproj, hqs, hvs⟩ := ih
      obtain ⟨S', hrun, hproj', hqs', hvs'⟩ :=
        mesh_row_spec voxels hlen m hm face hface k hk1 (by omega) S
      have hk' : k - 1 + 1 = k := by omega
      have hcongr : (List.range' 1 62).flatMap (fun r =>
            (List.range' 1 62).flatMap (fun p => pcell_quads voxels face p k
              (pcells voxels face p k (preset (proj S p)) (r - 1)) r)) =
          row_quads voxels face k := by
        unfold row_quads
        apply flatMap_congr_range'
        intro r _ _
        unfold cell_quads
        apply flatMap_congr_range'
        intro p hp1 hp
        show pcell_quads voxels face p k _ r = pcell_quads voxels face p k _ r
        rw [hproj p hp1 (by omega)]
        rfl
      refine ⟨S', hrun, fun p hp1 hp => ?_, ?_, ?_⟩
      · rw [hproj' p hp1 hp, hproj p hp1 hp, Nat.add_sub_cancel]
        have : prows voxels face p k = prows voxels face p (k - 1 + 1) := by rw [hk']
        rw [this]
        show _ = preset (pcells voxels face p (k - 1 + 1) (prows voxels face p (k - 1)) 62)
        rw [hk']
      · rw [hqs', hqs, hcongr, Nat.add_sub_cancel]
        have := flatMap_range'_succ (row_quads voxels face) 1 (k - 1)
        rw [hk', show 1 + (k - 1) = k by omega] at this
        rw [this, List.append_assoc]
      · rw [hvs', hvs, hcongr, Nat.add_sub_cancel]
        have := flatMap_range'_succ (row_quads voxels face) 1 (k - 1)
        rw [hk', show 1 + (k - 1) = k by omega] at this
        rw [this, List.flatMap_append, List.append_assoc])
  obtain ⟨S', hrun, _, hqs, hvs⟩ := key
  exact ⟨S', hrun, hqs, hvs⟩

theorem mesh_run_spec (voxels : List Nat) (hlen : voxels.length = CS_P3) :
    ∃ S, mesh_run voxels = some S ∧ S.quads = all_quads voxels ∧
      S.vertices = (all_quads voxels).flatMap quad_vertices := by
  obtain ⟨ac, hac, hm⟩ := masks_spec voxels hlen
  have key := foldlM_range_inv (mesh_face voxels (cull_faces ac))
    (fun k S' => S'.quads = (List.range k).flatMap (face_quads voxels) ∧
      S'.vertices = ((List.range k).flatMap (face_quads voxels)).flatMap quad_vertices)
    6 { merged_forward := fun _ => 0, merged_right := fun _ => 0, bits_walking_right := 0,
        bits_merging_forward := 0, vertices := [], quads := [] }
    ⟨by simp, by simp⟩
    (fun k S hk ih => by
      obtain ⟨hqs, hvs⟩ := ih
      obtain ⟨S', hrun, hqs', hvs'⟩ := mesh_face_spec voxels hlen (cull_faces ac) hm k hk S
      refine ⟨S', hrun, ?_, ?_⟩
      · rw [hqs', hqs, List.range_succ, List.flatMap_append]
        simp
      · rw [hvs', hvs, List.range_succ, List.flatMap_append, List.flatMap_append]
        simp)
  obtain ⟨S, hrun, hqs, hvs⟩ := key
  refine ⟨S, ?_, hqs, hvs⟩
  unfold mesh_run
  rw [hac]
  exact hrun

/-! ## The decisions taken at each cell of a plane -/

/-- One step of the `right` loop at one bit position, under the row invariant. -/
theorem pcell_step (voxels : List Nat) (face p fw : Nat) (s : PState) (r : Nat)
    (hw : s.w = true → visible voxels face fw r p = true) (hmr : s.w = false → s.mr = 0) :
    (pcell voxels face p fw s r).w = p_walks voxels face p fw s r ∧
    (pcell voxels face p fw s r).mr =
      (if p_walks voxels face p fw s r = true then s.mr + 1 else 0) ∧
    (pcell voxels face p fw s r).mf = Function.update s.mf r
      (if p_merges voxels face p fw s r = true then s.mf r + 1
       else if visible voxels face fw r p = true then 0 else s.mf r) := by
  unfold pcell
  by_cases hm : p_merges voxels face p fw s r = true
  · have hwf : s.w = false := by
      unfold p_merges at hm
      simp only [Bool.and_eq_true, Bool.not_eq_true'] at hm
      exact hm.1.2
    have hwalk : p_walks voxels face p fw s r = false := by
      unfold p_walks; rw [hm]; simp
    rw [if_pos hm, hwalk]
    simp [hwf, hmr hwf, hm]
  · rw [if_neg hm]
    have hm' : p_merges voxels face p fw s r = false := by simpa using hm
    by_cases hwalk : p_walks voxels face p fw s r = true
    · have hv : visible voxels face fw r p = true := by
        unfold p_walks at hwalk
        simp only [Bool.and_eq_true] at hwalk
        exact hwalk.1.1.1.1
      rw [if_pos hwalk]
      simp [hwalk, hm', hv]
    · rw [if_neg hwalk]
      have hwalk' : p_walks voxels face p fw s r = false := by simpa using hwalk
      by_cases hv : visible voxels face fw r p = true
      · have he : p_emits voxels face p fw s r = true := by
          unfold p_emits; rw [hv, hm', hwalk']; rfl
        rw [if_pos he]
        simp [hwalk', hm', hv]
      · have hv' : visible voxels face fw r p = false := by simpa using hv
        have he : p_emits voxels face p fw s r = false := by
          unfold p_emits; rw [hv']; rfl
        have hwf : s.w = false := by
          cases h : s.w
          · rfl
          · rw [hw h] at hv'; exact absurd hv' (by simp)
        rw [he]
        simp [hwalk', hm', hv', hwf, hmr hwf]

theorem p_walks_visible_next {voxels : List Nat} {face p fw : Nat} {s : PState} {r : Nat}
    (h : p_walks voxels face p fw s r = true) :
    r < 62 ∧ visible voxels face fw (r + 1) p = true := by
  unfold p_walks at h
  simp only [Bool.and_eq_true, decide_eq_true_eq] at h
  exact ⟨h.1.1.2.1, h.1.1.2.2⟩

/-- Row invariant: the state after `n` cells of row `fw`. -/
theorem pcells_inv (voxels : List Nat) (face p fw : Nat) (s0 : PState)
    (hw0 : s0.w = false) (hmr0 : s0.mr = 0) :
    ∀ n, ((pcells voxels face p fw s0 n).w = true → visible voxels face fw (n + 1) p = true) ∧
      ((pcells voxels face p fw s0 n).w = false → (pcells voxels face p fw s0 n).mr = 0) := by
  intro n
  induction n with
  | zero =>
    have : pcells voxels face p fw s0 0 = s0 := rfl
    rw [this]
    exact ⟨fun h => by rw [hw0] at h; exact absurd h (by simp), fun _ => hmr0⟩
  | succ n ih =>
    rw [pcells_succ]
    obtain ⟨h1, h2, _⟩ := pcell_step voxels face p fw _ (n + 1) ih.1 ih.2
    rw [h1, h2]
    constructor
    · intro h; exact (p_walks_visible_next h).2
    · intro h; rw [if_neg]; rw [h]; simp

theorem pcells_succ_fields (voxels : List Nat) (face p fw : Nat) (s0 : PState)
    (hw0 : s0.w = false) (hmr0 : s0.mr = 0) (n : Nat) :
    (pcells voxels face p fw s0 (n + 1)).w =
      p_walks voxels face p fw (pcells voxels face p fw s0 n) (n + 1) ∧
    (pcells voxels face p fw s0 (n + 1)).mr =
      (if p_walks voxels face p fw (pcells voxels face p fw s0 n) (n + 1) = true then
        (pcells voxels face p fw s0 n).mr + 1 else 0) ∧
    (pcells voxels face p fw s0 (n + 1)).mf =
      Function.update (pcells voxels face p fw s0 n).mf (n + 1)
        (if p_merges voxels face p fw (pcells voxels face p fw s0 n) (n + 1) = true then
          (pcells voxels face p fw s0 n).mf (n + 1) + 1
        else if visible voxels face fw (n + 1) p = true then 0
        else (pcells voxels face p fw s0 n).mf (n + 1)) := by
  rw [pcells_succ]
  have ih := pcells_inv voxels face p fw s0 hw0 hmr0 n
  exact pcell_step voxels face p fw _ (n + 1) ih.1 ih.2

/-- Columns not yet reached in the row keep their counter. -/
theorem pcells_mf_later (voxels : List Nat) (face p fw : Nat) (s0 : PState)
    (hw0 : s0.w = false) (hmr0 : s0.mr = 0) (n c : Nat) (hc : n < c ∨ c = 0) :
    (pcells voxels face p fw s0 n).mf c = s0.mf c := by
  induction n with
  | zero => rfl
  | succ n ih =>
    rw [(pcells_succ_fields voxels face p fw s0 hw0 hmr0 n).2.2,
      Function.update_noteq (by omega), ih (by omega)]

/-- Columns already passed in the row keep the counter they were left with. -/
theorem pcells_mf_earlier (voxels : List Nat) (face p fw : Nat) (s0 : PState)
    (hw0 : s0.w = false) (hmr0 : s0.mr = 0) (n c : Nat) (hc1 : 1 ≤ c) (hc : c ≤ n) :
    (pcells voxels face p fw s0 n).mf c = (pcells voxels face p fw s0 c).mf c := by
  induction n with
  | zero => omega
  | succ n ih =>
    by_cases h : c = n + 1
    · rw [h]
    · rw [(pcells_succ_fields voxels face p fw s0 hw0 hmr0 n).2.2,
        Function.update_noteq h, ih (by omega)]

theorem prows_reset (voxels : List Nat) (face p k : Nat) :
    (prows voxels face p k).w = false ∧ (prows voxels face p k).mr = 0 := by
  cases k <;> exact ⟨rfl, rfl⟩

theorem pstate_succ (voxels : List Nat) (face p fw r : Nat) (hr : 1 ≤ r) :
    pstate voxels face p fw (r + 1) =
      pcell voxels face p fw (pstate voxels face p fw r) r := by
  unfold pstate
  have : r + 1 - 1 = (r - 1) + 1 := by omega
  rw [this, pcells_succ]
  have : r - 1 + 1 = r := by omega
  rw [this]

/-- The walking bit on arrival at `(fw, r + 1)` is the walk decision at `(fw, r)`. -/
theorem pstate_w_succ (voxels : List Nat) (face p fw r : Nat) (hr : 1 ≤ r) :
    (pstate voxels face p fw (r + 1)).w = walks_at voxels face p fw r := by
  obtain ⟨hw0, hmr0⟩ := prows_reset voxels face p (fw - 1)
  have := (pcells_succ_fields voxels face p fw _ hw0 hmr0 (r - 1)).1
  have e : r - 1 + 1 = r := by omega
  rw [e] at this
  exact this

theorem pstate_w_one (voxels : List Nat) (face p fw : Nat) :
    (pstate voxels face p fw 1).w = false :=
  (prows_reset voxels face p (fw - 1)).1

theorem run_right_one (voxels : List Nat) (face p fw : Nat) :
    run_right voxels face p fw 1 = 0 :=
  (prows_reset voxels face p (fw - 1)).2

theorem run_right_succ (voxels : List Nat) (face p fw r : Nat) (hr : 1 ≤ r) :
    run_right voxels face p fw (r + 1) =
      if walks_at voxels face p fw r = true then run_right voxels face p fw r + 1 else 0 := by
  obtain ⟨hw0, hmr0⟩ := prows_reset voxels face p (fw - 1)
  have := (pcells_succ_fields voxels face p fw _ hw0 hmr0 (r - 1)).2.1
  have e : r - 1 + 1 = r := by omega
  rw [e] at this
  exact this

theorem run_fwd_eq (voxels : List Nat) (face p fw r c : Nat) (hc : r ≤ c) (hr : 1 ≤ r) :
    (pstate voxels face p fw r).mf c = (prows voxels face p (fw - 1)).mf c := by
  obtain ⟨hw0, hmr0⟩ := prows_reset voxels face p (fw - 1)
  exact pcells_mf_later voxels face p fw _ hw0 hmr0 (r - 1) c (by omega)

/-- The neighbour counter read by the walk-right test is the neighbour's run length. -/
theorem pstate_mf_next (voxels : List Nat) (face p fw r : Nat) (hr : 1 ≤ r) :
    (pstate voxels face p fw r).mf (r + 1) = run_fwd voxels face p fw (r + 1) := by
  unfold run_fwd
  rw [run_fwd_eq voxels face p fw r (r + 1) (by omega) hr,
    run_fwd_eq voxels face p fw (r + 1) (r + 1) (by omega) (by omega)]

theorem prows_mf_succ (voxels : List Nat) (face p k r : Nat) (hr1 : 1 ≤ r) (hr : r ≤ 62) :
    (prows voxels face p (k + 1)).mf r =
      if merges_at voxels face p (k + 1) r = true then run_fwd voxels face p (k + 1) r + 1
      else if visible voxels face (k + 1) r p = true then 0
      else run_fwd voxels face p (k + 1) r := by
  obtain ⟨hw0, hmr0⟩ := prows_reset voxels face p k
  show (pcells voxels face p (k + 1) (prows voxels face p k) 62).mf r = _
  rw [pcells_mf_earlier voxels face p (k + 1) _ hw0 hmr0 62 r hr1 hr]
  have := (pcells_succ_fields voxels face p (k + 1) _ hw0 hmr0 (r - 1)).2.2
  have e : r - 1 + 1 = r := by omega
  rw [e] at this
  rw [this, Function.update_same]
  rfl

theorem merges_at_visible_next {voxels : List Nat} {face p fw r : Nat}
    (h : merges_at voxels face p fw r = true) :
    fw < 62 ∧ visible voxels face (fw + 1) r p = true := by
  unfold merges_at p_merges at h
  simp only [Bool.and_eq_true, decide_eq_true_eq] at h
  exact ⟨h.1.1.2.1, h.1.1.2.2⟩

theorem prows_mf_zero (voxels : List Nat) (face p r : Nat) (hr1 : 1 ≤ r) (hr : r ≤ 62) :
    ∀ k, visible voxels face (k + 1) r p = false → (prows voxels face p k).mf r = 0 := by
  intro k
  induction k with
  | zero => intro _; rfl
  | succ k ih =>
    intro hv
    rw [prows_mf_succ voxels face p k r hr1 hr]
    have hm : ¬ merges_at voxels face p (k + 1) r = true := by
      intro h
      rw [(merges_at_visible_next h).2] at hv
      exact absurd hv (by simp)
    rw [if_neg hm]
    by_cases hv' : visible voxels face (k + 1) r p = true
    · rw [if_pos hv']
    · rw [if_neg hv']
      unfold run_fwd
      rw [run_fwd_eq voxels face p (k + 1) r r (Nat.le_refl _) hr1]
      exact ih (by simpa using hv')

theorem run_fwd_one (voxels : List Nat) (face p r : Nat) (hr1 : 1 ≤ r) :
    run_fwd voxels face p 1 r = 0 := by
  unfold run_fwd
  rw [run_fwd_eq voxels face p 1 r r (Nat.le_refl _) hr1]
  rfl

theorem run_fwd_succ (voxels : List Nat) (face p fw r : Nat) (hf1 : 1 ≤ fw) (hr1 : 1 ≤ r)
    (hr : r ≤ 62) :
    run_fwd voxels face p (fw + 1) r =
      if merges_at voxels face p fw r = true then run_fwd voxels face p fw r + 1 else 0 := by
  have e : fw = (fw - 1) + 1 := by omega
  have h1 : run_fwd voxels face p (fw + 1) r = (prows voxels face p fw).mf r := by
    unfold run_fwd
    rw [run_fwd_eq voxels face p (fw + 1) r r (Nat.le_refl _) hr1]
    rfl
  rw [h1]
  have h2 := prows_mf_succ voxels face p (fw - 1) r hr1 hr
  rw [← e] at h2
  rw [h2]
  by_cases hm : merges_at voxels face p fw r = true
  · rw [if_pos hm, if_pos hm]
  · rw [if_neg hm, if_neg hm]
    by_cases hv : visible voxels face fw r p = true
    · rw [if_pos hv]
    · rw [if_neg hv]
      unfold run_fwd
      rw [run_fwd_eq voxels face p fw r r (Nat.le_refl _) hr1]
      have := prows_mf_zero voxels face p r hr1 hr (fw - 1)
      rw [← e] at this
      exact this (by simpa using hv)

/-! ### The decisions, spelled out -/

theorem merges_at_iff (voxels : List Nat) (face p fw r : Nat) (hr : 1 ≤ r) :
    merges_at voxels face p fw r = true ↔
      visible voxels face fw r p = true ∧ fw < 62 ∧ visible voxels face (fw + 1) r p = true ∧
      ¬ (2 ≤ r ∧ walks_at voxels face p fw (r - 1) = true) ∧
      cmp_forward voxels face fw r p = true := by
  have hw : (pstate voxels face p fw r).w = false ↔
      ¬ (2 ≤ r ∧ walks_at voxels face p fw (r - 1) = true) := by
    by_cases h2 : 2 ≤ r
    · have := pstate_w_succ voxels face p fw (r - 1) (by omega)
      rw [show r - 1 + 1 = r by omega] at this
      rw [this]
      simp [h2]
    · have : r = 1 := by omega
      subst this
      simp [pstate_w_one]
  unfold merges_at p_merges
  simp only [Bool.and_eq_true, decide_eq_true_eq, Bool.not_eq_true']
  rw [hw]
  constructor
  · rintro ⟨⟨⟨a, b, c⟩, d⟩, e⟩; exact ⟨a, b, c, d, e⟩
  · rintro ⟨a, b, c, d, e⟩; exact ⟨⟨⟨a, b, c⟩, d⟩, e⟩

theorem walks_at_iff (voxels : List Nat) (face p fw r : Nat) (hr : 1 ≤ r) :
    walks_at voxels face p fw r = true ↔
      visible voxels face fw r p = true ∧ merges_at voxels face p fw r = false ∧ r < 62 ∧
      visible voxels face fw (r + 1) p = true ∧
      run_fwd voxels face p fw r = run_fwd voxels face p fw (r + 1) ∧
      cmp_right voxels face fw r p = true := by
  unfold walks_at p_walks
  rw [pstate_mf_next voxels face p fw r hr]
  simp only [Bool.and_eq_true, decide_eq_true_eq, Bool.not_eq_true']
  unfold merges_at run_fwd
  constructor
  · rintro ⟨⟨⟨⟨a, b⟩, c, d⟩, e⟩, f⟩; exact ⟨a, b, c, d, e, f⟩
  · rintro ⟨a, b, c, d, e, f⟩; exact ⟨⟨⟨⟨a, b⟩, c, d⟩, e⟩, f⟩

theorem emits_at_iff (voxels : List Nat) (face p fw r : Nat) :
    emits_at voxels face p fw r = true ↔
      visible voxels face fw r p = true ∧ merges_at voxels face p fw r = false ∧
      walks_at voxels face p fw r = false := by
  unfold emits_at p_emits merges_at walks_at
  simp only [Bool.and_eq_true, Bool.not_eq_true']
  constructor
  · rintro ⟨⟨a, b⟩, c⟩; exact ⟨a, b, c⟩
  · rintro ⟨a, b, c⟩; exact ⟨⟨a, b⟩, c⟩

theorem run_right_lt (voxels : List Nat) (face p fw : Nat) :
    ∀ r, 1 ≤ r → run_right voxels face p fw r < r := by
  intro r hr
  induction r with
  | zero => omega
  | succ n ih =>
    by_cases hn : n = 0
    · subst hn; rw [run_right_one]; omega
    · rw [run_right_succ voxels face p fw n (by omega)]
      by_cases hw : walks_at voxels face p fw n = true
      · rw [if_pos hw]; have := ih (by omega); omega
      · rw [if_neg hw]; omega

theorem run_fwd_lt (voxels : List Nat) (face p r : Nat) (hr1 : 1 ≤ r) (hr : r ≤ 62) :
    ∀ fw, 1 ≤ fw → run_fwd voxels face p fw r < fw := by
  intro fw hf
  induction fw with
  | zero => omega
  | succ n ih =>
    by_cases hn : n = 0
    · subst hn; rw [run_fwd_one voxels face p r hr1]; omega
    · rw [run_fwd_succ voxels face p n r (by omega) hr1 hr]
      by_cases hm : merges_at voxels face p n r = true
      · rw [if_pos hm]; have := ih (by omega); omega
      · rw [if_neg hm]; omega

/-! ## Which cells a rectangle covers -/

theorem walks_of_run_right (voxels : List Nat) (face p : Nat) (fw : Nat) :
    ∀ r, 1 ≤ r → ∀ b, r - run_right voxels face p fw r ≤ b → b < r →
      walks_at voxels face p fw b = true := by
  intro r
  induction r with
  | zero => intro h; omega
  | succ n ih =>
    intro _ b hb1 hb2
    by_cases hn : n = 0
    · subst hn
      rw [run_right_one] at hb1
      omega
    · rw [run_right_succ voxels face p fw n (by omega)] at hb1
      by_cases hw : walks_at voxels face p fw n = true
      · rw [if_pos hw] at hb1
        by_cases hbn : b = n
        · rw [hbn]; exact hw
        · exact ih (by omega) b (by omega) (by omega)
      · rw [if_neg hw] at hb1
        omega

theorem run_right_of_walks (voxels : List Nat) (face p : Nat) (fw : Nat) :
    ∀ r, 1 ≤ r → ∀ b, 1 ≤ b → b ≤ r →
      (∀ b', b ≤ b' → b' < r → walks_at voxels face p fw b' = true) →
      r - run_right voxels face p fw r ≤ b := by
  intro r
  induction r with
  | zero => intro h; omega
  | succ n ih =>
    intro _ b hb1 hb2 hw
    by_cases hbn : b = n + 1
    · omega
    · have hn : 1 ≤ n := by omega
      rw [run_right_succ voxels face p fw n hn, if_pos (hw n (by omega) (by omega))]
      have := ih hn b hb1 (by omega) (fun b' h1 h2 => hw b' h1 (by omega))
      omega

theorem merges_of_run_fwd (voxels : List Nat) (face p : Nat) (r : Nat) (hr1 : 1 ≤ r) (hr : r ≤ 62) :
    ∀ fw, 1 ≤ fw → ∀ a, fw - run_fwd voxels face p fw r ≤ a → a < fw →
      merges_at voxels face p a r = true := by
  intro fw
  induction fw with
  | zero => intro h; omega
  | succ n ih =>
    intro _ a ha1 ha2
    by_cases hn : n = 0
    · subst hn
      rw [run_fwd_one voxels face p r hr1] at ha1
      omega
    · rw [run_fwd_succ voxels face p n r (by omega) hr1 hr] at ha1
      by_cases hm : merges_at voxels face p n r = true
      · rw [if_pos hm] at ha1
        by_cases han : a = n
        · rw [han]; exact hm
        · exact ih (by omega) a (by omega) (by omega)
      · rw [if_neg hm] at ha1
        omega

theorem run_fwd_of_merges (voxels : List Nat) (face p : Nat) (r : Nat) (hr1 : 1 ≤ r) (hr : r ≤ 62) :
    ∀ fw, 1 ≤ fw → ∀ a, 1 ≤ a → a ≤ fw →
      (∀ a', a ≤ a' → a' < fw → merges_at voxels face p a' r = true) →
      fw - run_fwd voxels face p fw r ≤ a := by
  intro fw
  induction fw with
  | zero => intro h; omega
  | succ n ih =>
    intro _ a ha1 ha2 hm
    by_cases han : a = n + 1
    · omega
    · have hn : 1 ≤ n := by omega
      rw [run_fwd_succ voxels face p n r hn hr1 hr, if_pos (hm n (by omega) (by omega))]
      have := ih hn a ha1 (by omega) (fun a' h1 h2 => hm a' h1 (by omega))
      omega

/-- Along a stretch of walk-right decisions the forward run length is constant. -/
theorem run_fwd_const (voxels : List Nat) (face p : Nat) (fw r : Nat) :
    ∀ n b, r = b + n → 1 ≤ b →
      (∀ b', b ≤ b' → b' < r → walks_at voxels face p fw b' = true) →
      run_fwd voxels face p fw b = run_fwd voxels face p fw r := by
  intro n
  induction n with
  | zero => intro b hb _ _; rw [hb]; rfl
  | succ n ih =>
    intro b hb hb1 hw
    have h1 := ((walks_at_iff voxels face p fw b hb1).1 (hw b (Nat.le_refl _) (by omega))).2.2.2.2.1
    rw [h1]
    exact ih (b + 1) (by omega) (by omega) (fun b' h1 h2 => hw b' (by omega) h2)

theorem in_rect_iff_owns (voxels : List Nat) (face p : Nat)
    (fw r a b : Nat) (hf1 : 1 ≤ fw) (hr1 : 1 ≤ r) (hr : r ≤ 62)
    (ha : 1 ≤ a) (hb : 1 ≤ b) (he : emits_at voxels face p fw r = true) :
    in_rect voxels face p fw r a b ↔ owns voxels face p fw r a b := by
  constructor
  · rintro ⟨h1, h2, h3, h4⟩
    have hw : ∀ b', b ≤ b' → b' < r → walks_at voxels face p fw b' = true :=
      fun b' hb1 hb2 => walks_of_run_right voxels face p fw r hr1 b' (by omega) hb2
    have hc := run_fwd_const voxels face p fw r (r - b) b (by omega) hb hw
    refine ⟨he, h2, h4, fun a' ha1 ha2 => ?_, hw⟩
    exact merges_of_run_fwd voxels face p b hb (by omega) fw hf1 a' (by rw [hc]; omega) ha2
  · rintro ⟨_, h2, h4, hm, hw⟩
    have hc := run_fwd_const voxels face p fw r (r - b) b (by omega) hb hw
    refine ⟨?_, h2, ?_, h4⟩
    · rw [← hc]
      exact run_fwd_of_merges voxels face p b hb (by omega) fw hf1 a ha h2 hm
    · exact run_right_of_walks voxels face p fw r hr1 b hb h4 hw

theorem owns_visible (voxels : List Nat) (face p : Nat)
    (fw r a b : Nat) (hb : 1 ≤ b) (h : owns voxels face p fw r a b) :
    visible voxels face a b p = true := by
  obtain ⟨he, h2, h4, hm, hw⟩ := h
  by_cases ha : a < fw
  · exact ((merges_at_iff voxels face p a b hb).1 (hm a (Nat.le_refl _) ha)).1
  · have : a = fw := by omega
    subst this
    by_cases hbr : b < r
    · exact ((walks_at_iff voxels face p a b hb).1 (hw b (Nat.le_refl _) hbr)).1
    · have : b = r := by omega
      subst this
      exact ((emits_at_iff voxels face p a b).1 he).1

theorem owns_not_merges (voxels : List Nat) (face p : Nat)
    (fw r a b : Nat) (hb : 1 ≤ b) (h : owns voxels face p fw r a b) :
    merges_at voxels face p fw b = false := by
  obtain ⟨he, _, h4, _, hw⟩ := h
  by_cases hbr : b < r
  · exact ((walks_at_iff voxels face p fw b hb).1 (hw b (Nat.le_refl _) hbr)).2.1
  · have : b = r := by omega
    subst this
    exact ((emits_at_iff voxels face p fw b).1 he).2.1

theorem owns_unique (voxels : List Nat) (face p : Nat) (fw r fw' r' a b : Nat) (hb : 1 ≤ b)
    (h : owns voxels face p fw r a b) (h' : owns voxels face p fw' r' a b) :
    fw = fw' ∧ r = r' := by
  have hfw : fw = fw' := by
    by_contra hne
    rcases Nat.lt_or_gt_of_ne hne with hlt | hgt
    · have := h'.2.2.2.1 fw h.2.1 hlt
      rw [owns_not_merges voxels face p fw r a b hb h] at this
      exact absurd this (by simp)
    · have := h.2.2.2.1 fw' h'.2.1 hgt
      rw [owns_not_merges voxels face p fw' r' a b hb h'] at this
      exact absurd this (by simp)
  subst hfw
  refine ⟨rfl, ?_⟩
  by_contra hne
  rcases Nat.lt_or_gt_of_ne hne with hlt | hgt
  · have := h'.2.2.2.2 r h.2.2.1 hlt
    rw [((emits_at_iff voxels face p fw r).1 h.1).2.2] at this
    exact absurd this (by simp)
  · have := h.2.2.2.2 r' h'.2.2.1 hgt
    rw [((emits_at_iff voxels face p fw r').1 h'.1).2.2] at this
    exact absurd this (by simp)

theorem exists_forward_end (voxels : List Nat) (face p : Nat) (b : Nat) (hb : 1 ≤ b) :
    ∀ n a, a + n = 62 → visible voxels face a b p = true →
      ∃ fw, a ≤ fw ∧ fw ≤ 62 ∧ visible voxels face fw b p = true ∧
        merges_at voxels face p fw b = false ∧
        ∀ a', a ≤ a' → a' < fw → merges_at voxels face p a' b = true := by
  intro n
  induction n with
  | zero =>
    intro a ha hv
    refine ⟨a, Nat.le_refl _, by omega, hv, ?_, fun a' h1 h2 => by omega⟩
    cases hm : merges_at voxels face p a b
    · rfl
    · have := ((merges_at_iff voxels face p a b hb).1 hm).2.1
      omega
  | succ n ih =>
    intro a ha hv
    cases hm : merges_at voxels face p a b
    · exact ⟨a, Nat.le_refl _, by omega, hv, hm, fun a' h1 h2 => by omega⟩
    · have hnext := ((merges_at_iff voxels face p a b hb).1 hm).2.2.1
      obtain ⟨fw, h1, h2, h3, h4, h5⟩ := ih (a + 1) (by omega) hnext
      refine ⟨fw, by omega, h2, h3, h4, fun a' ha1 ha2 => ?_⟩
      by_cases e : a' = a
      · rw [e]; exact hm
      · exact h5 a' (by omega) ha2

theorem exists_right_end (voxels : List Nat) (face p : Nat) (fw : Nat) :
    ∀ n b, b + n = 62 → 1 ≤ b → visible voxels face fw b p = true →
      merges_at voxels face p fw b = false →
      ∃ r, b ≤ r ∧ r ≤ 62 ∧ emits_at voxels face p fw r = true ∧
        ∀ b', b ≤ b' → b' < r → walks_at voxels face p fw b' = true := by
  intro n
  induction n with
  | zero =>
    intro b hb hb1 hv hm
    refine ⟨b, Nat.le_refl _, by omega, ?_, fun b' h1 h2 => by omega⟩
    rw [emits_at_iff]
    refine ⟨hv, hm, ?_⟩
    cases hw : walks_at voxels face p fw b
    · rfl
    · have := ((walks_at_iff voxels face p fw b hb1).1 hw).2.2.1
      omega
  | succ n ih =>
    intro b hb hb1 hv hm
    cases hw : walks_at voxels face p fw b
    · exact ⟨b, Nat.le_refl _, by omega, (emits_at_iff voxels face p fw b).2 ⟨hv, hm, hw⟩,
        fun b' h1 h2 => by omega⟩
    · have hnext := ((walks_at_iff voxels face p fw b hb1).1 hw).2.2.2.1
      have hm' : merges_at voxels face p fw (b + 1) = false := by
        cases hmm : merges_at voxels face p fw (b + 1)
        · rfl
        · have := ((merges_at_iff voxels face p fw (b + 1) (by omega)).1 hmm).2.2.2.1
          exact absurd ⟨by omega, by simpa using hw⟩ this
      obtain ⟨r, h1, h2, h3, h4⟩ := ih (b + 1) (by omega) (by omega) hnext hm'
      refine ⟨r, by omega, h2, h3, fun b' hb1' hb2' => ?_⟩
      by_cases e : b' = b
      · rw [e]; exact hw
      · exact h4 b' (by omega) hb2'

theorem exists_owner (voxels : List Nat) (face p : Nat)
    (a b : Nat) (ha : a ≤ 62) (hb1 : 1 ≤ b) (hb : b ≤ 62)
    (hv : visible voxels face a b p = true) :
    ∃ fw r, a ≤ fw ∧ fw ≤ 62 ∧ b ≤ r ∧ r ≤ 62 ∧ owns voxels face p fw r a b := by
  obtain ⟨fw, h1, h2, h3, h4, h5⟩ :=
    exists_forward_end voxels face p b hb1 (62 - a) a (by omega) hv
  obtain ⟨r, g1, g2, g3, g4⟩ :=
    exists_right_end voxels face p fw (62 - b) b (by omega) hb1 h3 h4
  exact ⟨fw, r, h1, h2, g1, g2, g3, h1, g1, h5, g4⟩

/-! ## Counting rectangles -/

theorem countP_flatMap_zero {α β : Type} (P : β → Bool) (g : α → List β) :
    ∀ l : List α, (∀ x ∈ l, (g x).countP P = 0) → (l.flatMap g).countP P = 0 := by
  intro l
  induction l with
  | nil => intro _; rfl
  | cons x l ih =>
    intro h
    rw [List.flatMap_cons, List.countP_append, h x (List.mem_cons_self _ _),
      ih (fun y hy => h y (List.mem_cons_of_mem _ hy))]

theorem countP_flatMap_unique {α β : Type} [DecidableEq α] (P : β → Bool) (g : α → List β)
    (x0 : α) :
    ∀ l : List α, l.Nodup → x0 ∈ l → (∀ x ∈ l, x ≠ x0 → (g x).countP P = 0) →
      (l.flatMap g).countP P = (g x0).countP P := by
  intro l
  induction l with
  | nil => intro _ h; exact absurd h (List.not_mem_nil _)
  | cons x l ih =>
    intro hnd hx0 h
    rw [List.flatMap_cons, List.countP_append]
    rw [List.nodup_cons] at hnd
    by_cases hx : x = x0
    · subst hx
      rw [countP_flatMap_zero P g l (fun y hy => h y (List.mem_cons_of_mem _ hy)
        (fun e => hnd.1 (e ▸ hy)))]
      rfl
    · have hx0' : x0 ∈ l := by
        rcases List.mem_cons.1 hx0 with e | e
        · exact absurd e.symm hx
        · exact e
      rw [h x (List.mem_cons_self _ _) hx,
        ih hnd.2 hx0' (fun y hy => h y (List.mem_cons_of_mem _ hy))]
      simp

theorem to_u8_sub (n m : Nat) (h : m ≤ n) (hn : n < 256) :
    to_u8 ((n : Int) - (m : Int)) = n - m := by
  unfold to_u8
  omega

theorem to_u8_add (n : Nat) (e : Int) (he0 : 0 ≤ e) (hn : (n : Int) + e < 256) :
    ((to_u8 ((n : Int) + e) : Nat) : Int) = (n : Int) + e := by
  unfold to_u8
  omega

theorem pcell_quads_eq (voxels : List Nat) (face p fw r : Nat) :
    pcell_quads voxels face p fw (pstate voxels face p fw r) r =
      if emits_at voxels face p fw r = true then [quad_at voxels face p fw r] else [] := rfl

theorem quad_at_fields (voxels : List Nat) (face p fw r : Nat)
    (hf1 : 1 ≤ fw) (hf : fw ≤ 62) (hr1 : 1 ≤ r) (hr : r ≤ 62) (hp : p ≤ 62) :
    (quad_at voxels face p fw r).face = face ∧
    (quad_at voxels face p fw r).mesh_up = p + (if face % 2 = 0 then 1 else 0) ∧
    (quad_at voxels face p fw r).mesh_front = fw - run_fwd voxels face p fw r ∧
    (quad_at voxels face p fw r).mesh_back = fw + 1 ∧
    (quad_at voxels face p fw r).mesh_left = r - run_right voxels face p fw r ∧
    (quad_at voxels face p fw r).mesh_right = r + 1 := by
  have h1 := run_fwd_lt voxels face p r hr1 hr fw hf1
  have h2 := run_right_lt voxels face p fw r hr1
  refine ⟨rfl, ?_, ?_, ?_, ?_, ?_⟩
  · show to_u8 ((p : Int) + (if face % 2 = 0 then 1 else 0)) = _
    unfold to_u8
    split <;> omega
  · exact to_u8_sub fw _ (by omega) (by omega)
  · show to_u8 ((fw : Int) + 1) = _
    unfold to_u8; omega
  · exact to_u8_sub r _ (by omega) (by omega)
  · show to_u8 ((r : Int) + 1) = _
    unfold to_u8; omega

theorem covers_quad_at (voxels : List Nat) (face p fw r face' p' a b : Nat)
    (hf1 : 1 ≤ fw) (hf : fw ≤ 62) (hr1 : 1 ≤ r) (hr : r ≤ 62) (hp : p ≤ 62) :
    covers_face face' p' a b (quad_at voxels face p fw r) = true ↔
      face = face' ∧ p = p' ∧ in_rect voxels face p fw r a b := by
  obtain ⟨e1, e2, e3, e4, e5, e6⟩ := quad_at_fields voxels face p fw r hf1 hf hr1 hr hp
  unfold covers_face in_rect
  rw [decide_eq_true_eq, e1, e2, e3, e4, e5, e6]
  constructor
  · rintro ⟨h1, h2, h3, h4, h5, h6⟩
    subst h1
    exact ⟨rfl, by omega, h3, by omega, h5, by omega⟩
  · rintro ⟨h1, h2, h3, h4, h5, h6⟩
    subst h1; subst h2
    exact ⟨rfl, rfl, h3, by omega, h5, by omega⟩

theorem countP_pcell_quads_pos (voxels : List Nat) (face p fw r a b : Nat)
    (hf1 : 1 ≤ fw) (hf : fw ≤ 62) (hr1 : 1 ≤ r) (hr : r ≤ 62) (hp : p ≤ 62)
    (he : emits_at voxels face p fw r = true) (hin : in_rect voxels face p fw r a b) :
    (pcell_quads voxels face p fw (pstate voxels face p fw r) r).countP
        (covers_face face p a b) = 1 := by
  rw [pcell_quads_eq, if_pos he, List.countP_cons_of_pos _ _
    ((covers_quad_at voxels face p fw r face p a b hf1 hf hr1 hr hp).2 ⟨rfl, rfl, hin⟩)]
  rfl

theorem countP_pcell_quads_neg (voxels : List Nat) (face p fw r face' p' a b : Nat)
    (hf1 : 1 ≤ fw) (hf : fw ≤ 62) (hr1 : 1 ≤ r) (hr : r ≤ 62) (hp : p ≤ 62)
    (h : ¬ (emits_at voxels face p fw r = true ∧ face = face' ∧ p = p' ∧
      in_rect voxels face p fw r a b)) :
    (pcell_quads voxels face p fw (pstate voxels face p fw r) r).countP
        (covers_face face' p' a b) = 0 := by
  rw [pcell_quads_eq]
  by_cases he : emits_at voxels face p fw r = true
  · rw [if_pos he, List.countP_cons_of_neg]
    · rfl
    · intro hc
      exact h ⟨he, (covers_quad_at voxels face p fw r face' p' a b hf1 hf hr1 hr hp).1 hc⟩
  · rw [if_neg he]
    rfl

theorem mem_range'_1_62 {x : Nat} : x ∈ List.range' 1 62 ↔ 1 ≤ x ∧ x ≤ 62 := by
  rw [List.mem_range'_1]; omega

theorem nodup_range'_1_62 : (List.range' 1 62).Nodup := List.nodup_range' 1 62

/-- Every visible face of an interior voxel is covered by exactly one rectangle. -/
theorem count_covering (voxels : List Nat) (face p a b : Nat) (hface : face < 6)
    (hp1 : 1 ≤ p) (hp : p ≤ 62) (ha1 : 1 ≤ a) (ha : a ≤ 62) (hb1 : 1 ≤ b) (hb : b ≤ 62)
    (hv : visible voxels face a b p = true) :
    (all_quads voxels).countP (covers_face face p a b) = 1 := by
  obtain ⟨fw0, r0, h1, h2, h3, h4, hown⟩ := exists_owner voxels face p a b ha hb1 hb hv
  have hin0 : in_rect voxels face p fw0 r0 a b :=
    (in_rect_iff_owns voxels face p fw0 r0 a b (by omega) (by omega) h4 ha1 hb1 hown.1).2 hown
  have hneg : ∀ fw r, 1 ≤ fw → fw ≤ 62 → 1 ≤ r → r ≤ 62 → (fw ≠ fw0 ∨ r ≠ r0) →
      ¬ (emits_at voxels face p fw r = true ∧ face = face ∧ p = p ∧
        in_rect voxels face p fw r a b) := by
    rintro fw r hf1 hf hr1 hr hne ⟨he, _, _, hin⟩
    have ho := (in_rect_iff_owns voxels face p fw r a b hf1 hr1 hr ha1 hb1 he).1 hin
    have := owns_unique voxels face p fw r fw0 r0 a b hb1 ho hown
    omega
  unfold all_quads
  rw [countP_flatMap_unique _ _ face (List.range 6) (List.nodup_range 6)
    (List.mem_range.2 hface)]
  · unfold face_quads
    rw [countP_flatMap_unique _ _ fw0 _ nodup_range'_1_62 (mem_range'_1_62.2 ⟨by omega, h2⟩)]
    · unfold row_quads
      rw [countP_flatMap_unique _ _ r0 _ nodup_range'_1_62 (mem_range'_1_62.2 ⟨by omega, h4⟩)]
      · unfold cell_quads
        rw [countP_flatMap_unique _ _ p _ nodup_range'_1_62 (mem_range'_1_62.2 ⟨hp1, hp⟩)]
        · exact countP_pcell_quads_pos voxels face p fw0 r0 a b (by omega) h2 (by omega) h4 hp
            hown.1 hin0
        · intro p' hp' hne
          rw [mem_range'_1_62] at hp'
          exact countP_pcell_quads_neg voxels face p' fw0 r0 face p a b (by omega) h2
            (by omega) h4 hp'.2 (fun h => hne h.2.2.1)
      · intro r hr hne
        rw [mem_range'_1_62] at hr
        unfold cell_quads
        apply countP_flatMap_zero
        intro p' hp'
        rw [mem_range'_1_62] at hp'
        apply countP_pcell_quads_neg voxels face p' fw0 r face p a b (by omega) h2 hr.1 hr.2
          hp'.2
        rintro ⟨he, _, hpp, hin⟩
        subst hpp
        exact hneg fw0 r (by omega) h2 hr.1 hr.2 (Or.inr hne) ⟨he, rfl, rfl, hin⟩
    · intro fw hfw hne
      rw [mem_range'_1_62] at hfw
      unfold row_quads
      apply countP_flatMap_zero
      intro r hr
      rw [mem_range'_1_62] at hr
      unfold cell_quads
      apply countP_flatMap_zero
      intro p' hp'
      rw [mem_range'_1_62] at hp'
      apply countP_pcell_quads_neg voxels face p' fw r face p a b hfw.1 hfw.2 hr.1 hr.2 hp'.2
      rintro ⟨he, _, hpp, hin⟩
      subst hpp
      exact hneg fw r hfw.1 hfw.2 hr.1 hr.2 (Or.inl hne) ⟨he, rfl, rfl, hin⟩
  · intro face' _ hne
    unfold face_quads
    apply countP_flatMap_zero
    intro fw hfw
    rw [mem_range'_1_62] at hfw
    unfold row_quads
    apply countP_flatMap_zero
    intro r hr
    rw [mem_range'_1_62] at hr
    unfold cell_quads
    apply countP_flatMap_zero
    intro p' hp'
    rw [mem_range'_1_62] at hp'
    exact countP_pcell_quads_neg voxels face' p' fw r face p a b hfw.1 hfw.2 hr.1 hr.2 hp'.2
      (fun h => hne h.2.1)

/-- Every emitted rectangle was closed at some cell of some plane. -/
theorem mem_all_quads {voxels : List Nat} {q : Quad} (h : q ∈ all_quads voxels) :
    ∃ face p fw r, face < 6 ∧ (1 ≤ p ∧ p ≤ 62) ∧ (1 ≤ fw ∧ fw ≤ 62) ∧ (1 ≤ r ∧ r ≤ 62) ∧
      emits_at voxels face p fw r = true ∧ q = quad_at voxels face p fw r := by
  unfold all_quads face_quads row_quads cell_quads at h
  simp only [List.mem_flatMap] at h
  obtain ⟨face, hface, fw, hfw, r, hr, p, hp, hq⟩ := h
  rw [pcell_quads_eq] at hq
  by_cases he : emits_at voxels face p fw r = true
  · rw [if_pos he] at hq
    exact ⟨face, p, fw, r, List.mem_range.1 hface, mem_range'_1_62.1 hp, mem_range'_1_62.1 hfw,
      mem_range'_1_62.1 hr, he, List.mem_singleton.1 hq⟩
  · rw [if_neg he] at hq
    exact absurd hq (List.not_mem_nil _)

theorem quad_at_mem (voxels : List Nat) (face p fw r : Nat) (hface : face < 6)
    (hp1 : 1 ≤ p) (hp : p ≤ 62) (hf1 : 1 ≤ fw) (hf : fw ≤ 62) (hr1 : 1 ≤ r) (hr : r ≤ 62)
    (he : emits_at voxels face p fw r = true) :
    quad_at voxels face p fw r ∈ all_quads voxels := by
  unfold all_quads face_quads row_quads cell_quads
  simp only [List.mem_flatMap]
  refine ⟨face, List.mem_range.2 hface, fw, mem_range'_1_62.2 ⟨hf1, hf⟩, r,
    mem_range'_1_62.2 ⟨hr1, hr⟩, p, mem_range'_1_62.2 ⟨hp1, hp⟩, ?_⟩
  rw [pcell_quads_eq, if_pos he]
  exact List.mem_singleton.2 rfl

/-- The cells within the bounds of the rectangle closed at `(fw, r)` are interior cells
owned by `(fw, r)`. -/
theorem quad_at_cells (voxels : List Nat) (face p fw r a b : Nat)
    (hf1 : 1 ≤ fw) (hf : fw ≤ 62) (hr1 : 1 ≤ r) (hr : r ≤ 62) (hp : p ≤ 62)
    (he : emits_at voxels face p fw r = true)
    (h1 : (quad_at voxels face p fw r).mesh_front ≤ a)
    (h2 : a < (quad_at voxels face p fw r).mesh_back)
    (h3 : (quad_at voxels face p fw r).mesh_left ≤ b)
    (h4 : b < (quad_at voxels face p fw r).mesh_right) :
    (1 ≤ a ∧ a ≤ 62) ∧ (1 ≤ b ∧ b ≤ 62) ∧ owns voxels face p fw r a b := by
  obtain ⟨_, _, e3, e4, e5, e6⟩ := quad_at_fields voxels face p fw r hf1 hf hr1 hr hp
  rw [e3] at h1; rw [e4] at h2; rw [e5] at h3; rw [e6] at h4
  have g1 := run_fwd_lt voxels face p r hr1 hr fw hf1
  have g2 := run_right_lt voxels face p fw r hr1
  have ha : 1 ≤ a := by omega
  have hb : 1 ≤ b := by omega
  refine ⟨⟨ha, by omega⟩, ⟨hb, by omega⟩, ?_⟩
  exact (in_rect_iff_owns voxels face p fw r a b hf1 hr1 hr ha hb he).1
    ⟨h1, by omega, h3, by omega⟩

/-! ## Rectangles are uniform -/

theorem all_beq_iff_map_eq {α β : Type} [DecidableEq β] (f g : α → β) :
    ∀ l : List α, (l.all (fun d => f d == g d)) = true ↔ l.map f = l.map g := by
  intro l
  induction l with
  | nil => simp
  | cons x l ih =>
    simp only [List.all_cons, Bool.and_eq_true, List.map_cons, List.cons.injEq, ih,
      beq_iff_eq]

theorem same_ao_iff (voxels : List Nat) (face p : Nat) (forward right fo ro : Int) :
    same_ao voxels ((face / 2 : Nat) : Int) forward right ((p : Int) + light_dir face) fo ro
        = true ↔
      ao_pattern voxels face p forward right =
        ao_pattern voxels face p (forward + fo) (right + ro) := by
  unfold same_ao ao_pattern
  exact all_beq_iff_map_eq _ _ ao_dirs

theorem cmp_forward_iff (voxels : List Nat) (face p fw r : Nat) :
    cmp_forward voxels face fw r p = true ↔
      cell_type voxels face p fw r = cell_type voxels face p (fw + 1) r ∧
      ao_pattern voxels face p fw r = ao_pattern voxels face p ((fw + 1 : Nat) : Int) r := by
  unfold cmp_forward
  rw [Bool.and_eq_true, decide_eq_true_eq, same_ao_iff]
  unfold cell_type
  have : ((fw + 1 : Nat) : Int) = (fw : Int) + 1 := by push_cast; rfl
  rw [this, Int.add_zero]

theorem cmp_right_iff (voxels : List Nat) (face p fw r : Nat) :
    cmp_right voxels face fw r p = true ↔
      cell_type voxels face p fw r = cell_type voxels face p fw (r + 1) ∧
      ao_pattern voxels face p fw r = ao_pattern voxels face p fw ((r + 1 : Nat) : Int) := by
  unfold cmp_right
  rw [Bool.and_eq_true, decide_eq_true_eq, same_ao_iff]
  unfold cell_type
  have : ((r + 1 : Nat) : Int) = (r : Int) + 1 := by push_cast; rfl
  rw [this, Int.add_zero]

theorem chain_eq {α : Type} (X : Nat → α) (a : Nat) :
    ∀ n, (∀ a', a ≤ a' → a' < a + n → X a' = X (a' + 1)) → X a = X (a + n) := by
  intro n
  induction n with
  | zero => intro _; rfl
  | succ n ih =>
    intro h
    rw [ih (fun a' h1 h2 => h a' h1 (by omega)), h (a + n) (by omega) (by omega)]
    rfl

/-- Every cell of a rectangle has the material id and the neighbour pattern of the
cell that closed it. -/
theorem owns_uniform (voxels : List Nat) (face p fw r a b : Nat) (hb : 1 ≤ b)
    (h : owns voxels face p fw r a b) :
    cell_type voxels face p a b = cell_type voxels face p fw r ∧
    ao_pattern voxels face p a b = ao_pattern voxels face p fw r := by
  obtain ⟨_, h2, h4, hm, hw⟩ := h
  have hfa : fw = a + (fw - a) := by omega
  have hrb : r = b + (r - b) := by omega
  have e1 := chain_eq (fun a' => cell_type voxels face p a' b) a (fw - a)
    (fun a' h1 h3 => ((cmp_forward_iff voxels face p a' b).1
      ((merges_at_iff voxels face p a' b hb).1 (hm a' h1 (by omega))).2.2.2.2).1)
  have e2 := chain_eq (fun a' => ao_pattern voxels face p (a' : Nat) b) a (fw - a)
    (fun a' h1 h3 => ((cmp_forward_iff voxels face p a' b).1
      ((merges_at_iff voxels face p a' b hb).1 (hm a' h1 (by omega))).2.2.2.2).2)
  have e3 := chain_eq (fun b' => cell_type voxels face p fw b') b (r - b)
    (fun b' h1 h3 => ((cmp_right_iff voxels face p fw b').1
      ((walks_at_iff voxels face p fw b' (by omega)).1 (hw b' h1 (by omega))).2.2.2.2.2).1)
  have e4 := chain_eq (fun b' => ao_pattern voxels face p fw (b' : Nat)) b (r - b)
    (fun b' h1 h3 => ((cmp_right_iff voxels face p fw b').1
      ((walks_at_iff voxels face p fw b' (by omega)).1 (hw b' h1 (by omega))).2.2.2.2.2).2)
  simp only [← hfa, ← hrb] at e1 e2 e3 e4
  exact ⟨e1.trans e3, e2.trans e4⟩

theorem cell_quad_ao (voxels : List Nat) (face p fw r mr mfv : Nat) :
    ((cell_quad voxels face fw r p mr mfv).ao_LB, (cell_quad voxels face fw r p mr mfv).ao_LF,
      (cell_quad voxels face fw r p mr mfv).ao_RB, (cell_quad voxels face fw r p mr mfv).ao_RF) =
    face_ao voxels face p fw r := rfl

theorem face_ao_of_pattern (voxels : List Nat) (face p a b fw r : Nat)
    (h : ao_pattern voxels face p a b = ao_pattern voxels face p fw r) :
    face_ao voxels face p a b = face_ao voxels face p fw r := by
  unfold ao_pattern ao_dirs at h
  simp only [List.map_cons, List.map_nil, List.cons.injEq, and_true, Int.add_zero] at h
  obtain ⟨h1, h2, h3, h4, h5, h6, h7, h8⟩ := h
  unfold face_ao
  simp only [Int.sub_eq_add_neg, h1, h2, h3, h4, h5, h6, h7, h8]

/-! ## Packed vertices -/

theorem testBit_of_lt_pow {v W m : Nat} (hv : v < 2 ^ W) (hm : W ≤ m) : v.testBit m = false :=
  Nat.testBit_lt_two_pow (Nat.lt_of_lt_of_le hv (Nat.pow_le_pow_right (by decide) hm))

theorem testBit_u32_shift (v k W j : Nat) (hv : v < 2 ^ W) (hk : k + W ≤ 32) :
    (u32 (v <<< k)).testBit j = (decide (k ≤ j) && v.testBit (j - k)) := by
  unfold u32
  rw [Nat.testBit_mod_two_pow, Nat.testBit_shiftLeft]
  by_cases hj : j < 32
  · simp [hj]
  · have : v.testBit (j - k) = false := testBit_of_lt_pow hv (by omega)
    simp [hj, this]

theorem u32_pred (x : Nat) (h1 : 1 ≤ x) (h : x ≤ 64) : u32 (x + 2 ^ 32 - 1) = x - 1 := by
  unfold u32
  omega

theorem u32_small (x : Nat) (h : x < 64) : u32 x = x := by
  unfold u32
  omega

/-- Bit `j` of a packed vertex whose fields do not overflow 32 bits. -/
theorem testBit_get_vertex (x y z type light norm ao j : Nat)
    (hx1 : 1 ≤ x) (hx : x ≤ 64) (hy1 : 1 ≤ y) (hy : y ≤ 64) (hz1 : 1 ≤ z) (hz : z ≤ 64)
    (ht : type < 2 ^ 14) (hl : light < 2 ^ 9) (hn : norm < 2 ^ 5) (hao : ao < 2 ^ 2) :
    (get_vertex x y z type light norm ao).testBit j =
      (decide (30 ≤ j) && ao.testBit (j - 30) || decide (27 ≤ j) && norm.testBit (j - 27) ||
        decide (23 ≤ j) && light.testBit (j - 23) || decide (18 ≤ j) && type.testBit (j - 18) ||
        decide (12 ≤ j) && (z - 1).testBit (j - 12) || decide (6 ≤ j) && (y - 1).testBit (j - 6) ||
        (x - 1).testBit j) := by
  unfold get_vertex
  rw [u32_pred x hx1 hx, u32_pred y hy1 hy, u32_pred z hz1 hz]
  simp only [Nat.testBit_or]
  rw [testBit_u32_shift ao 30 2 j hao (by omega), testBit_u32_shift norm 27 5 j hn (by omega),
    testBit_u32_shift light 23 9 j hl (by omega), testBit_u32_shift type 18 14 j ht (by omega),
    testBit_u32_shift (z - 1) 12 6 j (by show z - 1 < 64; omega) (by omega),
    testBit_u32_shift (y - 1) 6 6 j (by show y - 1 < 64; omega) (by omega)]

theorem testBit_shift_and (w k W i : Nat) :
    ((w >>> k) &&& (2 ^ W - 1)).testBit i = (w.testBit (k + i) && decide (i < W)) := by
  rw [Nat.testBit_and, Nat.testBit_shiftRight, Nat.testBit_two_pow_sub_one]

theorem get_vertex_x_bits (x y z type light norm ao : Nat)
    (hx1 : 1 ≤ x) (hx : x ≤ 64) (hy1 : 1 ≤ y) (hy : y ≤ 64) (hz1 : 1 ≤ z) (hz : z ≤ 64)
    (ht : type < 2 ^ 14) (hl : light < 2 ^ 9) (hn : norm < 2 ^ 5) (hao : ao < 2 ^ 2) :
    (get_vertex x y z type light norm ao) &&& 0x3F = x - 1 := by
  apply Nat.eq_of_testBit_eq
  intro i
  have := testBit_shift_and (get_vertex x y z type light norm ao) 0 6 i
  rw [Nat.shiftRight_zero, Nat.zero_add] at this
  show ((get_vertex x y z type light norm ao) &&& (2 ^ 6 - 1)).testBit i = _
  rw [this, testBit_get_vertex x y z type light norm ao i hx1 hx hy1 hy hz1 hz ht hl hn hao]
  by_cases hi : i < 6
  · have h1 : ¬ (30 ≤ i) := by omega
    have h2 : ¬ (27 ≤ i) := by omega
    have h3 : ¬ (23 ≤ i) := by omega
    have h4 : ¬ (18 ≤ i) := by omega
    have h5 : ¬ (12 ≤ i) := by omega
    have h6 : ¬ (6 ≤ i) := by omega
    simp [hi, h1, h2, h3, h4, h5, h6]
  · have : (x - 1).testBit i = false := testBit_of_lt_pow (show x - 1 < 2 ^ 6 by omega) (by omega)
    simp [hi, this]

theorem get_vertex_y_bits (x y z type light norm ao : Nat)
    (hx1 : 1 ≤ x) (hx : x ≤ 64) (hy1 : 1 ≤ y) (hy : y ≤ 64) (hz1 : 1 ≤ z) (hz : z ≤ 64)
    (ht : type < 2 ^ 14) (hl : light < 2 ^ 9) (hn : norm < 2 ^ 5) (hao : ao < 2 ^ 2) :
    ((get_vertex x y z type light norm ao) >>> 6) &&& 0x3F = y - 1 := by
  apply Nat.eq_of_testBit_eq
  intro i
  show (((get_vertex x y z type light norm ao) >>> 6) &&& (2 ^ 6 - 1)).testBit i = _
  rw [testBit_shift_and, testBit_get_vertex x y z type light norm ao _ hx1 hx hy1 hy hz1 hz ht hl
    hn hao]
  by_cases hi : i < 6
  · have h1 : ¬ (30 ≤ 6 + i) := by omega
    have h2 : ¬ (27 ≤ 6 + i) := by omega
    have h3 : ¬ (23 ≤ 6 + i) := by omega
    have h4 : ¬ (18 ≤ 6 + i) := by omega
    have h5 : ¬ (12 ≤ 6 + i) := by omega
    have h7 : (x - 1).testBit (6 + i) = false :=
      testBit_of_lt_pow (show x - 1 < 2 ^ 6 by omega) (by omega)
    simp [hi, h1, h2, h3, h4, h5, h7]
  · have : (y - 1).testBit i = false := testBit_of_lt_pow (show y - 1 < 2 ^ 6 by omega) (by omega)
    simp [hi, this]

theorem get_vertex_z_bits (x y z type light norm ao : Nat)
    (hx1 : 1 ≤ x) (hx : x ≤ 64) (hy1 : 1 ≤ y) (hy : y ≤ 64) (hz1 : 1 ≤ z) (hz : z ≤ 64)
    (ht : type < 2 ^ 14) (hl : light < 2 ^ 9) (hn : norm < 2 ^ 5) (hao : ao < 2 ^ 2) :
    ((get_vertex x y z type light norm ao) >>> 12) &&& 0x3F = z - 1 := by
  apply Nat.eq_of_testBit_eq
  intro i
  show (((get_vertex x y z type light norm ao) >>> 12) &&& (2 ^ 6 - 1)).testBit i = _
  rw [testBit_shift_and, testBit_get_vertex x y z type light norm ao _ hx1 hx hy1 hy hz1 hz ht hl
    hn hao]
  by_cases hi : i < 6
  · have h1 : ¬ (30 ≤ 12 + i) := by omega
    have h2 : ¬ (27 ≤ 12 + i) := by omega
    have h3 : ¬ (23 ≤ 12 + i) := by omega
    have h4 : ¬ (18 ≤ 12 + i) := by omega
    have h6 : (y - 1).testBit (12 + i - 6) = false :=
      testBit_of_lt_pow (show y - 1 < 2 ^ 6 by omega) (by omega)
    have h7 : (x - 1).testBit (12 + i) = false :=
      testBit_of_lt_pow (show x - 1 < 2 ^ 6 by omega) (by omega)
    simp [hi, h1, h2, h3, h4, h6, h7]
  · have : (z - 1).testBit i = false := testBit_of_lt_pow (show z - 1 < 2 ^ 6 by omega) (by omega)
    simp [hi, this]

theorem get_vertex_type_bits (x y z type light norm ao : Nat)
    (hx1 : 1 ≤ x) (hx : x ≤ 64) (hy1 : 1 ≤ y) (hy : y ≤ 64) (hz1 : 1 ≤ z) (hz : z ≤ 64)
    (ht : type < 2 ^ 5) (hl : light < 2 ^ 9) (hn : norm < 2 ^ 5) (hao : ao < 2 ^ 2) :
    ((get_vertex x y z type light norm ao) >>> 18) &&& 0x1F = type := by
  apply Nat.eq_of_testBit_eq
  intro i
  show (((get_vertex x y z type light norm ao) >>> 18) &&& (2 ^ 5 - 1)).testBit i = _
  rw [testBit_shift_and, testBit_get_vertex x y z type light norm ao _ hx1 hx hy1 hy hz1 hz
    (by omega) hl hn hao]
  by_cases hi : i < 5
  · have h1 : ¬ (30 ≤ 18 + i) := by omega
    have h2 : ¬ (27 ≤ 18 + i) := by omega
    have h3 : ¬ (23 ≤ 18 + i) := by omega
    have h5 : (z - 1).testBit (18 + i - 12) = false :=
      testBit_of_lt_pow (show z - 1 < 2 ^ 6 by omega) (by omega)
    have h6 : (y - 1).testBit (18 + i - 6) = false :=
      testBit_of_lt_pow (show y - 1 < 2 ^ 6 by omega) (by omega)
    have h7 : (x - 1).testBit (18 + i) = false :=
      testBit_of_lt_pow (show x - 1 < 2 ^ 6 by omega) (by omega)
    simp [hi, h1, h2, h3, h5, h6, h7]
  · have : type.testBit i = false := testBit_of_lt_pow ht (by omega)
    simp [hi, this]

theorem get_vertex_light_bits (x y z type light norm ao : Nat)
    (hx1 : 1 ≤ x) (hx : x ≤ 64) (hy1 : 1 ≤ y) (hy : y ≤ 64) (hz1 : 1 ≤ z) (hz : z ≤ 64)
    (ht : type < 2 ^ 5) (hl : light < 2 ^ 4) (hn : norm < 2 ^ 5) (hao : ao < 2 ^ 2) :
    ((get_vertex x y z type light norm ao) >>> 23) &&& 0xF = light := by
  apply Nat.eq_of_testBit_eq
  intro i
  show (((get_vertex x y z type light norm ao) >>> 23) &&& (2 ^ 4 - 1)).testBit i = _
  rw [testBit_shift_and, testBit_get_vertex x y z type light norm ao _ hx1 hx hy1 hy hz1 hz
    (by omega) (by omega) hn hao]
  by_cases hi : i < 4
  · have h1 : ¬ (30 ≤ 23 + i) := by omega
    have h2 : ¬ (27 ≤ 23 + i) := by omega
    have h4 : type.testBit (23 + i - 18) = false := testBit_of_lt_pow ht (by omega)
    have h5 : (z - 1).testBit (23 + i - 12) = false :=
      testBit_of_lt_pow (show z - 1 < 2 ^ 6 by omega) (by omega)
    have h6 : (y - 1).testBit (23 + i - 6) = false :=
      testBit_of_lt_pow (show y - 1 < 2 ^ 6 by omega) (by omega)
    have h7 : (x - 1).testBit (23 + i) = false :=
      testBit_of_lt_pow (show x - 1 < 2 ^ 6 by omega) (by omega)
    simp [hi, h1, h2, h4, h5, h6, h7]
  · have : light.testBit i = false := testBit_of_lt_pow hl (by omega)
    simp [hi, this]

theorem get_vertex_norm_bits (x y z type light norm ao : Nat)
    (hx1 : 1 ≤ x) (hx : x ≤ 64) (hy1 : 1 ≤ y) (hy : y ≤ 64) (hz1 : 1 ≤ z) (hz : z ≤ 64)
    (ht : type < 2 ^ 9) (hl : light < 2 ^ 4) (hn : norm < 2 ^ 3) (hao : ao < 2 ^ 2) :
    ((get_vertex x y z type light norm ao) >>> 27) &&& 0x7 = norm := by
  apply Nat.eq_of_testBit_eq
  intro i
  show (((get_vertex x y z type light norm ao) >>> 27) &&& (2 ^ 3 - 1)).testBit i = _
  rw [testBit_shift_and, testBit_get_vertex x y z type light norm ao _ hx1 hx hy1 hy hz1 hz
    (by omega) (by omega) (by omega) hao]
  by_cases hi : i < 3
  · have h1 : ¬ (30 ≤ 27 + i) := by omega
    have h3 : light.testBit (27 + i - 23) = false := testBit_of_lt_pow hl (by omega)
    have h4 : type.testBit (27 + i - 18) = false := testBit_of_lt_pow ht (by omega)
    have h5 : (z - 1).testBit (27 + i - 12) = false :=
      testBit_of_lt_pow (show z - 1 < 2 ^ 6 by omega) (by omega)
    have h6 : (y - 1).testBit (27 + i - 6) = false :=
      testBit_of_lt_pow (show y - 1 < 2 ^ 6 by omega) (by omega)
    have h7 : (x - 1).testBit (27 + i) = false :=
      testBit_of_lt_pow (show x - 1 < 2 ^ 6 by omega) (by omega)
    simp [hi, h1, h3, h4, h5, h6, h7]
  · have : norm.testBit i = false := testBit_of_lt_pow hn (by omega)
    simp [hi, this]

theorem get_vertex_ao_bits (x y z type light norm ao : Nat)
    (hx1 : 1 ≤ x) (hx : x ≤ 64) (hy1 : 1 ≤ y) (hy : y ≤ 64) (hz1 : 1 ≤ z) (hz : z ≤ 64)
    (ht : type < 2 ^ 12) (hl : light < 2 ^ 4) (hn : norm < 2 ^ 3) (hao : ao < 2 ^ 2) :
    ((get_vertex x y z type light norm ao) >>> 30) &&& 0x3 = ao := by
  apply Nat.eq_of_testBit_eq
  intro i
  show (((get_vertex x y z type light norm ao) >>> 30) &&& (2 ^ 2 - 1)).testBit i = _
  rw [testBit_shift_and, testBit_get_vertex x y z type light norm ao _ hx1 hx hy1 hy hz1 hz
    (by omega) (by omega) (by omega) hao]
  by_cases hi : i < 2
  · have h2 : norm.testBit (30 + i - 27) = false := testBit_of_lt_pow hn (by omega)
    have h3 : light.testBit (30 + i - 23) = false := testBit_of_lt_pow hl (by omega)
    have h4 : type.testBit (30 + i - 18) = false := testBit_of_lt_pow ht (by omega)
    have h5 : (z - 1).testBit (30 + i - 12) = false :=
      testBit_of_lt_pow (show z - 1 < 2 ^ 6 by omega) (by omega)
    have h6 : (y - 1).testBit (30 + i - 6) = false :=
      testBit_of_lt_pow (show y - 1 < 2 ^ 6 by omega) (by omega)
    have h7 : (x - 1).testBit (30 + i) = false :=
      testBit_of_lt_pow (show x - 1 < 2 ^ 6 by omega) (by omega)
    simp [hi, h2, h3, h4, h5, h6, h7]
  · have : ao.testBit i = false := testBit_of_lt_pow hao (by omega)
    simp [hi, this]

/-! ## A plane whose visible faces form one uniform rectangle -/

theorem RectPlane.not_merges_of_not_visible {voxels : List Nat} {face p F1 F2 R1 R2 : Nat}
    (_h : RectPlane voxels face p F1 F2 R1 R2)
    (fw r : Nat) (hr : 1 ≤ r) (hv : visible voxels face fw r p = false) :
    merges_at voxels face p fw r = false := by
  cases hm : merges_at voxels face p fw r
  · rfl
  · rw [((merges_at_iff voxels face p fw r hr).1 hm).1] at hv
    exact absurd hv (by simp)

theorem RectPlane.not_walks_of_not_visible {voxels : List Nat} {face p F1 F2 R1 R2 : Nat}
    (_h : RectPlane voxels face p F1 F2 R1 R2)
    (fw r : Nat) (hr : 1 ≤ r) (hv : visible voxels face fw r p = false) :
    walks_at voxels face p fw r = false := by
  cases hm : walks_at voxels face p fw r
  · rfl
  · rw [((walks_at_iff voxels face p fw r hr).1 hm).1] at hv
    exact absurd hv (by simp)

theorem RectPlane.visible_false {voxels : List Nat} {face p F1 F2 R1 R2 : Nat}
    (h : RectPlane voxels face p F1 F2 R1 R2)
    (fw r : Nat) (hf1 : 1 ≤ fw) (hf : fw ≤ 62) (hr1 : 1 ≤ r) (hr : r ≤ 62)
    (hout : ¬ (F1 ≤ fw ∧ fw ≤ F2 ∧ R1 ≤ r ∧ r ≤ R2)) :
    visible voxels face fw r p = false := by
  cases hv : visible voxels face fw r p
  · rfl
  · exact absurd ((h.vis fw r hf1 hf hr1 hr).1 hv) hout

theorem RectPlane.merges {voxels : List Nat} {face p F1 F2 R1 R2 : Nat}
    (h : RectPlane voxels face p F1 F2 R1 R2) (fw : Nat)
    (hf1 : F1 ≤ fw) (hf : fw < F2) :
    ∀ n r, r = R1 + n → r ≤ R2 → merges_at voxels face p fw r = true := by
  have hF1 := h.hF1
  have hF2 := h.hF2
  have hR1 := h.hR1
  have hR2 := h.hR2
  intro n
  induction n with
  | zero =>
    intro r hr hr2
    rw [merges_at_iff voxels face p fw r (by omega)]
    refine ⟨(h.vis fw r (by omega) (by omega) (by omega) (by omega)).2 ⟨hf1, by omega, by omega, hr2⟩,
      by omega,
      (h.vis (fw + 1) r (by omega) (by omega) (by omega) (by omega)).2
        ⟨by omega, by omega, by omega, hr2⟩, ?_, h.cf fw r hf1 hf (by omega) hr2⟩
    rintro ⟨h2, hw⟩
    rw [h.not_walks_of_not_visible fw (r - 1) (by omega)
      (h.visible_false fw (r - 1) (by omega) (by omega) (by omega) (by omega) (by omega))] at hw
    exact absurd hw (by simp)
  | succ n ih =>
    intro r hr hr2
    rw [merges_at_iff voxels face p fw r (by omega)]
    refine ⟨(h.vis fw r (by omega) (by omega) (by omega) (by omega)).2 ⟨hf1, by omega, by omega, hr2⟩,
      by omega,
      (h.vis (fw + 1) r (by omega) (by omega) (by omega) (by omega)).2
        ⟨by omega, by omega, by omega, hr2⟩, ?_, h.cf fw r hf1 hf (by omega) hr2⟩
    rintro ⟨_, hw⟩
    have hm := ih (r - 1) (by omega) (by omega)
    rw [((walks_at_iff voxels face p fw (r - 1) (by omega)).1 hw).2.1] at hm
    exact absurd hm (by simp)

theorem RectPlane.merges_iff {voxels : List Nat} {face p F1 F2 R1 R2 : Nat}
    (h : RectPlane voxels face p F1 F2 R1 R2) (fw r : Nat)
    (hf1 : 1 ≤ fw) (hf : fw ≤ 62) (hr1 : 1 ≤ r) (hr : r ≤ 62) :
    merges_at voxels face p fw r = true ↔ F1 ≤ fw ∧ fw < F2 ∧ R1 ≤ r ∧ r ≤ R2 := by
  have hF2 := h.hF2
  constructor
  · intro hm
    obtain ⟨hv, h62, hv', _, _⟩ := (merges_at_iff voxels face p fw r hr1).1 hm
    have a := (h.vis fw r hf1 hf hr1 hr).1 hv
    have b := (h.vis (fw + 1) r (by omega) (by omega) hr1 hr).1 hv'
    exact ⟨a.1, by omega, a.2.2.1, a.2.2.2⟩
  · rintro ⟨a, b, c, d⟩
    exact h.merges fw a b (r - R1) r (by omega) d

theorem RectPlane.run_fwd_span {voxels : List Nat} {face p F1 F2 R1 R2 : Nat}
    (h : RectPlane voxels face p F1 F2 R1 R2) (r : Nat)
    (hr1 : R1 ≤ r) (hr : r ≤ R2) :
    ∀ n fw, fw = F1 + n → fw ≤ F2 → run_fwd voxels face p fw r = n := by
  have hF1 := h.hF1
  have hF2 := h.hF2
  have hR1 := h.hR1
  have hR2 := h.hR2
  intro n
  induction n with
  | zero =>
    intro fw hfw _
    by_cases h1 : fw = 1
    · rw [h1]; exact run_fwd_one voxels face p r (by omega)
    · have e : fw = (fw - 1) + 1 := by omega
      rw [e, run_fwd_succ voxels face p (fw - 1) r (by omega) (by omega) (by omega), if_neg]
      rw [h.merges_iff (fw - 1) r (by omega) (by omega) (by omega) (by omega)]
      omega
  | succ n ih =>
    intro fw hfw hfw2
    have e : fw = (fw - 1) + 1 := by omega
    rw [e, run_fwd_succ voxels face p (fw - 1) r (by omega) (by omega) (by omega), if_pos,
      ih (fw - 1) (by omega) (by omega)]
    rw [h.merges_iff (fw - 1) r (by omega) (by omega) (by omega) (by omega)]
    omega

theorem RectPlane.walks_iff {voxels : List Nat} {face p F1 F2 R1 R2 : Nat}
    (h : RectPlane voxels face p F1 F2 R1 R2) (fw r : Nat)
    (hf1 : 1 ≤ fw) (hf : fw ≤ 62) (hr1 : 1 ≤ r) (hr : r ≤ 62) :
    walks_at voxels face p fw r = true ↔ fw = F2 ∧ R1 ≤ r ∧ r < R2 := by
  have hF1 := h.hF1
  have hF := h.hF
  have hF2 := h.hF2
  have hR2 := h.hR2
  constructor
  · intro hw
    obtain ⟨hv, hm, h62, hv', _, _⟩ := (walks_at_iff voxels face p fw r hr1).1 hw
    have a := (h.vis fw r hf1 hf hr1 hr).1 hv
    have b := (h.vis fw (r + 1) hf1 hf (by omega) (by omega)).1 hv'
    have c : ¬ (F1 ≤ fw ∧ fw < F2 ∧ R1 ≤ r ∧ r ≤ R2) := by
      rw [← h.merges_iff fw r hf1 hf hr1 hr, hm]
      simp
    exact ⟨by omega, a.2.2.1, by omega⟩
  · rintro ⟨a, b, c⟩
    subst a
    rw [walks_at_iff voxels face p fw r hr1]
    refine ⟨(h.vis fw r hf1 hf hr1 hr).2 ⟨hF, Nat.le_refl _, b, by omega⟩, ?_, by omega,
      (h.vis fw (r + 1) hf1 hf (by omega) (by omega)).2 ⟨hF, Nat.le_refl _, by omega, by omega⟩,
      ?_, h.cr fw r hF (Nat.le_refl _) b c⟩
    · cases hm : merges_at voxels face p fw r
      · rfl
      · have := (h.merges_iff fw r hf1 hf hr1 hr).1 hm
        omega
    · rw [h.run_fwd_span r b (by omega) (fw - F1) fw (by omega) (Nat.le_refl _),
        h.run_fwd_span (r + 1) (by omega) (by omega) (fw - F1) fw (by omega) (Nat.le_refl _)]

theorem RectPlane.emits_iff {voxels : List Nat} {face p F1 F2 R1 R2 : Nat}
    (h : RectPlane voxels face p F1 F2 R1 R2) (fw r : Nat)
    (hf1 : 1 ≤ fw) (hf : fw ≤ 62) (hr1 : 1 ≤ r) (hr : r ≤ 62) :
    emits_at voxels face p fw r = true ↔ fw = F2 ∧ r = R2 := by
  have hF := h.hF
  have hR := h.hR
  rw [emits_at_iff]
  constructor
  · rintro ⟨hv, hm, hw⟩
    have a := (h.vis fw r hf1 hf hr1 hr).1 hv
    have b : ¬ (F1 ≤ fw ∧ fw < F2 ∧ R1 ≤ r ∧ r ≤ R2) := by
      rw [← h.merges_iff fw r hf1 hf hr1 hr, hm]
      simp
    have c : ¬ (fw = F2 ∧ R1 ≤ r ∧ r < R2) := by
      rw [← h.walks_iff fw r hf1 hf hr1 hr, hw]
      simp
    omega
  · rintro ⟨a, b⟩
    subst a; subst b
    refine ⟨(h.vis fw r hf1 hf hr1 hr).2 ⟨hF, Nat.le_refl _, hR, Nat.le_refl _⟩, ?_, ?_⟩
    · cases hm : merges_at voxels face p fw r
      · rfl
      · have := (h.merges_iff fw r hf1 hf hr1 hr).1 hm
        omega
    · cases hw : walks_at voxels face p fw r
      · rfl
      · have := (h.walks_iff fw r hf1 hf hr1 hr).1 hw
        omega

theorem RectPlane.run_right_eq {voxels : List Nat} {face p F1 F2 R1 R2 : Nat}
    (h : RectPlane voxels face p F1 F2 R1 R2) :
    ∀ n r, r = R1 + n → r ≤ R2 → run_right voxels face p F2 r = n := by
  have hF1 := h.hF1
  have hF := h.hF
  have hF2 := h.hF2
  have hR1 := h.hR1
  have hR2 := h.hR2
  intro n
  induction n with
  | zero =>
    intro r hr _
    by_cases h1 : r = 1
    · rw [h1]; exact run_right_one voxels face p F2
    · have e : r = (r - 1) + 1 := by omega
      rw [e, run_right_succ voxels face p F2 (r - 1) (by omega), if_neg]
      rw [h.walks_iff F2 (r - 1) (by omega) (by omega) (by omega) (by omega)]
      omega
  | succ n ih =>
    intro r hr hr2
    have e : r = (r - 1) + 1 := by omega
    rw [e, run_right_succ voxels face p F2 (r - 1) (by omega), if_pos,
      ih (r - 1) (by omega) (by omega)]
    rw [h.walks_iff F2 (r - 1) (by omega) (by omega) (by omega) (by omega)]
    omega

/-! ## Faces with a single emitting cell -/

theorem flatMap_unique {α β : Type} [DecidableEq α] (g : α → List β) (x0 : α) :
    ∀ l : List α, l.Nodup → x0 ∈ l → (∀ x ∈ l, x ≠ x0 → g x = []) → l.flatMap g = g x0 := by
  intro l
  induction l with
  | nil => intro _ h; exact absurd h (List.not_mem_nil _)
  | cons x l ih =>
    intro hnd hx0 h
    rw [List.flatMap_cons]
    rw [List.nodup_cons] at hnd
    by_cases hx : x = x0
    · subst hx
      have : l.flatMap g = [] := by
        rw [List.flatMap_eq_nil_iff]
        exact fun y hy => h y (List.mem_cons_of_mem _ hy) (fun e => hnd.1 (e ▸ hy))
      rw [this, List.append_nil]
    · have hx0' : x0 ∈ l := by
        rcases List.mem_cons.1 hx0 with e | e
        · exact absurd e.symm hx
        · exact e
      rw [h x (List.mem_cons_self _ _) hx, List.nil_append,
        ih hnd.2 hx0' (fun y hy => h y (List.mem_cons_of_mem _ hy))]

/-- A face on which exactly one cell of one plane emits yields exactly that
rectangle. -/
theorem face_quads_single (voxels : List Nat) (face P F R : Nat)
    (hP : 1 ≤ P ∧ P ≤ 62) (hF : 1 ≤ F ∧ F ≤ 62) (hR : 1 ≤ R ∧ R ≤ 62)
    (h : ∀ p fw r, 1 ≤ p → p ≤ 62 → 1 ≤ fw → fw ≤ 62 → 1 ≤ r → r ≤ 62 →
      (emits_at voxels face p fw r = true ↔ p = P ∧ fw = F ∧ r = R)) :
    face_quads voxels face = [quad_at voxels face P F R] := by
  have hz : ∀ p fw r, 1 ≤ p → p ≤ 62 → 1 ≤ fw → fw ≤ 62 → 1 ≤ r → r ≤ 62 →
      ¬ (p = P ∧ fw = F ∧ r = R) →
      pcell_quads voxels face p fw (pstate voxels face p fw r) r = [] := by
    intro p fw r a b c d e f hne
    rw [pcell_quads_eq, if_neg]
    intro he
    exact hne ((h p fw r a b c d e f).1 he)
  unfold face_quads
  rw [flatMap_unique _ F _ nodup_range'_1_62 (mem_range'_1_62.2 hF)]
  · unfold row_quads
    rw [flatMap_unique _ R _ nodup_range'_1_62 (mem_range'_1_62.2 hR)]
    · unfold cell_quads
      rw [flatMap_unique _ P _ nodup_range'_1_62 (mem_range'_1_62.2 hP)]
      · rw [pcell_quads_eq, if_pos ((h P F R hP.1 hP.2 hF.1 hF.2 hR.1 hR.2).2 ⟨rfl, rfl, rfl⟩)]
      · intro p hp hne
        rw [mem_range'_1_62] at hp
        exact hz p F R hp.1 hp.2 hF.1 hF.2 hR.1 hR.2 (fun e => hne e.1)
    · intro r hr hne
      rw [mem_range'_1_62] at hr
      unfold cell_quads
      rw [List.flatMap_eq_nil_iff]
      intro p hp
      rw [mem_range'_1_62] at hp
      exact hz p F r hp.1 hp.2 hF.1 hF.2 hr.1 hr.2 (fun e => hne e.2.2)
  · intro fw hfw hne
    rw [mem_range'_1_62] at hfw
    unfold row_quads
    rw [List.flatMap_eq_nil_iff]
    intro r hr
    rw [mem_range'_1_62] at hr
    unfold cell_quads
    rw [List.flatMap_eq_nil_iff]
    intro p hp
    rw [mem_range'_1_62] at hp
    exact hz p fw r hp.1 hp.2 hfw.1 hfw.2 hr.1 hr.2 (fun e => hne e.2.1)

/-! ## A uniform solid box in an otherwise empty volume -/

theorem solid_check_ite (c : Prop) [Decidable c] (t : Nat) (ht : 0 < t) :
    solid_check (((if c then t else 0 : Nat) : Nat) : Int) = decide c := by
  unfold solid_check
  by_cases h : c
  · simp [h]; omega
  · simp [h]

theorem PlaneBox.solid {voxels : List Nat} {face t R1 R2 F1 F2 P1 P2 : Nat}
    (h : PlaneBox voxels face t R1 R2 F1 F2 P1 P2) (r fw p : Nat)
    (hr : r < 64) (hf : fw < 64) (hp : p < 64) :
    solid_at voxels (axis_idx (face / 2) r fw p) =
      decide (R1 ≤ r ∧ r ≤ R2 ∧ F1 ≤ fw ∧ fw ≤ F2 ∧ P1 ≤ p ∧ p ≤ P2) := by
  unfold solid_at
  rw [← vox_nat, h.val r fw p hr hf hp]
  exact solid_check_ite _ t h.ht

theorem PlaneBox.visible_iff {voxels : List Nat} {face t R1 R2 F1 F2 P1 P2 : Nat}
    (h : PlaneBox voxels face t R1 R2 F1 F2 P1 P2) (fw r p : Nat)
    (hf : fw < 64) (hr : r < 64) (hp1 : 1 ≤ p) (hp : p ≤ 62) :
    visible voxels face fw r p = true ↔
      (F1 ≤ fw ∧ fw ≤ F2 ∧ R1 ≤ r ∧ r ≤ R2) ∧ p = box_plane face P1 P2 := by
  have hP := h.hP
  unfold visible box_plane
  rw [h.solid r fw p hr hf (by omega)]
  by_cases hev : face % 2 = 0
  · rw [if_pos hev, if_pos hev, h.solid r fw (p + 1) hr hf (by omega)]
    simp only [Bool.and_eq_true, decide_eq_true_eq, Bool.not_eq_true', decide_eq_false_iff_not]
    constructor
    · rintro ⟨a, _, c⟩
      exact ⟨⟨a.2.2.1, a.2.2.2.1, a.1, a.2.1⟩, by omega⟩
    · rintro ⟨a, b⟩
      exact ⟨⟨a.2.2.1, a.2.2.2, a.1, a.2.1, by omega, by omega⟩, by omega, by omega⟩
  · rw [if_neg hev, if_neg hev, h.solid r fw (p - 1) hr hf (by omega)]
    simp only [Bool.and_eq_true, decide_eq_true_eq, Bool.not_eq_true', decide_eq_false_iff_not]
    constructor
    · rintro ⟨a, _, c⟩
      exact ⟨⟨a.2.2.1, a.2.2.2.1, a.1, a.2.1⟩, by omega⟩
    · rintro ⟨a, b⟩
      exact ⟨⟨a.2.2.1, a.2.2.2, a.1, a.2.1, by omega, by omega⟩, by omega, by omega⟩

/-- The layer probed for ambient occlusion above the visible plane is empty. -/
theorem PlaneBox.empty_layer {voxels : List Nat} {t R1 R2 F1 F2 : Nat}
    (h : PlaneBox voxels face t R1 R2 F1 F2 P1 P2) (a b : Int)
    (ha0 : 0 ≤ a) (ha : a < 64) (hb0 : 0 ≤ b) (hb : b < 64) :
    vox voxels ((face / 2 : Nat) : Int) a b
      ((box_plane face P1 P2 : Nat) + light_dir face) = 0 := by
  have hP1 := h.hP1
  have hP := h.hP
  have hP2 := h.hP2
  have ea : a = ((a.toNat : Nat) : Int) := by omega
  have eb : b = ((b.toNat : Nat) : Int) := by omega
  unfold box_plane light_dir
  by_cases hev : face % 2 = 0
  · rw [if_pos hev, if_pos hev]
    have ec : (P2 : Int) + 1 = ((P2 + 1 : Nat) : Int) := by push_cast; rfl
    rw [ea, eb, ec, h.val a.toNat b.toNat (P2 + 1) (by omega) (by omega) (by omega), if_neg]
    omega
  · rw [if_neg hev, if_neg hev]
    have ec : (P1 : Int) + -1 = ((P1 - 1 : Nat) : Int) := by omega
    rw [ea, eb, ec, h.val a.toNat b.toNat (P1 - 1) (by omega) (by omega) (by omega), if_neg]
    omega

theorem ao_dirs_bounds : ∀ d ∈ ao_dirs, -1 ≤ d.1 ∧ d.1 ≤ 1 ∧ -1 ≤ d.2 ∧ d.2 ≤ 1 := by decide

theorem PlaneBox.ao_pattern_eq {voxels : List Nat} {face t R1 R2 F1 F2 P1 P2 : Nat}
    (h : PlaneBox voxels face t R1 R2 F1 F2 P1 P2) (fw r : Nat)
    (hf1 : 1 ≤ fw) (hf : fw ≤ 62) (hr1 : 1 ≤ r) (hr : r ≤ 62) :
    ao_pattern voxels face (box_plane face P1 P2) fw r = ao_dirs.map (fun _ => false) := by
  unfold ao_pattern
  apply List.map_congr_left
  intro d hd
  obtain ⟨d1, d2, d3, d4⟩ := ao_dirs_bounds d hd
  rw [h.empty_layer _ _ (by omega) (by omega) (by omega) (by omega)]
  rfl

theorem PlaneBox.rect {voxels : List Nat} {face t R1 R2 F1 F2 P1 P2 : Nat}
    (h : PlaneBox voxels face t R1 R2 F1 F2 P1 P2) :
    RectPlane voxels face (box_plane face P1 P2) F1 F2 R1 R2 := by
  have hR1 := h.hR1
  have hR2 := h.hR2
  have hF1 := h.hF1
  have hF2 := h.hF2
  have hP1 := h.hP1
  have hP := h.hP
  have hP2 := h.hP2
  have hpl : 1 ≤ box_plane face P1 P2 ∧ box_plane face P1 P2 ≤ 62 := by
    unfold box_plane; split <;> omega
  have hpin : P1 ≤ box_plane face P1 P2 ∧ box_plane face P1 P2 ≤ P2 := by
    unfold box_plane; split <;> omega
  refine ⟨h.hF1, h.hF, h.hF2, h.hR1, h.hR, h.hR2, ?_, ?_, ?_⟩
  · intro fw r _ hf _ hr
    rw [h.visible_iff fw r _ (by omega) (by omega) hpl.1 hpl.2]
    exact ⟨fun a => a.1, fun a => ⟨a, rfl⟩⟩
  · intro fw r a b c d
    rw [cmp_forward_iff]
    constructor
    · unfold cell_type
      have e := h.val r (fw + 1) (box_plane face P1 P2) (by omega) (by omega) (by omega)
      rw [h.val r fw _ (by omega) (by omega) (by omega), e,
        if_pos ⟨c, d, a, by omega, hpin.1, hpin.2⟩,
        if_pos ⟨c, d, by omega, by omega, hpin.1, hpin.2⟩]
    · rw [h.ao_pattern_eq fw r (by omega) (by omega) (by omega) (by omega),
        h.ao_pattern_eq (fw + 1) r (by omega) (by omega) (by omega) (by omega)]
  · intro fw r a b c d
    rw [cmp_right_iff]
    constructor
    · unfold cell_type
      have e := h.val (r + 1) fw (box_plane face P1 P2) (by omega) (by omega) (by omega)
      rw [h.val r fw _ (by omega) (by omega) (by omega), e,
        if_pos ⟨c, by omega, a, b, hpin.1, hpin.2⟩,
        if_pos ⟨by omega, by omega, a, b, hpin.1, hpin.2⟩]
    · rw [h.ao_pattern_eq fw r (by omega) (by omega) (by omega) (by omega),
        h.ao_pattern_eq fw (r + 1) (by omega) (by omega) (by omega) (by omega)]

theorem PlaneBox.quad {voxels : List Nat} {face t R1 R2 F1 F2 P1 P2 : Nat}
    (h : PlaneBox voxels face t R1 R2 F1 F2 P1 P2) :
    quad_at voxels face (box_plane face P1 P2) F2 R2 = box_quad face t R1 R2 F1 F2 P1 P2 := by
  have hR1 := h.hR1
  have hR := h.hR
  have hR2 := h.hR2
  have hF1 := h.hF1
  have hF := h.hF
  have hF2 := h.hF2
  have hP1 := h.hP1
  have hP := h.hP
  have hP2 := h.hP2
  have hpl : 1 ≤ box_plane face P1 P2 ∧ box_plane face P1 P2 ≤ 62 := by
    unfold box_plane; split <;> omega
  have hpin : P1 ≤ box_plane face P1 P2 ∧ box_plane face P1 P2 ≤ P2 := by
    unfold box_plane; split <;> omega
  have hrect := h.rect
  obtain ⟨e1, e2, e3, e4, e5, e6⟩ := quad_at_fields voxels face (box_plane face P1 P2) F2 R2
    (by omega) hF2 (by omega) hR2 hpl.2
  rw [hrect.run_fwd_span R2 hR (Nat.le_refl _) (F2 - F1) F2 (by omega) (Nat.le_refl _)] at e3
  rw [hrect.run_right_eq (R2 - R1) R2 (by omega) (Nat.le_refl _)] at e5
  have et : (quad_at voxels face (box_plane face P1 P2) F2 R2).type = t := by
    show vox voxels ((face / 2 : Nat) : Int) R2 F2 (box_plane face P1 P2) = t
    rw [h.val R2 F2 _ (by omega) (by omega) (by omega),
      if_pos ⟨hR, Nat.le_refl _, hF, Nat.le_refl _, hpin.1, hpin.2⟩]
  have eao := cell_quad_ao voxels face (box_plane face P1 P2) F2 R2
    (run_right voxels face (box_plane face P1 P2) F2 R2)
    (run_fwd voxels face (box_plane face P1 P2) F2 R2)
  have hao : face_ao voxels face (box_plane face P1 P2) F2 R2 = (3, 3, 3, 3) := by
    unfold face_ao
    simp only []
    rw [h.empty_layer _ _ (by omega) (by omega) (by omega) (by omega),
      h.empty_layer _ _ (by omega) (by omega) (by omega) (by omega),
      h.empty_layer _ _ (by omega) (by omega) (by omega) (by omega),
      h.empty_layer _ _ (by omega) (by omega) (by omega) (by omega),
      h.empty_layer _ _ (by omega) (by omega) (by omega) (by omega),
      h.empty_layer _ _ (by omega) (by omega) (by omega) (by omega),
      h.empty_layer _ _ (by omega) (by omega) (by omega) (by omega),
      h.empty_layer _ _ (by omega) (by omega) (by omega) (by omega)]
    decide
  rw [hao] at eao
  simp only [Prod.mk.injEq] at eao
  obtain ⟨a1, a2, a3, a4⟩ := eao
  have a1' : (quad_at voxels face (box_plane face P1 P2) F2 R2).ao_LB = 3 := a1
  have a2' : (quad_at voxels face (box_plane face P1 P2) F2 R2).ao_LF = 3 := a2
  have a3' : (quad_at voxels face (box_plane face P1 P2) F2 R2).ao_RB = 3 := a3
  have a4' : (quad_at voxels face (box_plane face P1 P2) F2 R2).ao_RF = 3 := a4
  have e2' : (quad_at voxels face (box_plane face P1 P2) F2 R2).mesh_up =
      if face % 2 = 0 then P2 + 1 else P1 := by
    rw [e2]; unfold box_plane; split <;> simp
  have e3' : (quad_at voxels face (box_plane face P1 P2) F2 R2).mesh_front = F1 := by
    rw [e3]; omega
  have e5' : (quad_at voxels face (box_plane face P1 P2) F2 R2).mesh_left = R1 := by
    rw [e5]; omega
  cases hq : quad_at voxels face (box_plane face P1 P2) F2 R2
  rw [hq] at e1 e2' e3' e4 e5' e6 et a1' a2' a3' a4'
  simp only at e1 e2' e3' e4 e5' e6 et a1' a2' a3' a4'
  unfold box_quad
  rw [e1, e2', e3', e4, e5', e6, et, a1', a2', a3', a4']

/-- A face of a box emits exactly one rectangle. -/
theorem PlaneBox.face_quads_eq {voxels : List Nat} {face t R1 R2 F1 F2 P1 P2 : Nat}
    (h : PlaneBox voxels face t R1 R2 F1 F2 P1 P2) :
    face_quads voxels face = [box_quad face t R1 R2 F1 F2 P1 P2] := by
  have hR1 := h.hR1
  have hR := h.hR
  have hR2 := h.hR2
  have hF1 := h.hF1
  have hF := h.hF
  have hF2 := h.hF2
  have hP1 := h.hP1
  have hP := h.hP
  have hP2 := h.hP2
  have hpl : 1 ≤ box_plane face P1 P2 ∧ box_plane face P1 P2 ≤ 62 := by
    unfold box_plane; split <;> omega
  rw [← h.quad]
  apply face_quads_single voxels face _ F2 R2 hpl ⟨by omega, hF2⟩ ⟨by omega, hR2⟩
  intro p fw r hp1 hp hf1 hf hr1 hr
  by_cases hpp : p = box_plane face P1 P2
  · subst hpp
    rw [h.rect.emits_iff fw r hf1 hf hr1 hr]
    exact ⟨fun a => ⟨rfl, a⟩, fun a => a.2⟩
  · constructor
    · intro he
      have hv := ((emits_at_iff voxels face p fw r).1 he).1
      exact absurd ((h.visible_iff fw r p (by omega) (by omega) hp1 hp).1 hv).2 hpp
    · intro a
      exact absurd a.1 hpp

/-! ## Volumes holding one uniform box -/

theorem BoxVolume.plane0 {voxels : List Nat} {t X1 X2 Y1 Y2 Z1 Z2 : Nat}
    (h : BoxVolume voxels t X1 X2 Y1 Y2 Z1 Z2) (face : Nat)
    (hf : face / 2 = 0) : PlaneBox voxels face t X1 X2 Z1 Z2 Y1 Y2 := by
  refine ⟨h.ht, h.hX1, h.hX, h.hX2, h.hZ1, h.hZ, h.hZ2, h.hY1, h.hY, h.hY2, ?_⟩
  intro r fw p hr hfw hp
  rw [vox_nat, hf]
  have := h.val r p fw hr hp hfw
  unfold voxel at this
  have e : axis_idx 0 r fw p = fw + r * CS_P + p * CS_P2 := rfl
  rw [e, this]
  apply if_congr _ rfl rfl
  constructor
  · rintro ⟨a, b, c, d, e, f⟩; exact ⟨a, b, e, f, c, d⟩
  · rintro ⟨a, b, c, d, e, f⟩; exact ⟨a, b, e, f, c, d⟩

theorem BoxVolume.plane1 {voxels : List Nat} {t X1 X2 Y1 Y2 Z1 Z2 : Nat}
    (h : BoxVolume voxels t X1 X2 Y1 Y2 Z1 Z2) (face : Nat)
    (hf : face / 2 = 1) : PlaneBox voxels face t Z1 Z2 Y1 Y2 X1 X2 := by
  refine ⟨h.ht, h.hZ1, h.hZ, h.hZ2, h.hY1, h.hY, h.hY2, h.hX1, h.hX, h.hX2, ?_⟩
  intro r fw p hr hfw hp
  rw [vox_nat, hf]
  have := h.val p fw r hp hfw hr
  unfold voxel at this
  have e : axis_idx 1 r fw p = r + p * CS_P + fw * CS_P2 := rfl
  rw [e, this]
  apply if_congr _ rfl rfl
  constructor
  · rintro ⟨a, b, c, d, e, f⟩; exact ⟨e, f, c, d, a, b⟩
  · rintro ⟨a, b, c, d, e, f⟩; exact ⟨e, f, c, d, a, b⟩

theorem BoxVolume.plane2 {voxels : List Nat} {t X1 X2 Y1 Y2 Z1 Z2 : Nat}
    (h : BoxVolume voxels t X1 X2 Y1 Y2 Z1 Z2) (face : Nat)
    (hf : face / 2 = 2) : PlaneBox voxels face t Y1 Y2 X1 X2 Z1 Z2 := by
  refine ⟨h.ht, h.hY1, h.hY, h.hY2, h.hX1, h.hX, h.hX2, h.hZ1, h.hZ, h.hZ2, ?_⟩
  intro r fw p hr hfw hp
  rw [vox_nat, hf]
  have := h.val fw r p hfw hr hp
  unfold voxel at this
  have e : axis_idx 2 r fw p = p + fw * CS_P + r * CS_P2 := rfl
  rw [e, this]
  apply if_congr _ rfl rfl
  constructor
  · rintro ⟨a, b, c, d, e, f⟩; exact ⟨c, d, a, b, e, f⟩
  · rintro ⟨a, b, c, d, e, f⟩; exact ⟨c, d, a, b, e, f⟩

/-- A uniform box is meshed into exactly six rectangles, one per face. -/
theorem BoxVolume.all_quads_eq {voxels : List Nat} {t X1 X2 Y1 Y2 Z1 Z2 : Nat}
    (h : BoxVolume voxels t X1 X2 Y1 Y2 Z1 Z2) :
    all_quads voxels = box_quads t X1 X2 Y1 Y2 Z1 Z2 := by
  unfold Mesher.all_quads
  have e : List.range 6 = [0, 1, 2, 3, 4, 5] := by decide
  rw [e]
  simp only [List.flatMap_cons, List.flatMap_nil]
  rw [(h.plane0 0 rfl).face_quads_eq, (h.plane0 1 rfl).face_quads_eq, (h.plane1 2 rfl).face_quads_eq,
    (h.plane1 3 rfl).face_quads_eq, (h.plane2 4 rfl).face_quads_eq, (h.plane2 5 rfl).face_quads_eq]
  rfl

theorem BoxVolume.mesh_run_eq {voxels : List Nat} {t X1 X2 Y1 Y2 Z1 Z2 : Nat}
    (h : BoxVolume voxels t X1 X2 Y1 Y2 Z1 Z2) :
    ∃ s, mesh_run voxels = some s ∧ s.quads = box_quads t X1 X2 Y1 Y2 Z1 Z2 ∧
      s.vertices = (box_quads t X1 X2 Y1 Y2 Z1 Z2).flatMap quad_vertices := by
  obtain ⟨s, hs, hq, hv⟩ := mesh_run_spec voxels h.len
  rw [h.all_quads_eq] at hq hv
  exact ⟨s, hs, hq, hv⟩

theorem getD_map_range (f : Nat → Nat) (n i : Nat) (h : i < n) :
    ((List.range n).map f).getD i 0 = f i := by
  rw [List.getD_eq_getElem?_getD, List.getElem?_map, List.getElem?_range h]
  rfl

theorem box_volume_spec (t X1 X2 Y1 Y2 Z1 Z2 : Nat) (ht : 0 < t)
    (hX1 : 1 ≤ X1) (hX : X1 ≤ X2) (hX2 : X2 ≤ CS) (hY1 : 1 ≤ Y1) (hY : Y1 ≤ Y2) (hY2 : Y2 ≤ CS)
    (hZ1 : 1 ≤ Z1) (hZ : Z1 ≤ Z2) (hZ2 : Z2 ≤ CS) :
    BoxVolume (box_volume t X1 X2 Y1 Y2 Z1 Z2) t X1 X2 Y1 Y2 Z1 Z2 := by
  refine ⟨by simp [box_volume], ht, hX1, hX, hX2, hY1, hY, hY2, hZ1, hZ, hZ2, ?_⟩
  intro x y z hx hy hz
  unfold voxel box_volume
  have hx' : x < 64 := hx
  have hy' : y < 64 := hy
  have hz' : z < 64 := hz
  rw [getD_map_range _ _ _ (by show z + x * 64 + y * 4096 < 262144; omega)]
  have e1 : (z + x * CS_P + y * CS_P2) / CS_P % CS_P = x := by
    show (z + x * 64 + y * 4096) / 64 % 64 = x
    omega
  have e2 : (z + x * CS_P + y * CS_P2) / CS_P2 = y := by
    show (z + x * 64 + y * 4096) / 4096 = y
    omega
  have e3 : (z + x * CS_P + y * CS_P2) % CS_P = z := by
    show (z + x * 64 + y * 4096) % 64 = z
    omega
  rw [e1, e2, e3]

/-! ## Volumes without a solid interior voxel -/

theorem all_quads_nil (voxels : List Nat)
    (h : ∀ face p fw r, face < 6 → 1 ≤ p → p ≤ 62 → 1 ≤ fw → fw ≤ 62 → 1 ≤ r → r ≤ 62 →
      visible voxels face fw r p = false) :
    all_quads voxels = [] := by
  cases hq : all_quads voxels with
  | nil => rfl
  | cons q qs =>
    have hmem : q ∈ all_quads voxels := by rw [hq]; exact List.mem_cons_self _ _
    obtain ⟨face, p, fw, r, hface, hp, hfw, hr, he, _⟩ := mem_all_quads hmem
    have hv := ((emits_at_iff voxels face p fw r).1 he).1
    rw [h face p fw r hface hp.1 hp.2 hfw.1 hfw.2 hr.1 hr.2] at hv
    exact absurd hv (by simp)

theorem axis_idx_interior (axis r fw p : Nat) (hr1 : 1 ≤ r) (hr : r ≤ 62) (hf1 : 1 ≤ fw)
    (hf : fw ≤ 62) (hp1 : 1 ≤ p) (hp : p ≤ 62) :
    ∃ x y z, (1 ≤ x ∧ x ≤ 62) ∧ (1 ≤ y ∧ y ≤ 62) ∧ (1 ≤ z ∧ z ≤ 62) ∧
      axis_idx axis r fw p = z + x * CS_P + y * CS_P2 := by
  unfold axis_idx
  by_cases h0 : axis = 0
  · rw [if_pos h0]; exact ⟨r, p, fw, ⟨hr1, hr⟩, ⟨hp1, hp⟩, ⟨hf1, hf⟩, rfl⟩
  · rw [if_neg h0]
    by_cases h1 : axis = 1
    · rw [if_pos h1]; exact ⟨p, fw, r, ⟨hp1, hp⟩, ⟨hf1, hf⟩, ⟨hr1, hr⟩, rfl⟩
    · rw [if_neg h1]; exact ⟨fw, r, p, ⟨hf1, hf⟩, ⟨hr1, hr⟩, ⟨hp1, hp⟩, rfl⟩

/-- With an empty interior nothing is emitted, whatever the padding holds. -/
theorem all_quads_of_empty_interior (voxels : List Nat)
    (h : ∀ x y z, 1 ≤ x → x ≤ CS → 1 ≤ y → y ≤ CS → 1 ≤ z → z ≤ CS → voxel voxels x y z = 0) :
    all_quads voxels = [] := by
  apply all_quads_nil
  intro face p fw r _ hp1 hp hf1 hf hr1 hr
  obtain ⟨x, y, z, hx, hy, hz, e⟩ := axis_idx_interior (face / 2) r fw p hr1 hr hf1 hf hp1 hp
  have hv := h x y z hx.1 hx.2 hy.1 hy.2 hz.1 hz.2
  unfold voxel at hv
  unfold visible solid_at
  rw [e, hv]
  rfl

/-! ## Visible unit faces, as the claims word them -/

theorem solid_at_eq (voxels : List Nat) (axis r fw p : Nat) :
    solid_at voxels (axis_idx axis r fw p) =
      solid_check (vox voxels (axis : Int) r fw p) := by
  unfold solid_at
  rw [vox_nat]

theorem visible_iff_unit_face (voxels : List Nat) (face fw r p : Nat) (hp1 : 1 ≤ p)
    (hp : p ≤ 62) :
    visible voxels face fw r p = true ↔ unit_face voxels face fw r p := by
  unfold visible unit_face light_dir
  rw [solid_at_eq]
  by_cases hev : face % 2 = 0
  · rw [if_pos hev, if_pos hev, solid_at_eq]
    have e : ((p + 1 : Nat) : Int) = (p : Int) + 1 := by push_cast; rfl
    rw [e]
    have : p < 63 := by omega
    simp [this]
  · rw [if_neg hev, if_neg hev, solid_at_eq]
    have e : ((p - 1 : Nat) : Int) = (p : Int) + -1 := by omega
    rw [e]
    have : 0 < p := by omega
    simp [this]

/-! ## The result of `mesh` -/

theorem mesh_of_run {voxels : List Nat} {s : MeshState} (h : mesh_run voxels = some s) :
    mesh voxels = some (if s.vertices.length = 0 then none else some s.vertices) := by
  unfold mesh
  rw [h]
  simp only [Option.bind_eq_bind, Option.some_bind]
  split <;> rfl

theorem quad_vertices_length (q : Quad) : (quad_vertices q).length = 6 := by
  unfold quad_vertices emit_quad insert_quad
  split
  split <;> rfl

theorem length_flatMap_quad_vertices (qs : List Quad) :
    (qs.flatMap quad_vertices).length = 6 * qs.length := by
  induction qs with
  | nil => rfl
  | cons q qs ih =>
    rw [List.flatMap_cons, List.length_append, ih, quad_vertices_length, List.length_cons]
    omega

theorem quad_vertices_eq (q : Quad) :
    quad_vertices q =
      if q.ao_LB + q.ao_RF > q.ao_RB + q.ao_LF then
        [q.corners.1, q.corners.2.1, q.corners.2.2.2, q.corners.2.2.2, q.corners.2.1,
          q.corners.2.2.1]
      else
        [q.corners.1, q.corners.2.1, q.corners.2.2.1, q.corners.2.2.1, q.corners.2.2.2,
          q.corners.1] := by
  unfold quad_vertices emit_quad insert_quad
  split
  rename_i v1 v2 v3 v4 heq
  rw [heq]
  split <;> rfl

theorem mem_quad_vertices {q : Quad} {w : Nat} (h : w ∈ quad_vertices q) :
    w = q.corners.1 ∨ w = q.corners.2.1 ∨ w = q.corners.2.2.1 ∨ w = q.corners.2.2.2 := by
  rw [quad_vertices_eq] at h
  split at h
  · simp only [List.mem_cons, List.mem_singleton, List.not_mem_nil, or_false] at h
    rcases h with h | h | h | h | h | h
    · exact Or.inl h
    · exact Or.inr (Or.inl h)
    · exact Or.inr (Or.inr (Or.inr h))
    · exact Or.inr (Or.inr (Or.inr h))
    · exact Or.inr (Or.inl h)
    · exact Or.inr (Or.inr (Or.inl h))
  · simp only [List.mem_cons, List.mem_singleton, List.not_mem_nil, or_false] at h
    rcases h with h | h | h | h | h | h
    · exact Or.inl h
    · exact Or.inr (Or.inl h)
    · exact Or.inr (Or.inr (Or.inl h))
    · exact Or.inr (Or.inr (Or.inl h))
    · exact Or.inr (Or.inr (Or.inr h))
    · exact Or.inl h

theorem two_le_countP {α : Type} (P : α → Bool) {a b : α} :
    ∀ l : List α, a ∈ l → b ∈ l → a ≠ b → P a = true → P b = true → 2 ≤ l.countP P := by
  intro l
  induction l with
  | nil => intro h; exact absurd h (List.not_mem_nil _)
  | cons x l ih =>
    intro ha hb hne hPa hPb
    rcases List.mem_cons.1 ha with ea | ha'
    · rcases List.mem_cons.1 hb with eb | hb'
      · exact absurd (ea.trans eb.symm) hne
      · subst ea
        rw [List.countP_cons_of_pos _ _ hPa]
        have : 0 < l.countP P := List.countP_pos_iff.2 ⟨b, hb', hPb⟩
        omega
    · rcases List.mem_cons.1 hb with eb | hb'
      · subst eb
        rw [List.countP_cons_of_pos _ _ hPb]
        have : 0 < l.countP P := List.countP_pos_iff.2 ⟨a, ha', hPa⟩
        omega
      · have := ih ha' hb' hne hPa hPb
        rw [List.countP_cons]
        omega

/-! ## Field ranges of emitted rectangles -/

theorem vertexAO_range (a b c : Bool) :
    to_u8 (vertexAO (if a = true then 1 else 0) (if b = true then 1 else 0)
      (if c = true then 1 else 0)) < 4 := by
  cases a <;> cases b <;> cases c <;> decide

theorem face_ao_lt (voxels : List Nat) (face p fw r : Nat) :
    (face_ao voxels face p fw r).1 < 4 ∧ (face_ao voxels face p fw r).2.1 < 4 ∧
    (face_ao voxels face p fw r).2.2.1 < 4 ∧ (face_ao voxels face p fw r).2.2.2 < 4 := by
  unfold face_ao
  exact ⟨vertexAO_range _ _ _, vertexAO_range _ _ _, vertexAO_range _ _ _, vertexAO_range _ _ _⟩

theorem vox_lt (voxels : List Nat) (hb : ∀ v ∈ voxels, v < 256) (axis a b c : Int) :
    vox voxels axis a b c < 256 := by
  unfold vox
  rw [List.getD_eq_getElem?_getD]
  cases h : voxels[(get_axis_i axis a b c).toNat]? with
  | none => simp
  | some v =>
    simp only [Option.getD_some]
    exact hb v (List.getElem?_mem h)

theorem quad_at_fits (voxels : List Nat) (hb : ∀ v ∈ voxels, v < 256) (face p fw r : Nat)
    (hface : face < 6) (hp1 : 1 ≤ p) (hp : p ≤ 62) (hf1 : 1 ≤ fw) (hf : fw ≤ 62)
    (hr1 : 1 ≤ r) (hr : r ≤ 62) : QuadFits (quad_at voxels face p fw r) := by
  obtain ⟨e1, e2, e3, e4, e5, e6⟩ := quad_at_fields voxels face p fw r hf1 hf hr1 hr hp
  have g1 := run_fwd_lt voxels face p r hr1 hr fw hf1
  have g2 := run_right_lt voxels face p fw r hr1
  have hao := face_ao_lt voxels face p fw r
  rw [← cell_quad_ao voxels face p fw r (run_right voxels face p fw r)
    (run_fwd voxels face p fw r)] at hao
  refine ⟨by rw [e1]; exact hface, by rw [e5]; omega, by rw [e6]; omega, by rw [e3]; omega,
    by rw [e4]; omega, ?_, ?_, hao.1, hao.2.1, hao.2.2.1, hao.2.2.2⟩
  · rw [e2]; split <;> omega
  · have := vox_lt voxels hb ((face / 2 : Nat) : Int) r fw p
    show vox voxels ((face / 2 : Nat) : Int) r fw p < 4096
    omega

theorem decode_ao_get_vertex (x y z type norm ao : Nat)
    (hx : 1 ≤ x ∧ x ≤ 64) (hy : 1 ≤ y ∧ y ≤ 64) (hz : 1 ≤ z ∧ z ≤ 64)
    (ht : type < 4096) (hn : norm < 6) (hao : ao < 4) :
    decode_ao (get_vertex x y z type 15 norm ao) = ao :=
  get_vertex_ao_bits x y z type 15 norm ao hx.1 hx.2 hy.1 hy.2 hz.1 hz.2 ht (by decide)
    (by show norm < 8; omega) hao

theorem decoded_corner_aos_eq (q : Quad) (h : QuadFits q) :
    decoded_corner_aos q =
      if q.face % 2 = 0 then (q.ao_LF, q.ao_LB, q.ao_RB, q.ao_RF)
      else (q.ao_LB, q.ao_LF, q.ao_RF, q.ao_RB) := by
  obtain ⟨hface, hl, hr, hf, hb, hu, ht, a1, a2, a3, a4⟩ := h
  have h6 : q.face = 0 ∨ q.face = 1 ∨ q.face = 2 ∨ q.face = 3 ∨ q.face = 4 ∨ q.face = 5 := by
    omega
  unfold decoded_corner_aos Quad.corners
  rcases h6 with e | e | e | e | e | e <;>
    simp only [e, if_true, if_false, OfNat.ofNat_ne_zero, OfNat.zero_ne_ofNat,
      Nat.reduceEqDiff, Nat.reduceMod, one_ne_zero, Nat.succ_ne_self] <;>
    (rw [← e]
     rw [decode_ao_get_vertex _ _ _ _ _ _ (by assumption) (by assumption) (by assumption) ht
        hface (by assumption),
      decode_ao_get_vertex _ _ _ _ _ _ (by assumption) (by assumption) (by assumption) ht
        hface (by assumption),
      decode_ao_get_vertex _ _ _ _ _ _ (by assumption) (by assumption) (by assumption) ht
        hface (by assumption),
      decode_ao_get_vertex _ _ _ _ _ _ (by assumption) (by assumption) (by assumption) ht
        hface (by assumption)])

/-! ## Facts shared by the claims -/

/-- A cell within the bounds of an emitted rectangle of the plane `(q.face, p)` is an
interior cell owned by the cell that closed the rectangle. -/
theorem covered_cell {voxels : List Nat} {q : Quad} (hq : q ∈ all_quads voxels)
    {p a b : Nat} (hc : covers_face q.face p a b q = true) :
    ∃ fw r, (1 ≤ p ∧ p ≤ 62) ∧ (1 ≤ a ∧ a ≤ 62) ∧ (1 ≤ b ∧ b ≤ 62) ∧
      (1 ≤ fw ∧ fw ≤ 62) ∧ (1 ≤ r ∧ r ≤ 62) ∧ q.face < 6 ∧
      q = quad_at voxels q.face p fw r ∧ owns voxels q.face p fw r a b := by
  obtain ⟨face, p', fw, r, hface, hp, hfw, hr, he, e⟩ := mem_all_quads hq
  have hfields := quad_at_fields voxels face p' fw r hfw.1 hfw.2 hr.1 hr.2 hp.2
  have ef : q.face = face := by rw [e]; exact hfields.1
  rw [ef] at hc ⊢
  rw [e] at hc
  obtain ⟨_, epp, hin⟩ := (covers_quad_at voxels face p' fw r face p a b hfw.1 hfw.2 hr.1 hr.2
    hp.2).1 hc
  subst epp
  have g1 := run_fwd_lt voxels face p' r hr.1 hr.2 fw hfw.1
  have g2 := run_right_lt voxels face p' fw r hr.1
  obtain ⟨i1, i2, i3, i4⟩ := hin
  have ha : 1 ≤ a := by omega
  have hb : 1 ≤ b := by omega
  exact ⟨fw, r, hp, ⟨ha, by omega⟩, ⟨hb, by omega⟩, hfw, hr, hface, e,
    (in_rect_iff_owns voxels face p' fw r a b hfw.1 hr.1 hr.2 ha hb he).1 ⟨i1, i2, i3, i4⟩⟩

theorem quad_at_back_right {voxels : List Nat} {face p fw r fw' r' : Nat}
    (hf : 1 ≤ fw ∧ fw ≤ 62) (hr : 1 ≤ r ∧ r ≤ 62) (hf' : 1 ≤ fw' ∧ fw' ≤ 62)
    (hr' : 1 ≤ r' ∧ r' ≤ 62) (hp : p ≤ 62)
    (e : quad_at voxels face p fw r = quad_at voxels face p fw' r') : fw = fw' ∧ r = r' := by
  have h1 := quad_at_fields voxels face p fw r hf.1 hf.2 hr.1 hr.2 hp
  have h2 := quad_at_fields voxels face p fw' r' hf'.1 hf'.2 hr'.1 hr'.2 hp
  rw [e] at h1
  have a := h1.2.2.2.1.symm.trans h2.2.2.2.1
  have b := h1.2.2.2.2.2.symm.trans h2.2.2.2.2.2
  omega

/-- The rectangles of a plane: every one covers only visible faces of interior
voxels, and is not degenerate. -/
theorem quad_cells_visible {voxels : List Nat} {q : Quad} (hq : q ∈ all_quads voxels) :
    q.face < 6 ∧ ∃ p, 1 ≤ p ∧ p ≤ CS ∧ q.mesh_up = p + (if q.face % 2 = 0 then 1 else 0) ∧
      q.mesh_front < q.mesh_back ∧ q.mesh_left < q.mesh_right ∧
      ∀ fw r, q.mesh_front ≤ fw → fw < q.mesh_back → q.mesh_left ≤ r → r < q.mesh_right →
        (1 ≤ fw ∧ fw ≤ CS) ∧ (1 ≤ r ∧ r ≤ CS) ∧ unit_face voxels q.face fw r p := by
  obtain ⟨face, p, fw0, r0, hface, hp, hfw, hr, he, e⟩ := mem_all_quads hq
  obtain ⟨e1, e2, e3, e4, e5, e6⟩ := quad_at_fields voxels face p fw0 r0 hfw.1 hfw.2 hr.1 hr.2
    hp.2
  have ef : q.face = face := by rw [e]; exact e1
  rw [ef]
  refine ⟨hface, p, hp.1, hp.2, by rw [e]; exact e2, by rw [e, e3, e4]; omega,
    by rw [e, e5, e6]; omega, ?_⟩
  intro fw r h1 h2 h3 h4
  rw [e] at h1 h2 h3 h4
  obtain ⟨ha, hb, hown⟩ := quad_at_cells voxels face p fw0 r0 fw r hfw.1 hfw.2 hr.1 hr.2 hp.2 he
    h1 h2 h3 h4
  exact ⟨ha, hb, (visible_iff_unit_face voxels face fw r p hp.1 hp.2).1
    (owns_visible voxels face p fw0 r0 fw r hb.1 hown)⟩

theorem covered_type {voxels : List Nat} {q : Quad} (hq : q ∈ all_quads voxels)
    {p a b : Nat} (hc : covers_face q.face p a b q = true) :
    cell_type voxels q.face p a b = q.type := by
  obtain ⟨fw, r, _, _, hb, _, _, _, e, hown⟩ := covered_cell hq hc
  rw [(owns_uniform voxels q.face p fw r a b hb.1 hown).1]
  conv => rhs; rw [e]
  rfl

theorem covered_pattern {voxels : List Nat} {q : Quad} (hq : q ∈ all_quads voxels)
    {p a b a' b' : Nat} (hc : covers_face q.face p a b q = true)
    (hc' : covers_face q.face p a' b' q = true) :
    ao_pattern voxels q.face p a b = ao_pattern voxels q.face p a' b' := by
  obtain ⟨fw, r, hp, _, hb, hfw, hr, _, e, hown⟩ := covered_cell hq hc
  obtain ⟨fw', r', _, _, hb', hfw', hr', _, e', hown'⟩ := covered_cell hq hc'
  obtain ⟨e1, e2⟩ := quad_at_back_right hfw hr hfw' hr' hp.2 (e.symm.trans e')
  subst e1; subst e2
  rw [(owns_uniform voxels q.face p fw r a b hb.1 hown).2,
    (owns_uniform voxels q.face p fw r a' b' hb'.1 hown').2]

theorem covered_ao {voxels : List Nat} (hbytes : ∀ v ∈ voxels, v < 256) {q : Quad}
    (hq : q ∈ all_quads voxels) {p a b : Nat} (hc : covers_face q.face p a b q = true) :
    face_ao voxels q.face p a b = (q.ao_LB, q.ao_LF, q.ao_RB, q.ao_RF) ∧
    decoded_corner_aos q =
      if q.face % 2 = 0 then
        ((face_ao voxels q.face p a b).2.1, (face_ao voxels q.face p a b).1,
          (face_ao voxels q.face p a b).2.2.1, (face_ao voxels q.face p a b).2.2.2)
      else
        ((face_ao voxels q.face p a b).1, (face_ao voxels q.face p a b).2.1,
          (face_ao voxels q.face p a b).2.2.2, (face_ao voxels q.face p a b).2.2.1) := by
  obtain ⟨fw, r, hp, _, hb, hfw, hr, hface, e, hown⟩ := covered_cell hq hc
  have hfits : QuadFits q := by
    rw [e]
    exact quad_at_fits voxels hbytes q.face p fw r hface hp.1 hp.2 hfw.1 hfw.2 hr.1 hr.2
  have h1 : face_ao voxels q.face p a b = (q.ao_LB, q.ao_LF, q.ao_RB, q.ao_RF) := by
    rw [face_ao_of_pattern voxels q.face p a b fw r
      (owns_uniform voxels q.face p fw r a b hb.1 hown).2]
    conv => rhs; rw [e]
    rfl
  refine ⟨h1, ?_⟩
  rw [decoded_corner_aos_eq q hfits, h1]

/-- The vertex stream and the result of `mesh`, from the rectangles. -/
theorem mesh_result (voxels : List Nat) (hlen : voxels.length = CS_P3) :
    ∃ s, mesh_run voxels = some s ∧ s.quads = all_quads voxels ∧
      s.vertices = s.quads.flatMap quad_vertices ∧
      s.vertices.length = 6 * s.quads.length ∧
      mesh voxels = some (if s.quads = [] then none else some s.vertices) := by
  obtain ⟨s, hs, hq, hv⟩ := mesh_run_spec voxels hlen
  have hv' : s.vertices = s.quads.flatMap quad_vertices := by rw [hq]; exact hv
  have hl : s.vertices.length = 6 * s.quads.length := by
    rw [hv', length_flatMap_quad_vertices]
  refine ⟨s, hs, hq, hv', hl, ?_⟩
  rw [mesh_of_run hs]
  by_cases h0 : s.quads = []
  · rw [if_pos h0, if_pos]
    rw [hl, h0]; rfl
  · rw [if_neg h0, if_neg]
    rw [hl]
    have : s.quads.length ≠ 0 := fun h => h0 (List.length_eq_zero.1 h)
    omega

theorem empty_interior_result (voxels : List Nat) (hlen : voxels.length = CS_P3)
    (h : ∀ x y z, 1 ≤ x → x ≤ CS → 1 ≤ y → y ≤ CS → 1 ≤ z → z ≤ CS → voxel voxels x y z = 0) :
    mesh voxels = some none ∧ ∃ s, mesh_run voxels = some s ∧ s.quads = [] ∧ s.vertices = [] := by
  obtain ⟨s, hs, hq, hv, _, hm⟩ := mesh_result voxels hlen
  rw [all_quads_of_empty_interior voxels h] at hq
  rw [hq] at hv hm
  exact ⟨hm, s, hs, hq, hv⟩

/-! ## Decoded corners -/

theorem decode_pos_get_vertex (x y z type norm ao : Nat)
    (hx : 1 ≤ x ∧ x ≤ 64) (hy : 1 ≤ y ∧ y ≤ 64) (hz : 1 ≤ z ∧ z ≤ 64)
    (ht : type < 4096) (hn : norm < 6) (hao : ao < 4) :
    (decode_x (get_vertex x y z type 15 norm ao), decode_y (get_vertex x y z type 15 norm ao),
      decode_z (get_vertex x y z type 15 norm ao)) = (x, y, z) := by
  unfold decode_x decode_y decode_z
  rw [get_vertex_x_bits x y z type 15 norm ao hx.1 hx.2 hy.1 hy.2 hz.1 hz.2 (by omega)
      (by decide) (by show norm < 32; omega) hao,
    get_vertex_y_bits x y z type 15 norm ao hx.1 hx.2 hy.1 hy.2 hz.1 hz.2 (by omega)
      (by decide) (by show norm < 32; omega) hao,
    get_vertex_z_bits x y z type 15 norm ao hx.1 hx.2 hy.1 hy.2 hz.1 hz.2 (by omega)
      (by decide) (by show norm < 32; omega) hao]
  have h1 := hx.1
  have h2 := hy.1
  have h3 := hz.1
  simp only [Prod.mk.injEq]
  omega

theorem decoded_corner_positions_eq (q : Quad) (h : QuadFits q) :
    decoded_corner_positions q = q.corner_positions := by
  obtain ⟨hface, hl, hr, hf, hb, hu, ht, a1, a2, a3, a4⟩ := h
  have h6 : q.face = 0 ∨ q.face = 1 ∨ q.face = 2 ∨ q.face = 3 ∨ q.face = 4 ∨ q.face = 5 := by
    omega
  unfold decoded_corner_positions Quad.corner_positions Quad.corners
  rcases h6 with e | e | e | e | e | e <;>
    simp only [e, if_true, if_false, OfNat.ofNat_ne_zero, OfNat.zero_ne_ofNat,
      Nat.reduceEqDiff, one_ne_zero, Nat.succ_ne_self, List.map_cons, List.map_nil] <;>
    (rw [← e]
     rw [decode_pos_get_vertex _ _ _ _ _ _ (by assumption) (by assumption) (by assumption) ht
        hface (by assumption),
      decode_pos_get_vertex _ _ _ _ _ _ (by assumption) (by assumption) (by assumption) ht
        hface (by assumption),
      decode_pos_get_vertex _ _ _ _ _ _ (by assumption) (by assumption) (by assumption) ht
        hface (by assumption),
      decode_pos_get_vertex _ _ _ _ _ _ (by assumption) (by assumption) (by assumption) ht
        hface (by assumption)])

/-! ## The mesh of a box -/

theorem box_quad_fits (face t R1 R2 F1 F2 P1 P2 : Nat) (hface : face < 6) (ht : t < 4096)
    (hR1 : 1 ≤ R1) (hR2 : R2 ≤ 62) (hR : R1 ≤ R2) (hF1 : 1 ≤ F1) (hF2 : F2 ≤ 62) (hF : F1 ≤ F2)
    (hP1 : 1 ≤ P1) (hP2 : P2 ≤ 62) (hP : P1 ≤ P2) :
    QuadFits (box_quad face t R1 R2 F1 F2 P1 P2) := by
  refine ⟨hface, ⟨hR1, ?_⟩, ⟨?_, ?_⟩, ⟨hF1, ?_⟩, ⟨?_, ?_⟩, ?_, ht, ?_, ?_, ?_, ?_⟩ <;>
    simp only [box_quad] <;> try omega
  split <;> omega

theorem box_result {voxels : List Nat} {t X1 X2 Y1 Y2 Z1 Z2 : Nat}
    (h : BoxVolume voxels t X1 X2 Y1 Y2 Z1 Z2) :
    ∃ s, mesh_run voxels = some s ∧ s.quads = box_quads t X1 X2 Y1 Y2 Z1 Z2 ∧
      s.vertices = (box_quads t X1 X2 Y1 Y2 Z1 Z2).flatMap quad_vertices ∧
      s.vertices.length = 36 ∧ mesh voxels = some (some s.vertices) := by
  obtain ⟨s, hs, hq, hv, hl, hm⟩ := mesh_result voxels h.len
  rw [h.all_quads_eq] at hq
  rw [hq] at hv hl hm
  refine ⟨s, hs, hq, hv, hl, ?_⟩
  rw [hm, if_neg]
  unfold box_quads
  exact List.cons_ne_nil _ _

theorem box_quads_fit {t X1 X2 Y1 Y2 Z1 Z2 : Nat} (ht : t < 4096)
    (hX1 : 1 ≤ X1) (hX : X1 ≤ X2) (hX2 : X2 ≤ 62) (hY1 : 1 ≤ Y1) (hY : Y1 ≤ Y2) (hY2 : Y2 ≤ 62)
    (hZ1 : 1 ≤ Z1) (hZ : Z1 ≤ Z2) (hZ2 : Z2 ≤ 62) :
    ∀ q ∈ box_quads t X1 X2 Y1 Y2 Z1 Z2, QuadFits q := by
  intro q hq
  unfold box_quads at hq
  simp only [List.mem_cons, List.mem_singleton, List.not_mem_nil, or_false] at hq
  rcases hq with e | e | e | e | e | e <;> subst e <;>
    apply box_quad_fits <;> first | assumption | decide

theorem box_vertices_ao {t X1 X2 Y1 Y2 Z1 Z2 : Nat} (ht : t < 4096)
    (hX1 : 1 ≤ X1) (hX : X1 ≤ X2) (hX2 : X2 ≤ 62) (hY1 : 1 ≤ Y1) (hY : Y1 ≤ Y2) (hY2 : Y2 ≤ 62)
    (hZ1 : 1 ≤ Z1) (hZ : Z1 ≤ Z2) (hZ2 : Z2 ≤ 62) :
    ∀ w ∈ (box_quads t X1 X2 Y1 Y2 Z1 Z2).flatMap quad_vertices, decode_ao w = 3 := by
  intro w hw
  rw [List.mem_flatMap] at hw
  obtain ⟨q, hq, hwq⟩ := hw
  have hfit := box_quads_fit ht hX1 hX hX2 hY1 hY hY2 hZ1 hZ hZ2 q hq
  have hdec := decoded_corner_aos_eq q hfit
  have hao : q.ao_LB = 3 ∧ q.ao_LF = 3 ∧ q.ao_RB = 3 ∧ q.ao_RF = 3 := by
    unfold box_quads at hq
    simp only [List.mem_cons, List.mem_singleton, List.not_mem_nil, or_false] at hq
    rcases hq with e | e | e | e | e | e <;> subst e <;> exact ⟨rfl, rfl, rfl, rfl⟩
  rw [hao.1, hao.2.1, hao.2.2.1, hao.2.2.2, ite_self] at hdec
  unfold decoded_corner_aos at hdec
  simp only [Prod.mk.injEq] at hdec
  rcases mem_quad_vertices hwq with e | e | e | e <;> rw [e]
  · exact hdec.1
  · exact hdec.2.1
  · exact hdec.2.2.1
  · exact hdec.2.2.2

/-! ## Sample inputs -/

theorem sample_volume_box : BoxVolume sample_volume 7 5 5 6 6 8 8 :=
  box_volume_spec 7 5 5 6 6 8 8 (by decide) (by decide) (by decide) (by decide) (by decide)
    (by decide) (by decide) (by decide) (by decide) (by decide)

theorem sample_volume_bytes : ∀ v ∈ sample_volume, v < 256 := by
  intro v hv
  unfold sample_volume box_volume at hv
  rw [List.mem_map] at hv
  obtain ⟨i, _, e⟩ := hv
  rw [← e]
  split <;> decide

theorem sample_volume_visible : unit_face sample_volume 0 8 5 6 :=
  (visible_iff_unit_face sample_volume 0 8 5 6 (by decide) (by decide)).1
    (((sample_volume_box.plane0 0 rfl).visible_iff 8 5 6 (by decide) (by decide) (by decide)
      (by decide)).2 ⟨by decide, rfl⟩)

theorem empty_volume_voxel (x y z : Nat) : voxel empty_volume x y z = 0 := by
  unfold voxel empty_volume
  rw [List.getD_eq_getElem?_getD]
  cases h : (List.replicate CS_P3 0)[z + x * CS_P + y * CS_P2]? with
  | none => rfl
  | some v =>
    have := List.getElem?_mem h
    rw [List.mem_replicate] at this
    simp [this.2]

theorem shell_volume_interior (x y z : Nat) (hx1 : 1 ≤ x) (hx : x ≤ CS) (hy1 : 1 ≤ y)
    (hy : y ≤ CS) (hz1 : 1 ≤ z) (hz : z ≤ CS) : voxel shell_volume x y z = 0 := by
  unfold voxel shell_volume
  have hx' : x ≤ 62 := hx
  have hy' : y ≤ 62 := hy
  have hz' : z ≤ 62 := hz
  rw [getD_map_range _ _ _ (by show z + x * 64 + y * 4096 < 262144; omega)]
  have e1 : (z + x * CS_P + y * CS_P2) / CS_P % CS_P = x := by
    show (z + x * 64 + y * 4096) / 64 % 64 = x
    omega
  have e2 : (z + x * CS_P + y * CS_P2) / CS_P2 = y := by
    show (z + x * 64 + y * 4096) / 4096 = y
    omega
  have e3 : (z + x * CS_P + y * CS_P2) % CS_P = z := by
    show (z + x * 64 + y * 4096) % 64 = z
    omega
  rw [e1, e2, e3, if_pos ⟨hx1, hx, hy1, hy, hz1, hz⟩]

theorem shell_volume_padding : voxel shell_volume 0 0 0 = 9 := by
  unfold voxel shell_volume
  rw [getD_map_range _ _ _ (by decide)]
  decide

theorem sample_volume_voxel (i j l : Nat) (hi : i < CS_P) (hj : j < CS_P) (hl : l < CS_P) :
    voxel sample_volume i j l = if i = 5 ∧ j = 6 ∧ l = 8 then 7 else 0 := by
  rw [sample_volume_box.val i j l hi hj hl]
  exact if_congr (by omega) rfl rfl

theorem box_of_voxels {voxels : List Nat} {t X1 X2 Y1 Y2 Z1 Z2 : Nat}
    (hlen : voxels.length = CS_P3) (ht : 0 < t)
    (hX1 : 1 ≤ X1) (hX : X1 ≤ X2) (hX2 : X2 ≤ CS) (hY1 : 1 ≤ Y1) (hY : Y1 ≤ Y2) (hY2 : Y2 ≤ CS)
    (hZ1 : 1 ≤ Z1) (hZ : Z1 ≤ Z2) (hZ2 : Z2 ≤ CS) (c : Nat → Nat → Nat → Prop)
    [∀ i j l, Decidable (c i j l)]
    (hc : ∀ i j l, i < CS_P → j < CS_P → l < CS_P →
      (c i j l ↔ (X1 ≤ i ∧ i ≤ X2 ∧ Y1 ≤ j ∧ j ≤ Y2 ∧ Z1 ≤ l ∧ l ≤ Z2)))
    (hvox : ∀ i j l, i < CS_P → j < CS_P → l < CS_P →
      voxel voxels i j l = if c i j l then t else 0) :
    BoxVolume voxels t X1 X2 Y1 Y2 Z1 Z2 := by
  refine ⟨hlen, ht, hX1, hX, hX2, hY1, hY, hY2, hZ1, hZ, hZ2, ?_⟩
  intro i j l hi hj hl
  rw [hvox i j l hi hj hl]
  exact if_congr (hc i j l hi hj hl) rfl rfl

theorem box_quads_faces (t X1 X2 Y1 Y2 Z1 Z2 : Nat) :
    (box_quads t X1 X2 Y1 Y2 Z1 Z2).map Quad.face = [0, 1, 2, 3, 4, 5] := rfl

theorem mem_box_quads {q : Quad} {t X1 X2 Y1 Y2 Z1 Z2 : Nat}
    (h : q ∈ box_quads t X1 X2 Y1 Y2 Z1 Z2) :
    q = box_quad 0 t X1 X2 Z1 Z2 Y1 Y2 ∨ q = box_quad 1 t X1 X2 Z1 Z2 Y1 Y2 ∨
    q = box_quad 2 t Z1 Z2 Y1 Y2 X1 X2 ∨ q = box_quad 3 t Z1 Z2 Y1 Y2 X1 X2 ∨
    q = box_quad 4 t Y1 Y2 X1 X2 Z1 Z2 ∨ q = box_quad 5 t Y1 Y2 X1 X2 Z1 Z2 := by
  unfold box_quads at h
  simpa only [List.mem_cons, List.mem_singleton, List.not_mem_nil, or_false] using h

/-! ## The claims -/

/-- Claim C1: for every volume of `CS_P3` bytes and every face direction, the
rectangles emitted by `mesh` partition the visible faces of interior voxels: each
visible unit face lies inside exactly one emitted rectangle with that face id on
that plane, and every unit cell of every emitted rectangle is such a visible face. -/
theorem C1_quads_partition_visible_faces (voxels : List Nat)
    (hlen : voxels.length = CS_P3) :
    ∃ s, mesh_run voxels = some s ∧
      (∀ face p fw r, face < 6 → 1 ≤ p → p ≤ CS → 1 ≤ fw → fw ≤ CS → 1 ≤ r → r ≤ CS →
        unit_face voxels face fw r p → s.quads.countP (covers_face face p fw r) = 1) ∧
      (∀ q ∈ s.quads, q.face < 6 ∧
        ∃ p, 1 ≤ p ∧ p ≤ CS ∧ q.mesh_up = p + (if q.face % 2 = 0 then 1 else 0) ∧
          q.mesh_front < q.mesh_back ∧ q.mesh_left < q.mesh_right ∧
          ∀ fw r, q.mesh_front ≤ fw → fw < q.mesh_back → q.mesh_left ≤ r → r < q.mesh_right →
            (1 ≤ fw ∧ fw ≤ CS) ∧ (1 ≤ r ∧ r ≤ CS) ∧ unit_face voxels q.face fw r p) := by
  obtain ⟨s, hs, hq, _⟩ := mesh_result voxels hlen
  refine ⟨s, hs, ?_, ?_⟩
  · intro face p fw r hface hp1 hp hf1 hf hr1 hr hu
    rw [hq]
    exact count_covering voxels face p fw r hface hp1 hp hf1 hf hr1 hr
      ((visible_iff_unit_face voxels face fw r p hp1 hp).2 hu)
  · intro q hmem
    rw [hq] at hmem
    exact quad_cells_visible hmem

theorem C1_witness :
    sample_volume.length = CS_P3 ∧
      ∃ s, mesh_run sample_volume = some s ∧ s.quads.countP (covers_face 0 6 8 5) = 1 := by
  have hlen : sample_volume.length = CS_P3 := sample_volume_box.len
  obtain ⟨s, hs, h1, _⟩ := C1_quads_partition_visible_faces sample_volume hlen
  exact ⟨hlen, s, hs, h1 0 6 8 5 (by decide) (by decide) (by decide) (by decide) (by decide)
    (by decide) (by decide) sample_volume_visible⟩

/-- Claim C2: every rectangle emitted by `mesh` is type-uniform: all unit faces it
covers belong to voxels with the material id of the rectangle; so a plane that shows
two visible faces of different material ids gets at least 2 rectangles. -/
theorem C2_quads_type_uniform (voxels : List Nat) (hlen : voxels.length = CS_P3) :
    ∃ s, mesh_run voxels = some s ∧
      (∀ q ∈ s.quads, ∀ p fw r, covers_face q.face p fw r q = true →
        cell_type voxels q.face p fw r = q.type) ∧
      (∀ face p fw r fw' r', face < 6 → 1 ≤ p → p ≤ CS → 1 ≤ fw → fw ≤ CS → 1 ≤ r → r ≤ CS →
        1 ≤ fw' → fw' ≤ CS → 1 ≤ r' → r' ≤ CS →
        unit_face voxels face fw r p → unit_face voxels face fw' r' p →
        cell_type voxels face p fw r ≠ cell_type voxels face p fw' r' →
        2 ≤ s.quads.countP (fun q => decide (q.face = face ∧
          q.mesh_up = p + (if face % 2 = 0 then 1 else 0)))) := by
  obtain ⟨s, hs, hq, _⟩ := mesh_result voxels hlen
  refine ⟨s, hs, ?_, ?_⟩
  · intro q hmem p fw r hc
    rw [hq] at hmem
    exact covered_type hmem hc
  · intro face p fw r fw' r' hface hp1 hp hf1 hf hr1 hr hf1' hf' hr1' hr' hu hu' hne
    rw [hq]
    have c1 := count_covering voxels face p fw r hface hp1 hp hf1 hf hr1 hr
      ((visible_iff_unit_face voxels face fw r p hp1 hp).2 hu)
    have c2 := count_covering voxels face p fw' r' hface hp1 hp hf1' hf' hr1' hr'
      ((visible_iff_unit_face voxels face fw' r' p hp1 hp).2 hu')
    obtain ⟨q1, hq1, hc1⟩ := List.countP_pos_iff.1 (by rw [c1]; decide)
    obtain ⟨q2, hq2, hc2⟩ := List.countP_pos_iff.1 (by rw [c2]; decide)
    have f1 : q1.face = face := by
      unfold covers_face at hc1
      exact (of_decide_eq_true hc1).1
    have f2 : q2.face = face := by
      unfold covers_face at hc2
      exact (of_decide_eq_true hc2).1
    have t1 := covered_type (q := q1) hq1 (by rw [f1]; exact hc1)
    have t2 := covered_type (q := q2) hq2 (by rw [f2]; exact hc2)
    rw [f1] at t1
    rw [f2] at t2
    have hne12 : q1 ≠ q2 := by
      intro e
      rw [e] at t1
      exact hne (t1.trans t2.symm)
    apply two_le_countP _ _ hq1 hq2 hne12
    · unfold covers_face at hc1
      exact decide_eq_true ⟨(of_decide_eq_true hc1).1, (of_decide_eq_true hc1).2.1⟩
    · unfold covers_face at hc2
      exact decide_eq_true ⟨(of_decide_eq_true hc2).1, (of_decide_eq_true hc2).2.1⟩

theorem C2_witness :
    sample_volume.length = CS_P3 ∧
      ∃ s, mesh_run sample_volume = some s ∧
        ∀ q ∈ s.quads, ∀ p fw r, covers_face q.face p fw r q = true →
          cell_type sample_volume q.face p fw r = q.type := by
  have hlen : sample_volume.length = CS_P3 := sample_volume_box.len
  obtain ⟨s, hs, h1, _⟩ := C2_quads_type_uniform sample_volume hlen
  exact ⟨hlen, s, hs, h1⟩

/-- Claim C4: for `x, y, z` in `[1, 64]`, `type < 32`, `light < 16`, `face < 8` and
`ao < 4`, decoding `get_vertex x y z type light face ao` returns exactly the original
seven fields. -/
theorem C4_vertex_roundtrip (x y z type light face ao : Nat)
    (hx : 1 ≤ x ∧ x ≤ 64) (hy : 1 ≤ y ∧ y ≤ 64) (hz : 1 ≤ z ∧ z ≤ 64)
    (ht : type < 32) (hl : light < 16) (hf : face < 8) (ha : ao < 4) :
    decode_x (get_vertex x y z type light face ao) = x ∧
    decode_y (get_vertex x y z type light face ao) = y ∧
    decode_z (get_vertex x y z type light face ao) = z ∧
    decode_type (get_vertex x y z type light face ao) = type ∧
    decode_light (get_vertex x y z type light face ao) = light ∧
    decode_face (get_vertex x y z type light face ao) = face ∧
    decode_ao (get_vertex x y z type light face ao) = ao := by
  have h1 := hx.1
  have h2 := hy.1
  have h3 := hz.1
  unfold decode_x decode_y decode_z decode_type decode_light decode_face decode_ao
  rw [get_vertex_x_bits x y z type light face ao hx.1 hx.2 hy.1 hy.2 hz.1 hz.2
      (by show type < 16384; omega) (by show light < 512; omega) (by show face < 32; omega) ha,
    get_vertex_y_bits x y z type light face ao hx.1 hx.2 hy.1 hy.2 hz.1 hz.2
      (by show type < 16384; omega) (by show light < 512; omega) (by show face < 32; omega) ha,
    get_vertex_z_bits x y z type light face ao hx.1 hx.2 hy.1 hy.2 hz.1 hz.2
      (by show type < 16384; omega) (by show light < 512; omega) (by show face < 32; omega) ha,
    get_vertex_type_bits x y z type light face ao hx.1 hx.2 hy.1 hy.2 hz.1 hz.2 ht
      (by show light < 512; omega) (by show face < 32; omega) ha,
    get_vertex_light_bits x y z type light face ao hx.1 hx.2 hy.1 hy.2 hz.1 hz.2 ht hl
      (by show face < 32; omega) ha,
    get_vertex_norm_bits x y z type light face ao hx.1 hx.2 hy.1 hy.2 hz.1 hz.2
      (by show type < 512; omega) hl hf ha,
    get_vertex_ao_bits x y z type light face ao hx.1 hx.2 hy.1 hy.2 hz.1 hz.2
      (by show type < 4096; omega) hl hf ha]
  refine ⟨by omega, by omega, by omega, rfl, rfl, rfl, rfl⟩

theorem C4_witness :
    decode_x (get_vertex 64 1 33 31 15 5 3) = 64 ∧
    decode_y (get_vertex 64 1 33 31 15 5 3) = 1 ∧
    decode_z (get_vertex 64 1 33 31 15 5 3) = 33 ∧
    decode_type (get_vertex 64 1 33 31 15 5 3) = 31 ∧
    decode_light (get_vertex 64 1 33 31 15 5 3) = 15 ∧
    decode_face (get_vertex 64 1 33 31 15 5 3) = 5 ∧
    decode_ao (get_vertex 64 1 33 31 15 5 3) = 3 :=
  C4_vertex_roundtrip 64 1 33 31 15 5 3 (by decide) (by decide) (by decide) (by decide)
    (by decide) (by decide) (by decide)

/-- Claim C5: for every volume, the number of vertices in the output of `mesh` is a
multiple of 6, the null result counting as length 0. -/
theorem C5_vertex_count_multiple_of_six (voxels : List Nat)
    (hlen : voxels.length = CS_P3) :
    ∃ result, mesh voxels = some result ∧ vertexCount result % 6 = 0 := by
  obtain ⟨s, _, _, _, hl, hm⟩ := mesh_result voxels hlen
  refine ⟨_, hm, ?_⟩
  split
  · rfl
  · show s.vertices.length % 6 = 0
    omega

theorem C5_witness :
    sample_volume.length = CS_P3 ∧
      ∃ result, mesh sample_volume = some result ∧ vertexCount result % 6 = 0 :=
  ⟨sample_volume_box.len, C5_vertex_count_multiple_of_six sample_volume sample_volume_box.len⟩

/-- Claim C6: for every volume in which all `CS_P3` voxels are 0, `mesh` emits no
rectangle and returns the explicit null result, which the caller counts as 0
vertices; it does not fail. -/
theorem C6_empty_volume_gives_null (voxels : List Nat) (hlen : voxels.length = CS_P3)
    (hzero : ∀ v ∈ voxels, v = 0) :
    mesh voxels = some none ∧ vertexCount none = 0 ∧
      ∃ s, mesh_run voxels = some s ∧ s.quads = [] ∧ s.vertices = [] := by
  have h : ∀ x y z, 1 ≤ x → x ≤ CS → 1 ≤ y → y ≤ CS → 1 ≤ z → z ≤ CS →
      voxel voxels x y z = 0 := by
    intro x y z _ _ _ _ _ _
    unfold voxel
    rw [List.getD_eq_getElem?_getD]
    cases hg : voxels[z + x * CS_P + y * CS_P2]? with
    | none => rfl
    | some v => exact hzero v (List.getElem?_mem hg)
  obtain ⟨hm, hs⟩ := empty_interior_result voxels hlen h
  exact ⟨hm, rfl, hs⟩

theorem C6_witness :
    empty_volume.length = CS_P3 ∧ (∀ v ∈ empty_volume, v = 0) ∧
      mesh empty_volume = some none :=
  ⟨List.length_replicate _ _, fun _ hv => (List.mem_replicate.1 hv).2,
    (C6_empty_volume_gives_null empty_volume (List.length_replicate _ _)
      (fun _ hv => (List.mem_replicate.1 hv).2)).1⟩

/-- Claim C7: for every interior position `(x, y, z)` and every material id `t > 0`,
meshing the volume whose only non-zero voxel is `t` at `(x, y, z)` yields exactly 36
vertices forming 6 unit quads, one per face id 0..5, and every vertex decodes to
`ao = 3`. -/
theorem C7_single_voxel (voxels : List Nat) (x y z t : Nat)
    (hlen : voxels.length = CS_P3)
    (hx : 1 ≤ x ∧ x ≤ CS) (hy : 1 ≤ y ∧ y ≤ CS) (hz : 1 ≤ z ∧ z ≤ CS)
    (ht : 0 < t ∧ t < 256)
    (hvox : ∀ i j l, i < CS_P → j < CS_P → l < CS_P →
      voxel voxels i j l = if i = x ∧ j = y ∧ l = z then t else 0) :
    ∃ s, mesh_run voxels = some s ∧ mesh voxels = some (some s.vertices) ∧
      vertexCount (some s.vertices) = 36 ∧
      s.vertices = s.quads.flatMap quad_vertices ∧
      s.quads = box_quads t x x y y z z ∧
      s.quads.length = 6 ∧
      s.quads.map Quad.face = [0, 1, 2, 3, 4, 5] ∧
      (∀ q ∈ s.quads, q.mesh_right = q.mesh_left + 1 ∧ q.mesh_back = q.mesh_front + 1) ∧
      (∀ w ∈ s.vertices, decode_ao w = 3) := by
  have hb : BoxVolume voxels t x x y y z z :=
    box_of_voxels hlen ht.1 hx.1 (le_refl _) hx.2 hy.1 (le_refl _) hy.2 hz.1 (le_refl _) hz.2
      (fun i j l => i = x ∧ j = y ∧ l = z) (fun i j l _ _ _ => by omega) hvox
  obtain ⟨s, hs, hq, hv, hl, hm⟩ := box_result hb
  refine ⟨s, hs, hm, hl, ?_, hq, ?_, ?_, ?_, ?_⟩
  · rw [hv, hq]
  · rw [hq]; rfl
  · rw [hq]; rfl
  · intro q hmem
    rw [hq] at hmem
    rcases mem_box_quads hmem with e | e | e | e | e | e <;> subst e <;> exact ⟨rfl, rfl⟩
  · intro w hw
    rw [hv] at hw
    exact box_vertices_ao (by omega) hx.1 (le_refl _) hx.2 hy.1 (le_refl _) hy.2 hz.1
      (le_refl _) hz.2 w hw

theorem C7_witness :
    ∃ s, mesh_run sample_volume = some s ∧ mesh sample_volume = some (some s.vertices) ∧
      vertexCount (some s.vertices) = 36 ∧
      s.vertices = s.quads.flatMap quad_vertices ∧
      s.quads = box_quads 7 5 5 6 6 8 8 ∧
      s.quads.length = 6 ∧
      s.quads.map Quad.face = [0, 1, 2, 3, 4, 5] ∧
      (∀ q ∈ s.quads, q.mesh_right = q.mesh_left + 1 ∧ q.mesh_back = q.mesh_front + 1) ∧
      (∀ w ∈ s.vertices, decode_ao w = 3) :=
  C7_single_voxel sample_volume 5 6 8 7 sample_volume_box.len (by decide) (by decide)
    (by decide) (by decide) sample_volume_voxel

/-- Claim C8: for each of the three axes, every interior layer `k` and every material
id `t > 0`, meshing the volume whose solid voxels are exactly the one-voxel-thick slab
at layer `k` over the whole interior extent yields exactly one quad (6 vertices) per
face direction, and the two quads whose normal is the normal of the slab span the
whole interior extent: their decoded in-plane corner coordinates run from 1 to
`CS + 1` in both directions. -/
theorem C8_slab (voxels : List Nat) (axis k t : Nat)
    (hlen : voxels.length = CS_P3) (haxis : axis < 3) (hk : 1 ≤ k ∧ k ≤ CS)
    (ht : 0 < t ∧ t < 256)
    (hvox : ∀ i j l, i < CS_P → j < CS_P → l < CS_P →
      voxel voxels i j l =
        if (1 ≤ i ∧ i ≤ CS) ∧ (1 ≤ j ∧ j ≤ CS) ∧ (1 ≤ l ∧ l ≤ CS) ∧ axis_coord axis i j l = k
        then t else 0) :
    ∃ s, mesh_run voxels = some s ∧ mesh voxels = some (some s.vertices) ∧
      s.vertices = s.quads.flatMap quad_vertices ∧
      s.quads.map Quad.face = [0, 1, 2, 3, 4, 5] ∧
      (∀ q ∈ s.quads, (quad_vertices q).length = 6) ∧
      ∀ q ∈ s.quads, q.face / 2 = axis →
        q.mesh_left = 1 ∧ q.mesh_right = CS + 1 ∧ q.mesh_front = 1 ∧ q.mesh_back = CS + 1 ∧
        List.Perm ((decoded_corner_positions q).map (in_plane axis))
          [(1, 1), (1, CS + 1), (CS + 1, 1), (CS + 1, CS + 1)] := by
  have hk1 := hk.1
  have hk2 : k ≤ 62 := hk.2
  have hb : BoxVolume voxels t (slab_lo axis 1 k) (slab_hi axis 1 k) (slab_lo axis 0 k)
      (slab_hi axis 0 k) (slab_lo axis 2 k) (slab_hi axis 2 k) := by
    refine box_of_voxels hlen ht.1 ?_ ?_ ?_ ?_ ?_ ?_ ?_ ?_ ?_ (fun i j l =>
      (1 ≤ i ∧ i ≤ CS) ∧ (1 ≤ j ∧ j ≤ CS) ∧ (1 ≤ l ∧ l ≤ CS) ∧ axis_coord axis i j l = k)
      ?_ hvox
    all_goals
      have h3 : axis = 0 ∨ axis = 1 ∨ axis = 2 := by omega
      rcases h3 with e | e | e <;> subst e <;>
        simp only [slab_lo, slab_hi, axis_coord, if_true, if_false, OfNat.ofNat_ne_zero,
          OfNat.zero_ne_ofNat, OfNat.ofNat_ne_one, OfNat.one_ne_ofNat, one_ne_zero,
          zero_ne_one, Nat.reduceEqDiff, CS] <;>
        omega
  obtain ⟨s, hs, hq, hv, hl, hm⟩ := box_result hb
  refine ⟨s, hs, hm, ?_, ?_, ?_, ?_⟩
  · rw [hv, hq]
  · rw [hq]; rfl
  · intro q _
    exact quad_vertices_length q
  · intro q hmem hax
    rw [hq] at hmem
    have hfit := box_quads_fit (show t < 4096 by omega) hb.hX1 hb.hX hb.hX2 hb.hY1 hb.hY
      hb.hY2 hb.hZ1 hb.hZ hb.hZ2 q hmem
    rw [decoded_corner_positions_eq q hfit]
    have h3 : axis = 0 ∨ axis = 1 ∨ axis = 2 := by omega
    rcases h3 with e | e | e <;> subst e <;>
      rcases mem_box_quads hmem with e | e | e | e | e | e <;> subst e <;>
      first
        | exact absurd hax (by simp only [box_quad]; decide)
        | (refine ⟨rfl, rfl, rfl, rfl, ?_⟩
           simp only [Quad.corner_positions, box_quad, slab_lo, slab_hi, in_plane, if_true,
             if_false, OfNat.ofNat_ne_zero, OfNat.zero_ne_ofNat, OfNat.ofNat_ne_one,
             OfNat.one_ne_ofNat, one_ne_zero, zero_ne_one, Nat.reduceEqDiff, List.map_cons,
             List.map_nil, CS]
           decide)

theorem C8_witness :
    (box_volume 7 1 CS 4 4 1 CS).length = CS_P3 ∧
      ∃ s, mesh_run (box_volume 7 1 CS 4 4 1 CS) = some s ∧
        s.quads.map Quad.face = [0, 1, 2, 3, 4, 5] ∧
        ∀ q ∈ s.quads, q.face / 2 = 0 →
          q.mesh_left = 1 ∧ q.mesh_right = CS + 1 ∧ q.mesh_front = 1 ∧ q.mesh_back = CS + 1 := by
  have hb : BoxVolume (box_volume 7 1 CS 4 4 1 CS) 7 1 CS 4 4 1 CS :=
    box_volume_spec 7 1 CS 4 4 1 CS (by decide) (by decide) (by decide) (by decide) (by decide)
      (by decide) (by decide) (by decide) (by decide) (by decide)
  obtain ⟨s, hs, _, _, hf, _, hspan⟩ :=
    C8_slab (box_volume 7 1 CS 4 4 1 CS) 0 4 7 hb.len (by decide) (by decide) (by decide)
      (fun i j l hi hj hl => by
        rw [hb.val i j l hi hj hl]
        have hi' : i < 64 := hi
        have hl' : l < 64 := hl
        exact if_congr (by simp only [axis_coord, if_true, CS]; omega) rfl rfl)
  exact ⟨hb.len, s, hs, hf, fun q hq hax =>
    ⟨(hspan q hq hax).1, (hspan q hq hax).2.1, (hspan q hq hax).2.2.1,
      (hspan q hq hax).2.2.2.1⟩⟩

/-- Claim C9: for every pair of interior voxels adjacent along any of the three axes,
of the same material id `t > 0`, in an otherwise empty volume, `mesh` emits no quad on
the plane shared by the two voxels and emits exactly 6 quads in total: one unit quad
on each of the two end caps and one merged quad of two unit faces on each of the four
sides. -/
theorem C9_adjacent_pair (voxels : List Nat) (axis x y z t : Nat)
    (hlen : voxels.length = CS_P3) (haxis : axis < 3)
    (hx : 1 ≤ x ∧ pair_hi axis 1 x ≤ CS) (hy : 1 ≤ y ∧ pair_hi axis 0 y ≤ CS)
    (hz : 1 ≤ z ∧ pair_hi axis 2 z ≤ CS) (ht : 0 < t ∧ t < 256)
    (hvox : ∀ i j l, i < CS_P → j < CS_P → l < CS_P →
      voxel voxels i j l =
        if (i = x ∧ j = y ∧ l = z) ∨
          (i = pair_hi axis 1 x ∧ j = pair_hi axis 0 y ∧ l = pair_hi axis 2 z)
        then t else 0) :
    ∃ s, mesh_run voxels = some s ∧ mesh voxels = some (some s.vertices) ∧
      s.vertices = s.quads.flatMap quad_vertices ∧
      s.quads.length = 6 ∧
      s.quads.map Quad.face = [0, 1, 2, 3, 4, 5] ∧
      (∀ q ∈ s.quads, q.face / 2 = axis →
        q.mesh_up ≠ axis_coord axis x y z + 1 ∧
        q.mesh_up = (if q.face % 2 = 0 then axis_coord axis x y z + 2
          else axis_coord axis x y z) ∧
        q.mesh_right = q.mesh_left + 1 ∧ q.mesh_back = q.mesh_front + 1) ∧
      (∀ q ∈ s.quads, q.face / 2 ≠ axis →
        (q.mesh_right - q.mesh_left) * (q.mesh_back - q.mesh_front) = 2) := by
  have h3 : axis = 0 ∨ axis = 1 ∨ axis = 2 := by omega
  have hb : BoxVolume voxels t x (pair_hi axis 1 x) y (pair_hi axis 0 y) z
      (pair_hi axis 2 z) := by
    refine box_of_voxels hlen ht.1 hx.1 ?_ hx.2 hy.1 ?_ hy.2 hz.1 ?_ hz.2 (fun i j l =>
      (i = x ∧ j = y ∧ l = z) ∨
        (i = pair_hi axis 1 x ∧ j = pair_hi axis 0 y ∧ l = pair_hi axis 2 z))
      ?_ hvox
    · unfold pair_hi
      split <;> omega
    · unfold pair_hi
      split <;> omega
    · unfold pair_hi
      split <;> omega
    · intro i j l _ _ _
      rcases h3 with e | e | e <;> subst e <;>
        simp only [pair_hi, if_true, if_false, OfNat.ofNat_ne_zero,
          OfNat.zero_ne_ofNat, OfNat.ofNat_ne_one, OfNat.one_ne_ofNat, one_ne_zero,
          zero_ne_one, Nat.reduceEqDiff] <;> omega
  obtain ⟨s, hs, hq, hv, hl, hm⟩ := box_result hb
  refine ⟨s, hs, hm, ?_, ?_, ?_, ?_, ?_⟩
  · rw [hv, hq]
  · rw [hq]; rfl
  · rw [hq]; rfl
  · intro q hmem hax
    rw [hq] at hmem
    rcases h3 with e | e | e <;> subst e <;>
      rcases mem_box_quads hmem with e | e | e | e | e | e <;> subst e <;>
      first
        | exact absurd hax (by simp only [box_quad]; decide)
        | (simp only [box_quad, pair_hi, axis_coord, if_true, if_false, OfNat.ofNat_ne_zero,
             OfNat.zero_ne_ofNat, OfNat.ofNat_ne_one, OfNat.one_ne_ofNat, one_ne_zero,
             zero_ne_one, Nat.reduceEqDiff, Nat.reduceMod, ne_eq, and_true]
           omega)
  · intro q hmem hax
    rw [hq] at hmem
    rcases h3 with e | e | e <;> subst e <;>
      rcases mem_box_quads hmem with e | e | e | e | e | e <;> subst e <;>
      first
        | exact absurd hax (by simp only [box_quad]; decide)
        | (simp only [box_quad, pair_hi, if_true, if_false, OfNat.ofNat_ne_zero,
             OfNat.zero_ne_ofNat, OfNat.ofNat_ne_one, OfNat.one_ne_ofNat, one_ne_zero,
             zero_ne_one, Nat.reduceEqDiff]
           simp only [Nat.add_sub_cancel_left, Nat.add_sub_cancel, Nat.add_sub_add_left,
             Nat.reduceAdd, Nat.reduceSub, Nat.reduceMul, Nat.add_assoc])

theorem C9_witness :
    (box_volume 3 5 6 6 6 8 8).length = CS_P3 ∧
      ∃ s, mesh_run (box_volume 3 5 6 6 6 8 8) = some s ∧ s.quads.length = 6 ∧
        ∀ q ∈ s.quads, q.face / 2 = 1 → q.mesh_up ≠ 6 := by
  have hb : BoxVolume (box_volume 3 5 6 6 6 8 8) 3 5 6 6 6 8 8 :=
    box_volume_spec 3 5 6 6 6 8 8 (by decide) (by decide) (by decide) (by decide) (by decide)
      (by decide) (by decide) (by decide) (by decide) (by decide)
  obtain ⟨s, hs, _, _, hl, _, hcap, _⟩ :=
    C9_adjacent_pair (box_volume 3 5 6 6 6 8 8) 1 5 6 8 3 hb.len (by decide) (by decide)
      (by decide) (by decide) (by decide)
      (fun i j l hi hj hl => by
        rw [hb.val i j l hi hj hl]
        apply if_congr _ rfl rfl
        simp only [pair_hi, if_true, if_false, OfNat.one_ne_ofNat, one_ne_zero]
        omega)
  exact ⟨hb.len, s, hs, hl, fun q hq hax => (hcap q hq hax).1⟩

/-- Claim C10: padding voxels never own an emitted face: for every volume whose
interior voxels (all three coordinates in `[1, CS]`) are all 0, `mesh` emits no quad
and returns the null result, whatever the outer one-cell shell holds. -/
theorem C10_padding_owns_no_face (voxels : List Nat) (hlen : voxels.length = CS_P3)
    (hinterior : ∀ x y z, 1 ≤ x → x ≤ CS → 1 ≤ y → y ≤ CS → 1 ≤ z → z ≤ CS →
      voxel voxels x y z = 0) :
    mesh voxels = some none ∧
      ∃ s, mesh_run voxels = some s ∧ s.quads = [] ∧ s.vertices = [] :=
  empty_interior_result voxels hlen hinterior

theorem C10_witness :
    shell_volume.length = CS_P3 ∧ voxel shell_volume 0 0 0 = 9 ∧
      mesh shell_volume = some none :=
  ⟨by simp [shell_volume], shell_volume_padding,
    (C10_padding_owns_no_face shell_volume (by simp [shell_volume]) shell_volume_interior).1⟩

/-! ## The words appended per rectangle -/

theorem six_words_eq (q : Quad) : six_words q = quad_vertices q :=
  (quad_vertices_eq q).symm

theorem stop_step_appends (voxels : List Nat) (face forward right bits_merging_right : Nat)
    (s s' : MeshState) (bit_pos : Nat)
    (h : stop_step voxels face forward right bits_merging_right s bit_pos = some s') :
    (s'.quads = s.quads ∧ s'.vertices = s.vertices) ∨
      ∃ q, s'.quads = s.quads ++ [q] ∧ s'.vertices = s.vertices ++ six_words q := by
  unfold stop_step at h
  dsimp only at h
  by_cases h0 : bit_pos = 0 ∨ bit_pos = CS_P - 1
  · rw [if_pos h0] at h
    cases h
    exact Or.inl ⟨rfl, rfl⟩
  rw [if_neg h0] at h
  revert h
  generalize (if (bits_merging_right &&& (1 <<< bit_pos)) ≠ 0 ∧
    s.merged_forward ((right * CS_P) + bit_pos) =
      s.merged_forward ((right + 1) * CS_P + bit_pos) then
      compare_right voxels ((face / 2 : Nat) : Int) forward right bit_pos
        (if face % 2 = 0 then 1 else -1)
    else pure false) = W
  generalize voxels_at voxels (get_axis_i _ right forward bit_pos) = R0
  generalize voxels_at voxels (get_axis_i _ right ((forward : Int) - 1) _) = R1
  generalize voxels_at voxels (get_axis_i _ right ((forward : Int) + 1) _) = R2
  generalize voxels_at voxels (get_axis_i _ ((right : Int) - 1) forward _) = R3
  generalize voxels_at voxels (get_axis_i _ ((right : Int) + 1) forward _) = R4
  generalize voxels_at voxels (get_axis_i _ ((right : Int) - 1) ((forward : Int) - 1) _) = R5
  generalize voxels_at voxels (get_axis_i _ ((right : Int) - 1) ((forward : Int) + 1) _) = R6
  generalize voxels_at voxels (get_axis_i _ ((right : Int) + 1) ((forward : Int) - 1) _) = R7
  generalize voxels_at voxels (get_axis_i _ ((right : Int) + 1) ((forward : Int) + 1) _) = R8
  intro h
  rcases W with _ | walk
  · cases h
  cases walk
  swap
  · cases h
    exact Or.inl ⟨rfl, rfl⟩
  rcases R0 with _ | type
  · cases h
  rcases R1 with _ | f
  · cases h
  rcases R2 with _ | b
  · cases h
  rcases R3 with _ | l
  · cases h
  rcases R4 with _ | r'
  · cases h
  rcases R5 with _ | lfc
  · cases h
  rcases R6 with _ | lbc
  · cases h
  rcases R7 with _ | rfc
  · cases h
  rcases R8 with _ | rbc
  · cases h
  cases h
  refine Or.inr ⟨_, rfl, ?_⟩
  rw [six_words_eq]
  exact emit_quad_eq _ _

/-- Claim C13: for every emitted quad with corner words `v1..v4` and corner AO
levels, `mesh` appends exactly the six words `(v1, v2, v4, v4, v2, v3)` when
`LB + RF > RB + LF` and exactly `(v1, v2, v3, v3, v4, v1)` otherwise, after the words
emitted before, which are left unchanged. -/
theorem C13_six_words_per_quad (voxels : List Nat) (hlen : voxels.length = CS_P3) :
    (∀ (vertices : List Nat) (q : Quad),
      emit_quad vertices q = vertices ++
        (if q.ao_LB + q.ao_RF > q.ao_RB + q.ao_LF then
          [q.corners.1, q.corners.2.1, q.corners.2.2.2, q.corners.2.2.2, q.corners.2.1,
            q.corners.2.2.1]
        else
          [q.corners.1, q.corners.2.1, q.corners.2.2.1, q.corners.2.2.1, q.corners.2.2.2,
            q.corners.1])) ∧
    (∀ face forward right bits_merging_right s s' bit_pos,
      stop_step voxels face forward right bits_merging_right s bit_pos = some s' →
        (s'.quads = s.quads ∧ s'.vertices = s.vertices) ∨
          ∃ q, s'.quads = s.quads ++ [q] ∧ s'.vertices = s.vertices ++ six_words q) ∧
    ∃ s, mesh_run voxels = some s ∧ s.vertices = s.quads.flatMap six_words := by
  refine ⟨fun vertices q => ?_, fun face forward right bmr s s' bit_pos h =>
    stop_step_appends voxels face forward right bmr s s' bit_pos h, ?_⟩
  · rw [emit_quad_eq, quad_vertices_eq]
  · obtain ⟨s, hs, _, hv, _⟩ := mesh_result voxels hlen
    refine ⟨s, hs, ?_⟩
    have e : six_words = quad_vertices := funext six_words_eq
    rw [hv, e]

theorem C13_witness :
    sample_volume.length = CS_P3 ∧
      ∃ s, mesh_run sample_volume = some s ∧ s.vertices = s.quads.flatMap six_words :=
  ⟨sample_volume_box.len, (C13_six_words_per_quad sample_volume sample_volume_box.len).2.2⟩

/-- Claim C16: for all `side1, side2, corner` in `{0, 1}`, `vertexAO` is 0 when both
sides are 1 and `3 - (side1 + side2 + corner)` otherwise; the result lies in `[0, 3]`
and is 0 exactly when both sides are 1. -/
theorem C16_vertexAO_values (side1 side2 corner : Int)
    (h1 : side1 = 0 ∨ side1 = 1) (h2 : side2 = 0 ∨ side2 = 1) (h3 : corner = 0 ∨ corner = 1) :
    vertexAO side1 side2 corner =
        (if side1 = 1 ∧ side2 = 1 then 0 else 3 - (side1 + side2 + corner)) ∧
      0 ≤ vertexAO side1 side2 corner ∧ vertexAO side1 side2 corner ≤ 3 ∧
      (vertexAO side1 side2 corner = 0 ↔ side1 = 1 ∧ side2 = 1) := by
  rcases h1 with e1 | e1 <;> rcases h2 with e2 | e2 <;> rcases h3 with e3 | e3 <;>
    subst e1 <;> subst e2 <;> subst e3 <;> decide

theorem C16_witness :
    vertexAO 1 0 1 = (if (1 : Int) = 1 ∧ (0 : Int) = 1 then 0 else 3 - (1 + 0 + 1)) ∧
      0 ≤ vertexAO 1 0 1 ∧ vertexAO 1 0 1 ≤ 3 ∧
      (vertexAO 1 0 1 = 0 ↔ (1 : Int) = 1 ∧ (0 : Int) = 1) :=
  C16_vertexAO_values 1 0 1 (Or.inr rfl) (Or.inl rfl) (Or.inr rfl)

/-! ## Field ranges of emitted vertices -/

theorem emitted_quad_bounds {voxels : List Nat} {q : Quad} (hq : q ∈ all_quads voxels) :
    (1 ≤ q.mesh_left ∧ q.mesh_left < q.mesh_right ∧ q.mesh_right ≤ CS + 1) ∧
    (1 ≤ q.mesh_front ∧ q.mesh_front < q.mesh_back ∧ q.mesh_back ≤ CS + 1) ∧
    (1 ≤ q.mesh_up ∧ q.mesh_up ≤ CS + 1) := by
  obtain ⟨_, p, hp1, hp, hup, hfb, hlr, hcells⟩ := quad_cells_visible hq
  have h1 := hcells q.mesh_front q.mesh_left (le_refl _) hfb (le_refl _) hlr
  have h2 := hcells (q.mesh_back - 1) (q.mesh_right - 1) (by omega) (by omega) (by omega)
    (by omega)
  have hp' : p ≤ 62 := hp
  have h2a : q.mesh_back - 1 ≤ 62 := h2.1.2
  have h2b : q.mesh_right - 1 ≤ 62 := h2.2.1.2
  refine ⟨⟨h1.2.1.1, hlr, ?_⟩, ⟨h1.1.1, hfb, ?_⟩, ?_, ?_⟩
  · show q.mesh_right ≤ 63
    omega
  · show q.mesh_back ≤ 63
    omega
  · rw [hup]; omega
  · rw [hup]
    show p + _ ≤ 63
    split <;> omega

theorem emitted_quad_fits {voxels : List Nat} (hbytes : ∀ v ∈ voxels, v < 256) {q : Quad}
    (hq : q ∈ all_quads voxels) : QuadFits q := by
  obtain ⟨face, p, fw, r, hface, hp, hfw, hr, _, e⟩ := mem_all_quads hq
  rw [e]
  exact quad_at_fits voxels hbytes face p fw r hface hp.1 hp.2 hfw.1 hfw.2 hr.1 hr.2

theorem decoded_corner_mem {q : Quad} (hfit : QuadFits q) {w : Nat} (hw : w ∈ quad_vertices q) :
    (decode_x w, decode_y w, decode_z w) ∈ q.corner_positions := by
  rw [← decoded_corner_positions_eq q hfit]
  unfold decoded_corner_positions
  rcases mem_quad_vertices hw with e | e | e | e <;> rw [e] <;> simp

theorem corner_positions_le {q : Quad} {B : Nat} (hl : q.mesh_left ≤ B) (hr : q.mesh_right ≤ B)
    (hf : q.mesh_front ≤ B) (hb : q.mesh_back ≤ B) (hu : q.mesh_up ≤ B) :
    ∀ pos ∈ q.corner_positions, pos.1 ≤ B ∧ pos.2.1 ≤ B ∧ pos.2.2 ≤ B := by
  intro pos hpos
  unfold Quad.corner_positions at hpos
  split_ifs at hpos <;>
    simp only [List.mem_cons, List.mem_singleton, List.not_mem_nil, or_false] at hpos <;>
    rcases hpos with e | e | e | e <;> subst e <;>
    exact ⟨by assumption, by assumption, by assumption⟩

/-- Claim C19: for every volume and every emitted vertex, the three packed coordinate
fields lie in `[0, CS]`: `mesh_left` and `mesh_front` are at least 1, `mesh_right`,
`mesh_back` and `mesh_up` are at most `CS + 1`, so the subtractions of `get_vertex` do
not wrap and each decoded coordinate is the corner value itself. -/
theorem C19_coordinate_fields_in_range (voxels : List Nat) (hlen : voxels.length = CS_P3)
    (hbytes : ∀ v ∈ voxels, v < 256) :
    ∃ s, mesh_run voxels = some s ∧ s.vertices = s.quads.flatMap quad_vertices ∧
      (∀ q ∈ s.quads,
        (1 ≤ q.mesh_left ∧ q.mesh_left < q.mesh_right ∧ q.mesh_right ≤ CS + 1) ∧
        (1 ≤ q.mesh_front ∧ q.mesh_front < q.mesh_back ∧ q.mesh_back ≤ CS + 1) ∧
        (1 ≤ q.mesh_up ∧ q.mesh_up ≤ CS + 1) ∧
        ∀ w ∈ quad_vertices q,
          ((w &&& 0x3F) + 1, ((w >>> 6) &&& 0x3F) + 1, ((w >>> 12) &&& 0x3F) + 1) ∈
            q.corner_positions) ∧
      ∀ w ∈ s.vertices,
        (w &&& 0x3F) ≤ CS ∧ ((w >>> 6) &&& 0x3F) ≤ CS ∧ ((w >>> 12) &&& 0x3F) ≤ CS := by
  obtain ⟨s, hs, hq, hv, _⟩ := mesh_result voxels hlen
  refine ⟨s, hs, hv, ?_, ?_⟩
  · intro q hmem
    rw [hq] at hmem
    obtain ⟨h1, h2, h3⟩ := emitted_quad_bounds hmem
    exact ⟨h1, h2, h3, fun w hw => decoded_corner_mem (emitted_quad_fits hbytes hmem) hw⟩
  · intro w hw
    rw [hv, List.mem_flatMap] at hw
    obtain ⟨q, hmem, hwq⟩ := hw
    rw [hq] at hmem
    obtain ⟨h1, h2, h3⟩ := emitted_quad_bounds hmem
    have hpos := decoded_corner_mem (emitted_quad_fits hbytes hmem) hwq
    have hr : q.mesh_right ≤ 63 := h1.2.2
    have hb : q.mesh_back ≤ 63 := h2.2.2
    have hle := corner_positions_le (B := 63) (by omega) hr (by omega) hb h3.2 _ hpos
    unfold decode_x decode_y decode_z at hle
    simp only at hle
    show _ ≤ 62 ∧ _ ≤ 62 ∧ _ ≤ 62
    omega

theorem C19_witness :
    sample_volume.length = CS_P3 ∧ (∀ v ∈ sample_volume, v < 256) ∧
      ∃ s, mesh_run sample_volume = some s ∧
        ∀ w ∈ s.vertices,
          (w &&& 0x3F) ≤ CS ∧ ((w >>> 6) &&& 0x3F) ≤ CS ∧ ((w >>> 12) &&& 0x3F) ≤ CS := by
  obtain ⟨s, hs, _, _, h⟩ :=
    C19_coordinate_fields_in_range sample_volume sample_volume_box.len sample_volume_bytes
  exact ⟨sample_volume_box.len, sample_volume_bytes, s, hs, h⟩

/-! ## Corner words -/

theorem corner_positions_all {q : Quad} (P : Nat → Prop) (hl : P q.mesh_left)
    (hr : P q.mesh_right) (hf : P q.mesh_front) (hb : P q.mesh_back) (hu : P q.mesh_up) :
    ∀ pos ∈ q.corner_positions, P pos.1 ∧ P pos.2.1 ∧ P pos.2.2 := by
  intro pos hpos
  unfold Quad.corner_positions at hpos
  split_ifs at hpos <;>
    simp only [List.mem_cons, List.mem_singleton, List.not_mem_nil, or_false] at hpos <;>
    rcases hpos with e | e | e | e <;> subst e <;>
    exact ⟨by assumption, by assumption, by assumption⟩

theorem corner_word {q : Quad} (hface : q.face < 6) {w : Nat} (hw : w ∈ quad_vertices q) :
    ∃ x y z ao, (x, y, z) ∈ q.corner_positions ∧ ao ∈ [q.ao_LB, q.ao_LF, q.ao_RB, q.ao_RF] ∧
      w = get_vertex x y z q.type 15 q.face ao := by
  have h6 : q.face = 0 ∨ q.face = 1 ∨ q.face = 2 ∨ q.face = 3 ∨ q.face = 4 ∨ q.face = 5 := by
    omega
  rcases mem_quad_vertices hw with e | e | e | e <;> subst e <;>
    rcases h6 with f | f | f | f | f | f <;>
    simp only [Quad.corners, Quad.corner_positions, f, if_true, if_false, OfNat.ofNat_ne_zero,
      OfNat.zero_ne_ofNat, Nat.reduceEqDiff, one_ne_zero, Nat.succ_ne_self] <;>
    refine ⟨_, _, _, _, ?_, ?_, rfl⟩ <;> simp

theorem decode_type_get_vertex (x y z type norm ao : Nat)
    (hx : 1 ≤ x ∧ x ≤ 64) (hy : 1 ≤ y ∧ y ≤ 64) (hz : 1 ≤ z ∧ z ≤ 64)
    (ht : type < 256) (hn : norm < 6) (hao : ao < 4) :
    decode_type (get_vertex x y z type 15 norm ao) = type % 32 := by
  apply Nat.eq_of_testBit_eq
  intro i
  show (((get_vertex x y z type 15 norm ao) >>> 18) &&& (2 ^ 5 - 1)).testBit i =
    (type % 2 ^ 5).testBit i
  rw [testBit_shift_and, Nat.testBit_mod_two_pow,
    testBit_get_vertex x y z type 15 norm ao _ hx.1 hx.2 hy.1 hy.2 hz.1 hz.2
      (by omega) (by decide) (by show norm < 32; omega) hao]
  by_cases hi : i < 5
  · have h1 : ¬ (30 ≤ 18 + i) := by omega
    have h2 : ¬ (27 ≤ 18 + i) := by omega
    have h3 : ¬ (23 ≤ 18 + i) := by omega
    have h5 : (z - 1).testBit (18 + i - 12) = false :=
      testBit_of_lt_pow (show z - 1 < 2 ^ 6 by omega) (by omega)
    have h6 : (y - 1).testBit (18 + i - 6) = false :=
      testBit_of_lt_pow (show y - 1 < 2 ^ 6 by omega) (by omega)
    have h7 : (x - 1).testBit (18 + i) = false :=
      testBit_of_lt_pow (show x - 1 < 2 ^ 6 by omega) (by omega)
    simp [hi, h1, h2, h3, h5, h6, h7]
  · simp [hi]

theorem vertex_type_mod {q : Quad} (hfit : QuadFits q) (ht : q.type < 256) {w : Nat}
    (hw : w ∈ quad_vertices q) : decode_type w = q.type % 32 := by
  obtain ⟨x, y, z, ao, hpos, hao, e⟩ := corner_word hfit.face hw
  have hb := corner_positions_all (q := q) (fun n => 1 ≤ n ∧ n ≤ 64) hfit.left hfit.right
    hfit.front hfit.back hfit.up _ hpos
  have hao4 : ao < 4 := by
    simp only [List.mem_cons, List.mem_singleton, List.not_mem_nil, or_false] at hao
    rcases hao with a | a | a | a <;> rw [a]
    · exact hfit.lb
    · exact hfit.lf
    · exact hfit.rb
    · exact hfit.rf
  rw [e]
  exact decode_type_get_vertex x y z q.type q.face ao hb.1 hb.2.1 hb.2.2 ht hfit.face hao4

theorem emitted_quad_type {voxels : List Nat} {q : Quad} (hq : q ∈ all_quads voxels) :
    q.type = owner_type voxels q := by
  obtain ⟨_, p, hp1, hp, hup, hfb, hlr, _⟩ := quad_cells_visible hq
  have hc : covers_face q.face (q.mesh_up - (if q.face % 2 = 0 then 1 else 0))
      (q.mesh_back - 1) (q.mesh_right - 1) q = true := by
    unfold covers_face
    apply decide_eq_true
    refine ⟨rfl, ?_, by omega, by omega, by omega, by omega⟩
    rw [hup]
    split <;> omega
  exact (covered_type hq hc).symm

theorem box_volume_bytes (t X1 X2 Y1 Y2 Z1 Z2 : Nat) (ht : t < 256) :
    ∀ v ∈ box_volume t X1 X2 Y1 Y2 Z1 Z2, v < 256 := by
  intro v hv
  unfold box_volume at hv
  rw [List.mem_map] at hv
  obtain ⟨i, _, e⟩ := hv
  rw [← e]
  split
  · exact ht
  · decide

/-- Claim C14, as amended: for every volume and every emitted vertex `w`, the decoded
material type `(w >> 18) & 0x1F` is the material id of the voxel that owns the quad
taken modulo 32, so it is that id whenever the id is below 32. -/
theorem C14_decoded_type_mod_32 (voxels : List Nat) (hlen : voxels.length = CS_P3)
    (hbytes : ∀ v ∈ voxels, v < 256) :
    ∃ s, mesh_run voxels = some s ∧ s.vertices = s.quads.flatMap quad_vertices ∧
      ∀ q ∈ s.quads, q.type = owner_type voxels q ∧
        ∀ w ∈ quad_vertices q,
          decode_type w = owner_type voxels q % 32 ∧
          (owner_type voxels q < 32 → decode_type w = owner_type voxels q) := by
  obtain ⟨s, hs, hq, hv, _⟩ := mesh_result voxels hlen
  refine ⟨s, hs, hv, ?_⟩
  intro q hmem
  rw [hq] at hmem
  have ht := emitted_quad_type hmem
  have hfit := emitted_quad_fits hbytes hmem
  have hlt : q.type < 256 := by
    rw [ht]
    exact vox_lt voxels hbytes _ _ _ _
  refine ⟨ht, fun w hw => ?_⟩
  have hm := vertex_type_mod hfit hlt hw
  rw [ht] at hm
  exact ⟨hm, fun h32 => by rw [hm]; exact Nat.mod_eq_of_lt h32⟩

theorem C14_witness :
    sample_volume.length = CS_P3 ∧ (∀ v ∈ sample_volume, v < 256) ∧
      ∃ s, mesh_run sample_volume = some s ∧
        ∀ q ∈ s.quads, ∀ w ∈ quad_vertices q,
          decode_type w = owner_type sample_volume q % 32 := by
  obtain ⟨s, hs, _, h⟩ :=
    C14_decoded_type_mod_32 sample_volume sample_volume_box.len sample_volume_bytes
  exact ⟨sample_volume_box.len, sample_volume_bytes, s, hs,
    fun q hq w hw => ((h q hq).2 w hw).1⟩

/-- Claim C14 fails as stated: in `big_id_volume` the only solid voxel has material id 40
and owns every quad, and an emitted vertex decodes to type 8. -/
theorem C14_counterexample :
    ∃ s, mesh_run big_id_volume = some s ∧
      ∃ q ∈ s.quads, ∃ w ∈ quad_vertices q,
        owner_type big_id_volume q = 40 ∧ decode_type w = 8 ∧
          decode_type w ≠ owner_type big_id_volume q := by
  have hb : BoxVolume big_id_volume 40 5 5 6 6 8 8 :=
    box_volume_spec 40 5 5 6 6 8 8 (by decide) (by decide) (by decide) (by decide) (by decide)
      (by decide) (by decide) (by decide) (by decide) (by decide)
  have hbytes : ∀ v ∈ big_id_volume, v < 256 := box_volume_bytes 40 5 5 6 6 8 8 (by decide)
  obtain ⟨s, hs, hq, _⟩ := box_result hb
  have hall : s.quads = all_quads big_id_volume := by
    obtain ⟨s', hs', hq', _⟩ := mesh_result big_id_volume hb.len
    rw [hs] at hs'
    cases hs'
    exact hq'
  have hmem : box_quad 0 40 5 5 8 8 6 6 ∈ s.quads := by
    rw [hq]
    unfold box_quads
    exact List.mem_cons_self _ _
  have hw : (box_quad 0 40 5 5 8 8 6 6).corners.1 ∈ quad_vertices (box_quad 0 40 5 5 8 8 6 6) := by
    rw [quad_vertices_eq]
    split <;> exact List.mem_cons_self _ _
  have hmem' := hmem
  rw [hall] at hmem'
  have ht : owner_type big_id_volume (box_quad 0 40 5 5 8 8 6 6) = 40 :=
    (emitted_quad_type hmem').symm
  have hd : decode_type (box_quad 0 40 5 5 8 8 6 6).corners.1 = 8 := by
    rw [vertex_type_mod (emitted_quad_fits hbytes hmem') (by decide) hw]
    rfl
  exact ⟨s, hs, _, hmem, _, hw, ht, hd, by rw [hd, ht]; decide⟩

/-! ## Winding -/

theorem quad_winding {q : Quad} (hfit : QuadFits q) :
    ∃ a b c d e f, quad_vertices q = [a, b, c, d, e, f] ∧
      triangle_cross a b c =
        (q.area * (face_normal q.face).1, q.area * (face_normal q.face).2.1,
          q.area * (face_normal q.face).2.2) ∧
      triangle_cross d e f =
        (q.area * (face_normal q.face).1, q.area * (face_normal q.face).2.1,
          q.area * (face_normal q.face).2.2) := by
  have hpos := decoded_corner_positions_eq q hfit
  have h6 : q.face = 0 ∨ q.face = 1 ∨ q.face = 2 ∨ q.face = 3 ∨ q.face = 4 ∨ q.face = 5 := by
    have := hfit.face
    omega
  unfold decoded_corner_positions at hpos
  rw [quad_vertices_eq]
  rcases h6 with f | f | f | f | f | f <;>
    simp only [Quad.corner_positions, f, if_true, if_false, OfNat.ofNat_ne_zero,
      OfNat.zero_ne_ofNat, Nat.reduceEqDiff, one_ne_zero, Nat.succ_ne_self, List.map_cons,
      List.map_nil, List.cons.injEq, Prod.mk.injEq, and_true] at hpos <;>
    obtain ⟨⟨x1, y1, z1⟩, ⟨x2, y2, z2⟩, ⟨x3, y3, z3⟩, ⟨x4, y4, z4⟩⟩ := hpos <;>
    split <;>
    refine ⟨_, _, _, _, _, _, rfl, ?_, ?_⟩ <;>
    simp only [triangle_cross, decode_position, cross, face_normal, Quad.area, x1, y1, z1, x2,
      y2, z2, x3, y3, z3, x4, y4, z4, f, if_true, if_false, OfNat.ofNat_ne_zero,
      OfNat.zero_ne_ofNat, Nat.reduceEqDiff, one_ne_zero, Nat.succ_ne_self, Prod.mk.injEq] <;>
    refine ⟨?_, ?_, ?_⟩ <;> ring

/-- Claim C12: for every volume and every emitted quad, both emitted triangles
`(a, b, c)` are wound so that the integer cross product `(b - a) × (c - a)` of their
decoded positions points along the outward normal of the face (`+y, -y, +x, -x, +z,
-z` for faces 0 to 5): it is that normal times the area of the quad, which is
positive; this holds for the flipped and the default diagonal alike. -/
theorem C12_triangles_wound_outward (voxels : List Nat) (hlen : voxels.length = CS_P3)
    (hbytes : ∀ v ∈ voxels, v < 256) :
    ∃ s, mesh_run voxels = some s ∧ s.vertices = s.quads.flatMap quad_vertices ∧
      ∀ q ∈ s.quads, 0 < q.area ∧
        ∃ a b c d e f, quad_vertices q = [a, b, c, d, e, f] ∧
          triangle_cross a b c =
            (q.area * (face_normal q.face).1, q.area * (face_normal q.face).2.1,
              q.area * (face_normal q.face).2.2) ∧
          triangle_cross d e f =
            (q.area * (face_normal q.face).1, q.area * (face_normal q.face).2.1,
              q.area * (face_normal q.face).2.2) := by
  obtain ⟨s, hs, hq, hv, _⟩ := mesh_result voxels hlen
  refine ⟨s, hs, hv, ?_⟩
  intro q hmem
  rw [hq] at hmem
  obtain ⟨h1, h2, _⟩ := emitted_quad_bounds hmem
  refine ⟨?_, quad_winding (emitted_quad_fits hbytes hmem)⟩
  unfold Quad.area
  apply Int.mul_pos <;> omega

theorem C12_witness :
    sample_volume.length = CS_P3 ∧ (∀ v ∈ sample_volume, v < 256) ∧
      ∃ s, mesh_run sample_volume = some s ∧
        ∀ q ∈ s.quads, 0 < q.area ∧
          ∃ a b c d e f, quad_vertices q = [a, b, c, d, e, f] ∧
            triangle_cross a b c =
              (q.area * (face_normal q.face).1, q.area * (face_normal q.face).2.1,
                q.area * (face_normal q.face).2.2) ∧
            triangle_cross d e f =
              (q.area * (face_normal q.face).1, q.area * (face_normal q.face).2.1,
                q.area * (face_normal q.face).2.2) := by
  obtain ⟨s, hs, _, h⟩ :=
    C12_triangles_wound_outward sample_volume sample_volume_box.len sample_volume_bytes
  exact ⟨sample_volume_box.len, sample_volume_bytes, s, hs, h⟩

/-! ## Columns and face masks, by voxel -/

theorem solid_at_column (voxels : List Nat) (axis a b p : Nat) (haxis : axis < 3) :
    solid_at voxels (axis_idx axis a b p) = decide (0 < column_voxel voxels axis a b p) := by
  have h3 : axis = 0 ∨ axis = 1 ∨ axis = 2 := by omega
  unfold solid_at solid_check axis_idx column_voxel voxel
  rcases h3 with e | e | e <;> subst e <;>
    simp only [if_true, if_false, OfNat.ofNat_ne_zero, OfNat.zero_ne_ofNat, OfNat.ofNat_ne_one,
      OfNat.one_ne_ofNat, one_ne_zero, zero_ne_one, gt_iff_lt, Nat.cast_pos]

/-- Claim C15: after steps 1 and 2 of `mesh`, for every axis, every column of that
axis and every bit position `p` in `[0, CS_P - 1]`: the column has bit `p` set iff
the voxel at `p` is solid; the positive-direction face mask (faces 0, 2, 4) has bit
`p` set iff the voxel at `p` is solid, `p < CS_P - 1` and the voxel at `p + 1` is
empty; the negative-direction face mask (faces 1, 3, 5) has bit `p` set iff the
voxel at `p` is solid, `p > 0` and the voxel at `p - 1` is empty. -/
theorem C15_face_masks (voxels : List Nat) (hlen : voxels.length = CS_P3) :
    ∃ axis_cols, build_axis_cols voxels = some axis_cols ∧
      ∀ axis a b p, axis < 3 → a < CS_P → b < CS_P → p < CS_P →
        ((axis_cols (a + (b * CS_P) + (CS_P2 * axis))).testBit p = true ↔
          0 < column_voxel voxels axis a b p) ∧
        ((cull_faces axis_cols (a + (b * CS_P) + (CS_P2 * (axis * 2)))).testBit p = true ↔
          0 < column_voxel voxels axis a b p ∧ p < CS_P - 1 ∧
            column_voxel voxels axis a b (p + 1) = 0) ∧
        ((cull_faces axis_cols (a + (b * CS_P) + (CS_P2 * (axis * 2 + 1)))).testBit p = true ↔
          0 < column_voxel voxels axis a b p ∧ 0 < p ∧
            column_voxel voxels axis a b (p - 1) = 0) := by
  obtain ⟨ac, hac, hcols⟩ := build_axis_cols_spec voxels hlen
  obtain ⟨ac', hac', hmasks⟩ := masks_spec voxels hlen
  rw [hac] at hac'
  cases hac'
  refine ⟨ac, hac, ?_⟩
  intro axis a b p haxis ha hb hp
  have hp' : p < 64 := hp
  refine ⟨?_, ?_, ?_⟩
  · have h := hcols axis a b p haxis ha hb
    rw [show a + b * CS_P + CS_P2 * axis = a + b * 64 + axis * 4096 by
      show a + b * 64 + 4096 * axis = _; omega, h, solid_at_column voxels axis a b p haxis]
    simp [hp']
  · have h := hmasks (axis * 2) a b p (by omega) ha hb
    rw [show a + b * CS_P + CS_P2 * (axis * 2) = a + b * CS_P + axis * 2 * CS_P2 by
      show a + b * 64 + 4096 * (axis * 2) = a + b * 64 + axis * 2 * 4096; omega, h]
    unfold visible
    rw [show axis * 2 / 2 = axis by omega, if_pos (by omega),
      solid_at_column voxels axis a b p haxis, solid_at_column voxels axis a b (p + 1) haxis]
    simp only [hp', decide_True, Bool.true_and, Bool.and_eq_true, decide_eq_true_eq,
      Bool.not_eq_true', decide_eq_false_iff_not, Nat.not_lt, Nat.le_zero_eq]
    show _ ↔ _ ∧ p < 63 ∧ _
    tauto
  · have h := hmasks (axis * 2 + 1) a b p (by omega) ha hb
    rw [show a + b * CS_P + CS_P2 * (axis * 2 + 1) = a + b * CS_P + (axis * 2 + 1) * CS_P2 by
      show a + b * 64 + 4096 * (axis * 2 + 1) = a + b * 64 + (axis * 2 + 1) * 4096; omega, h]
    unfold visible
    rw [show (axis * 2 + 1) / 2 = axis by omega, if_neg (by omega),
      solid_at_column voxels axis a b p haxis, solid_at_column voxels axis a b (p - 1) haxis]
    simp only [hp', decide_True, Bool.true_and, Bool.and_eq_true, decide_eq_true_eq,
      Bool.not_eq_true', decide_eq_false_iff_not, Nat.not_lt, Nat.le_zero_eq]

theorem C15_witness :
    sample_volume.length = CS_P3 ∧
      ∃ axis_cols, build_axis_cols sample_volume = some axis_cols ∧
        ((cull_faces axis_cols (5 + (8 * CS_P) + (CS_P2 * (0 * 2)))).testBit 6 = true ↔
          0 < column_voxel sample_volume 0 5 8 6 ∧ 6 < CS_P - 1 ∧
            column_voxel sample_volume 0 5 8 (6 + 1) = 0) := by
  obtain ⟨ac, hac, h⟩ := C15_face_masks sample_volume sample_volume_box.len
  exact ⟨sample_volume_box.len, ac, hac,
    (h 0 5 8 6 (by decide) (by decide) (by decide) (by decide)).2.1⟩

/-! ## Corner AO as a function of the 8 samples -/

/-- Claim C17 fails as stated: the pattern with all four edges solid and no corner
solid and the pattern with all eight samples solid differ in four directions and give
the same four corner AO levels; so do the pattern with only `F` and `B` solid and the
pattern with only `L` and `R` solid. -/
theorem C17_counterexample :
    corner_aos true true true true false false false false =
        corner_aos true true true true true true true true ∧
      corner_aos true true false false false false false false =
        corner_aos false false true true false false false false := by
  decide

/-- Claim C17, as amended: if two 8-direction solidity patterns differ in exactly one
direction, at least one of the four corner AO levels differs, unless that direction is
a corner sample whose two adjacent edge samples are both solid; in that case the four
levels are equal. -/
theorem C17_single_difference_changes_ao (F B L R LF LB RF RB : Bool) :
    corner_aos (!F) B L R LF LB RF RB ≠ corner_aos F B L R LF LB RF RB ∧
    corner_aos F (!B) L R LF LB RF RB ≠ corner_aos F B L R LF LB RF RB ∧
    corner_aos F B (!L) R LF LB RF RB ≠ corner_aos F B L R LF LB RF RB ∧
    corner_aos F B L (!R) LF LB RF RB ≠ corner_aos F B L R LF LB RF RB ∧
    (corner_aos F B L R (!LF) LB RF RB = corner_aos F B L R LF LB RF RB ↔
      (L = true ∧ F = true)) ∧
    (corner_aos F B L R LF (!LB) RF RB = corner_aos F B L R LF LB RF RB ↔
      (L = true ∧ B = true)) ∧
    (corner_aos F B L R LF LB (!RF) RB = corner_aos F B L R LF LB RF RB ↔
      (R = true ∧ F = true)) ∧
    (corner_aos F B L R LF LB RF (!RB) = corner_aos F B L R LF LB RF RB ↔
      (R = true ∧ B = true)) := by
  cases F <;> cases B <;> cases L <;> cases R <;> cases LF <;> cases LB <;> cases RF <;>
    cases RB <;> decide

/-! ## Volumes that differ in the material ids of the padding only -/

theorem vox_eq_column (voxels : List Nat) (axis a b c : Nat) (haxis : axis < 3) :
    vox voxels (axis : Int) (a : Int) (b : Int) (c : Int) = column_voxel voxels axis a b c := by
  rw [vox_nat]
  have h3 : axis = 0 ∨ axis = 1 ∨ axis = 2 := by omega
  unfold axis_idx column_voxel voxel
  rcases h3 with e | e | e <;> subst e <;>
    simp only [if_true, if_false, OfNat.ofNat_ne_zero, OfNat.zero_ne_ofNat, OfNat.ofNat_ne_one,
      OfNat.one_ne_ofNat, one_ne_zero, zero_ne_one]

theorem SameUpToPaddingIds.column_interior {v1 v2 : List Nat} (h : SameUpToPaddingIds v1 v2)
    (axis a b c : Nat) (ha : 1 ≤ a ∧ a ≤ 62) (hb : 1 ≤ b ∧ b ≤ 62) (hc : 1 ≤ c ∧ c ≤ 62) :
    column_voxel v1 axis a b c = column_voxel v2 axis a b c := by
  unfold column_voxel
  split
  · exact h.interior _ _ _ ha hc hb
  · split
    · exact h.interior _ _ _ hc hb ha
    · exact h.interior _ _ _ hb ha hc

theorem SameUpToPaddingIds.column_solidity {v1 v2 : List Nat} (h : SameUpToPaddingIds v1 v2)
    (axis a b c : Nat) (ha : a < 64) (hb : b < 64) (hc : c < 64) :
    (column_voxel v1 axis a b c = 0 ↔ column_voxel v2 axis a b c = 0) := by
  unfold column_voxel
  split
  · exact h.solidity _ _ _ ha hc hb
  · split
    · exact h.solidity _ _ _ hc hb ha
    · exact h.solidity _ _ _ hb ha hc

theorem SameUpToPaddingIds.vox_interior {v1 v2 : List Nat} (h : SameUpToPaddingIds v1 v2)
    (axis : Nat) (haxis : axis < 3) (a b c : Int) (ha : 1 ≤ a ∧ a ≤ 62) (hb : 1 ≤ b ∧ b ≤ 62)
    (hc : 1 ≤ c ∧ c ≤ 62) :
    vox v1 (axis : Int) a b c = vox v2 (axis : Int) a b c := by
  obtain ⟨a', rfl⟩ := Int.eq_ofNat_of_zero_le (show 0 ≤ a by omega)
  obtain ⟨b', rfl⟩ := Int.eq_ofNat_of_zero_le (show 0 ≤ b by omega)
  obtain ⟨c', rfl⟩ := Int.eq_ofNat_of_zero_le (show 0 ≤ c by omega)
  rw [vox_eq_column v1 axis a' b' c' haxis, vox_eq_column v2 axis a' b' c' haxis]
  exact h.column_interior axis a' b' c' (by omega) (by omega) (by omega)

theorem SameUpToPaddingIds.vox_solidity {v1 v2 : List Nat} (h : SameUpToPaddingIds v1 v2)
    (axis : Nat) (haxis : axis < 3) (a b c : Int) (ha : 0 ≤ a ∧ a < 64) (hb : 0 ≤ b ∧ b < 64)
    (hc : 0 ≤ c ∧ c < 64) :
    solid_check (vox v1 (axis : Int) a b c) = solid_check (vox v2 (axis : Int) a b c) := by
  obtain ⟨a', rfl⟩ := Int.eq_ofNat_of_zero_le ha.1
  obtain ⟨b', rfl⟩ := Int.eq_ofNat_of_zero_le hb.1
  obtain ⟨c', rfl⟩ := Int.eq_ofNat_of_zero_le hc.1
  rw [vox_eq_column v1 axis a' b' c' haxis, vox_eq_column v2 axis a' b' c' haxis]
  have := h.column_solidity axis a' b' c' (by omega) (by omega) (by omega)
  unfold solid_check
  rw [decide_eq_decide]
  omega

theorem SameUpToPaddingIds.visible_eq {v1 v2 : List Nat} (h : SameUpToPaddingIds v1 v2)
    (face fw r p : Nat) (hface : face < 6) (hf : fw < 64) (hr : r < 64) (hp : p < 64) :
    visible v1 face fw r p = visible v2 face fw r p := by
  have hs : ∀ c, c < 64 → solid_at v1 (axis_idx (face / 2) r fw c) =
      solid_at v2 (axis_idx (face / 2) r fw c) := by
    intro c hc
    rw [solid_at_column v1 _ r fw c (by omega), solid_at_column v2 _ r fw c (by omega),
      decide_eq_decide]
    have := h.column_solidity (face / 2) r fw c hr hf hc
    omega
  unfold visible
  rw [hs p hp]
  split
  · by_cases h63 : p < 63
    · rw [hs (p + 1) (by omega)]
    · simp [h63]
  · by_cases h0 : 0 < p
    · rw [hs (p - 1) (by omega)]
    · simp [h0]

theorem all_congr_mem {α : Type} (f g : α → Bool) :
    ∀ l : List α, (∀ x ∈ l, f x = g x) → l.all f = l.all g := by
  intro l
  induction l with
  | nil => intro _; rfl
  | cons a l ih =>
    intro h
    rw [List.all_cons, List.all_cons, h a (List.mem_cons_self _ _),
      ih (fun x hx => h x (List.mem_cons_of_mem _ hx))]

theorem light_dir_range (face p : Nat) (hp : 1 ≤ p ∧ p ≤ 62) :
    0 ≤ (p : Int) + light_dir face ∧ (p : Int) + light_dir face < 64 := by
  rcases light_dir_cases face with e | e <;> rw [e] <;> omega

theorem SameUpToPaddingIds.same_ao_eq {v1 v2 : List Nat} (h : SameUpToPaddingIds v1 v2)
    (axis : Nat) (haxis : axis < 3) (forward right c fo ro : Int)
    (hf : 1 ≤ forward) (hf' : forward + fo ≤ 62) (hfo : 0 ≤ fo)
    (hr : 1 ≤ right) (hr' : right + ro ≤ 62) (hro : 0 ≤ ro) (hc : 0 ≤ c ∧ c < 64) :
    same_ao v1 (axis : Int) forward right c fo ro = same_ao v2 (axis : Int) forward right c fo ro := by
  unfold same_ao
  apply all_congr_mem
  intro d hd
  obtain ⟨d1, d2, d3, d4⟩ := ao_dirs_bounds d hd
  rw [h.vox_solidity axis haxis (right + d.1) (forward + d.2) c (by omega) (by omega) hc,
    h.vox_solidity axis haxis (right + ro + d.1) (forward + fo + d.2) c (by omega) (by omega) hc]

theorem SameUpToPaddingIds.cmp_forward_eq {v1 v2 : List Nat} (h : SameUpToPaddingIds v1 v2)
    (face fw r p : Nat) (hface : face < 6) (hf : 1 ≤ fw ∧ fw ≤ 61) (hr : 1 ≤ r ∧ r ≤ 62)
    (hp : 1 ≤ p ∧ p ≤ 62) :
    cmp_forward v1 face fw r p = cmp_forward v2 face fw r p := by
  unfold cmp_forward
  rw [h.vox_interior (face / 2) (by omega) r fw p (by omega) (by omega) (by omega),
    h.vox_interior (face / 2) (by omega) r ((fw : Int) + 1) p (by omega) (by omega) (by omega),
    h.same_ao_eq (face / 2) (by omega) fw r _ 1 0 (by omega) (by omega) (by omega) (by omega)
      (by omega) (by omega) (light_dir_range face p hp)]

theorem SameUpToPaddingIds.cmp_right_eq {v1 v2 : List Nat} (h : SameUpToPaddingIds v1 v2)
    (face fw r p : Nat) (hface : face < 6) (hf : 1 ≤ fw ∧ fw ≤ 62) (hr : 1 ≤ r ∧ r ≤ 61)
    (hp : 1 ≤ p ∧ p ≤ 62) :
    cmp_right v1 face fw r p = cmp_right v2 face fw r p := by
  unfold cmp_right
  rw [h.vox_interior (face / 2) (by omega) r fw p (by omega) (by omega) (by omega),
    h.vox_interior (face / 2) (by omega) ((r : Int) + 1) fw p (by omega) (by omega) (by omega),
    h.same_ao_eq (face / 2) (by omega) fw r _ 0 1 (by omega) (by omega) (by omega) (by omega)
      (by omega) (by omega) (light_dir_range face p hp)]

theorem SameUpToPaddingIds.cell_quad_eq {v1 v2 : List Nat} (h : SameUpToPaddingIds v1 v2)
    (face fw r p mr mfv : Nat) (hface : face < 6) (hf : 1 ≤ fw ∧ fw ≤ 62) (hr : 1 ≤ r ∧ r ≤ 62)
    (hp : 1 ≤ p ∧ p ≤ 62) :
    cell_quad v1 face fw r p mr mfv = cell_quad v2 face fw r p mr mfv := by
  have hc := light_dir_range face p hp
  have hax : face / 2 < 3 := by omega
  unfold cell_quad
  simp only []
  rw [h.vox_interior (face / 2) hax r fw p (by omega) (by omega) (by omega),
    h.vox_solidity (face / 2) hax r ((fw : Int) - 1) _ (by omega) (by omega) hc,
    h.vox_solidity (face / 2) hax r ((fw : Int) + 1) _ (by omega) (by omega) hc,
    h.vox_solidity (face / 2) hax ((r : Int) - 1) fw _ (by omega) (by omega) hc,
    h.vox_solidity (face / 2) hax ((r : Int) + 1) fw _ (by omega) (by omega) hc,
    h.vox_solidity (face / 2) hax ((r : Int) - 1) ((fw : Int) - 1) _ (by omega) (by omega) hc,
    h.vox_solidity (face / 2) hax ((r : Int) - 1) ((fw : Int) + 1) _ (by omega) (by omega) hc,
    h.vox_solidity (face / 2) hax ((r : Int) + 1) ((fw : Int) - 1) _ (by omega) (by omega) hc,
    h.vox_solidity (face / 2) hax ((r : Int) + 1) ((fw : Int) + 1) _ (by omega) (by omega) hc]

theorem SameUpToPaddingIds.p_merges_eq {v1 v2 : List Nat} (h : SameUpToPaddingIds v1 v2)
    (face p fw : Nat) (s : PState) (r : Nat) (hface : face < 6) (hf : 1 ≤ fw ∧ fw ≤ 62)
    (hr : 1 ≤ r ∧ r ≤ 62) (hp : 1 ≤ p ∧ p ≤ 62) :
    p_merges v1 face p fw s r = p_merges v2 face p fw s r := by
  unfold p_merges
  rw [h.visible_eq face fw r p hface (by omega) (by omega) (by omega),
    h.visible_eq face (fw + 1) r p hface (by omega) (by omega) (by omega)]
  by_cases h62 : fw < 62
  · rw [h.cmp_forward_eq face fw r p hface ⟨hf.1, by omega⟩ hr hp]
  · simp [h62]

theorem SameUpToPaddingIds.p_walks_eq {v1 v2 : List Nat} (h : SameUpToPaddingIds v1 v2)
    (face p fw : Nat) (s : PState) (r : Nat) (hface : face < 6) (hf : 1 ≤ fw ∧ fw ≤ 62)
    (hr : 1 ≤ r ∧ r ≤ 62) (hp : 1 ≤ p ∧ p ≤ 62) :
    p_walks v1 face p fw s r = p_walks v2 face p fw s r := by
  unfold p_walks
  rw [h.visible_eq face fw r p hface (by omega) (by omega) (by omega),
    h.visible_eq face fw (r + 1) p hface (by omega) (by omega) (by omega),
    h.p_merges_eq face p fw s r hface hf hr hp]
  by_cases h62 : r < 62
  · rw [h.cmp_right_eq face fw r p hface hf ⟨hr.1, by omega⟩ hp]
  · simp [h62]

theorem SameUpToPaddingIds.p_emits_eq {v1 v2 : List Nat} (h : SameUpToPaddingIds v1 v2)
    (face p fw : Nat) (s : PState) (r : Nat) (hface : face < 6) (hf : 1 ≤ fw ∧ fw ≤ 62)
    (hr : 1 ≤ r ∧ r ≤ 62) (hp : 1 ≤ p ∧ p ≤ 62) :
    p_emits v1 face p fw s r = p_emits v2 face p fw s r := by
  unfold p_emits
  rw [h.visible_eq face fw r p hface (by omega) (by omega) (by omega),
    h.p_merges_eq face p fw s r hface hf hr hp, h.p_walks_eq face p fw s r hface hf hr hp]

theorem SameUpToPaddingIds.pcell_eq {v1 v2 : List Nat} (h : SameUpToPaddingIds v1 v2)
    (face p fw : Nat) (s : PState) (r : Nat) (hface : face < 6) (hf : 1 ≤ fw ∧ fw ≤ 62)
    (hr : 1 ≤ r ∧ r ≤ 62) (hp : 1 ≤ p ∧ p ≤ 62) :
    pcell v1 face p fw s r = pcell v2 face p fw s r := by
  unfold pcell
  rw [h.p_merges_eq face p fw s r hface hf hr hp, h.p_walks_eq face p fw s r hface hf hr hp,
    h.p_emits_eq face p fw s r hface hf hr hp]

theorem SameUpToPaddingIds.pcell_quads_same {v1 v2 : List Nat} (h : SameUpToPaddingIds v1 v2)
    (face p fw : Nat) (s : PState) (r : Nat) (hface : face < 6) (hf : 1 ≤ fw ∧ fw ≤ 62)
    (hr : 1 ≤ r ∧ r ≤ 62) (hp : 1 ≤ p ∧ p ≤ 62) :
    pcell_quads v1 face p fw s r = pcell_quads v2 face p fw s r := by
  unfold pcell_quads
  rw [h.p_emits_eq face p fw s r hface hf hr hp,
    h.cell_quad_eq face fw r p s.mr (s.mf r) hface hf hr hp]

theorem SameUpToPaddingIds.pcells_eq {v1 v2 : List Nat} (h : SameUpToPaddingIds v1 v2)
    (face p fw : Nat) (s : PState) (hface : face < 6) (hf : 1 ≤ fw ∧ fw ≤ 62)
    (hp : 1 ≤ p ∧ p ≤ 62) :
    ∀ n, n ≤ 62 → pcells v1 face p fw s n = pcells v2 face p fw s n := by
  intro n
  induction n with
  | zero => intro _; rfl
  | succ n ih =>
    intro hn
    rw [pcells_succ, pcells_succ, ih (by omega),
      h.pcell_eq face p fw _ (n + 1) hface hf ⟨by omega, hn⟩ hp]

theorem SameUpToPaddingIds.prows_eq {v1 v2 : List Nat} (h : SameUpToPaddingIds v1 v2)
    (face p : Nat) (hface : face < 6) (hp : 1 ≤ p ∧ p ≤ 62) :
    ∀ k, k ≤ 62 → prows v1 face p k = prows v2 face p k := by
  intro k
  induction k with
  | zero => intro _; rfl
  | succ k ih =>
    intro hk
    show preset (pcells v1 face p (k + 1) (prows v1 face p k) 62) =
      preset (pcells v2 face p (k + 1) (prows v2 face p k) 62)
    rw [ih (by omega), h.pcells_eq face p (k + 1) _ hface ⟨by omega, hk⟩ hp 62 (le_refl _)]

theorem SameUpToPaddingIds.pstate_eq {v1 v2 : List Nat} (h : SameUpToPaddingIds v1 v2)
    (face p fw r : Nat) (hface : face < 6) (hf : 1 ≤ fw ∧ fw ≤ 62) (hr : 1 ≤ r ∧ r ≤ 62)
    (hp : 1 ≤ p ∧ p ≤ 62) :
    pstate v1 face p fw r = pstate v2 face p fw r := by
  unfold pstate
  rw [h.prows_eq face p hface hp (fw - 1) (by omega),
    h.pcells_eq face p fw _ hface hf hp (r - 1) (by omega)]

theorem SameUpToPaddingIds.all_quads_same {v1 v2 : List Nat} (h : SameUpToPaddingIds v1 v2) :
    all_quads v1 = all_quads v2 := by
  unfold all_quads
  rw [List.range_eq_range']
  apply flatMap_congr_range'
  intro face _ hface
  unfold face_quads
  apply flatMap_congr_range'
  intro fw hf1 hf
  unfold row_quads
  apply flatMap_congr_range'
  intro r hr1 hr
  unfold cell_quads
  apply flatMap_congr_range'
  intro p hp1 hp
  rw [h.pstate_eq face p fw r (by omega) ⟨hf1, by omega⟩ ⟨hr1, by omega⟩ ⟨hp1, by omega⟩,
    h.pcell_quads_same face p fw _ r (by omega) ⟨hf1, by omega⟩ ⟨hr1, by omega⟩ ⟨hp1, by omega⟩]

theorem padded_volume_voxel (pad x y z : Nat) (hx : x < CS_P) (hy : y < CS_P) (hz : z < CS_P) :
    voxel (padded_volume pad) x y z =
      if (1 ≤ x ∧ x ≤ CS) ∧ (1 ≤ y ∧ y ≤ CS) ∧ (1 ≤ z ∧ z ≤ CS) then
        (if x = 5 ∧ y = 6 ∧ z = 8 then 7 else 0)
      else pad := by
  unfold voxel padded_volume
  have hx' : x < 64 := hx
  have hy' : y < 64 := hy
  have hz' : z < 64 := hz
  rw [getD_map_range _ _ _ (by show z + x * 64 + y * 4096 < 262144; omega)]
  have e1 : (z + x * CS_P + y * CS_P2) / CS_P % CS_P = x := by
    show (z + x * 64 + y * 4096) / 64 % 64 = x
    omega
  have e2 : (z + x * CS_P + y * CS_P2) / CS_P2 = y := by
    show (z + x * 64 + y * 4096) / 4096 = y
    omega
  have e3 : (z + x * CS_P + y * CS_P2) % CS_P = z := by
    show (z + x * 64 + y * 4096) % 64 = z
    omega
  simp only [e1, e2, e3]

theorem padded_volume_same : SameUpToPaddingIds (padded_volume 9) (padded_volume 4) := by
  constructor
  · intro x y z hx hy hz
    have hx' : x ≤ 62 := hx.2
    have hy' : y ≤ 62 := hy.2
    have hz' : z ≤ 62 := hz.2
    rw [padded_volume_voxel 9 x y z (by show x < 64; omega) (by show y < 64; omega)
        (by show z < 64; omega),
      padded_volume_voxel 4 x y z (by show x < 64; omega) (by show y < 64; omega)
        (by show z < 64; omega)]
    have hc : (1 ≤ x ∧ x ≤ CS) ∧ (1 ≤ y ∧ y ≤ CS) ∧ (1 ≤ z ∧ z ≤ CS) := ⟨hx, hy, hz⟩
    rw [if_pos hc, if_pos hc]
  · intro x y z hx hy hz
    rw [padded_volume_voxel 9 x y z hx hy hz, padded_volume_voxel 4 x y z hx hy hz]
    split
    · exact Iff.rfl
    · constructor <;> intro e <;> exact absurd e (by decide)

/-- Claim C20: the output of `mesh` depends on the padding shell only through
solidity: two volumes that agree on every interior voxel and whose padding voxels
agree on being zero or non-zero give identical vertex sequences. -/
theorem C20_padding_ids_do_not_matter (v1 v2 : List Nat) (h1 : v1.length = CS_P3)
    (h2 : v2.length = CS_P3)
    (hinterior : ∀ x y z, (1 ≤ x ∧ x ≤ CS) → (1 ≤ y ∧ y ≤ CS) → (1 ≤ z ∧ z ≤ CS) →
      voxel v1 x y z = voxel v2 x y z)
    (hpadding : ∀ x y z, x < CS_P → y < CS_P → z < CS_P →
      (voxel v1 x y z = 0 ↔ voxel v2 x y z = 0)) :
    mesh v1 = mesh v2 ∧
      ∃ s1 s2, mesh_run v1 = some s1 ∧ mesh_run v2 = some s2 ∧ s1.vertices = s2.vertices ∧
        s1.quads = s2.quads := by
  have hsame : SameUpToPaddingIds v1 v2 := ⟨hinterior, hpadding⟩
  obtain ⟨s1, hs1, hq1, hv1, _, hm1⟩ := mesh_result v1 h1
  obtain ⟨s2, hs2, hq2, hv2, _, hm2⟩ := mesh_result v2 h2
  have hq : s1.quads = s2.quads := by rw [hq1, hq2, hsame.all_quads_same]
  have hv : s1.vertices = s2.vertices := by rw [hv1, hv2, hq]
  refine ⟨?_, s1, s2, hs1, hs2, hv, hq⟩
  rw [hm1, hm2, hq, hv]

theorem C20_witness :
    (padded_volume 9).length = CS_P3 ∧ (padded_volume 4).length = CS_P3 ∧
      voxel (padded_volume 9) 0 0 0 = 9 ∧ voxel (padded_volume 4) 0 0 0 = 4 ∧
      mesh (padded_volume 9) = mesh (padded_volume 4) :=
  ⟨by simp [padded_volume], by simp [padded_volume],
    padded_volume_voxel 9 0 0 0 (by decide) (by decide) (by decide),
    padded_volume_voxel 4 0 0 0 (by decide) (by decide) (by decide),
    (C20_padding_ids_do_not_matter (padded_volume 9) (padded_volume 4) (by simp [padded_volume])
      (by simp [padded_volume]) padded_volume_same.interior padded_volume_same.solidity).1⟩

/-! ## No check fails on a well-formed volume -/

theorem array_get_of_lt {size i : Nat} (arr : Nat → Nat) (h : i < size) :
    array_get size arr i = some (arr i) := if_pos h

theorem array_set_of_lt {size i : Nat} (arr : Nat → Nat) (v : Nat) (h : i < size) :
    array_set size arr i v = some (Function.update arr i v) := if_pos h

theorem voxels_at_axis_eq (voxels : List Nat) (axis a b c : Int) (ha : 0 ≤ a ∧ a < 64)
    (hb : 0 ≤ b ∧ b < 64) (hc : 0 ≤ c ∧ c < 64) :
    voxels_at_axis voxels axis a b c = voxels_at voxels (get_axis_i axis a b c) :=
  if_pos ⟨ha, hb, hc⟩

theorem foldlM_congr_mem {α σ : Type} (f g : σ → α → Option σ) :
    ∀ (l : List α) (s : σ), (∀ x ∈ l, ∀ s, f s x = g s x) → l.foldlM f s = l.foldlM g s := by
  intro l
  induction l with
  | nil => intro s _; rfl
  | cons a l ih =>
    intro s h
    simp only [List.foldlM_cons]
    rw [h a (List.mem_cons_self _ _) s]
    cases g s a with
    | none => rfl
    | some s' => exact ih s' (fun x hx => h x (List.mem_cons_of_mem _ hx))

theorem foldlM_eq_foldl {α σ : Type} (f : σ → α → Option σ) (g : σ → α → σ) :
    ∀ (l : List α) (s : σ), (∀ x ∈ l, ∀ s, f s x = some (g s x)) →
      l.foldlM f s = some (l.foldl g s) := by
  intro l
  induction l with
  | nil => intro s _; rfl
  | cons a l ih =>
    intro s h
    simp only [List.foldlM_cons, List.foldl_cons]
    rw [h a (List.mem_cons_self _ _) s]
    exact ih (g s a) (fun x hx => h x (List.mem_cons_of_mem _ hx))

theorem compare_ao_loop_checked_eq (voxels : List Nat) (axis forward right c fo ro : Int)
    (hf : 1 ≤ forward) (hf' : forward + fo ≤ 62) (hfo : 0 ≤ fo)
    (hr : 1 ≤ right) (hr' : right + ro ≤ 62) (hro : 0 ≤ ro) (hc : 0 ≤ c ∧ c < 64) :
    ∀ dirs : List (Int × Int), (∀ d ∈ dirs, -1 ≤ d.1 ∧ d.1 ≤ 1 ∧ -1 ≤ d.2 ∧ d.2 ≤ 1) →
      compare_ao_loop_checked voxels axis forward right c fo ro dirs =
        compare_ao_loop voxels axis forward right c fo ro dirs := by
  intro dirs
  induction dirs with
  | nil => intro _; rfl
  | cons d rest ih =>
    intro hd
    obtain ⟨d1, d2, d3, d4⟩ := hd d (List.mem_cons_self _ _)
    unfold compare_ao_loop_checked compare_ao_loop
    rw [voxels_at_axis_eq voxels axis (right + d.1) (forward + d.2) c (by omega) (by omega) hc,
      voxels_at_axis_eq voxels axis (right + ro + d.1) (forward + fo + d.2) c (by omega)
        (by omega) hc,
      ih (fun d' h' => hd d' (List.mem_cons_of_mem _ h'))]

theorem compare_forward_checked_eq (voxels : List Nat) (axis : Int) (fw r p : Nat) (ld : Int)
    (hf : 1 ≤ fw ∧ fw ≤ 61) (hr : 1 ≤ r ∧ r ≤ 62) (hp : 1 ≤ p ∧ p ≤ 62)
    (hld : ld = 1 ∨ ld = -1) :
    compare_forward_checked voxels axis fw r p ld = compare_forward voxels axis fw r p ld := by
  unfold compare_forward_checked compare_forward compare_ao_checked compare_ao
  rw [voxels_at_axis_eq voxels axis r fw p (by omega) (by omega) (by omega),
    voxels_at_axis_eq voxels axis r ((fw : Int) + 1) p (by omega) (by omega) (by omega),
    compare_ao_loop_checked_eq voxels axis fw r ((p : Int) + ld) 1 0 (by omega) (by omega)
      (by omega) (by omega) (by omega) (by omega) (by omega) ao_dirs ao_dirs_bounds]

theorem compare_right_checked_eq (voxels : List Nat) (axis : Int) (fw r p : Nat) (ld : Int)
    (hf : 1 ≤ fw ∧ fw ≤ 62) (hr : 1 ≤ r ∧ r ≤ 61) (hp : 1 ≤ p ∧ p ≤ 62)
    (hld : ld = 1 ∨ ld = -1) :
    compare_right_checked voxels axis fw r p ld = compare_right voxels axis fw r p ld := by
  unfold compare_right_checked compare_right compare_ao_checked compare_ao
  rw [voxels_at_axis_eq voxels axis r fw p (by omega) (by omega) (by omega),
    voxels_at_axis_eq voxels axis ((r : Int) + 1) fw p (by omega) (by omega) (by omega),
    compare_ao_loop_checked_eq voxels axis fw r ((p : Int) + ld) 0 1 (by omega) (by omega)
      (by omega) (by omega) (by omega) (by omega) (by omega) ao_dirs ao_dirs_bounds]

theorem cols_z_checked_eq (voxels : List Nat) (y x z : Nat) (hy : y < 64) (hx : x < 64)
    (hz : z < 64) (s : ColState) :
    cols_z_checked voxels y x s z = cols_z voxels y x s z := by
  have h1 : x + (z * CS_P) < CS_P2 * 3 := by
    show x + z * 64 < 4096 * 3
    omega
  have h2 : z + (y * CS_P) + CS_P2 < CS_P2 * 3 := by
    show z + y * 64 + 4096 < 4096 * 3
    omega
  unfold cols_z_checked cols_z
  cases voxels_at voxels s.p with
  | none => rfl
  | some v =>
    by_cases hs : solid_check (v : Int) = true
    · simp only [hs, if_true, array_get_of_lt _ h1, array_set_of_lt _ _ h1,
        array_get_of_lt _ h2, array_set_of_lt _ _ h2, Option.bind_eq_bind, Option.some_bind,
        pure]
    · simp only [hs, Bool.false_eq_true, if_false, Option.bind_eq_bind, Option.some_bind, pure]

theorem cols_x_checked_eq (voxels : List Nat) (y x : Nat) (hy : y < 64) (hx : x < 64)
    (s : ColState) : cols_x_checked voxels y s x = cols_x voxels y s x := by
  have h1 : ∀ arr v, array_set (CS_P2 * 3) arr (y + (x * CS_P) + (CS_P2 * 2)) v =
      some (Function.update arr (y + (x * CS_P) + (CS_P2 * 2)) v) := by
    intro arr v
    apply array_set_of_lt
    show y + x * 64 + 4096 * 2 < 4096 * 3
    omega
  unfold cols_x_checked cols_x
  have e := foldlM_congr_mem (cols_z_checked voxels y x) (cols_z voxels y x) (List.range CS_P)
    { s with zb := 0 }
    (fun z hz s => cols_z_checked_eq voxels y x z hy hx (List.mem_range.1 hz) s)
  rw [e]
  simp only [h1, Option.bind_eq_bind, Option.some_bind, pure]

theorem build_axis_cols_checked_eq (voxels : List Nat) :
    build_axis_cols_checked voxels = build_axis_cols voxels := by
  unfold build_axis_cols_checked build_axis_cols
  have e := foldlM_congr_mem (cols_y_checked voxels) (cols_y voxels) (List.range CS_P)
    { axis_cols := fun _ => 0, p := 0, zb := 0 }
    (fun y hy s => foldlM_congr_mem (cols_x_checked voxels y) (cols_x voxels y)
      (List.range CS_P) s
      (fun x hx s => cols_x_checked_eq voxels y x (List.mem_range.1 hy) (List.mem_range.1 hx) s))
  rw [e]

theorem cull_i_checked_eq (ac : Nat → Nat) (axis : Nat) (haxis : axis < 3) (m : Nat → Nat)
    (i : Nat) (hi : i < 4096) : cull_i_checked ac axis m i = some (cull_i ac axis m i) := by
  have h1 : (CS_P2 * axis) + i < CS_P2 * 3 := by
    show 4096 * axis + i < 4096 * 3
    omega
  have h2 : (CS_P2 * (axis * 2)) + i < CS_P2 * 6 := by
    show 4096 * (axis * 2) + i < 4096 * 6
    omega
  have h3 : (CS_P2 * (axis * 2 + 1)) + i < CS_P2 * 6 := by
    show 4096 * (axis * 2 + 1) + i < 4096 * 6
    omega
  unfold cull_i_checked cull_i
  simp only [array_get_of_lt _ h1, array_set_of_lt _ _ h2, array_set_of_lt _ _ h3,
    Option.bind_eq_bind, Option.some_bind]

theorem cull_faces_checked_eq (ac : Nat → Nat) :
    cull_faces_checked ac = some (cull_faces ac) := by
  unfold cull_faces_checked cull_faces
  apply foldlM_eq_foldl
  intro axis haxis m
  apply foldlM_eq_foldl
  intro i hi m'
  exact cull_i_checked_eq ac axis (List.mem_range.1 haxis) m' i (List.mem_range.1 hi)

theorem mem_set_bits_lt {w bit : Nat} (hw : w < 2 ^ 64) (h : bit ∈ set_bits w) : bit < 64 := by
  rw [set_bits_eq hw, List.mem_filter] at h
  exact List.mem_range.1 h.1

theorem front_step_checked_eq (voxels : List Nat) (face fw r : Nat) (hf : 1 ≤ fw ∧ fw ≤ 61)
    (hr : 1 ≤ r ∧ r ≤ 62) (s : MeshState) (bit_pos : Nat) (hb : bit_pos < 64) :
    front_step_checked voxels face fw r s bit_pos = front_step voxels face fw r s bit_pos := by
  have h1 : (r * CS_P) + bit_pos < CS_P2 := by
    show r * 64 + bit_pos < 4096
    omega
  have hld : (if face % 2 = 0 then (1 : Int) else -1) = 1 ∨
      (if face % 2 = 0 then (1 : Int) else -1) = -1 := by
    split
    · exact Or.inl rfl
    · exact Or.inr rfl
  unfold front_step_checked front_step
  dsimp only
  by_cases h0 : bit_pos = 0 ∨ bit_pos = CS_P - 1
  · rw [if_pos h0, if_pos h0]
  · rw [if_neg h0, if_neg h0]
    have hp : 1 ≤ bit_pos ∧ bit_pos ≤ 62 := by
      have : ¬ (bit_pos = 0 ∨ bit_pos = 63) := h0
      omega
    rw [compare_forward_checked_eq voxels _ fw r bit_pos _ hf hr hp hld]
    simp only [array_get_of_lt _ h1, array_set_of_lt _ _ h1, Option.bind_eq_bind,
      Option.some_bind, pure]

theorem walk_test_checked_eq (voxels : List Nat) (face fw r bmr : Nat) (s : MeshState)
    (bit_pos : Nat) (hf : 1 ≤ fw ∧ fw ≤ 62) (hr : 1 ≤ r ∧ r ≤ 62) (hp : 1 ≤ bit_pos ∧ bit_pos ≤ 62)
    (hbmr : (bmr &&& (1 <<< bit_pos)) ≠ 0 → r ≤ 61) :
    walk_test_checked voxels face fw r bmr s bit_pos =
      (if (bmr &&& (1 <<< bit_pos)) ≠ 0 ∧
          s.merged_forward ((r * CS_P) + bit_pos) = s.merged_forward ((r + 1) * CS_P + bit_pos) then
        compare_right voxels ((face / 2 : Nat) : Int) fw r bit_pos
          (if face % 2 = 0 then 1 else -1)
      else pure false) := by
  have h1 : (r * CS_P) + bit_pos < CS_P2 := by
    show r * 64 + bit_pos < 4096
    omega
  have h2 : (r + 1) * CS_P + bit_pos < CS_P2 := by
    show (r + 1) * 64 + bit_pos < 4096
    omega
  have hld : (if face % 2 = 0 then (1 : Int) else -1) = 1 ∨
      (if face % 2 = 0 then (1 : Int) else -1) = -1 := by
    split
    · exact Or.inl rfl
    · exact Or.inr rfl
  unfold walk_test_checked
  dsimp only
  by_cases hA : (bmr &&& (1 <<< bit_pos)) ≠ 0
  · rw [if_pos hA]
    simp only [array_get_of_lt _ h1, array_get_of_lt _ h2, Option.bind_eq_bind,
      Option.some_bind]
    rw [compare_right_checked_eq voxels _ fw r bit_pos _ hf ⟨hr.1, hbmr hA⟩ hp hld]
    by_cases hB : s.merged_forward ((r * CS_P) + bit_pos) =
        s.merged_forward ((r + 1) * CS_P + bit_pos)
    · have hAB : (bmr &&& (1 <<< bit_pos)) ≠ 0 ∧ s.merged_forward ((r * CS_P) + bit_pos) =
          s.merged_forward ((r + 1) * CS_P + bit_pos) := ⟨hA, hB⟩
      rw [if_pos hB, if_pos hAB]
    · have hAB : ¬ ((bmr &&& (1 <<< bit_pos)) ≠ 0 ∧ s.merged_forward ((r * CS_P) + bit_pos) =
          s.merged_forward ((r + 1) * CS_P + bit_pos)) := fun h => hB h.2
      rw [if_neg hB, if_neg hAB]
  · have hAB : ¬ ((bmr &&& (1 <<< bit_pos)) ≠ 0 ∧ s.merged_forward ((r * CS_P) + bit_pos) =
        s.merged_forward ((r + 1) * CS_P + bit_pos)) := fun h => hA h.1
    rw [if_neg hA, if_neg hAB]

theorem stop_step_checked_eq (voxels : List Nat) (face fw r bmr : Nat) (hf : 1 ≤ fw ∧ fw ≤ 62)
    (hr : 1 ≤ r ∧ r ≤ 62) (hbmr : ∀ bit_pos, (bmr &&& (1 <<< bit_pos)) ≠ 0 → r ≤ 61)
    (s : MeshState) (bit_pos : Nat) (hb : bit_pos < 64) :
    stop_step_checked voxels face fw r bmr s bit_pos = stop_step voxels face fw r bmr s bit_pos := by
  have h1 : (r * CS_P) + bit_pos < CS_P2 := by
    show r * 64 + bit_pos < 4096
    omega
  have h3 : bit_pos < CS_P := hb
  unfold stop_step_checked stop_step
  dsimp only
  by_cases h0 : bit_pos = 0 ∨ bit_pos = CS_P - 1
  · rw [if_pos h0, if_pos h0]
  · rw [if_neg h0, if_neg h0]
    have hp : 1 ≤ bit_pos ∧ bit_pos ≤ 62 := by
      have : ¬ (bit_pos = 0 ∨ bit_pos = 63) := h0
      omega
    have hc : 0 ≤ (bit_pos : Int) + (if face % 2 = 0 then (1 : Int) else -1) ∧
        (bit_pos : Int) + (if face % 2 = 0 then (1 : Int) else -1) < 64 := by
      split <;> omega
    rw [walk_test_checked_eq voxels face fw r bmr s bit_pos hf hr hp (hbmr bit_pos)]
    unfold close_quad_checked
    dsimp only
    rw [voxels_at_axis_eq voxels _ r fw bit_pos (by omega) (by omega) (by omega),
      voxels_at_axis_eq voxels _ r ((fw : Int) - 1) _ (by omega) (by omega) hc,
      voxels_at_axis_eq voxels _ r ((fw : Int) + 1) _ (by omega) (by omega) hc,
      voxels_at_axis_eq voxels _ ((r : Int) - 1) fw _ (by omega) (by omega) hc,
      voxels_at_axis_eq voxels _ ((r : Int) + 1) fw _ (by omega) (by omega) hc,
      voxels_at_axis_eq voxels _ ((r : Int) - 1) ((fw : Int) - 1) _ (by omega) (by omega) hc,
      voxels_at_axis_eq voxels _ ((r : Int) - 1) ((fw : Int) + 1) _ (by omega) (by omega) hc,
      voxels_at_axis_eq voxels _ ((r : Int) + 1) ((fw : Int) - 1) _ (by omega) (by omega) hc,
      voxels_at_axis_eq voxels _ ((r : Int) + 1) ((fw : Int) + 1) _ (by omega) (by omega) hc]
    rw [array_get_of_lt _ h1, array_get_of_lt _ h3]
    simp only [array_set_of_lt _ _ h1, array_set_of_lt _ _ h3]
    generalize (if (bmr &&& (1 <<< bit_pos)) ≠ 0 ∧ s.merged_forward ((r * CS_P) + bit_pos) =
      s.merged_forward ((r + 1) * CS_P + bit_pos) then
        compare_right voxels ((face / 2 : Nat) : Int) fw r bit_pos
          (if face % 2 = 0 then 1 else -1)
      else pure false) = W
    generalize voxels_at voxels (get_axis_i _ r fw bit_pos) = R0
    generalize voxels_at voxels (get_axis_i _ r ((fw : Int) - 1) _) = R1
    generalize voxels_at voxels (get_axis_i _ r ((fw : Int) + 1) _) = R2
    generalize voxels_at voxels (get_axis_i _ ((r : Int) - 1) fw _) = R3
    generalize voxels_at voxels (get_axis_i _ ((r : Int) + 1) fw _) = R4
    generalize voxels_at voxels (get_axis_i _ ((r : Int) - 1) ((fw : Int) - 1) _) = R5
    generalize voxels_at voxels (get_axis_i _ ((r : Int) - 1) ((fw : Int) + 1) _) = R6
    generalize voxels_at voxels (get_axis_i _ ((r : Int) + 1) ((fw : Int) - 1) _) = R7
    generalize voxels_at voxels (get_axis_i _ ((r : Int) + 1) ((fw : Int) + 1) _) = R8
    rcases W with _ | walk
    · rfl
    cases walk
    swap
    · rfl
    rcases R0 with _ | type
    · rfl
    rcases R1 with _ | f
    · rfl
    rcases R2 with _ | b
    · rfl
    rcases R3 with _ | l
    · rfl
    rcases R4 with _ | r'
    · rfl
    rcases R5 with _ | lfc
    · rfl
    rcases R6 with _ | lbc
    · rfl
    rcases R7 with _ | rfc
    · rfl
    rcases R8 with _ | rbc
    · rfl
    rfl

theorem and_le_of_lt {a b w : Nat} (h : a < w) : a &&& b < w :=
  Nat.lt_of_le_of_lt Nat.and_le_left h

theorem mesh_cell_checked_eq (voxels : List Nat) (m : Nat → Nat) (hm : MasksOk voxels m)
    (face fw : Nat) (hface : face < 6) (hf : 1 ≤ fw ∧ fw ≤ 62) (s : MeshState) (r : Nat)
    (hr : 1 ≤ r ∧ r ≤ 62) :
    mesh_cell_checked voxels m face fw s r = mesh_cell voxels m face fw s r := by
  have h1 : r + (fw * CS_P) + (face * CS_P2) < CS_P2 * 6 := by
    show r + fw * 64 + face * 4096 < 4096 * 6
    omega
  have h2 : r + (fw * CS_P) + (face * CS_P2) + CS_P < CS_P2 * 6 := by
    show r + fw * 64 + face * 4096 + 64 < 4096 * 6
    omega
  have h3 : r + 1 + (fw * CS_P) + (face * CS_P2) < CS_P2 * 6 := by
    show r + 1 + fw * 64 + face * 4096 < 4096 * 6
    omega
  have hlt : m (r + (fw * CS_P) + (face * CS_P2)) < 2 ^ 64 :=
    hm.lt hface (by omega) (by omega)
  have e2 : (if fw ≥ CS then (pure 0 : Option Nat)
      else array_get (CS_P2 * 6) m (r + (fw * CS_P) + (face * CS_P2) + CS_P)) =
      some (if fw ≥ CS then 0 else m (r + (fw * CS_P) + (face * CS_P2) + CS_P)) := by
    split
    · rfl
    · exact array_get_of_lt _ h2
  have e3 : (if r ≥ CS then (pure 0 : Option Nat)
      else array_get (CS_P2 * 6) m (r + 1 + (fw * CS_P) + (face * CS_P2))) =
      some (if r ≥ CS then 0 else m (r + 1 + (fw * CS_P) + (face * CS_P2))) := by
    split
    · rfl
    · exact array_get_of_lt _ h3
  unfold mesh_cell_checked mesh_cell
  rw [array_get_of_lt _ h1, e2, e3]
  simp only [Option.bind_eq_bind, Option.some_bind]
  have hfront : ∀ s0, (set_bits (m (r + (fw * CS_P) + (face * CS_P2)) &&&
        (if fw ≥ CS then 0 else m (r + (fw * CS_P) + (face * CS_P2) + CS_P)) &&&
        not64 s.bits_walking_right)).foldlM (front_step_checked voxels face fw r) s0 =
      (set_bits (m (r + (fw * CS_P) + (face * CS_P2)) &&&
        (if fw ≥ CS then 0 else m (r + (fw * CS_P) + (face * CS_P2) + CS_P)) &&&
        not64 s.bits_walking_right)).foldlM (front_step voxels face fw r) s0 := by
    intro s0
    apply foldlM_congr_mem
    intro bit hbit s'
    by_cases h62 : fw ≥ CS
    · rw [if_pos h62, Nat.and_zero, Nat.zero_and] at hbit
      exact absurd hbit (List.not_mem_nil _)
    · have h61 : fw ≤ 61 := by
        have : ¬ (fw ≥ 62) := h62
        omega
      exact front_step_checked_eq voxels face fw r ⟨hf.1, h61⟩ hr s' bit
        (mem_set_bits_lt (and_le_of_lt (and_le_of_lt hlt)) hbit)
  rw [hfront]
  congr 1
  funext s1
  apply foldlM_congr_mem
  intro bit hbit s'
  apply stop_step_checked_eq voxels face fw r _ hf hr _ s' bit
    (mem_set_bits_lt (and_le_of_lt hlt) hbit)
  intro bp hbp
  by_cases h62 : r ≥ CS
  · rw [if_pos h62, Nat.and_zero, Nat.zero_and] at hbp
    exact absurd rfl hbp
  · have : ¬ (r ≥ 62) := h62
    omega

theorem mesh_row_checked_eq (voxels : List Nat) (m : Nat → Nat) (hm : MasksOk voxels m)
    (face : Nat) (hface : face < 6) (s : MeshState) (fw : Nat) (hf : 1 ≤ fw ∧ fw ≤ 62) :
    mesh_row_checked voxels m face s fw = mesh_row voxels m face s fw := by
  unfold mesh_row_checked mesh_row
  apply foldlM_congr_mem
  intro r hr s'
  have hr' := mem_range'_1_62.1 hr
  exact mesh_cell_checked_eq voxels m hm face fw hface hf s' r hr'

theorem mesh_face_checked_eq (voxels : List Nat) (m : Nat → Nat) (hm : MasksOk voxels m)
    (s : MeshState) (face : Nat) (hface : face < 6) :
    mesh_face_checked voxels m s face = mesh_face voxels m s face := by
  unfold mesh_face_checked mesh_face
  apply foldlM_congr_mem
  intro fw hfw s'
  have hfw' := mem_range'_1_62.1 hfw
  exact mesh_row_checked_eq voxels m hm face hface s' fw hfw'

theorem mesh_run_checked_eq (voxels : List Nat) (hlen : voxels.length = CS_P3) :
    mesh_run_checked voxels = mesh_run voxels := by
  obtain ⟨ac, hac, hm⟩ := masks_spec voxels hlen
  unfold mesh_run_checked mesh_run
  rw [build_axis_cols_checked_eq, hac]
  simp only [Option.bind_eq_bind, Option.some_bind, cull_faces_checked_eq]
  apply foldlM_congr_mem
  intro face hface s
  exact mesh_face_checked_eq voxels (cull_faces ac) hm s face (List.mem_range.1 hface)

/-- Claim C11: `mesh` is total on well-formed input: for every volume of exactly
`CS_P3` bytes, the run in which every `voxels.at(get_axis_i(...))` read of `mesh`,
`compare_forward`, `compare_right` and `compare_ao` fails when a coordinate leaves
`[0, CS_P - 1]`, and every index into `axis_cols`, `col_face_masks`, `merged_forward`
and `merged_right` fails when it leaves the array, returns, and returns what the
unchecked run returns: no out-of-range branch is reached. -/
theorem C11_mesh_total_and_in_bounds (voxels : List Nat) (hlen : voxels.length = CS_P3) :
    ∃ s, mesh_run_checked voxels = some s ∧ mesh_run voxels = some s ∧
      ∃ result, mesh voxels = some result := by
  obtain ⟨s, hs, _, _, _, hm⟩ := mesh_result voxels hlen
  exact ⟨s, by rw [mesh_run_checked_eq voxels hlen, hs], hs, _, hm⟩

theorem C11_witness :
    sample_volume.length = CS_P3 ∧
      ∃ s, mesh_run_checked sample_volume = some s ∧ mesh_run sample_volume = some s ∧
        ∃ result, mesh sample_volume = some result :=
  ⟨sample_volume_box.len, C11_mesh_total_and_in_bounds sample_volume sample_volume_box.len⟩

/-! ## Covers by uniform rectangles -/

theorem all_quads_valid (voxels : List Nat) : ValidCover voxels (all_quads voxels) := by
  constructor
  · intro face p fw r hface hp hfw hr hu
    exact count_covering voxels face p fw r hface hp.1 hp.2 hfw.1 hfw.2 hr.1 hr.2
      ((visible_iff_unit_face voxels face fw r p hp.1 hp.2).2 hu)
  · intro q hq p fw r hc
    obtain ⟨hface, p', hp1, hp, hup, _, _, hcells⟩ := quad_cells_visible hq
    have hc' := of_decide_eq_true hc
    have e : p = p' := by
      have := hc'.2.1
      rw [hup] at this
      omega
    subst e
    obtain ⟨h1, h2, h3⟩ := hcells fw r hc'.2.2.1 hc'.2.2.2.1 hc'.2.2.2.2.1 hc'.2.2.2.2.2
    exact ⟨hface, ⟨hp1, hp⟩, h1, h2, h3⟩
  · intro q hq p fw r fw' r' hc hc'
    exact ⟨(covered_type hq hc).trans (covered_type hq hc').symm, covered_pattern hq hc hc'⟩

theorem quad_at_covers (voxels : List Nat) (face p fw r a b : Nat)
    (hf : 1 ≤ fw ∧ fw ≤ 62) (hr : 1 ≤ r ∧ r ≤ 62) (hp : p ≤ 62)
    (h1 : fw - run_fwd voxels face p fw r ≤ a) (h2 : a ≤ fw)
    (h3 : r - run_right voxels face p fw r ≤ b) (h4 : b ≤ r) :
    covers_face face p a b (quad_at voxels face p fw r) = true :=
  (covers_quad_at voxels face p fw r face p a b hf.1 hf.2 hr.1 hr.2 hp).2
    ⟨rfl, rfl, h1, h2, h3, h4⟩

theorem joined_right_not_uniform (voxels : List Nat) (face p fw r1 r2 : Nat)
    (hfw : 1 ≤ fw ∧ fw ≤ 62) (hr1 : 1 ≤ r1 ∧ r1 ≤ 62) (hr2 : 1 ≤ r2 ∧ r2 ≤ 62) (hp : p ≤ 62)
    (he1 : emits_at voxels face p fw r1 = true) (he2 : emits_at voxels face p fw r2 = true)
    (k1 : fw - run_fwd voxels face p fw r1 = fw - run_fwd voxels face p fw r2)
    (k3 : r1 + 1 = r2 - run_right voxels face p fw r2)
    (hu : ∀ a b a' b',
      (covers_face face p a b (quad_at voxels face p fw r1) = true ∨
        covers_face face p a b (quad_at voxels face p fw r2) = true) →
      (covers_face face p a' b' (quad_at voxels face p fw r1) = true ∨
        covers_face face p a' b' (quad_at voxels face p fw r2) = true) →
      cell_type voxels face p a b = cell_type voxels face p a' b' ∧
        ao_pattern voxels face p a b = ao_pattern voxels face p a' b') : False := by
  have hF1 := run_fwd_lt voxels face p r1 hr1.1 hr1.2 fw hfw.1
  have hF2 := run_fwd_lt voxels face p r2 hr2.1 hr2.2 fw hfw.1
  have hW2 := run_right_lt voxels face p fw r2 hr2.1
  obtain ⟨v1, m1, w1⟩ := (emits_at_iff voxels face p fw r1).1 he1
  have hlt : r1 + 1 ≤ r2 := by omega
  have c1 : covers_face face p fw r1 (quad_at voxels face p fw r1) = true :=
    quad_at_covers voxels face p fw r1 fw r1 hfw hr1 hp (Nat.sub_le _ _) (le_refl _)
      (Nat.sub_le _ _) (le_refl _)
  have c2 : covers_face face p fw (r1 + 1) (quad_at voxels face p fw r2) = true :=
    quad_at_covers voxels face p fw r2 fw (r1 + 1) hfw hr2 hp (Nat.sub_le _ _) (le_refl _)
      (le_of_eq k3.symm) hlt
  obtain ⟨t, a⟩ := hu fw r1 fw (r1 + 1) (Or.inl c1) (Or.inr c2)
  have hcmp : cmp_right voxels face fw r1 p = true :=
    (cmp_right_iff voxels face p fw r1).2 ⟨t, a⟩
  have hwalks : ∀ b', r1 + 1 ≤ b' → b' < r2 → walks_at voxels face p fw b' = true :=
    fun b' hb hb' => walks_of_run_right voxels face p fw r2 hr2.1 b' (by omega) hb'
  have hvis : visible voxels face fw (r1 + 1) p = true := by
    have hin : in_rect voxels face p fw r2 fw (r1 + 1) :=
      ⟨Nat.sub_le _ _, le_refl _, le_of_eq k3.symm, hlt⟩
    exact owns_visible voxels face p fw r2 fw (r1 + 1) (Nat.succ_le_succ (Nat.zero_le _))
      ((in_rect_iff_owns voxels face p fw r2 fw (r1 + 1) hfw.1 hr2.1 hr2.2 hfw.1
        (Nat.succ_le_succ (Nat.zero_le _)) he2).1 hin)
  have hrun : run_fwd voxels face p fw (r1 + 1) = run_fwd voxels face p fw r2 :=
    run_fwd_const voxels face p fw r2 (r2 - (r1 + 1)) (r1 + 1) (by omega)
      (Nat.succ_le_succ (Nat.zero_le _)) hwalks
  have hrun' : run_fwd voxels face p fw r1 = run_fwd voxels face p fw (r1 + 1) := by
    rw [hrun]
    omega
  have hw : walks_at voxels face p fw r1 = true :=
    (walks_at_iff voxels face p fw r1 hr1.1).2
      ⟨v1, m1, by omega, hvis, hrun', hcmp⟩
  rw [hw] at w1
  exact absurd w1 (by decide)

theorem joined_forward_not_uniform (voxels : List Nat) (face p fw1 fw2 r : Nat)
    (hfw1 : 1 ≤ fw1 ∧ fw1 ≤ 62) (hfw2 : 1 ≤ fw2 ∧ fw2 ≤ 62) (hr : 1 ≤ r ∧ r ≤ 62) (hp : p ≤ 62)
    (he1 : emits_at voxels face p fw1 r = true) (he2 : emits_at voxels face p fw2 r = true)
    (k1 : r - run_right voxels face p fw1 r = r - run_right voxels face p fw2 r)
    (k3 : fw1 + 1 = fw2 - run_fwd voxels face p fw2 r)
    (hu : ∀ a b a' b',
      (covers_face face p a b (quad_at voxels face p fw1 r) = true ∨
        covers_face face p a b (quad_at voxels face p fw2 r) = true) →
      (covers_face face p a' b' (quad_at voxels face p fw1 r) = true ∨
        covers_face face p a' b' (quad_at voxels face p fw2 r) = true) →
      cell_type voxels face p a b = cell_type voxels face p a' b' ∧
        ao_pattern voxels face p a b = ao_pattern voxels face p a' b') : False := by
  have hW1 := run_right_lt voxels face p fw1 r hr.1
  have hF2 := run_fwd_lt voxels face p r hr.1 hr.2 fw2 hfw2.1
  generalize hL : r - run_right voxels face p fw1 r = left at k1
  have hL1 : 1 ≤ left := by omega
  have hL2 : left ≤ r := by omega
  have hlt : fw1 + 1 ≤ fw2 := by omega
  have c1 : covers_face face p fw1 left (quad_at voxels face p fw1 r) = true :=
    quad_at_covers voxels face p fw1 r fw1 left hfw1 hr hp (Nat.sub_le _ _) (le_refl _)
      (le_of_eq hL) hL2
  have c2 : covers_face face p (fw1 + 1) left (quad_at voxels face p fw2 r) = true :=
    quad_at_covers voxels face p fw2 r (fw1 + 1) left hfw2 hr hp (le_of_eq k3.symm) hlt
      (le_of_eq k1.symm) hL2
  obtain ⟨t, a⟩ := hu fw1 left (fw1 + 1) left (Or.inl c1) (Or.inr c2)
  have hcmp : cmp_forward voxels face fw1 left p = true :=
    (cmp_forward_iff voxels face p fw1 left).2 ⟨t, a⟩
  have hin1 : in_rect voxels face p fw1 r fw1 left :=
    ⟨Nat.sub_le _ _, le_refl _, le_of_eq hL, hL2⟩
  have hown1 := (in_rect_iff_owns voxels face p fw1 r fw1 left hfw1.1 hr.1 hr.2 hfw1.1
    hL1 he1).1 hin1
  have hin2 : in_rect voxels face p fw2 r (fw1 + 1) left :=
    ⟨le_of_eq k3.symm, hlt, le_of_eq k1.symm, hL2⟩
  have hown2 := (in_rect_iff_owns voxels face p fw2 r (fw1 + 1) left hfw2.1 hr.1 hr.2
    (Nat.succ_le_succ (Nat.zero_le _)) hL1 he2).1 hin2
  have hv1 := owns_visible voxels face p fw1 r fw1 left hL1 hown1
  have hv2 := owns_visible voxels face p fw2 r (fw1 + 1) left hL1 hown2
  have hnw : ¬ (2 ≤ left ∧ walks_at voxels face p fw1 (left - 1) = true) := by
    rintro ⟨h2, hw⟩
    have := run_right_of_walks voxels face p fw1 r hr.1 (left - 1) (by omega) (by omega)
      (fun b' hb hb' => by
        by_cases hb1 : b' = left - 1
        · rw [hb1]; exact hw
        · exact walks_of_run_right voxels face p fw1 r hr.1 b' (by omega) hb')
    omega
  have hm : merges_at voxels face p fw1 left = true :=
    (merges_at_iff voxels face p fw1 left hL1).2 ⟨hv1, by omega, hv2, hnw, hcmp⟩
  have hm' := owns_not_merges voxels face p fw1 r fw1 left hL1 hown1
  rw [hm] at hm'
  exact absurd hm' (by decide)

theorem emitted_pair_not_uniform {voxels : List Nat} {q1 q2 : Quad}
    (hq1 : q1 ∈ all_quads voxels) (hq2 : q2 ∈ all_quads voxels) (hj : q1.joins q2) :
    ¬ uniform_pair voxels q1 q2 := by
  intro hu
  obtain ⟨face, p, fw1, r1, hface, hp, hfw1, hr1, he1, e1⟩ := mem_all_quads hq1
  obtain ⟨face2, p2, fw2, r2, hface2, hp2, hfw2, hr2, he2, e2⟩ := mem_all_quads hq2
  obtain ⟨a1, a2, a3, a4, a5, a6⟩ :=
    quad_at_fields voxels face p fw1 r1 hfw1.1 hfw1.2 hr1.1 hr1.2 hp.2
  obtain ⟨b1, b2, b3, b4, b5, b6⟩ :=
    quad_at_fields voxels face2 p2 fw2 r2 hfw2.1 hfw2.2 hr2.1 hr2.2 hp2.2
  rw [← e1] at a1 a2 a3 a4 a5 a6
  rw [← e2] at b1 b2 b3 b4 b5 b6
  obtain ⟨j1, j2, j3⟩ := hj
  have ef : face2 = face := by rw [← b1, ← a1, j1]
  subst ef
  have ep : p2 = p := by
    rw [a2, b2] at j2
    omega
  subst ep
  unfold uniform_pair at hu
  rw [a1] at hu
  have hu' := hu p2
  clear hu hq1 hq2 hface hface2 a1 a2 b1 b2 j1 j2
  rcases j3 with ⟨k1, k2, k3⟩ | ⟨k1, k2, k3⟩
  · -- side by side along `right`
    rw [a3, b3] at k1
    rw [a4, b4] at k2
    rw [a6, b5] at k3
    have efw : fw2 = fw1 := Nat.succ_injective k2.symm
    subst efw
    subst e1 e2
    exact joined_right_not_uniform voxels face2 p2 fw2 r1 r2 hfw2 hr1 hr2 hp.2 he1 he2 k1 k3
      hu'
  · -- one behind the other along `forward`
    rw [a5, b5] at k1
    rw [a6, b6] at k2
    rw [a4, b3] at k3
    have er : r2 = r1 := Nat.succ_injective k2.symm
    subst er
    subst e1 e2
    exact joined_forward_not_uniform voxels face2 p2 fw1 fw2 r2 hfw1 hfw2 hr1 hp.2 he1 he2 k1
      k3 hu'

/-! ## A volume whose mesh is not the smallest cover -/

theorem step_volume_voxel (x y z : Nat) (hx : x < CS_P) (hy : y < CS_P) (hz : z < CS_P) :
    voxel step_volume x y z = if y = 5 ∧ step_cell z x then 1 else 0 := by
  unfold voxel step_volume
  have hx' : x < 64 := hx
  have hy' : y < 64 := hy
  have hz' : z < 64 := hz
  rw [getD_map_range _ _ _ (by show z + x * 64 + y * 4096 < 262144; omega)]
  have e1 : (z + x * CS_P + y * CS_P2) / CS_P % CS_P = x := by
    show (z + x * 64 + y * 4096) / 64 % 64 = x
    omega
  have e2 : (z + x * CS_P + y * CS_P2) / CS_P2 = y := by
    show (z + x * 64 + y * 4096) / 4096 = y
    omega
  have e3 : (z + x * CS_P + y * CS_P2) % CS_P = z := by
    show (z + x * 64 + y * 4096) % 64 = z
    omega
  simp only [e1, e2, e3]

theorem step_volume_length : step_volume.length = CS_P3 := by
  simp [step_volume]

theorem step_top_column (fw r p : Nat) (hf : fw < 64) (hr : r < 64) (hp : p < 64) :
    column_voxel step_volume 0 r fw p = if p = 5 ∧ step_cell fw r then 1 else 0 := by
  unfold column_voxel
  rw [if_pos rfl]
  exact step_volume_voxel r p fw hr hp hf

theorem step_top_visible (fw r : Nat) (hf : fw < 64) (hr : r < 64) :
    visible step_volume 0 fw r 5 = decide (step_cell fw r) := by
  unfold visible
  rw [show (0 : Nat) / 2 = 0 from rfl, if_pos (by decide),
    solid_at_column step_volume 0 r fw 5 (by decide),
    solid_at_column step_volume 0 r fw (5 + 1) (by decide),
    step_top_column fw r 5 hf hr (by decide), step_top_column fw r (5 + 1) hf hr (by decide)]
  by_cases h : step_cell fw r
  · simp [h]
  · simp [h]

theorem step_top_type (fw r : Nat) (hf : fw < 64) (hr : r < 64) :
    cell_type step_volume 0 5 fw r = if step_cell fw r then 1 else 0 := by
  unfold cell_type
  rw [show ((0 / 2 : Nat) : Int) = ((0 : Nat) : Int) from rfl,
    vox_eq_column step_volume 0 r fw 5 (by decide), step_top_column fw r 5 hf hr (by decide)]
  simp

theorem step_top_pattern (fw r : Nat) (hf : 1 ≤ fw ∧ fw ≤ 62) (hr : 1 ≤ r ∧ r ≤ 62) :
    ao_pattern step_volume 0 5 fw r = ao_dirs.map (fun _ => false) := by
  unfold ao_pattern
  apply List.map_congr_left
  intro d hd
  obtain ⟨d1, d2, d3, d4⟩ := ao_dirs_bounds d hd
  obtain ⟨a, ha⟩ := Int.eq_ofNat_of_zero_le (show 0 ≤ (r : Int) + d.1 by omega)
  obtain ⟨b, hb⟩ := Int.eq_ofNat_of_zero_le (show 0 ≤ (fw : Int) + d.2 by omega)
  rw [ha, hb, show ((5 : Nat) : Int) + light_dir 0 = ((6 : Nat) : Int) from rfl,
    show ((0 / 2 : Nat) : Int) = ((0 : Nat) : Int) from rfl,
    vox_eq_column step_volume 0 a b 6 (by decide),
    step_top_column b a 6 (by omega) (by omega) (by decide)]
  rfl

theorem step_not_visible (fw r : Nat) (hf : fw < 64) (hr : r < 64) (h : ¬ step_cell fw r) :
    visible step_volume 0 fw r 5 = false := by
  rw [step_top_visible fw r hf hr]
  exact decide_eq_false h

theorem step_is_visible (fw r : Nat) (hf : fw < 64) (hr : r < 64) (h : step_cell fw r) :
    visible step_volume 0 fw r 5 = true := by
  rw [step_top_visible fw r hf hr]
  exact decide_eq_true h

theorem not_merges_of_next {voxels : List Nat} {face p fw r : Nat} (hr : 1 ≤ r)
    (h : visible voxels face (fw + 1) r p = false) : merges_at voxels face p fw r = false := by
  cases hm : merges_at voxels face p fw r with
  | false => rfl
  | true =>
    have := ((merges_at_iff voxels face p fw r hr).1 hm).2.2.1
    rw [h] at this
    exact absurd this (by decide)

theorem not_walks_of_next {voxels : List Nat} {face p fw r : Nat} (hr : 1 ≤ r)
    (h : visible voxels face fw (r + 1) p = false) : walks_at voxels face p fw r = false := by
  cases hw : walks_at voxels face p fw r with
  | false => rfl
  | true =>
    have := ((walks_at_iff voxels face p fw r hr).1 hw).2.2.2.1
    rw [h] at this
    exact absurd this (by decide)

theorem not_walks_of_here {voxels : List Nat} {face p fw r : Nat} (hr : 1 ≤ r)
    (h : visible voxels face fw r p = false) : walks_at voxels face p fw r = false := by
  cases hw : walks_at voxels face p fw r with
  | false => rfl
  | true =>
    have := ((walks_at_iff voxels face p fw r hr).1 hw).1
    rw [h] at this
    exact absurd this (by decide)

theorem not_merges_of_here {voxels : List Nat} {face p fw r : Nat} (hr : 1 ≤ r)
    (h : visible voxels face fw r p = false) : merges_at voxels face p fw r = false := by
  cases hm : merges_at voxels face p fw r with
  | false => rfl
  | true =>
    have := ((merges_at_iff voxels face p fw r hr).1 hm).1
    rw [h] at this
    exact absurd this (by decide)

theorem step_merges_5_6 : merges_at step_volume 0 5 5 6 = true := by
  rw [merges_at_iff step_volume 0 5 5 6 (by decide)]
  refine ⟨step_is_visible 5 6 (by decide) (by decide) (by decide), by decide,
    step_is_visible 6 6 (by decide) (by decide) (by decide), ?_, ?_⟩
  · rintro ⟨_, hw⟩
    rw [not_walks_of_here (by decide)
      (step_not_visible 5 5 (by decide) (by decide) (by decide))] at hw
    exact absurd hw (by decide)
  · rw [cmp_forward_iff]
    constructor
    · rw [step_top_type 5 6 (by decide) (by decide), step_top_type 6 6 (by decide) (by decide)]
      rfl
    · rw [step_top_pattern 5 6 (by decide) (by decide)]
      exact (step_top_pattern (5 + 1) 6 (by decide) (by decide)).symm

theorem step_emits_5_7 : emits_at step_volume 0 5 5 7 = true := by
  rw [emits_at_iff]
  exact ⟨step_is_visible 5 7 (by decide) (by decide) (by decide),
    not_merges_of_next (by decide) (step_not_visible 6 7 (by decide) (by decide) (by decide)),
    not_walks_of_next (by decide) (step_not_visible 5 8 (by decide) (by decide) (by decide))⟩

theorem step_emits_6_5 : emits_at step_volume 0 5 6 5 = true := by
  rw [emits_at_iff]
  refine ⟨step_is_visible 6 5 (by decide) (by decide) (by decide),
    not_merges_of_next (by decide) (step_not_visible 7 5 (by decide) (by decide) (by decide)),
    ?_⟩
  cases hw : walks_at step_volume 0 5 6 5 with
  | false => rfl
  | true =>
    have he := ((walks_at_iff step_volume 0 5 6 5 (by decide)).1 hw).2.2.2.2.1
    have h1 := run_fwd_succ step_volume 0 5 5 5 (by decide) (by decide) (by decide)
    rw [not_merges_of_here (by decide)
      (step_not_visible 5 5 (by decide) (by decide) (by decide))] at h1
    have h2 := run_fwd_succ step_volume 0 5 5 6 (by decide) (by decide) (by decide)
    rw [step_merges_5_6] at h2
    simp only [if_true, Bool.false_eq_true, if_false] at h1 h2
    rw [h1, h2] at he
    omega

theorem step_emits_6_6 : emits_at step_volume 0 5 6 6 = true := by
  rw [emits_at_iff]
  exact ⟨step_is_visible 6 6 (by decide) (by decide) (by decide),
    not_merges_of_next (by decide) (step_not_visible 7 6 (by decide) (by decide) (by decide)),
    not_walks_of_next (by decide) (step_not_visible 6 7 (by decide) (by decide) (by decide))⟩

theorem three_le_length {α : Type} [DecidableEq α] {a b c : α} {l : List α} (ha : a ∈ l)
    (hb : b ∈ l) (hc : c ∈ l) (hab : a ≠ b) (hac : a ≠ c) (hbc : b ≠ c) : 3 ≤ l.length := by
  have hnd : [a, b, c].Nodup := by
    simp only [List.nodup_cons, List.mem_cons, List.mem_singleton, List.not_mem_nil,
      List.nodup_nil, not_or, or_false, not_false_eq_true, and_true]
    exact ⟨⟨hab, hac⟩, hbc⟩
  have hsub : [a, b, c] ⊆ l := by
    intro x hx
    simp only [List.mem_cons, List.mem_singleton, List.not_mem_nil, or_false] at hx
    rcases hx with e | e | e <;> rw [e] <;> assumption
  exact (List.subperm_of_subset hnd hsub).length_le

theorem step_plane_quads :
    3 ≤ ((all_quads step_volume).filter on_step_plane).length := by
  have key : ∀ fw r, (1 ≤ fw ∧ fw ≤ 62) → (1 ≤ r ∧ r ≤ 62) →
      emits_at step_volume 0 5 fw r = true →
      quad_at step_volume 0 5 fw r ∈ (all_quads step_volume).filter on_step_plane := by
    intro fw r hf hr he
    rw [List.mem_filter]
    refine ⟨quad_at_mem step_volume 0 5 fw r (by decide) (by decide) (by decide) hf.1 hf.2
      hr.1 hr.2 he, ?_⟩
    obtain ⟨a1, a2, _⟩ := quad_at_fields step_volume 0 5 fw r hf.1 hf.2 hr.1 hr.2 (by decide)
    unfold on_step_plane
    rw [a1, a2]
    rfl
  have ne : ∀ fw r fw' r', (1 ≤ fw ∧ fw ≤ 62) → (1 ≤ r ∧ r ≤ 62) → (1 ≤ fw' ∧ fw' ≤ 62) →
      (1 ≤ r' ∧ r' ≤ 62) → ¬ (fw = fw' ∧ r = r') →
      quad_at step_volume 0 5 fw r ≠ quad_at step_volume 0 5 fw' r' :=
    fun fw r fw' r' hf hr hf' hr' hne e =>
      hne (quad_at_back_right hf hr hf' hr' (by decide) e)
  exact three_le_length
    (key 5 7 (by decide) (by decide) step_emits_5_7)
    (key 6 5 (by decide) (by decide) step_emits_6_5)
    (key 6 6 (by decide) (by decide) step_emits_6_6)
    (ne 5 7 6 5 (by decide) (by decide) (by decide) (by decide) (by decide))
    (ne 5 7 6 6 (by decide) (by decide) (by decide) (by decide) (by decide))
    (ne 6 5 6 6 (by decide) (by decide) (by decide) (by decide) (by decide))

theorem covers_on_step_plane {face p fw r : Nat} {q : Quad}
    (h : covers_face face p fw r q = true) : on_step_plane q = decide (face = 0 ∧ p = 5) := by
  obtain ⟨h1, h2, _⟩ := of_decide_eq_true h
  unfold on_step_plane
  rw [decide_eq_decide, h1, h2]
  constructor
  · rintro ⟨e, h6⟩
    subst e
    exact ⟨rfl, by simpa using h6⟩
  · rintro ⟨e, h5⟩
    subst e; subst h5
    exact ⟨rfl, rfl⟩

theorem step_rects_cover (face p fw r : Nat) :
    [step_rect_a, step_rect_b].countP (covers_face face p fw r) =
      if face = 0 ∧ p = 5 ∧ step_cell fw r then 1 else 0 := by
  by_cases hpl : face = 0 ∧ p = 5
  · obtain ⟨e1, e2⟩ := hpl
    subst e1; subst e2
    simp only [List.countP_cons, List.countP_nil, covers_face, step_rect_a, step_rect_b,
      step_cell, true_and]
    by_cases h5 : fw = 5 <;> by_cases h6 : fw = 6 <;> by_cases r5 : r = 5 <;>
      by_cases r6 : r = 6 <;> by_cases r7 : r = 7 <;> simp [h5, h6, r5, r6, r7] <;> omega
  · have ha : covers_face face p fw r step_rect_a = false := by
      cases h : covers_face face p fw r step_rect_a with
      | false => rfl
      | true =>
        have := covers_on_step_plane h
        rw [decide_eq_false hpl] at this
        exact absurd this (by decide)
    have hb : covers_face face p fw r step_rect_b = false := by
      cases h : covers_face face p fw r step_rect_b with
      | false => rfl
      | true =>
        have := covers_on_step_plane h
        rw [decide_eq_false hpl] at this
        exact absurd this (by decide)
    have hn : ¬ (face = 0 ∧ p = 5 ∧ step_cell fw r) := fun h => hpl ⟨h.1, h.2.1⟩
    simp only [List.countP_cons, List.countP_nil, ha, hb, if_neg hn]
    rfl

theorem step_cover_valid : ValidCover step_volume step_cover := by
  have hall := all_quads_valid step_volume
  constructor
  · intro face p fw r hface hp hfw hr hu
    unfold step_cover
    rw [List.countP_append, List.countP_filter, step_rects_cover]
    have hv := (visible_iff_unit_face step_volume face fw r p hp.1 hp.2).2 hu
    by_cases hpl : face = 0 ∧ p = 5
    · obtain ⟨e1, e2⟩ := hpl
      subst e1; subst e2
      have hcell : step_cell fw r := by
        have hf62 : fw ≤ 62 := hfw.2
        have hr62 : r ≤ 62 := hr.2
        rw [step_top_visible fw r (by omega) (by omega)] at hv
        exact of_decide_eq_true hv
      rw [if_pos ⟨rfl, rfl, hcell⟩, List.countP_eq_zero.2]
      intro q _ hq
      simp only [Bool.and_eq_true, Bool.not_eq_true'] at hq
      have := covers_on_step_plane hq.1
      rw [hq.2] at this
      exact absurd this (by decide)
    · have hn : ¬ (face = 0 ∧ p = 5 ∧ step_cell fw r) := fun h => hpl ⟨h.1, h.2.1⟩
      rw [if_neg hn, Nat.add_zero]
      have e : (fun q => covers_face face p fw r q && !on_step_plane q) =
          covers_face face p fw r := by
        funext q
        cases h : covers_face face p fw r q with
        | false => rfl
        | true =>
          rw [covers_on_step_plane h, decide_eq_false hpl]
          rfl
      rw [e]
      exact hall.once face p fw r hface hp hfw hr hu
  · intro q hq p fw r hc
    unfold step_cover at hq
    rcases List.mem_append.1 hq with h | h
    · exact hall.faces q (List.mem_filter.1 h).1 p fw r hc
    · simp only [List.mem_cons, List.mem_singleton, List.not_mem_nil, or_false] at h
      have hc' := of_decide_eq_true hc
      rcases h with e | e <;> subst e <;>
        simp only [step_rect_a, step_rect_b, Nat.zero_mod, if_true] at hc' ⊢ <;>
        (have hp5 : p = 5 := by omega
         subst hp5
         have hcell : step_cell fw r := by
           unfold step_cell
           omega
         refine ⟨by decide, by decide, by show 1 ≤ fw ∧ fw ≤ 62; omega,
           by show 1 ≤ r ∧ r ≤ 62; omega, ?_⟩
         exact (visible_iff_unit_face step_volume 0 fw r 5 (by decide) (by decide)).1
           (step_is_visible fw r (by omega) (by omega) hcell))
  · intro q hq p fw r fw' r' hc hc'
    unfold step_cover at hq
    rcases List.mem_append.1 hq with h | h
    · exact hall.uniform q (List.mem_filter.1 h).1 p fw r fw' r' hc hc'
    · simp only [List.mem_cons, List.mem_singleton, List.not_mem_nil, or_false] at h
      have h1 := of_decide_eq_true hc
      have h2 := of_decide_eq_true hc'
      rcases h with e | e <;> subst e <;>
        simp only [step_rect_a, step_rect_b, Nat.zero_mod, if_true] at h1 h2 ⊢ <;>
        (have hp5 : p = 5 := by omega
         subst hp5
         have hcell : step_cell fw r := by
           unfold step_cell
           omega
         have hcell' : step_cell fw' r' := by
           unfold step_cell
           omega
         rw [step_top_type fw r (by omega) (by omega), step_top_type fw' r' (by omega) (by omega),
           if_pos hcell, if_pos hcell', step_top_pattern fw r (by omega) (by omega),
           step_top_pattern fw' r' (by omega) (by omega)]
         exact ⟨rfl, rfl⟩)

theorem length_filter_split {α : Type} (P : α → Bool) :
    ∀ l : List α, l.length = (l.filter P).length + (l.filter (fun q => !P q)).length := by
  intro l
  induction l with
  | nil => rfl
  | cons a l ih =>
    cases h : P a with
    | true =>
      rw [List.filter_cons_of_pos h, List.filter_cons_of_neg (by simp [h]), List.length_cons,
        List.length_cons, ih]
      omega
    | false =>
      rw [List.filter_cons_of_neg (by simp [h]), List.filter_cons_of_pos (by simp [h]),
        List.length_cons, List.length_cons, ih]
      omega

theorem cover_length_lt {α : Type} (P : α → Bool) (l : List α) (a b : α)
    (h3 : 3 ≤ (l.filter P).length) :
    (l.filter (fun q => !P q) ++ [a, b]).length < l.length := by
  have hsplit := length_filter_split P l
  rw [List.length_append, List.length_cons, List.length_cons, List.length_nil]
  omega

theorem step_cover_length : step_cover.length < (all_quads step_volume).length := by
  have h := cover_length_lt on_step_plane (all_quads step_volume) step_rect_a step_rect_b
    step_plane_quads
  unfold step_cover
  exact h

/-- Claim C18 fails as stated: for `step_volume`, four solid voxels of one material in
one layer, there is a cover of the visible interior faces by uniform rectangles, each
face covered exactly once, with fewer rectangles than `mesh` emits: on the top plane
`mesh` emits three quads where two rectangles suffice. -/
theorem C18_counterexample :
    ∃ s, mesh_run step_volume = some s ∧ ValidCover step_volume step_cover ∧
      step_cover.length < s.quads.length := by
  obtain ⟨s, hs, hq, _⟩ := mesh_result step_volume step_volume_length
  refine ⟨s, hs, step_cover_valid, ?_⟩
  rw [hq]
  exact step_cover_length

/-- Claim C18, as amended: for every volume, the quads emitted by `mesh` cover every
visible interior face exactly once by rectangles uniform in face direction, plane,
material id and AO pattern, and no two emitted quads that lie side by side on one
plane (so that their union is a rectangle) can be merged into one such rectangle: the
unit faces of the two never all share one material id and one AO pattern.  The set
need not have the fewest rectangles possible. -/
theorem C18_no_two_quads_merge (voxels : List Nat) (hlen : voxels.length = CS_P3) :
    ∃ s, mesh_run voxels = some s ∧ ValidCover voxels s.quads ∧
      ∀ q1 ∈ s.quads, ∀ q2 ∈ s.quads, q1.joins q2 → ¬ uniform_pair voxels q1 q2 := by
  obtain ⟨s, hs, hq, _⟩ := mesh_result voxels hlen
  refine ⟨s, hs, ?_, ?_⟩
  · rw [hq]
    exact all_quads_valid voxels
  · intro q1 h1 q2 h2 hj
    rw [hq] at h1 h2
    exact emitted_pair_not_uniform h1 h2 hj

theorem C18_witness :
    step_volume.length = CS_P3 ∧
      ∃ s, mesh_run step_volume = some s ∧ ValidCover step_volume s.quads ∧
        ∀ q1 ∈ s.quads, ∀ q2 ∈ s.quads, q1.joins q2 → ¬ uniform_pair step_volume q1 q2 :=
  ⟨step_volume_length, C18_no_two_quads_merge step_volume step_volume_length⟩

/-! ## The diagonal along which a rectangle is split -/

theorem shared_edge_flipped {a b c d : Nat} (hab : a ≠ b) (hac : a ≠ c) (had : a ≠ d) :
    shared_edge [a, b, d, d, b, c] = [b, d] := by
  unfold shared_edge
  simp [List.filter, hab, hac, had]

theorem shared_edge_default {a b c d : Nat} (hbc : b ≠ c) (hbd : b ≠ d) (hba : b ≠ a) :
    shared_edge [a, b, c, c, d, a] = [a, c] := by
  unfold shared_edge
  simp [List.filter, hbc, hbd, hba]

theorem shared_corners_eq {q : Quad} (hfit : QuadFits q) (hlr : q.mesh_left < q.mesh_right)
    (hfb : q.mesh_front < q.mesh_back) :
    shared_corners q =
      if q.face % 2 = 0 then
        (if q.ao_LB + q.ao_RF > q.ao_RB + q.ao_LF then
          [(q.mesh_back, q.mesh_left), (q.mesh_front, q.mesh_right)]
        else [(q.mesh_front, q.mesh_left), (q.mesh_back, q.mesh_right)])
      else
        (if q.ao_LB + q.ao_RF > q.ao_RB + q.ao_LF then
          [(q.mesh_front, q.mesh_left), (q.mesh_back, q.mesh_right)]
        else [(q.mesh_back, q.mesh_left), (q.mesh_front, q.mesh_right)]) := by
  have hpos := decoded_corner_positions_eq q hfit
  have h6 : q.face = 0 ∨ q.face = 1 ∨ q.face = 2 ∨ q.face = 3 ∨ q.face = 4 ∨ q.face = 5 := by
    have := hfit.face
    omega
  unfold decoded_corner_positions at hpos
  unfold shared_corners
  rw [quad_vertices_eq]
  rcases h6 with f | f | f | f | f | f <;>
    simp only [Quad.corner_positions, f, if_true, if_false, OfNat.ofNat_ne_zero,
      OfNat.zero_ne_ofNat, Nat.reduceEqDiff, one_ne_zero, Nat.succ_ne_self, List.map_cons,
      List.map_nil, List.cons.injEq, Prod.mk.injEq, and_true] at hpos <;>
    obtain ⟨⟨x1, y1, z1⟩, ⟨x2, y2, z2⟩, ⟨x3, y3, z3⟩, ⟨x4, y4, z4⟩⟩ := hpos <;>
    (have n12 : q.corners.1 ≠ q.corners.2.1 := by
       intro e
       rw [e] at x1 y1 z1
       omega
     have n13 : q.corners.1 ≠ q.corners.2.2.1 := by
       intro e
       rw [e] at x1 y1 z1
       omega
     have n14 : q.corners.1 ≠ q.corners.2.2.2 := by
       intro e
       rw [e] at x1 y1 z1
       omega
     have n23 : q.corners.2.1 ≠ q.corners.2.2.1 := by
       intro e
       rw [e] at x2 y2 z2
       omega
     have n24 : q.corners.2.1 ≠ q.corners.2.2.2 := by
       intro e
       rw [e] at x2 y2 z2
       omega
     split
     · rw [shared_edge_flipped n12 n13 n14]
       simp only [List.map_cons, List.map_nil, plane_corner, x2, y2, z2, x4, y4, z4, f,
         Nat.reduceDiv, Nat.reduceMod, if_true, if_false, OfNat.ofNat_ne_zero,
         OfNat.zero_ne_ofNat, OfNat.ofNat_ne_one, OfNat.one_ne_ofNat, one_ne_zero,
         zero_ne_one, Nat.reduceEqDiff, Nat.succ_ne_self]
     · rw [shared_edge_default n23 n24 n12.symm]
       simp only [List.map_cons, List.map_nil, plane_corner, x1, y1, z1, x3, y3, z3, f,
         Nat.reduceDiv, Nat.reduceMod, if_true, if_false, OfNat.ofNat_ne_zero,
         OfNat.zero_ne_ofNat, OfNat.ofNat_ne_one, OfNat.one_ne_ofNat, one_ne_zero,
         zero_ne_one, Nat.reduceEqDiff, Nat.succ_ne_self])

/-- The shared edge of every emitted rectangle, by the parity of its face id. -/
theorem emitted_shared_corners {voxels : List Nat} (hbytes : ∀ v ∈ voxels, v < 256) {q : Quad}
    (hq : q ∈ all_quads voxels) :
    shared_corners q =
      if q.face % 2 = 0 then
        (if q.ao_LB + q.ao_RF > q.ao_RB + q.ao_LF then
          [(q.mesh_back, q.mesh_left), (q.mesh_front, q.mesh_right)]
        else [(q.mesh_front, q.mesh_left), (q.mesh_back, q.mesh_right)])
      else
        (if q.ao_LB + q.ao_RF > q.ao_RB + q.ao_LF then
          [(q.mesh_front, q.mesh_left), (q.mesh_back, q.mesh_right)]
        else [(q.mesh_back, q.mesh_left), (q.mesh_front, q.mesh_right)]) := by
  obtain ⟨h1, h2, _⟩ := emitted_quad_bounds hq
  exact shared_corners_eq (emitted_quad_fits hbytes hq) h1.2.1 h2.2.1

/-! ## A volume with a darkened corner on a downward face -/

theorem corner_volume_voxel (x y z : Nat) (hx : x < CS_P) (hy : y < CS_P) (hz : z < CS_P) :
    voxel corner_volume x y z =
      if (x = 5 ∧ y = 6 ∧ z = 8) ∨ (x = 4 ∧ y = 5 ∧ z = 7) then 7 else 0 := by
  unfold voxel corner_volume
  have hx' : x < 64 := hx
  have hy' : y < 64 := hy
  have hz' : z < 64 := hz
  rw [getD_map_range _ _ _ (by show z + x * 64 + y * 4096 < 262144; omega)]
  have e1 : (z + x * CS_P + y * CS_P2) / CS_P % CS_P = x := by
    show (z + x * 64 + y * 4096) / 64 % 64 = x
    omega
  have e2 : (z + x * CS_P + y * CS_P2) / CS_P2 = y := by
    show (z + x * 64 + y * 4096) / 4096 = y
    omega
  have e3 : (z + x * CS_P + y * CS_P2) % CS_P = z := by
    show (z + x * 64 + y * 4096) % 64 = z
    omega
  simp only [e1, e2, e3]

theorem corner_volume_length : corner_volume.length = CS_P3 := by
  simp [corner_volume]

theorem corner_volume_bytes : ∀ v ∈ corner_volume, v < 256 := by
  intro v hv
  unfold corner_volume at hv
  rw [List.mem_map] at hv
  obtain ⟨i, _, e⟩ := hv
  rw [← e]
  split <;> decide

theorem corner_column (fw r p : Nat) (hf : fw < 64) (hr : r < 64) (hp : p < 64) :
    column_voxel corner_volume 0 r fw p =
      if (r = 5 ∧ p = 6 ∧ fw = 8) ∨ (r = 4 ∧ p = 5 ∧ fw = 7) then 7 else 0 := by
  unfold column_voxel
  rw [if_pos rfl]
  exact corner_volume_voxel r p fw hr hp hf

theorem corner_visible (fw r : Nat) (hf : fw < 64) (hr : r < 64) :
    visible corner_volume 1 fw r 6 = decide (fw = 8 ∧ r = 5) := by
  unfold visible
  rw [show (1 : Nat) / 2 = 0 from rfl, if_neg (by decide),
    solid_at_column corner_volume 0 r fw 6 (by decide),
    solid_at_column corner_volume 0 r fw (6 - 1) (by decide),
    corner_column fw r 6 hf hr (by decide), corner_column fw r (6 - 1) hf hr (by decide)]
  by_cases h1 : fw = 8 <;> by_cases h2 : r = 5 <;> simp [h1, h2]

theorem corner_layer (a b : Nat) (ha : a < 64) (hb : b < 64) :
    solid_check (vox corner_volume ((1 / 2 : Nat) : Int) (a : Int) (b : Int)
      (((6 : Nat) : Int) + light_dir 1)) = decide (a = 4 ∧ b = 7) := by
  rw [show ((6 : Nat) : Int) + light_dir 1 = ((5 : Nat) : Int) from rfl,
    show ((1 / 2 : Nat) : Int) = ((0 : Nat) : Int) from rfl,
    vox_eq_column corner_volume 0 a b 5 (by decide), corner_column b a 5 hb ha (by decide)]
  unfold solid_check
  by_cases h1 : a = 4 <;> by_cases h2 : b = 7 <;> simp [h1, h2]

theorem corner_face_ao : face_ao corner_volume 1 6 8 5 = (3, 2, 3, 3) := by
  unfold face_ao
  simp only []
  rw [show ((8 : Nat) : Int) - 1 = ((7 : Nat) : Int) from rfl,
    show ((8 : Nat) : Int) + 1 = ((9 : Nat) : Int) from rfl,
    show ((5 : Nat) : Int) - 1 = ((4 : Nat) : Int) from rfl,
    show ((5 : Nat) : Int) + 1 = ((6 : Nat) : Int) from rfl]
  simp only [corner_layer _ _ (show (4 : Nat) < 64 by decide) (show (7 : Nat) < 64 by decide),
    corner_layer _ _ (show (4 : Nat) < 64 by decide) (show (8 : Nat) < 64 by decide),
    corner_layer _ _ (show (4 : Nat) < 64 by decide) (show (9 : Nat) < 64 by decide),
    corner_layer _ _ (show (5 : Nat) < 64 by decide) (show (7 : Nat) < 64 by decide),
    corner_layer _ _ (show (5 : Nat) < 64 by decide) (show (9 : Nat) < 64 by decide),
    corner_layer _ _ (show (6 : Nat) < 64 by decide) (show (7 : Nat) < 64 by decide),
    corner_layer _ _ (show (6 : Nat) < 64 by decide) (show (8 : Nat) < 64 by decide),
    corner_layer _ _ (show (6 : Nat) < 64 by decide) (show (9 : Nat) < 64 by decide)]
  decide

/-- The rectangle that `mesh` emits for the downward face of the voxel at `(5, 6, 8)` of
`corner_volume`. -/
theorem corner_quad :
    ∃ q ∈ all_quads corner_volume, q.face = 1 ∧
      q.mesh_left = 5 ∧ q.mesh_right = 6 ∧ q.mesh_front = 8 ∧ q.mesh_back = 9 ∧ q.mesh_up = 6 ∧
      q.ao_LB = 3 ∧ q.ao_LF = 2 ∧ q.ao_RB = 3 ∧ q.ao_RF = 3 := by
  have hv : visible corner_volume 1 8 5 6 = true := by
    rw [corner_visible 8 5 (by decide) (by decide)]
    decide
  have hc := count_covering corner_volume 1 6 8 5 (by decide) (by decide) (by decide)
    (by decide) (by decide) (by decide) (by decide) hv
  have hpos : 0 < (all_quads corner_volume).countP (covers_face 1 6 8 5) := by
    rw [hc]
    decide
  obtain ⟨q, hq, hcov⟩ := List.countP_pos_iff.1 hpos
  have hcov' := hcov
  unfold covers_face at hcov'
  obtain ⟨hface, hup, hf1, hf2, hl1, hl2⟩ := of_decide_eq_true hcov'
  have hao := (covered_ao corner_volume_bytes hq (p := 6) (a := 8) (b := 5)
    (by rw [hface]; exact hcov)).1
  rw [hface, corner_face_ao] at hao
  obtain ⟨_, p, hp1, hp, hpu, hfb, hlr, hcells⟩ := quad_cells_visible hq
  have hp6 : p = 6 := by
    rw [hface] at hpu
    have e : (if 1 % 2 = 0 then 1 else 0) = 0 := rfl
    rw [e] at hpu hup
    omega
  subst hp6
  rw [hface] at hcells
  have key : ∀ fw r, q.mesh_front ≤ fw → fw < q.mesh_back → q.mesh_left ≤ r →
      r < q.mesh_right → fw = 8 ∧ r = 5 := by
    intro fw r a1 a2 a3 a4
    obtain ⟨b1, b2, b3⟩ := hcells fw r a1 a2 a3 a4
    have b1' : fw ≤ 62 := b1.2
    have b2' : r ≤ 62 := b2.2
    have hvis := (visible_iff_unit_face corner_volume 1 fw r 6 (by decide) (by decide)).2 b3
    rw [corner_visible fw r (by omega) (by omega)] at hvis
    exact of_decide_eq_true hvis
  have k1 := key q.mesh_front q.mesh_left (le_refl _) hfb (le_refl _) hlr
  have k2 := key (q.mesh_back - 1) (q.mesh_right - 1) (by omega) (by omega) (by omega)
    (by omega)
  have e : (if 1 % 2 = 0 then 1 else 0) = 0 := rfl
  rw [e] at hup
  simp only [Prod.mk.injEq] at hao
  refine ⟨q, hq, hface, k1.2, by omega, k1.1, by omega, by omega, hao.1.symm, hao.2.1.symm,
    hao.2.2.1.symm, hao.2.2.2.symm⟩

/-- Claim C21, on the downward face (face id 1): in the volume with solid voxels at
`(5, 6, 8)` and `(4, 5, 7)`, `mesh` emits for the downward face of the first voxel the
unit rectangle with `left = 5`, `right = 6`, `front = 8`, `back = 9`, whose corner AO
values are 3 at left-back, 2 at left-front, 3 at right-back and 3 at right-front, so
that AO(left-back) + AO(right-front) > AO(right-back) + AO(left-front); the edge shared
by its two triangles has the ends `(forward, right) = (8, 5)` and `(9, 6)`, which are
the left-front and the right-back corner, and neither end is the left-back corner
`(9, 5)` or the right-front corner `(8, 6)`. -/
theorem C21_odd_face_diagonal :
    ∃ s, mesh_run corner_volume = some s ∧ ∃ q ∈ s.quads, q.face = 1 ∧
      q.mesh_left = 5 ∧ q.mesh_right = 6 ∧ q.mesh_front = 8 ∧ q.mesh_back = 9 ∧
      q.ao_LB = 3 ∧ q.ao_LF = 2 ∧ q.ao_RB = 3 ∧ q.ao_RF = 3 ∧
      q.ao_LB + q.ao_RF > q.ao_RB + q.ao_LF ∧
      shared_corners q = [(q.mesh_front, q.mesh_left), (q.mesh_back, q.mesh_right)] ∧
      shared_corners q = [(8, 5), (9, 6)] ∧
      (q.mesh_back, q.mesh_left) ∉ shared_corners q ∧
      (q.mesh_front, q.mesh_right) ∉ shared_corners q := by
  obtain ⟨s, hs, hq, _⟩ := mesh_result corner_volume corner_volume_length
  obtain ⟨q, hmem, hface, hl, hr, hf, hb, _, a1, a2, a3, a4⟩ := corner_quad
  have hsh := emitted_shared_corners corner_volume_bytes hmem
  rw [hface, if_neg (by decide), if_pos (by rw [a1, a2, a3, a4]; decide)] at hsh
  refine ⟨s, hs, q, by rw [hq]; exact hmem, hface, hl, hr, hf, hb, a1, a2, a3, a4,
    by rw [a1, a2, a3, a4]; decide, hsh, ?_, ?_, ?_⟩
  · rw [hsh, hl, hr, hf, hb]
  · rw [hsh, hl, hr, hf, hb]
    decide
  · rw [hsh, hl, hr, hf, hb]
    decide

/-! ## The AO level carried by each corner position -/

theorem corner_words_decoded {q : Quad} (hfit : QuadFits q) :
    [q.corners.1, q.corners.2.1, q.corners.2.2.1, q.corners.2.2.2].map (decoded_corner q.face) =
      if q.face % 2 = 0 then
        [((q.mesh_front, q.mesh_left), q.mesh_up, q.ao_LF),
         ((q.mesh_back, q.mesh_left), q.mesh_up, q.ao_LB),
         ((q.mesh_back, q.mesh_right), q.mesh_up, q.ao_RB),
         ((q.mesh_front, q.mesh_right), q.mesh_up, q.ao_RF)]
      else
        [((q.mesh_back, q.mesh_left), q.mesh_up, q.ao_LB),
         ((q.mesh_front, q.mesh_left), q.mesh_up, q.ao_LF),
         ((q.mesh_front, q.mesh_right), q.mesh_up, q.ao_RF),
         ((q.mesh_back, q.mesh_right), q.mesh_up, q.ao_RB)] := by
  have hpos := decoded_corner_positions_eq q hfit
  have hao := decoded_corner_aos_eq q hfit
  have h6 : q.face = 0 ∨ q.face = 1 ∨ q.face = 2 ∨ q.face = 3 ∨ q.face = 4 ∨ q.face = 5 := by
    have := hfit.face
    omega
  unfold decoded_corner_positions at hpos
  unfold decoded_corner_aos at hao
  rcases h6 with f | f | f | f | f | f <;>
    simp only [Quad.corner_positions, f, if_true, if_false, OfNat.ofNat_ne_zero,
      OfNat.zero_ne_ofNat, Nat.reduceEqDiff, one_ne_zero, Nat.succ_ne_self, List.map_cons,
      List.map_nil, List.cons.injEq, Prod.mk.injEq, and_true, Nat.reduceMod] at hpos hao <;>
    obtain ⟨⟨x1, y1, z1⟩, ⟨x2, y2, z2⟩, ⟨x3, y3, z3⟩, ⟨x4, y4, z4⟩⟩ := hpos <;>
    obtain ⟨o1, o2, o3, o4⟩ := hao <;>
    simp only [List.map_cons, List.map_nil, decoded_corner, plane_corner, plane_height,
      x1, y1, z1, x2, y2, z2, x3, y3, z3, x4, y4, z4, o1, o2, o3, o4, f,
      Nat.reduceDiv, Nat.reduceMod, if_true, if_false, OfNat.ofNat_ne_zero,
      OfNat.zero_ne_ofNat, OfNat.ofNat_ne_one, OfNat.one_ne_ofNat, one_ne_zero,
      zero_ne_one, Nat.reduceEqDiff, Nat.succ_ne_self]

theorem corners_mem_quad_vertices (q : Quad) :
    ∀ w ∈ [q.corners.1, q.corners.2.1, q.corners.2.2.1, q.corners.2.2.2],
      w ∈ quad_vertices q := by
  intro w hw
  rw [quad_vertices_eq]
  simp only [List.mem_cons, List.mem_singleton, List.not_mem_nil, or_false] at hw
  split <;> rcases hw with e | e | e | e <;> subst e <;> simp

/-- Every vertex word of a fitting rectangle lies at one of its four corners and
carries the AO level of that corner, and every corner has a vertex word. -/
theorem quad_corner_levels {q : Quad} (hfit : QuadFits q) :
    (∀ w ∈ quad_vertices q,
      decoded_corner q.face w ∈ corner_levels q (q.ao_LB, q.ao_LF, q.ao_RB, q.ao_RF)) ∧
    (∀ c ∈ corner_levels q (q.ao_LB, q.ao_LF, q.ao_RB, q.ao_RF),
      ∃ w ∈ quad_vertices q, decoded_corner q.face w = c) := by
  have hmap := corner_words_decoded hfit
  have hsub : ∀ c, c ∈ [q.corners.1, q.corners.2.1, q.corners.2.2.1, q.corners.2.2.2].map
        (decoded_corner q.face) ↔
      c ∈ corner_levels q (q.ao_LB, q.ao_LF, q.ao_RB, q.ao_RF) := by
    intro c
    rw [hmap]
    unfold corner_levels
    split <;>
      (simp only [List.mem_cons, List.mem_singleton, List.not_mem_nil, or_false]
       try tauto)
  constructor
  · intro w hw
    apply (hsub _).1
    apply List.mem_map_of_mem
    have := mem_quad_vertices hw
    simp only [List.mem_cons, List.mem_singleton, List.not_mem_nil, or_false]
    exact this
  · intro c hc
    obtain ⟨w, hw, e⟩ := List.mem_map.1 ((hsub c).2 hc)
    exact ⟨w, corners_mem_quad_vertices q w hw, e⟩

/-- A rectangle that covers a unit face ends at the boundary to a neighbouring unit
face with another solidity pattern. -/
theorem covered_split {voxels : List Nat} {q : Quad} (hq : q ∈ all_quads voxels)
    (p fw r : Nat) :
    (ao_pattern voxels q.face p fw r ≠ ao_pattern voxels q.face p fw (r + 1 : Nat) →
      (covers_face q.face p fw r q = true → q.mesh_right = r + 1) ∧
      (covers_face q.face p fw (r + 1) q = true → q.mesh_left = r + 1)) ∧
    (ao_pattern voxels q.face p fw r ≠ ao_pattern voxels q.face p (fw + 1 : Nat) r →
      (covers_face q.face p fw r q = true → q.mesh_back = fw + 1) ∧
      (covers_face q.face p (fw + 1) r q = true → q.mesh_front = fw + 1)) := by
  refine ⟨fun hne => ⟨fun hc => ?_, fun hc => ?_⟩, fun hne => ⟨fun hc => ?_, fun hc => ?_⟩⟩
  · by_contra hcon
    obtain ⟨h1, h2, h3, h4, h5, h6⟩ := of_decide_eq_true hc
    have hc' : covers_face q.face p fw (r + 1) q = true :=
      decide_eq_true ⟨h1, h2, h3, h4, by omega, by omega⟩
    exact hne (covered_pattern hq hc hc')
  · by_contra hcon
    obtain ⟨h1, h2, h3, h4, h5, h6⟩ := of_decide_eq_true hc
    have hc' : covers_face q.face p fw r q = true :=
      decide_eq_true ⟨h1, h2, h3, h4, by omega, by omega⟩
    exact hne (covered_pattern hq hc' hc)
  · by_contra hcon
    obtain ⟨h1, h2, h3, h4, h5, h6⟩ := of_decide_eq_true hc
    have hc' : covers_face q.face p (fw + 1) r q = true :=
      decide_eq_true ⟨h1, h2, by omega, by omega, h5, h6⟩
    exact hne (covered_pattern hq hc hc')
  · by_contra hcon
    obtain ⟨h1, h2, h3, h4, h5, h6⟩ := of_decide_eq_true hc
    have hc' : covers_face q.face p fw r q = true :=
      decide_eq_true ⟨h1, h2, by omega, by omega, h5, h6⟩
    exact hne (covered_pattern hq hc' hc)

/-! ## A run of four faces with one darkened corner -/

theorem run_volume_voxel (x y z : Nat) (hx : x < CS_P) (hy : y < CS_P) (hz : z < CS_P) :
    voxel run_volume x y z =
      if (y = 5 ∧ z = 5 ∧ 5 ≤ x ∧ x ≤ 8) ∨ (x = 9 ∧ y = 6 ∧ z = 4) then 7 else 0 := by
  unfold voxel run_volume
  have hx' : x < 64 := hx
  have hy' : y < 64 := hy
  have hz' : z < 64 := hz
  rw [getD_map_range _ _ _ (by show z + x * 64 + y * 4096 < 262144; omega)]
  have e1 : (z + x * CS_P + y * CS_P2) / CS_P % CS_P = x := by
    show (z + x * 64 + y * 4096) / 64 % 64 = x
    omega
  have e2 : (z + x * CS_P + y * CS_P2) / CS_P2 = y := by
    show (z + x * 64 + y * 4096) / 4096 = y
    omega
  have e3 : (z + x * CS_P + y * CS_P2) % CS_P = z := by
    show (z + x * 64 + y * 4096) % 64 = z
    omega
  simp only [e1, e2, e3]

theorem run_volume_length : run_volume.length = CS_P3 := by
  simp [run_volume]

theorem run_volume_bytes : ∀ v ∈ run_volume, v < 256 := by
  intro v hv
  unfold run_volume at hv
  rw [List.mem_map] at hv
  obtain ⟨i, _, e⟩ := hv
  rw [← e]
  split <;> decide

theorem run_column (fw r p : Nat) (hf : fw < 64) (hr : r < 64) (hp : p < 64) :
    column_voxel run_volume 0 r fw p =
      if (p = 5 ∧ fw = 5 ∧ 5 ≤ r ∧ r ≤ 8) ∨ (r = 9 ∧ p = 6 ∧ fw = 4) then 7 else 0 := by
  unfold column_voxel
  rw [if_pos rfl]
  exact run_volume_voxel r p fw hr hp hf

theorem run_visible (fw r : Nat) (hf : fw < 64) (hr : r < 64) :
    visible run_volume 0 fw r 5 = decide (fw = 5 ∧ 5 ≤ r ∧ r ≤ 8) := by
  unfold visible
  rw [show (0 : Nat) / 2 = 0 from rfl, if_pos (by decide),
    solid_at_column run_volume 0 r fw 5 (by decide),
    solid_at_column run_volume 0 r fw (5 + 1) (by decide),
    run_column fw r 5 hf hr (by decide), run_column fw r (5 + 1) hf hr (by decide)]
  by_cases h1 : fw = 5 <;> by_cases h2 : 5 ≤ r ∧ r ≤ 8 <;> simp [h1, h2]

theorem run_type (fw r : Nat) (hf : fw < 64) (hr : r < 64) :
    cell_type run_volume 0 5 fw r = if fw = 5 ∧ 5 ≤ r ∧ r ≤ 8 then 7 else 0 := by
  unfold cell_type
  rw [show ((0 / 2 : Nat) : Int) = ((0 : Nat) : Int) from rfl,
    vox_eq_column run_volume 0 r fw 5 (by decide), run_column fw r 5 hf hr (by decide)]
  simp

theorem run_layer (a b : Nat) (ha : a < 64) (hb : b < 64) :
    solid_check (vox run_volume ((0 / 2 : Nat) : Int) (a : Int) (b : Int)
      (((5 : Nat) : Int) + light_dir 0)) = decide (a = 9 ∧ b = 4) := by
  rw [show ((5 : Nat) : Int) + light_dir 0 = ((6 : Nat) : Int) from rfl,
    show ((0 / 2 : Nat) : Int) = ((0 : Nat) : Int) from rfl,
    vox_eq_column run_volume 0 a b 6 (by decide), run_column b a 6 hb ha (by decide)]
  unfold solid_check
  by_cases h1 : a = 9 <;> by_cases h2 : b = 4 <;> simp [h1, h2]

theorem run_pattern (fw r : Nat) (hf : 1 ≤ fw ∧ fw ≤ 62) (hr : 1 ≤ r ∧ r ≤ 62) :
    ao_pattern run_volume 0 5 fw r =
      ao_dirs.map (fun d => decide ((r : Int) + d.1 = 9 ∧ (fw : Int) + d.2 = 4)) := by
  unfold ao_pattern
  apply List.map_congr_left
  intro d hd
  obtain ⟨d1, d2, d3, d4⟩ := ao_dirs_bounds d hd
  obtain ⟨a, ha⟩ := Int.eq_ofNat_of_zero_le (show 0 ≤ (r : Int) + d.1 by omega)
  obtain ⟨b, hb⟩ := Int.eq_ofNat_of_zero_le (show 0 ≤ (fw : Int) + d.2 by omega)
  rw [ha, hb, run_layer a b (by omega) (by omega), decide_eq_decide]
  omega

theorem run_pattern_plain (r : Nat) (hr : 1 ≤ r ∧ r ≤ 7) :
    ao_pattern run_volume 0 5 (5 : Nat) r = ao_dirs.map (fun _ => false) := by
  rw [run_pattern 5 r (by decide) ⟨hr.1, by omega⟩]
  apply List.map_congr_left
  intro d hd
  obtain ⟨d1, d2, d3, d4⟩ := ao_dirs_bounds d hd
  apply decide_eq_false
  omega

theorem run_pattern_end :
    ao_pattern run_volume 0 5 (5 : Nat) (8 : Nat) ≠ ao_dirs.map (fun _ => false) := by
  rw [run_pattern 5 8 (by decide) (by decide)]
  decide

theorem run_face_ao_plain : face_ao run_volume 0 5 5 7 = (3, 3, 3, 3) := by
  unfold face_ao
  simp only []
  rw [show ((5 : Nat) : Int) - 1 = ((4 : Nat) : Int) from rfl,
    show ((5 : Nat) : Int) + 1 = ((6 : Nat) : Int) from rfl,
    show ((7 : Nat) : Int) - 1 = ((6 : Nat) : Int) from rfl,
    show ((7 : Nat) : Int) + 1 = ((8 : Nat) : Int) from rfl]
  simp only [run_layer _ _ (show (6 : Nat) < 64 by decide) (show (4 : Nat) < 64 by decide),
    run_layer _ _ (show (6 : Nat) < 64 by decide) (show (5 : Nat) < 64 by decide),
    run_layer _ _ (show (6 : Nat) < 64 by decide) (show (6 : Nat) < 64 by decide),
    run_layer _ _ (show (7 : Nat) < 64 by decide) (show (4 : Nat) < 64 by decide),
    run_layer _ _ (show (7 : Nat) < 64 by decide) (show (6 : Nat) < 64 by decide),
    run_layer _ _ (show (8 : Nat) < 64 by decide) (show (4 : Nat) < 64 by decide),
    run_layer _ _ (show (8 : Nat) < 64 by decide) (show (5 : Nat) < 64 by decide),
    run_layer _ _ (show (8 : Nat) < 64 by decide) (show (6 : Nat) < 64 by decide)]
  decide

theorem run_face_ao_end : face_ao run_volume 0 5 5 8 = (3, 3, 3, 2) := by
  unfold face_ao
  simp only []
  rw [show ((5 : Nat) : Int) - 1 = ((4 : Nat) : Int) from rfl,
    show ((5 : Nat) : Int) + 1 = ((6 : Nat) : Int) from rfl,
    show ((8 : Nat) : Int) - 1 = ((7 : Nat) : Int) from rfl,
    show ((8 : Nat) : Int) + 1 = ((9 : Nat) : Int) from rfl]
  simp only [run_layer _ _ (show (7 : Nat) < 64 by decide) (show (4 : Nat) < 64 by decide),
    run_layer _ _ (show (7 : Nat) < 64 by decide) (show (5 : Nat) < 64 by decide),
    run_layer _ _ (show (7 : Nat) < 64 by decide) (show (6 : Nat) < 64 by decide),
    run_layer _ _ (show (8 : Nat) < 64 by decide) (show (4 : Nat) < 64 by decide),
    run_layer _ _ (show (8 : Nat) < 64 by decide) (show (6 : Nat) < 64 by decide),
    run_layer _ _ (show (9 : Nat) < 64 by decide) (show (4 : Nat) < 64 by decide),
    run_layer _ _ (show (9 : Nat) < 64 by decide) (show (5 : Nat) < 64 by decide),
    run_layer _ _ (show (9 : Nat) < 64 by decide) (show (6 : Nat) < 64 by decide)]
  decide

theorem run_not_merges (r : Nat) (hr : 1 ≤ r ∧ r ≤ 62) :
    merges_at run_volume 0 5 5 r = false := by
  apply not_merges_of_next hr.1
  rw [run_visible (5 + 1) r (by decide) (by omega)]
  exact decide_eq_false (fun h => absurd h.1 (by decide))

theorem run_fwd_zero (r : Nat) (hr : 1 ≤ r ∧ r ≤ 62) : run_fwd run_volume 0 5 5 r = 0 := by
  have h := run_fwd_succ run_volume 0 5 4 r (by decide) hr.1 hr.2
  have hm : merges_at run_volume 0 5 4 r = false := by
    apply not_merges_of_here hr.1
    rw [run_visible 4 r (by decide) (by omega)]
    exact decide_eq_false (fun h => absurd h.1 (by decide))
  rw [hm] at h
  simpa using h

theorem run_walks (r : Nat) (hr : 5 ≤ r ∧ r ≤ 6) : walks_at run_volume 0 5 5 r = true := by
  rw [walks_at_iff run_volume 0 5 5 r (by omega)]
  refine ⟨?_, run_not_merges r ⟨by omega, by omega⟩, by omega, ?_, ?_, ?_⟩
  · rw [run_visible 5 r (by decide) (by omega)]
    exact decide_eq_true ⟨rfl, by omega, by omega⟩
  · rw [run_visible 5 (r + 1) (by decide) (by omega)]
    exact decide_eq_true ⟨rfl, by omega, by omega⟩
  · rw [run_fwd_zero r ⟨by omega, by omega⟩, run_fwd_zero (r + 1) ⟨by omega, by omega⟩]
  · rw [cmp_right_iff]
    constructor
    · rw [run_type 5 r (by decide) (by omega), run_type 5 (r + 1) (by decide) (by omega),
        if_pos ⟨rfl, by omega, by omega⟩, if_pos ⟨rfl, by omega, by omega⟩]
    · rw [run_pattern_plain r ⟨by omega, by omega⟩,
        run_pattern_plain (r + 1) ⟨by omega, by omega⟩]

theorem run_right_values :
    run_right run_volume 0 5 5 7 = 2 ∧ run_right run_volume 0 5 5 8 = 0 := by
  have h4 : walks_at run_volume 0 5 5 4 = false := by
    apply not_walks_of_here (by decide)
    rw [run_visible 5 4 (by decide) (by decide)]
    decide
  have h7 : walks_at run_volume 0 5 5 7 = false := by
    cases hw : walks_at run_volume 0 5 5 7 with
    | false => rfl
    | true =>
      have hc := ((walks_at_iff run_volume 0 5 5 7 (by decide)).1 hw).2.2.2.2.2
      have hp := ((cmp_right_iff run_volume 0 5 5 7).1 hc).2
      rw [run_pattern_plain 7 (by decide)] at hp
      exact absurd hp.symm run_pattern_end
  have e5 := run_right_succ run_volume 0 5 5 4 (by decide)
  have e6 := run_right_succ run_volume 0 5 5 5 (by decide)
  have e7 := run_right_succ run_volume 0 5 5 6 (by decide)
  have e8 := run_right_succ run_volume 0 5 5 7 (by decide)
  rw [h4] at e5
  rw [run_walks 5 (by decide)] at e6
  rw [run_walks 6 (by decide)] at e7
  rw [h7] at e8
  simp only [if_true, Bool.false_eq_true, if_false, Nat.reduceAdd] at e5 e6 e7 e8
  rw [e5] at e6
  rw [e6] at e7
  exact ⟨e7, e8⟩

theorem run_emits_7 : emits_at run_volume 0 5 5 7 = true := by
  rw [emits_at_iff]
  refine ⟨?_, run_not_merges 7 (by decide), ?_⟩
  · rw [run_visible 5 7 (by decide) (by decide)]
    decide
  · cases hw : walks_at run_volume 0 5 5 7 with
    | false => rfl
    | true =>
      have hc := ((walks_at_iff run_volume 0 5 5 7 (by decide)).1 hw).2.2.2.2.2
      have hp := ((cmp_right_iff run_volume 0 5 5 7).1 hc).2
      rw [run_pattern_plain 7 (by decide)] at hp
      exact absurd hp.symm run_pattern_end

theorem run_emits_8 : emits_at run_volume 0 5 5 8 = true := by
  rw [emits_at_iff]
  refine ⟨?_, run_not_merges 8 (by decide), ?_⟩
  · rw [run_visible 5 8 (by decide) (by decide)]
    decide
  · apply not_walks_of_next (by decide)
    rw [run_visible 5 (8 + 1) (by decide) (by decide)]
    decide

/-- The two rectangles that `mesh` emits on the top plane of the row of `run_volume`:
the faces of `x = 5 .. 7` merged, and the face of `x = 8` alone. -/
theorem run_quads :
    (∃ q ∈ all_quads run_volume, q.face = 0 ∧ q.mesh_up = 6 ∧ q.mesh_left = 5 ∧
      q.mesh_right = 8 ∧ q.mesh_front = 5 ∧ q.mesh_back = 6) ∧
    (∃ q ∈ all_quads run_volume, q.face = 0 ∧ q.mesh_up = 6 ∧ q.mesh_left = 8 ∧
      q.mesh_right = 9 ∧ q.mesh_front = 5 ∧ q.mesh_back = 6) := by
  obtain ⟨r7, r8⟩ := run_right_values
  constructor
  · obtain ⟨a1, a2, a3, a4, a5, a6⟩ := quad_at_fields run_volume 0 5 5 7 (by decide)
      (by decide) (by decide) (by decide) (by decide)
    rw [run_fwd_zero 7 (by decide)] at a3
    rw [r7] at a5
    exact ⟨_, quad_at_mem run_volume 0 5 5 7 (by decide) (by decide) (by decide) (by decide)
      (by decide) (by decide) (by decide) run_emits_7, a1, a2, a5, a6, a3, a4⟩
  · obtain ⟨a1, a2, a3, a4, a5, a6⟩ := quad_at_fields run_volume 0 5 5 8 (by decide)
      (by decide) (by decide) (by decide) (by decide)
    rw [run_fwd_zero 8 (by decide)] at a3
    rw [r8] at a5
    exact ⟨_, quad_at_mem run_volume 0 5 5 8 (by decide) (by decide) (by decide) (by decide)
      (by decide) (by decide) (by decide) run_emits_8, a1, a2, a5, a6, a3, a4⟩

/-- Claim C3: for every emitted rectangle and every unit face it covers, the four
corner AO levels of that unit face, computed by `vertexAO` from its own 8 neighbours
one layer along the face normal, are the AO levels of the rectangle, and they are the
levels encoded at the corresponding corners: every emitted vertex word of the
rectangle decodes to one of the four corner positions (left-front, left-back,
right-back, right-front, as `(forward, right)` in the plane and `mesh_up` along the
normal) together with the AO level of the unit face at that very corner, and each of
the four corners is decoded from some emitted word.  Any two unit faces covered by one
rectangle have the same 8-direction solidity pattern, so faces whose patterns differ
are never merged; a rectangle that covers a unit face whose right or forward
neighbour has another pattern ends exactly at the boundary between the two, and the
rectangle that covers the neighbour starts there.  Two emitted rectangles that lie
side by side, so that their union is a rectangle, never consist of faces of one
material and one pattern only. -/
theorem C3_quads_ao_uniform (voxels : List Nat) (hlen : voxels.length = CS_P3)
    (hbytes : ∀ v ∈ voxels, v < 256) :
    ∃ s, mesh_run voxels = some s ∧ s.vertices = s.quads.flatMap quad_vertices ∧
      (∀ q ∈ s.quads,
        (∀ p fw r, covers_face q.face p fw r q = true →
          face_ao voxels q.face p fw r = (q.ao_LB, q.ao_LF, q.ao_RB, q.ao_RF) ∧
          decoded_corner_aos q =
            (if q.face % 2 = 0 then
              ((face_ao voxels q.face p fw r).2.1, (face_ao voxels q.face p fw r).1,
                (face_ao voxels q.face p fw r).2.2.1, (face_ao voxels q.face p fw r).2.2.2)
            else
              ((face_ao voxels q.face p fw r).1, (face_ao voxels q.face p fw r).2.1,
                (face_ao voxels q.face p fw r).2.2.2, (face_ao voxels q.face p fw r).2.2.1)) ∧
          (∀ w ∈ quad_vertices q,
            decoded_corner q.face w ∈ corner_levels q (face_ao voxels q.face p fw r)) ∧
          (∀ c ∈ corner_levels q (face_ao voxels q.face p fw r),
            ∃ w ∈ quad_vertices q, decoded_corner q.face w = c)) ∧
        (∀ p fw r fw' r', covers_face q.face p fw r q = true →
          covers_face q.face p fw' r' q = true →
          ao_pattern voxels q.face p fw r = ao_pattern voxels q.face p fw' r') ∧
        (∀ p fw r : Nat,
          (ao_pattern voxels q.face p fw r ≠ ao_pattern voxels q.face p fw (r + 1 : Nat) →
            (covers_face q.face p fw r q = true → q.mesh_right = r + 1) ∧
            (covers_face q.face p fw (r + 1) q = true → q.mesh_left = r + 1)) ∧
          (ao_pattern voxels q.face p fw r ≠ ao_pattern voxels q.face p (fw + 1 : Nat) r →
            (covers_face q.face p fw r q = true → q.mesh_back = fw + 1) ∧
            (covers_face q.face p (fw + 1) r q = true → q.mesh_front = fw + 1)))) ∧
      (∀ q1 ∈ s.quads, ∀ q2 ∈ s.quads, q1.joins q2 → ¬ uniform_pair voxels q1 q2) := by
  obtain ⟨s, hs, hq, hv, _⟩ := mesh_result voxels hlen
  refine ⟨s, hs, hv, ?_, ?_⟩
  · intro q hmem
    rw [hq] at hmem
    refine ⟨fun p fw r hc => ?_, fun p fw r fw' r' hc hc' => covered_pattern hmem hc hc',
      fun p fw r => covered_split hmem p fw r⟩
    obtain ⟨h1, h2⟩ := covered_ao hbytes hmem hc
    obtain ⟨h3, h4⟩ := quad_corner_levels (emitted_quad_fits hbytes hmem)
    rw [h1]
    rw [h1] at h2
    exact ⟨rfl, h2, h3, h4⟩
  · intro q1 h1 q2 h2 hj
    rw [hq] at h1 h2
    exact emitted_pair_not_uniform h1 h2 hj

/-- In `run_volume`, a row of four faces of which only the last has a darkened corner,
`mesh` emits the first three faces as one rectangle with AO level 3 at every corner and
the last face as a rectangle of its own, with level 2 at its right-front corner: the
run is split exactly at the discontinuity. -/
theorem C3_witness :
    run_volume.length = CS_P3 ∧ (∀ v ∈ run_volume, v < 256) ∧
      ∃ s, mesh_run run_volume = some s ∧
        (∃ q ∈ s.quads, q.face = 0 ∧ q.mesh_up = 6 ∧ q.mesh_left = 5 ∧ q.mesh_right = 8 ∧
          q.mesh_front = 5 ∧ q.mesh_back = 6 ∧
          ∀ w ∈ quad_vertices q, decoded_corner 0 w ∈
            [((5, 5), 6, 3), ((6, 5), 6, 3), ((6, 8), 6, 3), ((5, 8), 6, 3)]) ∧
        (∃ q ∈ s.quads, q.face = 0 ∧ q.mesh_up = 6 ∧ q.mesh_left = 8 ∧ q.mesh_right = 9 ∧
          q.mesh_front = 5 ∧ q.mesh_back = 6 ∧
          ∀ w ∈ quad_vertices q, decoded_corner 0 w ∈
            [((5, 8), 6, 3), ((6, 8), 6, 3), ((6, 9), 6, 3), ((5, 9), 6, 2)]) := by
  obtain ⟨s, hs, _, h, _⟩ := C3_quads_ao_uniform run_volume run_volume_length run_volume_bytes
  obtain ⟨s', hs', hq', _⟩ := mesh_result run_volume run_volume_length
  have es : s' = s := Option.some.inj (hs'.symm.trans hs)
  subst es
  obtain ⟨⟨qa, ha, a1, a2, a3, a4, a5, a6⟩, ⟨qb, hb, b1, b2, b3, b4, b5, b6⟩⟩ := run_quads
  rw [← hq'] at ha hb
  refine ⟨run_volume_length, run_volume_bytes, s', hs,
    ⟨qa, ha, a1, a2, a3, a4, a5, a6, ?_⟩, ⟨qb, hb, b1, b2, b3, b4, b5, b6, ?_⟩⟩
  · have hc : covers_face qa.face 5 5 7 qa = true := by
      unfold covers_face
      rw [a1, a2, a3, a4, a5, a6]
      decide
    have := ((h qa ha).1 5 5 7 hc).2.2.1
    unfold corner_levels at this
    rw [a1, run_face_ao_plain, a2, a3, a4, a5, a6] at this
    exact this
  · have hc : covers_face qb.face 5 5 8 qb = true := by
      unfold covers_face
      rw [b1, b2, b3, b4, b5, b6]
      decide
    have := ((h qb hb).1 5 5 8 hc).2.2.1
    unfold corner_levels at this
    rw [b1, run_face_ao_end, b2, b3, b4, b5, b6] at this
    exact this

end Mesher
